import Mathlib

set_option maxRecDepth 8192

/-!
# Verification of the fslab on-disk storage engine

Shallow embedding of the filesystem core found in the repository
(the C++ translation unit embedded in `src/Makefile`, surface layer in
`src/fs.cpp`).  The block device driver (`disk.h` / `disk.c`) is not part
of the repository sources; the constants and device behaviour it provides
are modelled from the specification where needed (marked in doc comments).

Modelling conventions:
* machine integers become `Nat`, with an explicit `% 2 ^ w` where the code
  can overflow or underflow (`size_t` arithmetic in `DataProxy::read`,
  `uint32_t filesize` in the inode);
* the disk is modelled at the granularity the code accesses it: the
  superblock, the two bitmaps, the inode table and the block area are
  separate fields of the state (the code derives disjoint block-number
  regions for them from the superblock geometry);
* every committed block write also appends an event to a write trace,
  used to reason about the order in which writes are issued;
* `assert` in the code aborts the process; executions that would trip an
  assertion are outside the theorems' hypotheses, and the corresponding
  definitions simply proceed (or return the error value) on those branches.
-/

namespace Fslab

/-- `BLOCK_SIZE` from `disk.h`. Modelled from the spec: `disk.h` is not in
`src/`; §8 of the spec fixes `BLOCK_SIZE = 4096`. -/
def BLOCK_SIZE : Nat := 4096

/-- `BLOCK_NUM` from `disk.h`. Modelled from the spec: `disk.h` is not in
`src/`; the spec only says the device is a fixed-geometry array of
`BLOCK_NUM` blocks, so we fix a representative geometry of 65536 blocks. -/
def BLOCK_NUM : Nat := 65536

/-- `PointerBlock::POINTER_PER_BLOCK = BLOCK_SIZE / sizeof(uint32_t)`. -/
def POINTER_PER_BLOCK : Nat := BLOCK_SIZE / 4

/-- `INodeBlock::INODE_IN_BLOCK = BLOCK_SIZE / sizeof(INode)`;
`sizeof(INode) = 32` (one 4-byte enum and seven `uint32_t` fields). -/
def INODE_IN_BLOCK : Nat := BLOCK_SIZE / 32

/-- Bits per bitmap block, `BitMap::siz = BLOCK_SIZE * 8`. -/
def BITMAP_SIZ : Nat := BLOCK_SIZE * 8

/-- `ENOSPC` from `errno.h` (value 28 on Linux). -/
def ENOSPC : Nat := 28

/-- `ENOENT` from `errno.h` (value 2 on Linux). -/
def ENOENT : Nat := 2

/-- `EACCES` from `errno.h` (value 13 on Linux). -/
def EACCES : Nat := 13

/-- `INodeBlock::INode`.  `typ` is the `INodeType` enum
(0 = `FILE`, 1 = `DIRECTORY`); all other fields are `uint32_t`. -/
structure INode where
  typ : Nat
  filesize : Nat
  atime : Nat
  mtime : Nat
  ctime : Nat
  direct_pointer : Nat
  indirect_pointer : Nat
  iindirect_pointer : Nat
  deriving Repr, DecidableEq

/-- `HeaderBlock` (the superblock record, block 0). -/
structure HeaderBlock where
  MAGIC_NUMBER : Nat
  inode_num_tot : Nat
  inode_num_free : Nat
  inode_bitmap_offset : Nat
  inode_block_offset : Nat
  data_block_num_tot : Nat
  data_block_num_free : Nat
  data_block_bitmap_offset : Nat
  data_block_offset : Nat
  deriving Repr, DecidableEq

/-- `HeaderBlock::MAGIC_NUMBER_VAL = 0x19260817`. -/
def MAGIC_NUMBER_VAL : Nat := 0x19260817

/-- The `HeaderBlock` constructor: geometry computed from `BLOCK_NUM` and
`BLOCK_SIZE` exactly as in the C++ constructor. -/
def HeaderBlock.init : HeaderBlock :=
  let avail_block_num := BLOCK_NUM - 1
  let inode_blocks := avail_block_num / INODE_IN_BLOCK
  let inode_num_tot := inode_blocks * INODE_IN_BLOCK
  let inode_bitmap_blocks := (inode_num_tot + (BLOCK_SIZE * 8) - 1) / (BLOCK_SIZE * 8)
  let inode_bitmap_offset := 1
  let data_block_bitmap_offset := inode_bitmap_offset + inode_bitmap_blocks
  let avail_block_num2 := avail_block_num - (inode_blocks + inode_bitmap_blocks)
  let data_block_bitmap_blocks := (avail_block_num2 + (BLOCK_SIZE * 8) - 1) / (BLOCK_SIZE * 8)
  let data_block_num_tot := avail_block_num2 - data_block_bitmap_blocks
  let inode_block_offset := data_block_bitmap_offset + data_block_bitmap_blocks
  let data_block_offset := inode_block_offset + inode_blocks
  { MAGIC_NUMBER := MAGIC_NUMBER_VAL
    inode_num_tot := inode_num_tot
    inode_num_free := inode_num_tot
    inode_bitmap_offset := inode_bitmap_offset
    inode_block_offset := inode_block_offset
    data_block_num_tot := data_block_num_tot
    data_block_num_free := data_block_num_tot
    data_block_bitmap_offset := data_block_bitmap_offset
    data_block_offset := data_block_offset }

/-- One issued block write (`disk_write` through a proxy commit).
`wInodeBmSet`/`wInodeBmClear`/`wDataBmSet`/`wDataBmClear` are the bitmap
block commits of `BitMap::set`/`BitMap::clear` (a read-modify-write of one
bitmap block that flips a single bit relative to the current disk content);
`wBmZeroBlock` is the `mkfs` loop that zeroes one bitmap block;
`wInode` is an `INodeProxy::apply` (a read-modify-write of the containing
inode block that replaces one record); `wHeader` writes block 0;
`wBlock` writes a pointer or data block with the given contents. -/
inductive Ev where
  | wHeader (h : HeaderBlock)
  | wInodeBmSet (pos : Nat)
  | wInodeBmClear (pos : Nat)
  | wDataBmSet (pos : Nat)
  | wDataBmClear (pos : Nat)
  | wBmZeroBlock (blockno : Nat)
  | wInode (no : Nat) (v : INode)
  | wBlock (blockno : Nat) (content : Nat → Nat)

/-- The filesystem state: the typed contents of the disk regions, the two
in-memory allocation hints (`Disk::inode_bitmap_min_pos`,
`Disk::data_bitmap_min_pos`), the current time (`time(NULL)`), and the
trace of issued block writes.

`inodeBm`/`dataBm` give the bit at each position of the respective bitmap
region (position relative to the region start); `inodes` gives the inode
record at each inode number; `blocks` gives, for each absolute block
number in the data region, its content as a map from index to value
(byte index for data blocks, `uint32` slot index for pointer blocks; the
code never uses one block as both at the same time). -/
structure FS where
  header : HeaderBlock
  inodeBm : Nat → Bool
  dataBm : Nat → Bool
  inodes : Nat → INode
  blocks : Nat → Nat → Nat
  inode_bitmap_min_pos : Nat
  data_bitmap_min_pos : Nat
  clock : Nat
  trace : List Ev

/-! ## Bitmap first-zero search

`BitMap::get_first_zero` starts at the bitmap block containing `minpos`
and, inside each block, `BitmapBlock::get_first_zero(pos)` scans 64-bit
words starting at word `pos / 64`; in each scanned word it returns the
lowest clear bit of the whole word (`__builtin_ffsll(~now) - 1`), without
masking bits below `pos % 64`.  Later blocks are scanned from word 0.
Flattened over the region this is: scan words `w = minpos / 64, …`,
returning `64 * w + (lowest clear bit of word w)` for the first word that
is not all-ones. -/

/-- Bounded linear search: the first `i ∈ [start, start + fuel)` with
`g i = false`. -/
def findFirstNot (g : Nat → Bool) : Nat → Nat → Option Nat
  | 0, _ => none
  | fuel + 1, i => if g i then findFirstNot g fuel (i + 1) else some i

/-- Lowest clear bit inside word `w` (`__builtin_ffsll(~now) - 1` on the
64-bit word holding bits `[64w, 64w + 64)`), as an offset in `[0, 64)`;
`none` when the word is all ones (the `~now == 0` case). -/
def lowestClearInWord (bm : Nat → Bool) (w : Nat) : Option Nat :=
  findFirstNot (fun j => bm (64 * w + j)) 64 0

/-- Word scan, structurally recursive on the number of remaining words
(so that the kernel can evaluate it): skip all-ones words, return the
lowest clear bit of the first word that has one. -/
def getFirstZeroAux (bm : Nat → Bool) : Nat → Nat → Option Nat
  | 0, _ => none
  | fuel + 1, fromWord =>
    match lowestClearInWord bm fromWord with
    | some j => some (64 * fromWord + j)
    | none => getFirstZeroAux bm fuel (fromWord + 1)

/-- Scan words `[fromWord, words)` for the first word with a clear bit;
return the absolute bit position of its lowest clear bit. -/
def getFirstZeroWords (bm : Nat → Bool) (words fromWord : Nat) : Option Nat :=
  getFirstZeroAux bm (words - fromWord) fromWord

/-- `BitMap::get_first_zero` over a region of `sizeBlocks` bitmap blocks
with hint `minpos`. -/
def bitmapFirstZero (bm : Nat → Bool) (sizeBlocks minpos : Nat) : Option Nat :=
  getFirstZeroWords bm (sizeBlocks * (BITMAP_SIZ / 64)) (minpos / 64)

/-! ## Allocator (`Disk::alloc_inode` … `Disk::free_data`) -/

/-- Append one issued write to the trace. -/
def FS.emit (s : FS) (e : Ev) : FS := { s with trace := s.trace ++ [e] }

/-- Commit of the header proxy (`header.commit()`). -/
def commitHeader (s : FS) (h : HeaderBlock) : FS :=
  { s with header := h, trace := s.trace ++ [Ev.wHeader h] }

/-- Commit of an inode proxy (`INodeProxy::apply`): rewrite the record. -/
def commitInode (s : FS) (no : Nat) (v : INode) : FS :=
  { s with inodes := fun i => if i = no then v else s.inodes i
           trace := s.trace ++ [Ev.wInode no v] }

/-- Commit of a pointer/data block proxy (`BlockProxy::apply`). -/
def commitBlock (s : FS) (blockno : Nat) (f : Nat → Nat) : FS :=
  { s with blocks := fun b => if b = blockno then f else s.blocks b
           trace := s.trace ++ [Ev.wBlock blockno f] }

/-- `BitMap::set` on the inode bitmap (one bitmap-block commit). -/
def inodeBmSet (s : FS) (pos : Nat) : FS :=
  { s with inodeBm := fun p => if p = pos then true else s.inodeBm p
           trace := s.trace ++ [Ev.wInodeBmSet pos] }

/-- `BitMap::clear` on the inode bitmap. -/
def inodeBmClear (s : FS) (pos : Nat) : FS :=
  { s with inodeBm := fun p => if p = pos then false else s.inodeBm p
           trace := s.trace ++ [Ev.wInodeBmClear pos] }

/-- `BitMap::set` on the data bitmap. -/
def dataBmSet (s : FS) (pos : Nat) : FS :=
  { s with dataBm := fun p => if p = pos then true else s.dataBm p
           trace := s.trace ++ [Ev.wDataBmSet pos] }

/-- `BitMap::clear` on the data bitmap. -/
def dataBmClear (s : FS) (pos : Nat) : FS :=
  { s with dataBm := fun p => if p = pos then false else s.dataBm p
           trace := s.trace ++ [Ev.wDataBmClear pos] }

/-- `Disk::alloc_inode`.  Returns the allocated inode number, or `none`
when `inode_num_free == 0` (the `-1` error).  The `assert(ret != -1)`
branch (first-zero search failing although the free count is positive)
aborts the process in the code; here it is modelled as the error return. -/
def alloc_inode (s : FS) : FS × Option Nat :=
  if s.header.inode_num_free = 0 then (s, none)
  else
    match bitmapFirstZero s.inodeBm
        (s.header.data_block_bitmap_offset - s.header.inode_bitmap_offset)
        s.inode_bitmap_min_pos with
    | none => (s, none)
    | some ret =>
      let s1 := inodeBmSet s ret
      let s2 := commitHeader s1
        { s1.header with inode_num_free := s1.header.inode_num_free - 1 }
      ({ s2 with inode_bitmap_min_pos := max s2.inode_bitmap_min_pos ret }, some ret)

/-- `Disk::free_inode`.  The `assert(bitmap.get(inodeno))` is a process
abort in the code; executions reaching it are excluded by the theorems'
hypotheses. -/
def free_inode (s : FS) (inodeno : Nat) : FS :=
  let s1 := inodeBmClear s inodeno
  let s2 := commitHeader s1
    { s1.header with inode_num_free := s1.header.inode_num_free + 1 }
  { s2 with inode_bitmap_min_pos := min s2.inode_bitmap_min_pos inodeno }

/-- `Disk::alloc_data`.  Returns the *absolute* block number
(`ret += header->data_block_offset`), or `none` on no-space.  Note the
code raises the hint before setting the bit; both orders give the same
state here. -/
def alloc_data (s : FS) : FS × Option Nat :=
  if s.header.data_block_num_free = 0 then (s, none)
  else
    match bitmapFirstZero s.dataBm
        (s.header.inode_block_offset - s.header.data_block_bitmap_offset)
        s.data_bitmap_min_pos with
    | none => (s, none)
    | some ret =>
      let s0 := { s with data_bitmap_min_pos := max s.data_bitmap_min_pos ret }
      let s1 := dataBmSet s0 ret
      let s2 := commitHeader s1
        { s1.header with data_block_num_free := s1.header.data_block_num_free - 1 }
      (s2, some (ret + s2.header.data_block_offset))

/-- `Disk::free_data` (argument is the absolute block number; the code
subtracts `data_block_offset` and asserts the bit is currently set). -/
def free_data (s : FS) (datano : Nat) : FS :=
  let pos := datano - s.header.data_block_offset
  let s1 := dataBmClear s pos
  let s2 := commitHeader s1
    { s1.header with data_block_num_free := s1.header.data_block_num_free + 1 }
  { s2 with data_bitmap_min_pos := min s2.data_bitmap_min_pos pos }

/-! ## Extent engine (`DataProxy`) -/

/-- `memset(&*block, 0, BLOCK_SIZE)` on a pointer block. -/
def zeroBlock : Nat → Nat := fun _ => 0

/-- Update one `uint32` slot of an in-memory pointer block. -/
def updSlot (f : Nat → Nat) (j v : Nat) : Nat → Nat :=
  fun i => if i = j then v else f i

/-- First index `i ∈ [i0, i0 + fuel)` with `f i = 0`; `i0 + fuel` if
none (the `for` loops over pointer slots that `goto` out at the first
zero), structurally recursive on the remaining slot count. -/
def firstZeroSlot (f : Nat → Nat) : Nat → Nat → Nat
  | 0, i0 => i0
  | fuel + 1, i0 => if f i0 = 0 then i0 else firstZeroSlot f fuel (i0 + 1)

/-- Number of leading nonzero slots of a pointer block. -/
def countPrefixNonzero (f : Nat → Nat) (bound : Nat) : Nat :=
  firstZeroSlot f bound 0

/-- `DataProxy::get_block_size`: walk the tiers, stopping at the first
zero slot; in the double-indirect tier, a zero at outer slot `c > 0`
backs up one inner block and adds its leading nonzero count. -/
def get_block_size (s : FS) (inodeno : Nat) : Nat :=
  let ino := s.inodes inodeno
  if ino.direct_pointer = 0 then 0
  else if ino.indirect_pointer = 0 then 1
  else
    let c1 := countPrefixNonzero (s.blocks ino.indirect_pointer) POINTER_PER_BLOCK
    if c1 < POINTER_PER_BLOCK then 1 + c1
    else if ino.iindirect_pointer = 0 then 1 + POINTER_PER_BLOCK
    else
      let outer := s.blocks ino.iindirect_pointer
      let c2 := countPrefixNonzero outer POINTER_PER_BLOCK
      if c2 = POINTER_PER_BLOCK then
        1 + POINTER_PER_BLOCK + POINTER_PER_BLOCK * POINTER_PER_BLOCK
      else if c2 = 0 then 1 + POINTER_PER_BLOCK
      else 1 + POINTER_PER_BLOCK + (c2 - 1) * POINTER_PER_BLOCK +
        countPrefixNonzero (s.blocks (outer (c2 - 1))) POINTER_PER_BLOCK

/-- The logical-to-physical map of `DataProxy::get_data_block`, on an
explicit (possibly in-memory) inode record. -/
def l2p (s : FS) (ino : INode) (datano : Nat) : Nat :=
  if datano = 0 then ino.direct_pointer
  else if datano < 1 + POINTER_PER_BLOCK then
    s.blocks ino.indirect_pointer (datano - 1)
  else
    let offset0 := datano - (1 + POINTER_PER_BLOCK)
    s.blocks (s.blocks ino.iindirect_pointer (offset0 / POINTER_PER_BLOCK))
      (offset0 % POINTER_PER_BLOCK)

/-- `DataProxy::get_data_block` (the logical-to-physical map `L2P`),
reading the committed inode.  The zero-pointer assertions of the code
abort the process; the model just returns the (zero) pointer on those
branches. -/
def get_data_block (s : FS) (inodeno datano : Nat) : Nat :=
  l2p s (s.inodes inodeno) datano

/-- Tail of the double-indirect grow step of `DataProxy::resize`, i.e.
the code after the `if (id_offset == 0)` prelude: load the outer and
inner pointer blocks, allocate the data block, and on failure undo the
pointer blocks created earlier in this step (flags `extend_ind`,
`extend_iind`).  Note that on failure the code commits the outer block
even when it was not modified. -/
def growStepTier2Tail (s : FS) (ino : INode) (id_ind id_offset : Nat)
    (extend_ind extend_iind : Bool) : FS × INode × Bool :=
  let outer := s.blocks ino.iindirect_pointer
  let innerNo := outer id_ind
  let inner := s.blocks innerNo
  match alloc_data s with
  | (s1, none) =>
    let s2 := if extend_ind then
        commitBlock (free_data s1 (outer id_ind)) ino.iindirect_pointer
          (updSlot outer id_ind 0)
      else commitBlock s1 ino.iindirect_pointer outer
    if extend_iind then
      (free_data s2 ino.iindirect_pointer, { ino with iindirect_pointer := 0 }, false)
    else (s2, ino, false)
  | (s1, some d) =>
    (commitBlock s1 innerNo (updSlot inner id_offset d), ino, true)

/-- Middle of the double-indirect grow step (`id_offset == 0` prelude
after the outer block exists): allocate and zero a fresh inner pointer
block, store it in outer slot `id_ind`, then run the tail. -/
def growStepTier2Mid (s : FS) (ino : INode) (id_ind id_offset : Nat)
    (extend_iind : Bool) : FS × INode × Bool :=
  let outer := s.blocks ino.iindirect_pointer
  match alloc_data s with
  | (s1, none) =>
    if extend_iind then
      (free_data s1 ino.iindirect_pointer, { ino with iindirect_pointer := 0 }, false)
    else (s1, ino, false)
  | (s1, some d) =>
    let s2 := commitBlock s1 d zeroBlock
    let s3 := commitBlock s2 ino.iindirect_pointer (updSlot outer id_ind d)
    growStepTier2Tail s3 ino id_ind id_offset true extend_iind

/-- One grow iteration of `DataProxy::resize` (the `block_now < block_need`
branch for the current `block_now`).  Returns the updated state, the
updated in-memory inode record, and whether the step succeeded; on
failure the step's own partial allocations have already been undone
(the code then jumps to `ROLLBACK`). -/
def growStep (s : FS) (ino : INode) (block_now : Nat) : FS × INode × Bool :=
  if block_now < 1 then
    match alloc_data s with
    | (s1, none) => (s1, ino, false)
    | (s1, some d) => (s1, { ino with direct_pointer := d }, true)
  else if block_now < 1 + POINTER_PER_BLOCK then
    let offset := block_now - 1
    if offset = 0 then
      match alloc_data s with
      | (s1, none) => (s1, ino, false)
      | (s1, some d) =>
        let s2 := commitBlock s1 d zeroBlock
        let ino1 := { ino with indirect_pointer := d }
        match alloc_data s2 with
        | (s3, none) =>
          (free_data s3 ino1.indirect_pointer, { ino1 with indirect_pointer := 0 }, false)
        | (s3, some d2) =>
          (commitBlock s3 ino1.indirect_pointer
            (updSlot (s3.blocks ino1.indirect_pointer) offset d2), ino1, true)
    else
      match alloc_data s with
      | (s1, none) => (s1, ino, false)
      | (s1, some d2) =>
        (commitBlock s1 ino.indirect_pointer
          (updSlot (s1.blocks ino.indirect_pointer) offset d2), ino, true)
  else
    let offset0 := block_now - (1 + POINTER_PER_BLOCK)
    let id_ind := offset0 / POINTER_PER_BLOCK
    let id_offset := offset0 % POINTER_PER_BLOCK
    if id_offset = 0 then
      if id_ind = 0 then
        match alloc_data s with
        | (s1, none) => (s1, ino, false)
        | (s1, some d) =>
          let s2 := commitBlock s1 d zeroBlock
          growStepTier2Mid s2 { ino with iindirect_pointer := d } id_ind id_offset true
      else growStepTier2Mid s ino id_ind id_offset false
    else growStepTier2Tail s ino id_ind id_offset false false

/-- One shrink iteration of `DataProxy::resize` (the
`block_now > block_need` branch): free the block at logical index
`block_now - 1`, then any pointer blocks it empties. -/
def shrinkStep (s : FS) (ino : INode) (block_now : Nat) : FS × INode :=
  let block_to_shrink := block_now - 1
  if block_to_shrink < 1 then
    (free_data s ino.direct_pointer, { ino with direct_pointer := 0 })
  else if block_to_shrink < 1 + POINTER_PER_BLOCK then
    let offset := block_to_shrink - 1
    let ind := s.blocks ino.indirect_pointer
    let s1 := free_data s (ind offset)
    let s2 := commitBlock s1 ino.indirect_pointer (updSlot ind offset 0)
    if offset = 0 then
      (free_data s2 ino.indirect_pointer, { ino with indirect_pointer := 0 })
    else (s2, ino)
  else
    let offset0 := block_to_shrink - (1 + POINTER_PER_BLOCK)
    let id_ind := offset0 / POINTER_PER_BLOCK
    let id_offset := offset0 % POINTER_PER_BLOCK
    let outer := s.blocks ino.iindirect_pointer
    let innerNo := outer id_ind
    let inner := s.blocks innerNo
    let s1 := free_data s (inner id_offset)
    let s2 := commitBlock s1 innerNo (updSlot inner id_offset 0)
    if id_offset = 0 then
      let s3 := free_data s2 innerNo
      let s4 := commitBlock s3 ino.iindirect_pointer (updSlot outer id_ind 0)
      if id_ind = 0 then
        (free_data s4 ino.iindirect_pointer, { ino with iindirect_pointer := 0 })
      else (s4, ino)
    else (s2, ino)

/-- The grow phase of `resize`'s `while` loop, structurally recursive on
the number `need - now` of missing blocks: repeat `growStep` until
`block_now = block_need` or a step fails. -/
def growLoopAux : Nat → FS → INode → Nat → FS × INode × Nat × Bool
  | 0, s, ino, now => (s, ino, now, true)
  | fuel + 1, s, ino, now =>
    match growStep s ino now with
    | (s1, ino1, true) => growLoopAux fuel s1 ino1 (now + 1)
    | (s1, ino1, false) => (s1, ino1, now, false)

/-- The grow phase of `resize`'s `while` loop. -/
def growLoop (s : FS) (ino : INode) (now need : Nat) : FS × INode × Nat × Bool :=
  growLoopAux (need - now) s ino now

/-- The shrink phase of `resize`'s `while` loop, structurally recursive
on the number `now - need` of excess blocks. -/
def shrinkLoopAux : Nat → FS → INode → Nat → FS × INode × Nat
  | 0, s, ino, now => (s, ino, now)
  | fuel + 1, s, ino, now =>
    match shrinkStep s ino now with
    | (s1, ino1) => shrinkLoopAux fuel s1 ino1 (now - 1)

/-- The shrink phase of `resize`'s `while` loop. -/
def shrinkLoop (s : FS) (ino : INode) (now need : Nat) : FS × INode × Nat :=
  shrinkLoopAux (now - need) s ino now

/-- `block_need = std::max<int>(0, (size + BLOCK_SIZE - 1) / BLOCK_SIZE)`.
The division is computed in `size_t` and then converted to `int`
(gcc, the repository's compiler, wraps the conversion modulo `2 ^ 32`);
a negative result is clamped to 0 by the `max`.  For every
`size < 2 ^ 32` this is just `⌈size / BLOCK_SIZE⌉`. -/
def ceilBlocks (size : Nat) : Nat :=
  let w := ((size + BLOCK_SIZE - 1) / BLOCK_SIZE) % 2 ^ 32
  if w < 2 ^ 31 then w else 0

/-- `DataProxy::resize`, fuel-indexed to account for the recursive
`resize(size_orig)` call at `ROLLBACK`.  For any state satisfying the
resize invariant the rollback call is a pure shrink and never recurses
further, so recursion depth 2 suffices (see `resize`); the fuel-0 branch
is unreachable from `resize` on such states (in the C++ an unbounded
recursion there would simply not terminate).  On success the inode is
committed with `filesize = size` (a `uint32_t` store, hence `% 2 ^ 32`)
and updated `ctime`; the return value is `0` on success and `ENOSPC`
after a rollback. -/
def resizeAux : Nat → FS → Nat → Nat → FS × Nat
  | 0, s, _, _ => (s, ENOSPC)
  | fuel + 1, s, inodeno, size =>
    let block_need := ceilBlocks size
    let block_now := get_block_size s inodeno
    let ino0 := s.inodes inodeno
    let ino := { ino0 with ctime := s.clock }
    let size_orig := ino0.filesize
    if block_now < block_need then
      match growLoop s ino block_now block_need with
      | (s1, ino1, _, true) =>
        (commitInode s1 inodeno { ino1 with filesize := size % 2 ^ 32 }, 0)
      | (s1, ino1, _, false) =>
        let s2 := commitInode s1 inodeno ino1
        ((resizeAux fuel s2 inodeno size_orig).1, ENOSPC)
    else
      match shrinkLoop s ino block_now block_need with
      | (s1, ino1, _) =>
        (commitInode s1 inodeno { ino1 with filesize := size % 2 ^ 32 }, 0)

/-- `DataProxy::resize`. -/
def resize (s : FS) (inodeno size : Nat) : FS × Nat :=
  resizeAux 2 s inodeno size

/-- `memcpy(dst + dpos, src + spos, n)` on flat byte maps. -/
def memcpyFrom (dst : Nat → Nat) (dpos : Nat) (src : Nat → Nat) (spos n : Nat) :
    Nat → Nat :=
  fun i => if dpos ≤ i ∧ i < dpos + n then src (spos + (i - dpos)) else dst i

/-- The `(offset % BLOCK_SIZE, min(size, BLOCK_SIZE))` pairs of the
successive iterations of the `DataProxy::read` / `DataProxy::write`
loops: in-block offset and number of bytes copied by each `memcpy`. -/
def writeChunksAux : Nat → Nat → Nat → List (Nat × Nat)
  | 0, _, _ => []
  | fuel + 1, offset, size =>
    if size = 0 then [] else
      let n := min size BLOCK_SIZE
      (offset % BLOCK_SIZE, n) :: writeChunksAux fuel (offset + n) (size - n)

/-- Chunk list of the byte-I/O loops (the fuel `size` dominates the
iteration count, since every iteration copies at least one byte). -/
def writeChunks (offset size : Nat) : List (Nat × Nat) :=
  writeChunksAux size offset size

/-- The per-iteration copy size §4.H of the spec prescribes:
`min(remaining, BLOCK_SIZE - in_block_offset)`. -/
def specChunkLen (offset size : Nat) : Nat :=
  min size (BLOCK_SIZE - offset % BLOCK_SIZE)

/-- The `while (size)` loop of `DataProxy::read`.  State is unchanged
(data blocks are loaded read-only); the bytes are copied into the output
buffer at positions `tpos, tpos+1, …`. -/
def readLoopAux (s : FS) (inodeno : Nat) :
    Nat → Nat → Nat → (Nat → Nat) → Nat → (Nat → Nat)
  | 0, _, _, target, _ => target
  | fuel + 1, offset, size, target, tpos =>
    if size = 0 then target else
      let datano := offset / BLOCK_SIZE
      let block_no := get_data_block s inodeno datano
      let offset_in_block := offset % BLOCK_SIZE
      let bytes_to_read := min size BLOCK_SIZE
      let target1 := memcpyFrom target tpos (s.blocks block_no) offset_in_block bytes_to_read
      readLoopAux s inodeno fuel (offset + bytes_to_read) (size - bytes_to_read) target1
        (tpos + bytes_to_read)

/-- The read loop with its dominating fuel (the loop copies at least one
byte per iteration, so `size` bounds the iteration count). -/
def readLoop (s : FS) (inodeno offset size : Nat) (target : Nat → Nat)
    (tpos : Nat) : Nat → Nat :=
  readLoopAux s inodeno size offset size target tpos

/-- The clamp of `DataProxy::read`:
`size = std::min<size_t>(offset + size, inode->filesize) - offset` in
`size_t` arithmetic, i.e. mod `2 ^ 64`; when `offset > filesize` the
subtraction wraps around. -/
def readClamp (offset size filesize : Nat) : Nat :=
  (min (offset + size) filesize + 2 ^ 64 - offset) % 2 ^ 64

/-- `DataProxy::read`: update `atime`, clamp, loop.  Returns the state
(after the `atime` commit), the filled output buffer, and the return
value (the clamped size). -/
def DataProxy.read (s : FS) (inodeno offset size : Nat) (target : Nat → Nat) :
    FS × (Nat → Nat) × Nat :=
  let ino := s.inodes inodeno
  let s1 := commitInode s inodeno { ino with atime := s.clock }
  let size1 := readClamp offset size (s1.inodes inodeno).filesize
  (s1, readLoop s1 inodeno offset size1 target 0, size1)

/-- The `while (size)` loop of `DataProxy::write`.  Each iteration loads
the block, overwrites `min(size, BLOCK_SIZE)` bytes starting at
`offset % BLOCK_SIZE`, and commits.  When
`offset % BLOCK_SIZE + min(size, BLOCK_SIZE) > BLOCK_SIZE` the C++
`memcpy` runs past the end of the 4096-byte proxy buffer (undefined
behaviour); the model keeps those bytes in the same block's map.  The
corresponding defect is recorded by the theorem for claim C1. -/
def writeLoopAux (inodeno : Nat) (target : Nat → Nat) :
    Nat → FS → Nat → Nat → Nat → FS
  | 0, s, _, _, _ => s
  | fuel + 1, s, offset, size, tpos =>
    if size = 0 then s else
      let datano := offset / BLOCK_SIZE
      let block_no := get_data_block s inodeno datano
      let offset_in_block := offset % BLOCK_SIZE
      let bytes_to_write := min size BLOCK_SIZE
      let s1 := commitBlock s block_no
        (memcpyFrom (s.blocks block_no) offset_in_block target tpos bytes_to_write)
      writeLoopAux inodeno target fuel s1 (offset + bytes_to_write)
        (size - bytes_to_write) (tpos + bytes_to_write)

/-- The write loop with its dominating fuel. -/
def writeLoop (s : FS) (inodeno offset size : Nat) (target : Nat → Nat)
    (tpos : Nat) : FS :=
  writeLoopAux inodeno target size s offset size tpos

/-- `DataProxy::write`: update `mtime`, clamp to
`filesize - offset` (again `size_t` arithmetic) when
`offset + size > filesize`, loop. -/
def DataProxy.write (s : FS) (inodeno offset size : Nat) (target : Nat → Nat) :
    FS × Nat :=
  let ino := s.inodes inodeno
  let s1 := commitInode s inodeno { ino with mtime := s.clock }
  let fsz := (s1.inodes inodeno).filesize
  let size1 := if fsz < offset + size then (fsz + 2 ^ 64 - offset) % 2 ^ 64 else size
  (writeLoop s1 inodeno offset size1 target 0, size1)

/-! ## Directory layer (`DirectoryProxy`)

A directory entry (`DirectoryProxy::Item`) is 32 bytes on disk: a
`uint32_t` inode number (little endian) followed by a 28-byte
NUL-terminated name.  `strcpy` leaves the bytes after the NUL
uninitialised in the C++; the model zero-pads, which is unobservable
because every reader stops at the NUL. -/

/-- `DirectoryProxy::Item`; `filename` holds the bytes of the name up to
(not including) the terminating NUL. -/
structure Item where
  file_inode : Nat
  filename : List Nat
  deriving Repr, DecidableEq

/-- Serialise an `Item` to its 32 bytes. -/
def encodeItem (it : Item) : Nat → Nat :=
  fun o =>
    if o < 4 then it.file_inode / 256 ^ o % 256
    else if o < 32 then
      if o - 4 < it.filename.length then it.filename.getD (o - 4) 0
      else 0
    else 0

/-- NUL-terminated byte string scan, structurally recursive on the
number of remaining bytes. -/
def cstrAux (buf : Nat → Nat) : Nat → Nat → List Nat
  | 0, _ => []
  | fuel + 1, pos => if buf pos = 0 then [] else buf pos :: cstrAux buf fuel (pos + 1)

/-- Read a NUL-terminated byte string from `buf` at `[pos, bound)`. -/
def cstr (buf : Nat → Nat) (pos bound : Nat) : List Nat :=
  cstrAux buf (bound - pos) pos

/-- Deserialise an `Item` from its 32 bytes. -/
def decodeItem (buf : Nat → Nat) : Item :=
  { file_inode := buf 0 + 256 * buf 1 + 256 ^ 2 * buf 2 + 256 ^ 3 * buf 3
    filename := cstr buf 4 32 }

/-- `DirectoryProxy::length() = filesize / sizeof(Item)` (read-only). -/
def DirectoryProxy.length (s : FS) (inodeno : Nat) : Nat :=
  (s.inodes inodeno).filesize / 32

/-- `DirectoryProxy::get`: byte read of entry `index` (updates `atime`). -/
def DirectoryProxy.get (s : FS) (inodeno index : Nat) : FS × Item :=
  match DataProxy.read s inodeno (index * 32) 32 zeroBlock with
  | (s1, out, _) => (s1, decodeItem out)

/-- `DirectoryProxy::set`: byte write of entry `index` (updates `mtime`). -/
def DirectoryProxy.set (s : FS) (inodeno index : Nat) (item : Item) : FS :=
  (DataProxy.write s inodeno (index * 32) 32 (encodeItem item)).1

/-- `DirectoryProxy::push`: grow by one entry, then write it at the tail;
on resize failure return the error without writing. -/
def DirectoryProxy.push (s : FS) (inodeno : Nat) (item : Item) : FS × Nat :=
  let length := DirectoryProxy.length s inodeno
  let file_length := (length + 1) * 32
  match resize s inodeno file_length with
  | (s1, 0) => (DirectoryProxy.set s1 inodeno length item, 0)
  | (s1, err) => (s1, err)

/-- `DirectoryProxy::erase`: copy the last entry over `index`, shrink by
one entry (the result of the final resize is only `assert`ed). -/
def DirectoryProxy.erase (s : FS) (inodeno index : Nat) : FS :=
  let length := DirectoryProxy.length s inodeno
  match DirectoryProxy.get s inodeno (length - 1) with
  | (s1, last) =>
    let s2 := DirectoryProxy.set s1 inodeno index last
    (resize s2 inodeno ((length - 1) * 32)).1

/-! ## Namespace layer (`src/fs.cpp`)

Paths are byte lists; `47` is `'/'`. -/

/-- The loop of `split_path` after the leading slashes are skipped:
successive `find('/')` splits; interior empty components are kept
(`find_first_not_of` is only applied once, at the start), a trailing
empty component is dropped. -/
def splitLoopAux : Nat → List Nat → List (List Nat)
  | 0, _ => []
  | fuel + 1, p =>
    match p.dropWhile (· ≠ 47) with
    | [] => if p = [] then [] else [p]
    | _ :: rest => p.takeWhile (· ≠ 47) :: splitLoopAux fuel rest

/-- The split loop with its dominating fuel (each iteration consumes at
least one byte of the path). -/
def splitLoop (p : List Nat) : List (List Nat) :=
  splitLoopAux (p.length + 1) p

/-- `split_path`. -/
def split_path (p : List Nat) : List (List Nat) :=
  splitLoop (p.dropWhile (· = 47))

/-- `find_last_of('/')`: index of the last `'/'`, if any. -/
def findLastSlashAux : List Nat → Nat → Option Nat → Option Nat
  | [], _, acc => acc
  | c :: rest, i, acc => findLastSlashAux rest (i + 1) (if c = 47 then some i else acc)

/-- Index of the last `'/'` in a path. -/
def findLastSlash (p : List Nat) : Option Nat := findLastSlashAux p 0 none

/-- `dirname = substr(0, find_last_of('/'))` and
`filename = substr(find_last_of('/') + 1)`.  Every path the surface
receives contains a `'/'`; when none is present `find_last_of` returns
`npos` and both `substr` calls return degenerate values (modelled as the
whole path for both halves). -/
def splitDirFile (p : List Nat) : List Nat × List Nat :=
  match findLastSlash p with
  | some k => (p.take k, p.drop (k + 1))
  | none => (p, p)

/-- The entry-scan loop of `get_file_in_inode` (`length` is computed
once, before the loop), structurally recursive on the number of
remaining entries; the entry index is `length - fuel`. -/
def getFileLoopAux (inodeno : Nat) (filename : List Nat) :
    Nat → FS → Nat → FS × Option Nat
  | 0, s, _ => (s, none)
  | fuel + 1, s, i =>
    match DirectoryProxy.get s inodeno i with
    | (s1, file) =>
      if file.filename = filename then (s1, some file.file_inode)
      else getFileLoopAux inodeno filename fuel s1 (i + 1)

/-- `get_file_in_inode`: look up a name in a directory; `none` is the
`-1` of the code. -/
def get_file_in_inode (s : FS) (inodeno : Nat) (filename : List Nat) :
    FS × Option Nat :=
  getFileLoopAux inodeno filename (DirectoryProxy.length s inodeno) s 0

/-- The component walk of `get_inode_from_path`. -/
def walkPath (s : FS) (now_inode : Nat) : List (List Nat) → FS × Option Nat
  | [] => (s, some now_inode)
  | f :: rest =>
    match get_file_in_inode s now_inode f with
    | (s1, none) => (s1, none)
    | (s1, some next) => walkPath s1 next rest

/-- `get_inode_from_path`: resolve a path starting at the root inode 0. -/
def get_inode_from_path (s : FS) (path : List Nat) : FS × Option Nat :=
  walkPath s 0 (split_path path)

/-- A fresh all-zero inode record (`memset(&*inode, 0, sizeof ...)`). -/
def zeroINode : INode :=
  { typ := 0, filesize := 0, atime := 0, mtime := 0, ctime := 0
    direct_pointer := 0, indirect_pointer := 0, iindirect_pointer := 0 }

/-- `make_node` (`fs_mknod` / `fs_mkdir`): create a leaf of the given
type (`0` = file, `1` = directory) unless it already exists. -/
def make_node (s : FS) (path : List Nat) (mode : Nat) : FS × Int :=
  let df := splitDirFile path
  match get_inode_from_path s df.1 with
  | (s1, none) => (s1, -(ENOENT : Int))
  | (s1, some dirnode) =>
    match get_file_in_inode s1 dirnode df.2 with
    | (s2, some _) => (s2, 0)
    | (s2, none) =>
      if 24 < df.2.length then (s2, -(ENOSPC : Int))
      else
        match alloc_inode s2 with
        | (s3, none) => (s3, -(ENOSPC : Int))
        | (s3, some filenode) =>
          let s4 := commitInode s3 filenode
            { zeroINode with typ := mode, atime := s3.clock, mtime := s3.clock
                             ctime := s3.clock }
          match DirectoryProxy.push s4 dirnode
              { file_inode := filenode, filename := df.2 } with
          | (s5, 0) => (s5, 0)
          | (s5, err) => (free_inode s5 filenode, -(err : Int))

/-- The erase-scan loop of `delete_node`.  When the name matches, erase
the entry and free the target inode; the fall-through case is
`assert(false)` in the code.  Structurally recursive on the number of
remaining entries; the entry index is `endi - fuel`. -/
def deleteLoop (dirnode filenode : Nat) (filename : List Nat) :
    Nat → FS → Nat → FS × Int
  | 0, s, _ => (s, 0)
  | fuel + 1, s, i =>
    match DirectoryProxy.get s dirnode i with
    | (s1, file) =>
      if file.filename = filename then
        (free_inode (DirectoryProxy.erase s1 dirnode i) filenode, 0)
      else deleteLoop dirnode filenode filename fuel s1 (i + 1)

/-- `delete_node` (`fs_unlink` / `fs_rmdir`): resolve, release the
target's data (`resize(0)`), erase its entry, free its inode. -/
def delete_node (s : FS) (path : List Nat) : FS × Int :=
  let df := splitDirFile path
  match get_inode_from_path s df.1 with
  | (s1, none) => (s1, -(ENOENT : Int))
  | (s1, some dirnode) =>
    match get_file_in_inode s1 dirnode df.2 with
    | (s2, none) => (s2, -(ENOENT : Int))
    | (s2, some filenode) =>
      let s3 := (resize s2 filenode 0).1
      deleteLoop dirnode filenode df.2 (DirectoryProxy.length s3 dirnode) s3 0

/-- `fs_mknod`. -/
def fs_mknod (s : FS) (path : List Nat) : FS × Int := make_node s path 0

/-- `fs_mkdir`. -/
def fs_mkdir (s : FS) (path : List Nat) : FS × Int := make_node s path 1

/-- `fs_unlink`. -/
def fs_unlink (s : FS) (path : List Nat) : FS × Int := delete_node s path

/-- `fs_rmdir` (identical to `fs_unlink`; emptiness is not checked). -/
def fs_rmdir (s : FS) (path : List Nat) : FS × Int := delete_node s path

/-- `fs_truncate`: resolve the path, resize, negate the error. -/
def fs_truncate (s : FS) (path : List Nat) (size : Nat) : FS × Int :=
  match get_inode_from_path s path with
  | (s1, none) => (s1, -(ENOENT : Int))
  | (s1, some now_inode) =>
    match resize s1 now_inode size with
    | (s2, e) => (s2, -(e : Int))

/-- `fs_open` / `fs_opendir`: resolve the path to an inode number used as
the file handle. -/
def fs_open (s : FS) (path : List Nat) : FS × Option Nat :=
  get_inode_from_path s path

/-- `fs_read` on an open handle. -/
def fs_read (s : FS) (fh offset size : Nat) (buf : Nat → Nat) :
    FS × (Nat → Nat) × Nat :=
  DataProxy.read s fh offset size buf

/-- `fs_write` on an open handle: grow to `offset + size` first when
needed; if growth fails return the error and perform no write. -/
def fs_write (s : FS) (fh offset size : Nat) (buf : Nat → Nat) : FS × Int :=
  if (s.inodes fh).filesize < size + offset then
    match resize s fh (size + offset) with
    | (s1, 0) =>
      match DataProxy.write s1 fh offset size buf with
      | (s2, ret) => (s2, (ret : Int))
    | (s1, err) => (s1, -(err : Int))
  else
    match DataProxy.write s fh offset size buf with
    | (s2, ret) => (s2, (ret : Int))

/-! ## Formatting -/

/-- The device as `disk_init` presents it.  Modelled from the spec:
`disk.c` is not in `src/`; the build recreates the virtual disk from
scratch on every mount (`rm -rf $(VDISK)/*`), and scenario S2 of the spec
requires a never-written block of a fresh device to read as zero, so the
fresh device is all zeros. -/
def disk_init : FS :=
  { header := { MAGIC_NUMBER := 0, inode_num_tot := 0, inode_num_free := 0
                inode_bitmap_offset := 0, inode_block_offset := 0
                data_block_num_tot := 0, data_block_num_free := 0
                data_block_bitmap_offset := 0, data_block_offset := 0 }
    inodeBm := fun _ => false
    dataBm := fun _ => false
    inodes := fun _ => zeroINode
    blocks := fun _ _ => 0
    inode_bitmap_min_pos := 0
    data_bitmap_min_pos := 0
    clock := 0
    trace := [] }

/-- `Disk::mkfs`: write the freshly computed header, zero the bitmap
blocks `[1, inode_block_offset)`, allocate and initialise the root
directory inode, `resize(root, 0)`. -/
def mkfs (s : FS) : FS :=
  let s1 := commitHeader s HeaderBlock.init
  let s2 := { s1 with
    inodeBm := fun _ => false
    dataBm := fun _ => false
    trace := s1.trace ++
      (List.range' 1 (s1.header.inode_block_offset - 1)).map Ev.wBmZeroBlock }
  match alloc_inode s2 with
  | (s3, rootOpt) =>
    let root := rootOpt.getD 0
    let s4 := commitInode s3 root
      { zeroINode with typ := 1, atime := s3.clock, mtime := s3.clock
                       ctime := s3.clock }
    (resize s4 root 0).1

/-! ## Specification-side definitions

Definitions taken from the wording of the specification, for comparison
with the code-derived definitions above. -/

/-- The clamp §4.H of the spec prescribes for `read`:
`len = max(0, min(filesize, offset + len) - offset)` (truncated `Nat`
subtraction is exactly the `max 0`). -/
def specReadClamp (offset size filesize : Nat) : Nat :=
  min (offset + size) filesize - offset

/-- The set bits among the first `n` positions of a bitmap. -/
def setBits (bm : Nat → Bool) (n : Nat) : Finset Nat :=
  (Finset.range n).filter fun p => bm p = true

/-- The allocator-level state invariant: each free counter plus the
number of set bits of its bitmap equals its total; bits beyond the total
(padding up to the bitmap-region size) stay clear; every position below
an allocation hint is set; and each bitmap region is large enough for
its total. -/
structure AllocInv (s : FS) : Prop where
  icount : s.header.inode_num_free +
    (setBits s.inodeBm s.header.inode_num_tot).card = s.header.inode_num_tot
  ipad : ∀ p, s.header.inode_num_tot ≤ p → s.inodeBm p = false
  ihint : ∀ p, p < s.inode_bitmap_min_pos → s.inodeBm p = true
  igeom : s.header.inode_num_tot ≤
    (s.header.data_block_bitmap_offset - s.header.inode_bitmap_offset) * BITMAP_SIZ
  dcount : s.header.data_block_num_free +
    (setBits s.dataBm s.header.data_block_num_tot).card = s.header.data_block_num_tot
  dpad : ∀ p, s.header.data_block_num_tot ≤ p → s.dataBm p = false
  dhint : ∀ p, p < s.data_bitmap_min_pos → s.dataBm p = true
  dgeom : s.header.data_block_num_tot ≤
    (s.header.inode_block_offset - s.header.data_block_bitmap_offset) * BITMAP_SIZ

/-- One allocator operation.  The hypotheses of the `free` constructors
are exactly the `assert`s of `Disk::free_inode` / `Disk::free_data`
(the bit must be set; the block number must not be below the data
region), which abort the process when violated. -/
inductive AllocStep : FS → FS → Prop
  | allocI (s : FS) : AllocStep s (alloc_inode s).1
  | freeI (s : FS) (n : Nat) (h : s.inodeBm n = true) :
      AllocStep s (free_inode s n)
  | allocD (s : FS) : AllocStep s (alloc_data s).1
  | freeD (s : FS) (bn : Nat) (hge : s.header.data_block_offset ≤ bn)
      (h : s.dataBm (bn - s.header.data_block_offset) = true) :
      AllocStep s (free_data s bn)

/-- Bitmap-with-hint states reachable by the allocator discipline over
one bitmap region of `sizeBlocks` bitmap blocks: start all-clear with
hint 0; an allocation sets the position found by the hinted first-zero
search and raises the hint to `max(hint, p)`; a free clears a currently
set bit and lowers the hint to `min(hint, p)`. -/
inductive HintReach (sizeBlocks : Nat) : (Nat → Bool) → Nat → Prop
  | init : HintReach sizeBlocks (fun _ => false) 0
  | alloc (bm : Nat → Bool) (hint p : Nat) : HintReach sizeBlocks bm hint →
      bitmapFirstZero bm sizeBlocks hint = some p →
      HintReach sizeBlocks (fun q => if q = p then true else bm q) (max hint p)
  | free (bm : Nat → Bool) (hint p : Nat) : HintReach sizeBlocks bm hint →
      bm p = true →
      HintReach sizeBlocks (fun q => if q = p then false else bm q) (min hint p)

/-- A small concrete state used to witness the allocator theorems:
10 inodes and 20 data blocks, all free, nothing allocated. -/
def W5 : FS :=
  { header := { MAGIC_NUMBER := MAGIC_NUMBER_VAL, inode_num_tot := 10
                inode_num_free := 10, inode_bitmap_offset := 1
                inode_block_offset := 3, data_block_num_tot := 20
                data_block_num_free := 20, data_block_bitmap_offset := 2
                data_block_offset := 4 }
    inodeBm := fun _ => false
    dataBm := fun _ => false
    inodes := fun _ => zeroINode
    blocks := fun _ _ => 0
    inode_bitmap_min_pos := 0
    data_bitmap_min_pos := 0
    clock := 0
    trace := [] }

/-- Bitmaps of a small concrete `HintReach` chain
(alloc, alloc, free 0) over a one-block region. -/
def w8bm0 : Nat → Bool := fun _ => false

/-- After the first allocation (bit 0). -/
def w8bm1 : Nat → Bool := fun q => if q = 0 then true else w8bm0 q

/-- After the second allocation (bit 1). -/
def w8bm2 : Nat → Bool := fun q => if q = 1 then true else w8bm1 q

/-- After freeing bit 0. -/
def w8bm3 : Nat → Bool := fun q => if q = 0 then false else w8bm2 q

/-! ## Structural invariant of a file's pointer tiers -/

/-- `⌈m / POINTER_PER_BLOCK⌉`: the number of inner pointer blocks
needed for `m` data blocks of the double-indirect tier. -/
def ceilP (m : Nat) : Nat :=
  (m + POINTER_PER_BLOCK - 1) / POINTER_PER_BLOCK

/-- Number of pointer blocks a canonical file of `n` data blocks owns:
one indirect block from the second data block on, plus the outer block
and `⌈(n - 1 - P) / P⌉` inner blocks once the double-indirect tier is
reached. -/
def ptrCost (n : Nat) : Nat :=
  (if 1 < n then 1 else 0) +
  (if 1 + POINTER_PER_BLOCK < n then
    1 + ceilP (n - 1 - POINTER_PER_BLOCK) else 0)

/-- Total number of data-region blocks a canonical file of `n` data
blocks owns (data blocks plus pointer blocks). -/
def ownedCount (n : Nat) : Nat := n + ptrCost n

/-- `b` is one of the pointer blocks of the file described by the
(in-memory) inode record `ino` holding `n` data blocks. -/
def isPtrBlock (s : FS) (ino : INode) (n : Nat) (b : Nat) : Prop :=
  (1 < n ∧ b = ino.indirect_pointer) ∨
  (1 + POINTER_PER_BLOCK < n ∧
    (b = ino.iindirect_pointer ∨
      ∃ i, i < ceilP (n - 1 - POINTER_PER_BLOCK) ∧
        b = s.blocks ino.iindirect_pointer i))

/-- `b` is owned by the file: a data block (`l2p` image) or a pointer
block. -/
def isOwned (s : FS) (ino : INode) (n : Nat) (b : Nat) : Prop :=
  (∃ k, k < n ∧ b = l2p s ino k) ∨ isPtrBlock s ino n b

/-- Canonical on-disk structure of a file holding `n` data blocks, for
the in-memory inode record `ino` over state `s` (invariants 4 and 5 of
the spec, plus the ownership facts resize relies on): the three pointer
fields are nonzero exactly when their tier is reached, pointer-block
slots are nonzero exactly below the fill level, every owned block lies
in the data region with its bitmap bit set, the data blocks are
pairwise distinct and distinct from the pointer blocks, and the pointer
blocks are pairwise distinct. -/
structure StructOK (s : FS) (ino : INode) (n : Nat) : Prop where
  hmax : n ≤ 1 + POINTER_PER_BLOCK + POINTER_PER_BLOCK * (POINTER_PER_BLOCK - 1)
  hdirect0 : n = 0 → ino.direct_pointer = 0
  hdirect1 : 1 ≤ n → ino.direct_pointer ≠ 0
  hind0 : n ≤ 1 → ino.indirect_pointer = 0
  hind1 : 1 < n → ino.indirect_pointer ≠ 0
  hindSlots : 1 < n → ∀ j, j < POINTER_PER_BLOCK →
    (s.blocks ino.indirect_pointer j = 0 ↔ min (n - 1) POINTER_PER_BLOCK ≤ j)
  hiind0 : n ≤ 1 + POINTER_PER_BLOCK → ino.iindirect_pointer = 0
  hiind1 : 1 + POINTER_PER_BLOCK < n → ino.iindirect_pointer ≠ 0
  houterSlots : 1 + POINTER_PER_BLOCK < n → ∀ i, i < POINTER_PER_BLOCK →
    (s.blocks ino.iindirect_pointer i = 0 ↔ ceilP (n - 1 - POINTER_PER_BLOCK) ≤ i)
  hinnerSlots : 1 + POINTER_PER_BLOCK < n →
    ∀ i, i < ceilP (n - 1 - POINTER_PER_BLOCK) → ∀ j, j < POINTER_PER_BLOCK →
    (s.blocks (s.blocks ino.iindirect_pointer i) j = 0 ↔
      min (n - 1 - POINTER_PER_BLOCK - i * POINTER_PER_BLOCK) POINTER_PER_BLOCK ≤ j)
  hmarked : ∀ b, isOwned s ino n b →
    s.header.data_block_offset ≤ b ∧
    b - s.header.data_block_offset < s.header.data_block_num_tot ∧
    s.dataBm (b - s.header.data_block_offset) = true
  hinj : ∀ k k', k < n → k' < n → l2p s ino k = l2p s ino k' → k = k'
  hdp : ∀ k, k < n → ¬ isPtrBlock s ino n (l2p s ino k)
  hII : 1 < n → 1 + POINTER_PER_BLOCK < n →
    ino.indirect_pointer ≠ ino.iindirect_pointer
  hinnerNe : 1 + POINTER_PER_BLOCK < n →
    ∀ i, i < ceilP (n - 1 - POINTER_PER_BLOCK) →
      s.blocks ino.iindirect_pointer i ≠ ino.indirect_pointer ∧
      s.blocks ino.iindirect_pointer i ≠ ino.iindirect_pointer
  hinnerInj : 1 + POINTER_PER_BLOCK < n →
    ∀ i i', i < ceilP (n - 1 - POINTER_PER_BLOCK) →
      i' < ceilP (n - 1 - POINTER_PER_BLOCK) →
      s.blocks ino.iindirect_pointer i = s.blocks ino.iindirect_pointer i' → i = i'

/-- The full resize invariant for inode `inodeno` holding `n` data
blocks: allocator consistency, canonical structure for the committed
inode record, the block count matching the stored file size
(invariant 4 of the spec), and a device small enough that the loop
index arithmetic of `resize` stays inside the three tiers (any
realistic geometry, in particular the `mkfs` one, satisfies this). -/
structure ResizeInv (s : FS) (inodeno n : Nat) : Prop where
  hA : AllocInv s
  hS : StructOK s (s.inodes inodeno) n
  hsize : n = ceilBlocks ((s.inodes inodeno).filesize)
  hsize32 : (s.inodes inodeno).filesize < 2 ^ 32
  hcap : s.header.data_block_num_tot ≤
    1 + POINTER_PER_BLOCK + POINTER_PER_BLOCK * (POINTER_PER_BLOCK - 1)
  hdbo : 1 ≤ s.header.data_block_offset

/-- The combined per-step invariant the resize loop maintains over the
state and the in-memory inode record. -/
structure StepInv (s : FS) (ino : INode) (n : Nat) : Prop where
  hA : AllocInv s
  hS : StructOK s ino n
  hcap : s.header.data_block_num_tot ≤
    1 + POINTER_PER_BLOCK + POINTER_PER_BLOCK * (POINTER_PER_BLOCK - 1)
  hdbo : 1 ≤ s.header.data_block_offset

/-- The header fields, the inode side and the clock that grow/shrink
steps never touch. -/
def sameCore (s s' : FS) : Prop :=
  s'.inodes = s.inodes ∧ s'.inodeBm = s.inodeBm ∧
  s'.inode_bitmap_min_pos = s.inode_bitmap_min_pos ∧
  s'.header.data_block_offset = s.header.data_block_offset ∧
  s'.header.data_block_num_tot = s.header.data_block_num_tot ∧
  s'.header.inode_num_tot = s.header.inode_num_tot ∧
  s'.header.inode_num_free = s.header.inode_num_free ∧
  s'.header.inode_bitmap_offset = s.header.inode_bitmap_offset ∧
  s'.header.inode_block_offset = s.header.inode_block_offset ∧
  s'.header.data_block_bitmap_offset = s.header.data_block_bitmap_offset ∧
  s'.header.MAGIC_NUMBER = s.header.MAGIC_NUMBER ∧
  s'.clock = s.clock

/-- Enumeration of the owned blocks of a canonical file: data blocks
first, then the indirect block, the outer double-indirect block, and
the inner double-indirect blocks. -/
def ownedEnum (s : FS) (ino : INode) (n t : Nat) : Nat :=
  if t < n then l2p s ino t
  else if t = n then ino.indirect_pointer
  else if t = n + 1 then ino.iindirect_pointer
  else s.blocks ino.iindirect_pointer (t - n - 2)

/-- Postcondition of a successful grow step. -/
def growOkPost (s s' : FS) (ino ino' : INode) (n : Nat) : Prop :=
  StepInv s' ino' (n + 1) ∧
  s'.header.data_block_num_free + ownedCount (n + 1)
    = s.header.data_block_num_free + ownedCount n ∧
  sameCore s s' ∧
  ino'.filesize = ino.filesize ∧ ino'.typ = ino.typ ∧
  ino'.atime = ino.atime ∧ ino'.mtime = ino.mtime ∧ ino'.ctime = ino.ctime

/-- Postcondition of a failed grow step (after its internal undo). -/
def growFailPost (s s' : FS) (ino : INode) (n : Nat) : Prop :=
  StepInv s' ino n ∧
  s'.header.data_block_num_free = s.header.data_block_num_free ∧
  s'.dataBm = s.dataBm ∧
  sameCore s s'

/-- Bookkeeping relation along a grow/shrink step: `s'` differs from `s`
only in the data bitmap, the blocks, the data hint, the trace, and a
free-data counter now equal to `m`. -/
def sameButFree (s s' : FS) (m : Nat) : Prop :=
  s'.header = { s.header with data_block_num_free := m } ∧
  s'.inodes = s.inodes ∧ s'.inodeBm = s.inodeBm ∧
  s'.inode_bitmap_min_pos = s.inode_bitmap_min_pos ∧ s'.clock = s.clock

/-- Postcondition of a shrink step at `block_now = n` (`1 ≤ n`): the
invariant at `n - 1`, exact free-counter accounting, untouched core
state and inode metadata, a bitmap that only loses bits, every lost bit
belonging to a block the file owned, and preservation of the logical
map and of pointer-block ownership. -/
def shrinkPost (s s' : FS) (ino ino' : INode) (n : Nat) : Prop :=
  StepInv s' ino' (n - 1) ∧
  s'.header.data_block_num_free + ownedCount (n - 1)
    = s.header.data_block_num_free + ownedCount n ∧
  sameCore s s' ∧
  ino'.filesize = ino.filesize ∧ ino'.typ = ino.typ ∧
  ino'.atime = ino.atime ∧ ino'.mtime = ino.mtime ∧ ino'.ctime = ino.ctime ∧
  (∀ q, s'.dataBm q = true → s.dataBm q = true) ∧
  (∀ q, s.dataBm q = true → s'.dataBm q = false →
    isOwned s ino n (q + s.header.data_block_offset)) ∧
  (∀ k, k < n - 1 → l2p s' ino' k = l2p s ino k) ∧
  (∀ b, isPtrBlock s' ino' (n - 1) b → isPtrBlock s ino n b)

/-- A minimal consistent test device: one inode (the empty root file,
allocated), eight free data blocks, the usual layout prefix.  Used as a
concrete input for the resize-level theorems. -/
def sW : FS :=
  { header := { MAGIC_NUMBER := MAGIC_NUMBER_VAL
                inode_num_tot := 1, inode_num_free := 0
                inode_bitmap_offset := 1, inode_block_offset := 3
                data_block_num_tot := 8, data_block_num_free := 8
                data_block_bitmap_offset := 2, data_block_offset := 4 }
    inodeBm := fun p => if p = 0 then true else false
    dataBm := fun _ => false
    inodes := fun _ => zeroINode
    blocks := fun _ _ => 0
    inode_bitmap_min_pos := 0
    data_bitmap_min_pos := 0
    clock := 7
    trace := [] }

/-- The same device with every data block in use and none free: the
no-space state used as a concrete input for the rollback theorem. -/
def sW0 : FS :=
  { header := { MAGIC_NUMBER := MAGIC_NUMBER_VAL
                inode_num_tot := 1, inode_num_free := 0
                inode_bitmap_offset := 1, inode_block_offset := 3
                data_block_num_tot := 8, data_block_num_free := 0
                data_block_bitmap_offset := 2, data_block_offset := 4 }
    inodeBm := fun p => if p = 0 then true else false
    dataBm := fun p => if p < 8 then true else false
    inodes := fun _ => zeroINode
    blocks := fun _ _ => 0
    inode_bitmap_min_pos := 0
    data_bitmap_min_pos := 0
    clock := 7
    trace := [] }

/-- A directory entry naming inode `1` as `"A"`, used to fill the test
directory below. -/
def entryA : Item := { file_inode := 1, filename := [65] }

/-- A consistent test device whose root directory (inode 0) holds 129
identical entries `"A" → inode 1` — 4128 bytes, spanning a direct block
(4), an indirect block (5) and a second data block (6) — and whose
inode 1 is an empty file.  Deleting `"/A"` removes one entry, which
shrinks the directory across the block boundary. -/
def sD : FS :=
  { header := { MAGIC_NUMBER := MAGIC_NUMBER_VAL
                inode_num_tot := 2, inode_num_free := 0
                inode_bitmap_offset := 1, inode_block_offset := 3
                data_block_num_tot := 8, data_block_num_free := 5
                data_block_bitmap_offset := 2, data_block_offset := 4 }
    inodeBm := fun p => if p < 2 then true else false
    dataBm := fun p => if p < 3 then true else false
    inodes := fun i =>
      if i = 0 then
        { typ := 1, filesize := 4128, atime := 0, mtime := 0, ctime := 0
          direct_pointer := 4, indirect_pointer := 5, iindirect_pointer := 0 }
      else zeroINode
    blocks := fun b =>
      if b = 5 then (fun j => if j = 0 then 6 else 0)
      else if b = 4 then (fun o => encodeItem entryA (o % 32))
      else if b = 6 then (fun o => encodeItem entryA (o % 32))
      else fun _ => 0
    inode_bitmap_min_pos := 0
    data_bitmap_min_pos := 0
    clock := 7
    trace := [] }

/-! ## C1: the byte-I/O loop crosses block boundaries -/

/-- C1: the claim states that every iteration of the read/write loops
copies exactly `min(remaining, BLOCK_SIZE - in_block_offset)` bytes and
never crosses a block boundary.  The loops actually copy
`min(remaining, BLOCK_SIZE)` bytes starting at in-block offset
`offset % BLOCK_SIZE`: at offset 1 with 4096 bytes remaining, the single
iteration copies 4096 bytes starting at in-block offset 1, running past
the end of the 4096-byte block (in the C++, past the end of the proxy
buffer), where the spec prescribes a first chunk of 4095 bytes. -/
theorem c1_write_loop_crosses_block_boundary :
    writeChunks 1 4096 = [(1, 4096)] ∧
    specChunkLen 1 4096 = 4095 ∧
    1 + 4096 > BLOCK_SIZE := by
  refine ⟨by decide, by decide, by decide⟩

/-! ## C2: the read clamp underflows for offsets beyond end of file -/

/-- C2: the claim states that `read` copies and returns
`max(0, min(filesize, offset + len) - offset)` bytes, in particular `0`
when `offset > filesize`.  The code computes the clamp in `size_t`
arithmetic without the `max 0`: on a file of size 0, a read of 1 byte at
offset 1 underflows to `2 ^ 64 - 1` (the loop then runs off the file; in
the C++ it aborts on a zero pointer in `get_data_block`), instead of the
`0` the claim requires.  Evaluated here on the root inode of a freshly
formatted filesystem (`filesize = 0`). -/
theorem c2_read_clamp_underflows :
    readClamp 1 1 0 = 2 ^ 64 - 1 ∧
    specReadClamp 1 1 0 = 0 ∧
    (DataProxy.read (mkfs disk_init) 0 1 1 zeroBlock).2.2 = 2 ^ 64 - 1 := by
  refine ⟨by decide, by decide, by rfl⟩

/-! ## C7: scenario S2, blocks allocated by grow read as zero -/

/-- C7: from a freshly formatted device, `mknod("/f")`,
`truncate("/f", 4096 * 13)` (file handle 1), `write(fh, 4096*12, "Z", 1)`;
then reading 1 byte at offset `4096 * 12` returns `"Z"` (byte 90) and
reading 1 byte at offset 0 returns the NUL byte, each read returning
count 1 — every byte of a grow-allocated, never-written block reads as
zero on the zero-initialised fresh device. -/
theorem c7_grow_then_read_zero :
    (fs_mknod (mkfs disk_init) [47, 102]).2 = 0 ∧
    (fs_truncate ((fs_mknod (mkfs disk_init) [47, 102]).1) [47, 102] (4096 * 13)).2 = 0 ∧
    (fs_open ((fs_truncate ((fs_mknod (mkfs disk_init) [47, 102]).1) [47, 102]
      (4096 * 13)).1) [47, 102]).2 = some 1 ∧
    (fs_write ((fs_truncate ((fs_mknod (mkfs disk_init) [47, 102]).1) [47, 102]
      (4096 * 13)).1) 1 (4096 * 12) 1 (fun _ => 90)).2 = 1 ∧
    (fs_read ((fs_write ((fs_truncate ((fs_mknod (mkfs disk_init) [47, 102]).1)
      [47, 102] (4096 * 13)).1) 1 (4096 * 12) 1 (fun _ => 90)).1) 1 (4096 * 12) 1
      (fun _ => 7)).2.1 0 = 90 ∧
    (fs_read ((fs_write ((fs_truncate ((fs_mknod (mkfs disk_init) [47, 102]).1)
      [47, 102] (4096 * 13)).1) 1 (4096 * 12) 1 (fun _ => 90)).1) 1 (4096 * 12) 1
      (fun _ => 7)).2.2 = 1 ∧
    (fs_read ((fs_write ((fs_truncate ((fs_mknod (mkfs disk_init) [47, 102]).1)
      [47, 102] (4096 * 13)).1) 1 (4096 * 12) 1 (fun _ => 90)).1) 1 0 1
      (fun _ => 7)).2.1 0 = 0 ∧
    (fs_read ((fs_write ((fs_truncate ((fs_mknod (mkfs disk_init) [47, 102]).1)
      [47, 102] (4096 * 13)).1) 1 (4096 * 12) 1 (fun _ => 90)).1) 1 0 1
      (fun _ => 7)).2.2 = 1 := by
  refine ⟨by rfl, by rfl, by rfl, by rfl, by rfl, by rfl, by rfl, by rfl⟩

/-! ## Characterisation of the first-zero search -/

theorem findFirstNot_eq_some_iff {g : Nat → Bool} {fuel i j : Nat} :
    findFirstNot g fuel i = some j ↔
      g j = false ∧ i ≤ j ∧ j < i + fuel ∧ ∀ q, i ≤ q → q < j → g q = true := by
  induction fuel generalizing i with
  | zero =>
    simp only [findFirstNot]
    constructor
    · intro h; cases h
    · rintro ⟨-, h2, h3, -⟩; exact absurd h3 (by omega)
  | succ fuel ih =>
    simp only [findFirstNot]
    by_cases hg : g i
    · rw [if_pos hg, ih]
      constructor
      · rintro ⟨h1, h2, h3, h4⟩
        refine ⟨h1, by omega, by omega, fun q hq1 hq2 => ?_⟩
        rcases Nat.eq_or_lt_of_le hq1 with h | h
        · rw [← h]; exact hg
        · exact h4 q h hq2
      · rintro ⟨h1, h2, h3, h4⟩
        have hij : i ≠ j := by
          rintro rfl; rw [hg] at h1; cases h1
        exact ⟨h1, by omega, by omega, fun q hq1 hq2 => h4 q (by omega) hq2⟩
    · rw [if_neg hg]
      constructor
      · intro h
        injection h with h
        subst h
        exact ⟨by simpa using hg, Nat.le_refl _, by omega,
          fun q hq1 hq2 => ((Nat.lt_irrefl i) (Nat.lt_of_le_of_lt hq1 hq2)).elim⟩
      · rintro ⟨h1, h2, h3, h4⟩
        have hji : ¬ i < j := fun hij => hg (by simpa using h4 i (Nat.le_refl _) hij)
        have : j = i := by omega
        rw [this]

theorem findFirstNot_eq_none_iff {g : Nat → Bool} {fuel i : Nat} :
    findFirstNot g fuel i = none ↔ ∀ q, i ≤ q → q < i + fuel → g q = true := by
  induction fuel generalizing i with
  | zero =>
    simp only [findFirstNot]
    constructor
    · intro _ q h1 h2; omega
    · intro _; trivial
  | succ fuel ih =>
    simp only [findFirstNot]
    by_cases hg : g i
    · rw [if_pos hg, ih]
      constructor
      · intro h q hq1 hq2
        rcases Nat.eq_or_lt_of_le hq1 with h' | h'
        · rw [← h']; exact hg
        · exact h q h' (by omega)
      · intro h q hq1 hq2
        exact h q (by omega) (by omega)
    · rw [if_neg hg]
      constructor
      · intro h; cases h
      · intro h
        exact absurd (h i (Nat.le_refl _) (by omega)) (by simp [hg])

theorem getFirstZeroAux_eq_some_iff {bm : Nat → Bool} {fuel w p : Nat} :
    getFirstZeroAux bm fuel w = some p ↔
      bm p = false ∧ 64 * w ≤ p ∧ p < 64 * (w + fuel) ∧
        ∀ q, 64 * w ≤ q → q < p → bm q = true := by
  induction fuel generalizing w with
  | zero =>
    simp only [getFirstZeroAux]
    constructor
    · intro h; cases h
    · rintro ⟨-, h2, h3, -⟩; exact absurd h3 (by omega)
  | succ fuel ih =>
    simp only [getFirstZeroAux]
    cases hfz : lowestClearInWord bm w with
    | some j =>
      rw [lowestClearInWord, findFirstNot_eq_some_iff] at hfz
      obtain ⟨hj1, -, hj3, hj4⟩ := hfz
      constructor
      · intro h
        injection h with h
        subst h
        refine ⟨hj1, by omega, by omega, fun q hq1 hq2 => ?_⟩
        have hq := hj4 (q - 64 * w) (by omega) (by omega)
        have e : 64 * w + (q - 64 * w) = q := by omega
        rwa [e] at hq
      · rintro ⟨h1, h2, h3, h4⟩
        have hpe : 64 * w + j = p := by
          by_contra hne
          rcases Nat.lt_or_ge p (64 * w + j) with hlt | hge
          · have hq := hj4 (p - 64 * w) (by omega) (by omega)
            have e : 64 * w + (p - 64 * w) = p := by omega
            rw [e, h1] at hq; cases hq
          · have hlt2 : 64 * w + j < p := by omega
            have := h4 (64 * w + j) (by omega) hlt2
            rw [hj1] at this; cases this
        rw [← hpe]
    | none =>
      rw [lowestClearInWord, findFirstNot_eq_none_iff] at hfz
      rw [ih]
      constructor
      · rintro ⟨h1, h2, h3, h4⟩
        refine ⟨h1, by omega, by omega, fun q hq1 hq2 => ?_⟩
        by_cases hq : 64 * (w + 1) ≤ q
        · exact h4 q hq hq2
        · have hq' := hfz (q - 64 * w) (by omega) (by omega)
          have e : 64 * w + (q - 64 * w) = q := by omega
          rwa [e] at hq'
      · rintro ⟨h1, h2, h3, h4⟩
        have hp : 64 * (w + 1) ≤ p := by
          by_contra hlt
          have hq := hfz (p - 64 * w) (by omega) (by omega)
          have e : 64 * w + (p - 64 * w) = p := by omega
          rw [e, h1] at hq; cases hq
        refine ⟨h1, hp, by omega, fun q hq1 hq2 => ?_⟩
        by_cases hq : 64 * (w + 1) ≤ q
        · exact h4 q (by omega) hq2
        · have hq' := hfz (q - 64 * w) (by omega) (by omega)
          have e : 64 * w + (q - 64 * w) = q := by omega
          rwa [e] at hq'

theorem getFirstZeroAux_eq_none_iff {bm : Nat → Bool} {fuel w : Nat} :
    getFirstZeroAux bm fuel w = none ↔
      ∀ q, 64 * w ≤ q → q < 64 * (w + fuel) → bm q = true := by
  induction fuel generalizing w with
  | zero =>
    simp only [getFirstZeroAux]
    constructor
    · intro _ q h1 h2; omega
    · intro _; trivial
  | succ fuel ih =>
    simp only [getFirstZeroAux]
    cases hfz : lowestClearInWord bm w with
    | some j =>
      rw [lowestClearInWord, findFirstNot_eq_some_iff] at hfz
      obtain ⟨hj1, -, hj3, -⟩ := hfz
      constructor
      · intro h; cases h
      · intro h
        exact absurd (h (64 * w + j) (by omega) (by omega)) (by simp [hj1])
    | none =>
      rw [lowestClearInWord, findFirstNot_eq_none_iff] at hfz
      rw [ih]
      constructor
      · intro h q hq1 hq2
        by_cases hq : 64 * (w + 1) ≤ q
        · exact h q hq (by omega)
        · have hq' := hfz (q - 64 * w) (by omega) (by omega)
          have e : 64 * w + (q - 64 * w) = q := by omega
          rwa [e] at hq'
      · intro h q hq1 hq2
        exact h q (by omega) (by omega)

/-- `bitmapFirstZero` from position 0 returns exactly the least clear
bit of the region, when one exists. -/
theorem bitmapFirstZero_zero_eq_some_iff {bm : Nat → Bool} {sizeBlocks p : Nat} :
    bitmapFirstZero bm sizeBlocks 0 = some p ↔
      bm p = false ∧ p < BITMAP_SIZ * sizeBlocks ∧ ∀ q, q < p → bm q = true := by
  rw [bitmapFirstZero, getFirstZeroWords, getFirstZeroAux_eq_some_iff]
  have e : BITMAP_SIZ / 64 = 512 := by decide
  have eb : BITMAP_SIZ = 32768 := by decide
  rw [e, eb]
  constructor
  · rintro ⟨h1, -, h3, h4⟩
    refine ⟨h1, by omega, fun q hq => h4 q (by omega) hq⟩
  · rintro ⟨h1, h2, h3⟩
    exact ⟨h1, by omega, by omega, fun q _ hq => h3 q hq⟩

/-- With every position below the hint set, the hinted search agrees
with the search from position 0. -/
theorem bitmapFirstZero_hint_eq {bm : Nat → Bool} {sizeBlocks minpos : Nat}
    (hinv : ∀ q, q < minpos → bm q = true) :
    bitmapFirstZero bm sizeBlocks minpos = bitmapFirstZero bm sizeBlocks 0 := by
  have e : BITMAP_SIZ / 64 = 512 := by decide
  cases h0 : bitmapFirstZero bm sizeBlocks 0 with
  | some p =>
    rw [bitmapFirstZero_zero_eq_some_iff] at h0
    obtain ⟨h1, h2, h3⟩ := h0
    have hpm : minpos ≤ p := by
      by_contra hlt
      rw [hinv p (by omega)] at h1; cases h1
    rw [bitmapFirstZero, getFirstZeroWords, e, getFirstZeroAux_eq_some_iff]
    have hw : 64 * (minpos / 64) ≤ minpos := by omega
    refine ⟨h1, by omega, ?_, fun q _ hq => h3 q hq⟩
    have : minpos / 64 ≤ sizeBlocks * 512 := by
      by_contra hgt
      have : BITMAP_SIZ * sizeBlocks ≤ minpos := by
        have := Nat.div_mul_le_self minpos 64
        simp only [BITMAP_SIZ, BLOCK_SIZE]
        omega
      omega
    have : 64 * (minpos / 64 + (sizeBlocks * 512 - minpos / 64)) =
        64 * (sizeBlocks * 512) := by omega
    rw [this]
    simp only [BITMAP_SIZ, BLOCK_SIZE] at h2 ⊢
    omega
  | none =>
    rw [bitmapFirstZero, getFirstZeroWords, e, getFirstZeroAux_eq_none_iff] at h0
    rw [bitmapFirstZero, getFirstZeroWords, e, getFirstZeroAux_eq_none_iff]
    intro q hq1 hq2
    by_cases hq : q < minpos
    · exact hinv q hq
    · refine h0 q (by omega) ?_
      simp only [Nat.zero_div] at h0 ⊢
      omega

/-- Result of the hinted first-zero search, in terms of the underlying
bit positions. -/
theorem bitmapFirstZero_some_spec {bm : Nat → Bool} {sb minpos p : Nat}
    (h : bitmapFirstZero bm sb minpos = some p) :
    bm p = false ∧ 64 * (minpos / 64) ≤ p ∧
      ∀ q, 64 * (minpos / 64) ≤ q → q < p → bm q = true := by
  rw [bitmapFirstZero, getFirstZeroWords, getFirstZeroAux_eq_some_iff] at h
  exact ⟨h.1, h.2.1, h.2.2.2⟩

/-! ## Bit-counting lemmas -/

theorem setBits_update_true {bm : Nat → Bool} {n p : Nat} (hp : p < n)
    (hbm : bm p = false) :
    setBits (fun q => if q = p then true else bm q) n = insert p (setBits bm n) := by
  ext q
  simp only [setBits, Finset.mem_filter, Finset.mem_range, Finset.mem_insert]
  by_cases hq : q = p
  · subst hq; simp [hp]
  · simp [hq]

theorem setBits_update_false {bm : Nat → Bool} {n p : Nat} :
    setBits (fun q => if q = p then false else bm q) n = (setBits bm n).erase p := by
  ext q
  simp only [setBits, Finset.mem_filter, Finset.mem_range, Finset.mem_erase]
  by_cases hq : q = p
  · subst hq; simp
  · simp [hq]

theorem card_setBits_set {bm : Nat → Bool} {n p : Nat} (hp : p < n)
    (hbm : bm p = false) :
    (setBits (fun q => if q = p then true else bm q) n).card
      = (setBits bm n).card + 1 := by
  rw [setBits_update_true hp hbm, Finset.card_insert_of_not_mem]
  simp [setBits, hbm]

theorem card_setBits_clear {bm : Nat → Bool} {n p : Nat} (hp : p < n)
    (hbm : bm p = true) :
    (setBits (fun q => if q = p then false else bm q) n).card + 1
      = (setBits bm n).card := by
  rw [setBits_update_false, Finset.card_erase_add_one]
  simp [setBits, hbm, hp]

/-! ## Allocator operation lemmas -/

/-- If the allocator is consistent, hint-disciplined and has a free
object, the hinted first-zero search finds exactly the least clear
bit, which lies below the total. -/
theorem alloc_scan_least (sb : Nat) {bm : Nat → Bool} {free tot hint : Nat}
    (hcount : free + (setBits bm tot).card = tot)
    (hhint : ∀ p, p < hint → bm p = true)
    (hgeom : tot ≤ sb * BITMAP_SIZ)
    (hfree : free ≠ 0) :
    ∃ p, bitmapFirstZero bm sb hint = some p ∧ bm p = false ∧ p < tot ∧
      ∀ q, q < p → bm q = true := by
  have hex : ∃ q, q < tot ∧ bm q = false := by
    by_contra hno
    push_neg at hno
    have hall : ∀ q, q < tot → bm q = true := by
      intro q hq
      cases hbq : bm q with
      | false => exact absurd hbq (hno q hq)
      | true => rfl
    have : setBits bm tot = Finset.range tot := by
      ext q
      simp only [setBits, Finset.mem_filter, Finset.mem_range]
      exact ⟨fun h => h.1, fun h => ⟨h, hall q h⟩⟩
    rw [this, Finset.card_range] at hcount
    omega
  obtain ⟨q0, hq0t, hq0⟩ := hex
  have hex2 : ∃ q, bm q = false := ⟨q0, hq0⟩
  refine ⟨Nat.find hex2, ?_, Nat.find_spec hex2, ?_, ?_⟩
  · rw [bitmapFirstZero_hint_eq hhint, bitmapFirstZero_zero_eq_some_iff]
    have hle : Nat.find hex2 ≤ q0 := Nat.find_min' hex2 hq0
    refine ⟨Nat.find_spec hex2, ?_, ?_⟩
    · have : BITMAP_SIZ * sb = sb * BITMAP_SIZ := Nat.mul_comm _ _
      omega
    · intro q hq
      have := Nat.find_min hex2 hq
      cases hbq : bm q with
      | false => exact absurd hbq this
      | true => rfl
  · have hle : Nat.find hex2 ≤ q0 := Nat.find_min' hex2 hq0
    omega
  · intro q hq
    have := Nat.find_min hex2 hq
    cases hbq : bm q with
    | false => exact absurd hbq this
    | true => rfl

/-- Unfolding of `alloc_inode` on a successful search. -/
theorem alloc_inode_eq (s : FS) (p : Nat)
    (hfree : ¬ s.header.inode_num_free = 0)
    (hscan : bitmapFirstZero s.inodeBm
      (s.header.data_block_bitmap_offset - s.header.inode_bitmap_offset)
      s.inode_bitmap_min_pos = some p) :
    alloc_inode s =
      ({ s with
          inodeBm := fun q => if q = p then true else s.inodeBm q
          header := { s.header with inode_num_free := s.header.inode_num_free - 1 }
          inode_bitmap_min_pos := max s.inode_bitmap_min_pos p
          trace := (s.trace ++ [Ev.wInodeBmSet p]) ++
            [Ev.wHeader { s.header with inode_num_free := s.header.inode_num_free - 1 }] },
        some p) := by
  rw [alloc_inode, if_neg hfree, hscan]
  rfl

/-- Unfolding of `alloc_inode` when there is no free inode. -/
theorem alloc_inode_eq_zero (s : FS) (hfree : s.header.inode_num_free = 0) :
    alloc_inode s = (s, none) := by
  rw [alloc_inode, if_pos hfree]

/-- `alloc_inode` changes nothing when it reports no space. -/
theorem alloc_inode_none (s : FS) (h : (alloc_inode s).2 = none) :
    (alloc_inode s).1 = s := by
  by_cases hfree : s.header.inode_num_free = 0
  · rw [alloc_inode_eq_zero s hfree]
  · cases hscan : bitmapFirstZero s.inodeBm
        (s.header.data_block_bitmap_offset - s.header.inode_bitmap_offset)
        s.inode_bitmap_min_pos with
    | some p => rw [alloc_inode_eq s p hfree hscan] at h; cases h
    | none => rw [alloc_inode, if_neg hfree, hscan]

/-- Unfolding of `alloc_data` on a successful search. -/
theorem alloc_data_eq (s : FS) (p : Nat)
    (hfree : ¬ s.header.data_block_num_free = 0)
    (hscan : bitmapFirstZero s.dataBm
      (s.header.inode_block_offset - s.header.data_block_bitmap_offset)
      s.data_bitmap_min_pos = some p) :
    alloc_data s =
      ({ s with
          dataBm := fun q => if q = p then true else s.dataBm q
          header := { s.header with data_block_num_free := s.header.data_block_num_free - 1 }
          data_bitmap_min_pos := max s.data_bitmap_min_pos p
          trace := (s.trace ++ [Ev.wDataBmSet p]) ++
            [Ev.wHeader { s.header with data_block_num_free := s.header.data_block_num_free - 1 }] },
        some (p + s.header.data_block_offset)) := by
  rw [alloc_data, if_neg hfree, hscan]
  rfl

/-- Unfolding of `alloc_data` when there is no free data block. -/
theorem alloc_data_eq_zero (s : FS) (hfree : s.header.data_block_num_free = 0) :
    alloc_data s = (s, none) := by
  rw [alloc_data, if_pos hfree]

/-- `alloc_data` changes nothing when it reports no space. -/
theorem alloc_data_none (s : FS) (h : (alloc_data s).2 = none) :
    (alloc_data s).1 = s := by
  by_cases hfree : s.header.data_block_num_free = 0
  · rw [alloc_data_eq_zero s hfree]
  · cases hscan : bitmapFirstZero s.dataBm
        (s.header.inode_block_offset - s.header.data_block_bitmap_offset)
        s.data_bitmap_min_pos with
    | some p => rw [alloc_data_eq s p hfree hscan] at h; cases h
    | none => rw [alloc_data, if_neg hfree, hscan]

/-- Unfolding of `free_inode`. -/
theorem free_inode_eq (s : FS) (n : Nat) :
    free_inode s n =
      { s with
          inodeBm := fun q => if q = n then false else s.inodeBm q
          header := { s.header with inode_num_free := s.header.inode_num_free + 1 }
          inode_bitmap_min_pos := min s.inode_bitmap_min_pos n
          trace := (s.trace ++ [Ev.wInodeBmClear n]) ++
            [Ev.wHeader { s.header with inode_num_free := s.header.inode_num_free + 1 }] } :=
  rfl

/-- Unfolding of `free_data` (argument is the absolute block number). -/
theorem free_data_eq (s : FS) (datano : Nat) :
    free_data s datano =
      { s with
          dataBm := fun q => if q = datano - s.header.data_block_offset then false
            else s.dataBm q
          header := { s.header with data_block_num_free := s.header.data_block_num_free + 1 }
          data_bitmap_min_pos := min s.data_bitmap_min_pos
            (datano - s.header.data_block_offset)
          trace := (s.trace ++ [Ev.wDataBmClear (datano - s.header.data_block_offset)]) ++
            [Ev.wHeader { s.header with data_block_num_free := s.header.data_block_num_free + 1 }] } :=
  rfl

/-- Every single allocator operation preserves the allocator invariant. -/
theorem allocInv_step {s s' : FS} (hinv : AllocInv s) (hstep : AllocStep s s') :
    AllocInv s' := by
  obtain ⟨ic, ip, ih, ig, dc, dp, dh, dg⟩ := hinv
  cases hstep with
  | allocI =>
    by_cases hfree : s.header.inode_num_free = 0
    · rw [alloc_inode_eq_zero s hfree]
      exact ⟨ic, ip, ih, ig, dc, dp, dh, dg⟩
    · obtain ⟨p, hscan, hbm, hlt, hmin⟩ :=
        alloc_scan_least (s.header.data_block_bitmap_offset - s.header.inode_bitmap_offset)
          ic ih ig hfree
      rw [alloc_inode_eq s p hfree hscan]
      constructor <;> dsimp only
      · rw [card_setBits_set hlt hbm]; omega
      · intro q hq
        have hqp : q ≠ p := by omega
        rw [if_neg hqp]; exact ip q hq
      · intro q hq
        by_cases hqp : q = p
        · rw [if_pos hqp]
        · rw [if_neg hqp]
          rcases Nat.lt_or_ge q s.inode_bitmap_min_pos with h | h
          · exact ih q h
          · exact hmin q (by omega)
      · exact ig
      · exact dc
      · exact dp
      · exact dh
      · exact dg
  | freeI n hn =>
    rw [free_inode_eq]
    have hlt : n < s.header.inode_num_tot := by
      by_contra hge
      rw [ip n (by omega)] at hn; cases hn
    constructor <;> dsimp only
    · have := card_setBits_clear hlt hn
      omega
    · intro q hq
      by_cases hqp : q = n
      · rw [if_pos hqp]
      · rw [if_neg hqp]; exact ip q hq
    · intro q hq
      have h2 : q ≠ n := by omega
      rw [if_neg h2]
      exact ih q (by omega)
    · exact ig
    · exact dc
    · exact dp
    · exact dh
    · exact dg
  | allocD =>
    by_cases hfree : s.header.data_block_num_free = 0
    · rw [alloc_data_eq_zero s hfree]
      exact ⟨ic, ip, ih, ig, dc, dp, dh, dg⟩
    · obtain ⟨p, hscan, hbm, hlt, hmin⟩ :=
        alloc_scan_least (s.header.inode_block_offset - s.header.data_block_bitmap_offset)
          dc dh dg hfree
      rw [alloc_data_eq s p hfree hscan]
      constructor <;> dsimp only
      · exact ic
      · exact ip
      · exact ih
      · exact ig
      · rw [card_setBits_set hlt hbm]; omega
      · intro q hq
        have hqp : q ≠ p := by omega
        rw [if_neg hqp]; exact dp q hq
      · intro q hq
        by_cases hqp : q = p
        · rw [if_pos hqp]
        · rw [if_neg hqp]
          rcases Nat.lt_or_ge q s.data_bitmap_min_pos with h | h
          · exact dh q h
          · exact hmin q (by omega)
      · exact dg
  | freeD bn hge hn =>
    rw [free_data_eq]
    have hlt : bn - s.header.data_block_offset < s.header.data_block_num_tot := by
      by_contra hge2
      rw [dp _ (by omega)] at hn; cases hn
    constructor <;> dsimp only
    · exact ic
    · exact ip
    · exact ih
    · exact ig
    · have := card_setBits_clear hlt hn
      omega
    · intro q hq
      by_cases hqp : q = bn - s.header.data_block_offset
      · rw [if_pos hqp]
      · rw [if_neg hqp]; exact dp q hq
    · intro q hq
      have h2 : q ≠ bn - s.header.data_block_offset := by omega
      rw [if_neg h2]
      exact dh q (by omega)
    · exact dg

/-! ## C5: allocator counter invariant -/

/-- C5: after any sequence of `alloc_inode`, `free_inode`, `alloc_data`
and `free_data` operations from a consistent state, `inode_num_free`
equals the number of clear bits among the `inode_num_tot` positions of
the inode bitmap and `data_block_num_free` equals the number of clear
bits among the `data_block_num_tot` positions of the data bitmap
(equivalently, each free counter plus the set-bit count equals the
total); and an operation that reports no space (`none`) changes
nothing — bitmap and superblock are updated together or not at all. -/
theorem c5_allocator_counters (s s' : FS) (hinv : AllocInv s)
    (hsteps : Relation.ReflTransGen AllocStep s s') :
    (s'.header.inode_num_free +
        (setBits s'.inodeBm s'.header.inode_num_tot).card = s'.header.inode_num_tot ∧
      s'.header.data_block_num_free +
        (setBits s'.dataBm s'.header.data_block_num_tot).card
          = s'.header.data_block_num_tot) ∧
    ((alloc_inode s').2 = none → (alloc_inode s').1 = s') ∧
    ((alloc_data s').2 = none → (alloc_data s').1 = s') := by
  have hinv' : AllocInv s' := by
    induction hsteps with
    | refl => exact hinv
    | tail hab hbc ih => exact allocInv_step ih hbc
  exact ⟨⟨hinv'.icount, hinv'.dcount⟩, alloc_inode_none s', alloc_data_none s'⟩

/-- The allocator invariant holds of the concrete witness state. -/
theorem W5_allocInv : AllocInv W5 := by
  refine ⟨by decide, ?_, ?_, by decide, by decide, ?_, ?_, by decide⟩
  · intro p _; rfl
  · intro p hp; exact absurd hp (Nat.not_lt_zero p)
  · intro p _; rfl
  · intro p hp; exact absurd hp (Nat.not_lt_zero p)

/-- Witness for C5: one inode allocation followed by one data allocation
on the concrete state `W5`. -/
theorem c5_allocator_counters_witness :
    ((alloc_data (alloc_inode W5).1).1.header.inode_num_free +
        (setBits (alloc_data (alloc_inode W5).1).1.inodeBm
          (alloc_data (alloc_inode W5).1).1.header.inode_num_tot).card
          = (alloc_data (alloc_inode W5).1).1.header.inode_num_tot ∧
      (alloc_data (alloc_inode W5).1).1.header.data_block_num_free +
        (setBits (alloc_data (alloc_inode W5).1).1.dataBm
          (alloc_data (alloc_inode W5).1).1.header.data_block_num_tot).card
          = (alloc_data (alloc_inode W5).1).1.header.data_block_num_tot) ∧
    ((alloc_inode (alloc_data (alloc_inode W5).1).1).2 = none →
      (alloc_inode (alloc_data (alloc_inode W5).1).1).1
        = (alloc_data (alloc_inode W5).1).1) ∧
    ((alloc_data (alloc_data (alloc_inode W5).1).1).2 = none →
      (alloc_data (alloc_data (alloc_inode W5).1).1).1
        = (alloc_data (alloc_inode W5).1).1) :=
  c5_allocator_counters W5 _ W5_allocInv
    (Relation.ReflTransGen.tail (Relation.ReflTransGen.single (AllocStep.allocI W5))
      (AllocStep.allocD (alloc_inode W5).1))

/-! ## C8: hint-independence of the first-zero search -/

/-- The hint discipline keeps every position below the hint allocated. -/
theorem hintReach_below_set {sb : Nat} {bm : Nat → Bool} {hint : Nat}
    (hreach : HintReach sb bm hint) : ∀ q, q < hint → bm q = true := by
  induction hreach with
  | init => intro q hq; exact absurd hq (Nat.not_lt_zero q)
  | alloc bm hint p hr hscan ih =>
    intro q hq
    obtain ⟨hp1, hp2, hp3⟩ := bitmapFirstZero_some_spec hscan
    show (if q = p then true else bm q) = true
    by_cases hqp : q = p
    · rw [if_pos hqp]
    · rw [if_neg hqp]
      rcases Nat.lt_or_ge q hint with h | h
      · exact ih q h
      · exact hp3 q (by omega) (by omega)
  | free bm hint p hr hbm ih =>
    intro q hq
    show (if q = p then false else bm q) = true
    have h1 : q < hint := by omega
    have h2 : q ≠ p := by omega
    rw [if_neg h2]
    exact ih q h1

/-- C8: for every bitmap-with-hint state reachable by the alloc/free
discipline (set the found bit and raise the hint to `max(hint, p)`;
clear a set bit and lower the hint to `min(hint, p)`), the hinted
first-zero search returns exactly what a search from position 0 would,
namely the lowest-indexed clear bit of the region; so the allocators
always allocate the lowest free index and correctness never depends on
the hint. -/
theorem c8_hint_independence (sb : Nat) (bm : Nat → Bool) (hint : Nat)
    (hreach : HintReach sb bm hint) :
    bitmapFirstZero bm sb hint = bitmapFirstZero bm sb 0 ∧
    (∀ p, bitmapFirstZero bm sb hint = some p →
      bm p = false ∧ ∀ q, q < p → bm q = true) := by
  have hhint := hintReach_below_set hreach
  have heq := @bitmapFirstZero_hint_eq bm sb hint hhint
  refine ⟨heq, fun p hp => ?_⟩
  rw [heq, bitmapFirstZero_zero_eq_some_iff] at hp
  exact ⟨hp.1, hp.2.2⟩

/-- Witness for C8: the chain alloc (bit 0), alloc (bit 1), free (bit 0)
over a one-block bitmap region. -/
theorem c8_hint_independence_witness :
    bitmapFirstZero w8bm3 1 (min (max (max 0 0) 1) 0) = bitmapFirstZero w8bm3 1 0 ∧
    (∀ p, bitmapFirstZero w8bm3 1 (min (max (max 0 0) 1) 0) = some p →
      w8bm3 p = false ∧ ∀ q, q < p → w8bm3 q = true) :=
  c8_hint_independence 1 w8bm3 (min (max (max 0 0) 1) 0)
    (HintReach.free w8bm2 (max (max 0 0) 1) 0
      (HintReach.alloc w8bm1 (max 0 0) 1
        (HintReach.alloc w8bm0 0 0 HintReach.init (by decide))
        (by decide))
      (by decide))

/-! ## Structure-preservation helpers -/

/-- `o < m` puts outer slot `o / P` strictly below `⌈m / P⌉`. -/
theorem div_lt_ceilP {o m : Nat} (h1 : o < m) :
    o / POINTER_PER_BLOCK < ceilP m := by
  simp only [ceilP, POINTER_PER_BLOCK, BLOCK_SIZE]
  omega

theorem updSlot_eq {f : Nat → Nat} {j v : Nat} : updSlot f j v j = v := by
  simp only [updSlot]
  exact if_pos True.intro

theorem updSlot_ne {f : Nat → Nat} {j v i : Nat} (h : ¬ i = j) :
    updSlot f j v i = f i := by
  simp only [updSlot]
  rw [if_neg h]

/-- `l2p` on the double-indirect tier. -/
theorem l2p_tier2 (s : FS) (ino : INode) {k : Nat}
    (h : 1 + POINTER_PER_BLOCK ≤ k) :
    l2p s ino k = s.blocks (s.blocks ino.iindirect_pointer
      ((k - (1 + POINTER_PER_BLOCK)) / POINTER_PER_BLOCK))
      ((k - (1 + POINTER_PER_BLOCK)) % POINTER_PER_BLOCK) := by
  simp only [l2p]
  rw [if_neg (by omega : ¬ k = 0), if_neg (by omega : ¬ k < 1 + POINTER_PER_BLOCK)]

/-- `l2p` on the indirect tier. -/
theorem l2p_tier1 (s : FS) (ino : INode) {k : Nat}
    (h1 : 1 ≤ k) (h2 : k < 1 + POINTER_PER_BLOCK) :
    l2p s ino k = s.blocks ino.indirect_pointer (k - 1) := by
  simp only [l2p]
  rw [if_neg (by omega : ¬ k = 0), if_pos h2]

theorem l2p_congr {s s' : FS} {ino : INode} {n : Nat}
    (hbl : ∀ b, isPtrBlock s ino n b → s'.blocks b = s.blocks b) :
    ∀ k, k < n → l2p s' ino k = l2p s ino k := by
  intro k hk
  simp only [l2p]
  by_cases h0 : k = 0
  · simp [h0]
  · rw [if_neg h0, if_neg h0]
    by_cases h1 : k < 1 + POINTER_PER_BLOCK
    · rw [if_pos h1, if_pos h1]
      rw [hbl ino.indirect_pointer (Or.inl ⟨by omega, rfl⟩)]
    · rw [if_neg h1, if_neg h1]
      have houter : s'.blocks ino.iindirect_pointer = s.blocks ino.iindirect_pointer :=
        hbl ino.iindirect_pointer (Or.inr ⟨by omega, Or.inl rfl⟩)
      rw [houter]
      have hi : (k - (1 + POINTER_PER_BLOCK)) / POINTER_PER_BLOCK <
          ceilP (n - 1 - POINTER_PER_BLOCK) :=
        div_lt_ceilP (by omega)
      rw [hbl (s.blocks ino.iindirect_pointer ((k - (1 + POINTER_PER_BLOCK)) / POINTER_PER_BLOCK))
        (Or.inr ⟨by omega, Or.inr ⟨_, hi, rfl⟩⟩)]

theorem isPtrBlock_congr {s s' : FS} {ino : INode} {n : Nat}
    (hbl : s'.blocks ino.iindirect_pointer = s.blocks ino.iindirect_pointer) :
    ∀ b, isPtrBlock s' ino n b ↔ isPtrBlock s ino n b := by
  intro b
  rw [isPtrBlock, isPtrBlock, hbl]

/-- Congruence for `StructOK`: only the bitmap bits of the owned blocks,
the data-region geometry fields, and the contents of the file's pointer
blocks matter. -/
theorem StructOK_congr {s s' : FS} {ino : INode} {n : Nat} (hS : StructOK s ino n)
    (hbm : ∀ b, isOwned s ino n b →
      s'.dataBm (b - s.header.data_block_offset) = true)
    (hh1 : s'.header.data_block_offset = s.header.data_block_offset)
    (hh2 : s'.header.data_block_num_tot = s.header.data_block_num_tot)
    (hbl : ∀ b, isPtrBlock s ino n b → s'.blocks b = s.blocks b) :
    StructOK s' ino n := by
  obtain ⟨hmax, hd0, hd1, hi0, hi1, hisl, hii0, hii1, hosl, hinsl,
    hmk, hinj, hdp, hII, hinNe, hinInj⟩ := hS
  have hl2p := l2p_congr hbl
  have houter : n ≤ 1 + POINTER_PER_BLOCK ∨
      s'.blocks ino.iindirect_pointer = s.blocks ino.iindirect_pointer := by
    rcases le_or_lt n (1 + POINTER_PER_BLOCK) with h | h
    · exact Or.inl h
    · exact Or.inr (hbl _ (Or.inr ⟨h, Or.inl rfl⟩))
  have hptr : ∀ b, isPtrBlock s' ino n b ↔ isPtrBlock s ino n b := by
    rcases houter with h | h
    · intro b
      rw [isPtrBlock, isPtrBlock]
      constructor
      · rintro (h1 | h2)
        · exact Or.inl h1
        · omega
      · rintro (h1 | h2)
        · exact Or.inl h1
        · omega
    · exact isPtrBlock_congr h
  have howned : ∀ b, isOwned s' ino n b ↔ isOwned s ino n b := by
    intro b
    rw [isOwned, isOwned]
    constructor
    · rintro (⟨k, hk, rfl⟩ | h)
      · exact Or.inl ⟨k, hk, hl2p k hk⟩
      · exact Or.inr ((hptr b).1 h)
    · rintro (⟨k, hk, rfl⟩ | h)
      · exact Or.inl ⟨k, hk, (hl2p k hk).symm⟩
      · exact Or.inr ((hptr b).2 h)
  have hindc : 1 < n → s'.blocks ino.indirect_pointer = s.blocks ino.indirect_pointer :=
    fun h => hbl _ (Or.inl ⟨h, rfl⟩)
  have hinnerc : 1 + POINTER_PER_BLOCK < n →
      ∀ i, i < ceilP (n - 1 - POINTER_PER_BLOCK) →
      s'.blocks (s.blocks ino.iindirect_pointer i) = s.blocks (s.blocks ino.iindirect_pointer i) :=
    fun h i hi => hbl _ (Or.inr ⟨h, Or.inr ⟨i, hi, rfl⟩⟩)
  refine ⟨hmax, hd0, hd1, hi0, hi1, ?_, hii0, hii1, ?_, ?_, ?_, ?_, ?_, hII, ?_, ?_⟩
  · intro h j hj
    rw [hindc h]
    exact hisl h j hj
  · intro h i hi
    rcases houter with h' | h'
    · omega
    · rw [h']
      exact hosl h i hi
  · intro h i hi j hj
    rcases houter with h' | h'
    · omega
    · rw [h', hinnerc h i hi]
      exact hinsl h i hi j hj
  · intro b hb
    rw [howned b] at hb
    rw [hh1, hh2]
    obtain ⟨m1, m2, -⟩ := hmk b hb
    exact ⟨m1, m2, hbm b hb⟩
  · intro k k' hk hk' he
    rw [hl2p k hk, hl2p k' hk'] at he
    exact hinj k k' hk hk' he
  · intro k hk hb
    rw [hl2p k hk, hptr _] at hb
    exact hdp k hk hb
  · intro h i hi
    rcases houter with h' | h'
    · omega
    · rw [h']
      exact hinNe h i hi
  · intro h i i' hi hi'
    rcases houter with h' | h'
    · omega
    · rw [h']
      exact hinInj h i i' hi hi'

/-- `commitInode` and `commitBlock` to a non-pointer block preserve the
structural invariant. -/
theorem StructOK_commitInode {s : FS} {ino : INode} {n no : Nat} {v : INode}
    (hS : StructOK s ino n) : StructOK (commitInode s no v) ino n :=
  StructOK_congr hS (fun b hb => (hS.hmarked b hb).2.2) rfl rfl (fun _ _ => rfl)

theorem StructOK_commitBlock {s : FS} {ino : INode} {n b : Nat} {f : Nat → Nat}
    (hS : StructOK s ino n) (hb : ¬ isPtrBlock s ino n b) :
    StructOK (commitBlock s b f) ino n := by
  refine StructOK_congr hS (fun b' hb' => (hS.hmarked b' hb').2.2) rfl rfl ?_
  intro b' hb'
  have : b' ≠ b := fun he => hb (he ▸ hb')
  simp [commitBlock, this]

/-- `StructOK` never reads the inode's `ctime`. -/
theorem StructOK_ctime {s : FS} {ino : INode} {n : Nat} (c : Nat)
    (hS : StructOK s ino n) : StructOK s { ino with ctime := c } n :=
  ⟨hS.hmax, hS.hdirect0, hS.hdirect1, hS.hind0, hS.hind1, hS.hindSlots,
   hS.hiind0, hS.hiind1, hS.houterSlots, hS.hinnerSlots, hS.hmarked,
   hS.hinj, hS.hdp, hS.hII, hS.hinnerNe, hS.hinnerInj⟩

/-- `StructOK` never reads the inode's `filesize`. -/
theorem StructOK_filesize {s : FS} {ino : INode} {n : Nat} (v : Nat)
    (hS : StructOK s ino n) : StructOK s { ino with filesize := v } n :=
  ⟨hS.hmax, hS.hdirect0, hS.hdirect1, hS.hind0, hS.hind1, hS.hindSlots,
   hS.hiind0, hS.hiind1, hS.houterSlots, hS.hinnerSlots, hS.hmarked,
   hS.hinj, hS.hdp, hS.hII, hS.hinnerNe, hS.hinnerInj⟩

/-- `StructOK` never reads the inode's `mtime`. -/
theorem StructOK_mtime {s : FS} {ino : INode} {n : Nat} (c : Nat)
    (hS : StructOK s ino n) : StructOK s { ino with mtime := c } n :=
  ⟨hS.hmax, hS.hdirect0, hS.hdirect1, hS.hind0, hS.hind1, hS.hindSlots,
   hS.hiind0, hS.hiind1, hS.houterSlots, hS.hinnerSlots, hS.hmarked,
   hS.hinj, hS.hdp, hS.hII, hS.hinnerNe, hS.hinnerInj⟩

/-- `AllocInv` only reads the header counters, bitmaps and hints. -/
theorem AllocInv_congr {s s' : FS} (hA : AllocInv s)
    (h1 : s'.header = s.header)
    (h2 : s'.inodeBm = s.inodeBm) (h3 : s'.dataBm = s.dataBm)
    (h4 : s'.inode_bitmap_min_pos = s.inode_bitmap_min_pos)
    (h5 : s'.data_bitmap_min_pos = s.data_bitmap_min_pos) : AllocInv s' := by
  obtain ⟨ic, ip, ih, ig, dc, dp, dh, dg⟩ := hA
  refine ⟨?_, ?_, ?_, ?_, ?_, ?_, ?_, ?_⟩ <;> simp only [h1, h2, h3, h4, h5]
  exacts [ic, ip, ih, ig, dc, dp, dh, dg]

theorem AllocInv_commitInode {s : FS} {no : Nat} {v : INode} (hA : AllocInv s) :
    AllocInv (commitInode s no v) :=
  AllocInv_congr hA rfl rfl rfl rfl rfl

theorem AllocInv_commitBlock {s : FS} {b : Nat} {f : Nat → Nat} (hA : AllocInv s) :
    AllocInv (commitBlock s b f) :=
  AllocInv_congr hA rfl rfl rfl rfl rfl

/-! ## `get_block_size` walks the canonical structure exactly -/

theorem firstZeroSlot_eq {f : Nat → Nat} {fuel i0 c : Nat}
    (hc : i0 ≤ c) (hcb : c ≤ i0 + fuel)
    (h : ∀ j, i0 ≤ j → j < i0 + fuel → (f j = 0 ↔ c ≤ j)) :
    firstZeroSlot f fuel i0 = c := by
  induction fuel generalizing i0 with
  | zero => simp only [firstZeroSlot]; omega
  | succ fuel ih =>
    simp only [firstZeroSlot]
    by_cases hf : f i0 = 0
    · rw [if_pos hf]
      have := (h i0 (Nat.le_refl _) (by omega)).1 hf
      omega
    · rw [if_neg hf]
      have hi : ¬ c ≤ i0 := fun hle => hf ((h i0 (Nat.le_refl _) (by omega)).2 hle)
      exact ih (by omega) (by omega) (fun j hj1 hj2 => h j (by omega) (by omega))

theorem countPrefixNonzero_eq {f : Nat → Nat} {bound c : Nat}
    (hcb : c ≤ bound) (h : ∀ j, j < bound → (f j = 0 ↔ c ≤ j)) :
    countPrefixNonzero f bound = c :=
  firstZeroSlot_eq (Nat.zero_le _) (by omega) (fun j _ hj => h j (by omega))

theorem ceilP_le {m : Nat} (hm : m ≤ POINTER_PER_BLOCK * (POINTER_PER_BLOCK - 1)) :
    ceilP m ≤ POINTER_PER_BLOCK - 1 := by
  simp only [ceilP, POINTER_PER_BLOCK, BLOCK_SIZE] at *
  omega

theorem ceilP_pos {m : Nat} (hm : 1 ≤ m) : 1 ≤ ceilP m := by
  simp only [ceilP, POINTER_PER_BLOCK, BLOCK_SIZE]
  omega

theorem ceilP_bounds {m : Nat} (hm : 1 ≤ m) :
    (ceilP m - 1) * POINTER_PER_BLOCK < m ∧ m ≤ ceilP m * POINTER_PER_BLOCK := by
  simp only [ceilP, POINTER_PER_BLOCK, BLOCK_SIZE]
  omega

theorem tier2_count_arith {n : Nat} (h2 : 1 + POINTER_PER_BLOCK < n)
    (hmax : n ≤ 1 + POINTER_PER_BLOCK + POINTER_PER_BLOCK * (POINTER_PER_BLOCK - 1)) :
    1 + POINTER_PER_BLOCK + (ceilP (n - 1 - POINTER_PER_BLOCK) - 1) * POINTER_PER_BLOCK +
      min (n - 1 - POINTER_PER_BLOCK -
        (ceilP (n - 1 - POINTER_PER_BLOCK) - 1) * POINTER_PER_BLOCK)
        POINTER_PER_BLOCK = n := by
  simp only [ceilP, POINTER_PER_BLOCK, BLOCK_SIZE] at h2 hmax ⊢
  omega

/-- On a canonically structured file, `get_block_size` returns the exact
block count. -/
theorem get_block_size_eq {s : FS} {no n : Nat} (hS : StructOK s (s.inodes no) n) :
    get_block_size s no = n := by
  obtain ⟨hmax, hd0, hd1, hi0, hi1, hisl, hii0, hii1, hosl, hinsl,
    -, -, -, -, -, -⟩ := hS
  simp only [get_block_size]
  by_cases h0 : n = 0
  · subst h0; rw [if_pos (hd0 rfl)]
  · rw [if_neg (hd1 (by omega))]
    by_cases h1 : n ≤ 1
    · rw [if_pos (hi0 h1)]
      omega
    · rw [if_neg (hi1 (by omega))]
      have hc1 : countPrefixNonzero (s.blocks (s.inodes no).indirect_pointer)
          POINTER_PER_BLOCK = min (n - 1) POINTER_PER_BLOCK :=
        countPrefixNonzero_eq (Nat.min_le_right _ _) (hisl (by omega))
      rw [hc1]
      by_cases h2 : n ≤ 1 + POINTER_PER_BLOCK
      · by_cases h3 : min (n - 1) POINTER_PER_BLOCK < POINTER_PER_BLOCK
        · rw [if_pos h3]
          omega
        · rw [if_neg h3, if_pos (hii0 h2)]
          omega
      · have hm : min (n - 1) POINTER_PER_BLOCK = POINTER_PER_BLOCK := by omega
        rw [hm, if_neg (Nat.lt_irrefl _), if_neg (hii1 (by omega))]
        have hc2 : countPrefixNonzero (s.blocks (s.inodes no).iindirect_pointer)
            POINTER_PER_BLOCK = ceilP (n - 1 - POINTER_PER_BLOCK) :=
          countPrefixNonzero_eq
            (by have := ceilP_le (m := n - 1 - POINTER_PER_BLOCK) (by omega); omega)
            (hosl (by omega))
        rw [hc2]
        have hcle : ceilP (n - 1 - POINTER_PER_BLOCK) ≤ POINTER_PER_BLOCK - 1 :=
          ceilP_le (by omega)
        have hcpos : 1 ≤ ceilP (n - 1 - POINTER_PER_BLOCK) := ceilP_pos (by omega)
        have hP : 0 < POINTER_PER_BLOCK := by decide
        rw [if_neg (by omega), if_neg (by omega)]
        have hb := ceilP_bounds (m := n - 1 - POINTER_PER_BLOCK) (by omega)
        have hlast : countPrefixNonzero
            (s.blocks (s.blocks (s.inodes no).iindirect_pointer
              (ceilP (n - 1 - POINTER_PER_BLOCK) - 1))) POINTER_PER_BLOCK
            = min (n - 1 - POINTER_PER_BLOCK -
                (ceilP (n - 1 - POINTER_PER_BLOCK) - 1) * POINTER_PER_BLOCK)
                POINTER_PER_BLOCK :=
          countPrefixNonzero_eq (Nat.min_le_right _ _)
            (hinsl (by omega) _ (by omega))
        rw [hlast]
        exact tier2_count_arith (by omega) hmax

/-! ## Grow/shrink step helpers -/

/-- Packaged success behaviour of `alloc_data` under the allocator
invariant: the least clear bit is found, set, and accounted. -/
theorem alloc_data_spec {s : FS} (hA : AllocInv s)
    (hfree : ¬ s.header.data_block_num_free = 0) :
    ∃ p, s.dataBm p = false ∧ p < s.header.data_block_num_tot ∧
      (∀ q, q < p → s.dataBm q = true) ∧
      alloc_data s = ({ s with
          dataBm := fun q => if q = p then true else s.dataBm q
          header := { s.header with
            data_block_num_free := s.header.data_block_num_free - 1 }
          data_bitmap_min_pos := max s.data_bitmap_min_pos p
          trace := (s.trace ++ [Ev.wDataBmSet p]) ++
            [Ev.wHeader { s.header with
              data_block_num_free := s.header.data_block_num_free - 1 }] },
        some (p + s.header.data_block_offset)) ∧
      AllocInv (alloc_data s).1 := by
  obtain ⟨p, hscan, hbm, hlt, hmin⟩ :=
    alloc_scan_least (s.header.inode_block_offset - s.header.data_block_bitmap_offset)
      hA.dcount hA.dhint hA.dgeom hfree
  exact ⟨p, hbm, hlt, hmin, alloc_data_eq s p hfree hscan,
    allocInv_step hA (AllocStep.allocD s)⟩

/-- A block whose bitmap bit is clear is not owned. -/
theorem fresh_not_owned {s : FS} {ino : INode} {n p : Nat} (hS : StructOK s ino n)
    (hbm : s.dataBm p = false) :
    ¬ isOwned s ino n (p + s.header.data_block_offset) := by
  intro hb
  obtain ⟨m1, m2, m3⟩ := hS.hmarked _ hb
  rw [Nat.add_sub_cancel] at m3
  rw [m3] at hbm
  cases hbm

/-- Setting then clearing a bit that was clear restores the bitmap. -/
theorem set_then_clear {bm : Nat → Bool} {p : Nat} (hp : bm p = false) :
    (fun q => if q = p then false else
      (fun r => if r = p then true else bm r) q) = bm := by
  funext q
  by_cases hq : q = p
  · rw [if_pos hq, hq, hp]
  · rw [if_neg hq]
    simp only [if_neg hq]

theorem sameCore_refl (s : FS) : sameCore s s :=
  ⟨rfl, rfl, rfl, rfl, rfl, rfl, rfl, rfl, rfl, rfl, rfl, rfl⟩

/-- Every index of the enumeration yields an owned block. -/
theorem ownedEnum_owned {s : FS} {ino : INode} {n : Nat} :
    ∀ t, t < ownedCount n → isOwned s ino n (ownedEnum s ino n t) := by
  intro t ht
  rw [ownedCount, ptrCost] at ht
  rw [ownedEnum]
  by_cases h1 : t < n
  · exact Or.inl ⟨t, h1, by rw [if_pos h1]⟩
  · rw [if_neg h1]
    by_cases h2 : t = n
    · rw [if_pos h2]
      have hn1 : 1 < n := by
        by_cases hb : 1 < n
        · exact hb
        · by_cases hb2 : 1 + POINTER_PER_BLOCK < n
          · omega
          · simp [hb, hb2] at ht
            omega
      exact Or.inr (Or.inl ⟨hn1, rfl⟩)
    · rw [if_neg h2]
      have hn2 : 1 + POINTER_PER_BLOCK < n := by
        by_cases hb2 : 1 + POINTER_PER_BLOCK < n
        · exact hb2
        · by_cases hb : 1 < n <;> simp [hb, hb2] at ht <;> omega
      have hn1 : 1 < n := by omega
      simp only [if_pos hn1, if_pos hn2] at ht
      by_cases h3 : t = n + 1
      · rw [if_pos h3]
        exact Or.inr (Or.inr ⟨hn2, Or.inl rfl⟩)
      · rw [if_neg h3]
        refine Or.inr (Or.inr ⟨hn2, Or.inr ⟨t - n - 2, by omega, rfl⟩⟩)

/-- The enumeration is injective below `ownedCount n`. -/
theorem ownedEnum_inj {s : FS} {ino : INode} {n : Nat} (hS : StructOK s ino n) :
    ∀ t, t < ownedCount n → ∀ t', t' < ownedCount n →
      ownedEnum s ino n t = ownedEnum s ino n t' → t = t' := by
  have key : ∀ t, t < ownedCount n → ∀ t', t' < ownedCount n → t < t' →
      ownedEnum s ino n t ≠ ownedEnum s ino n t' := by
    intro t ht t' ht' hlt he
    rw [ownedCount, ptrCost] at ht ht'
    have hbounds : ∀ u, u < n + ((if 1 < n then 1 else 0) +
        if 1 + POINTER_PER_BLOCK < n then 1 + ceilP (n - 1 - POINTER_PER_BLOCK) else 0) →
        ¬ u < n → (u = n → 1 < n) ∧ (u = n + 1 → 1 + POINTER_PER_BLOCK < n) ∧
          (n + 2 ≤ u → 1 + POINTER_PER_BLOCK < n ∧
            u - n - 2 < ceilP (n - 1 - POINTER_PER_BLOCK)) := by
      intro u hu hun
      by_cases hb : 1 < n <;> by_cases hb2 : 1 + POINTER_PER_BLOCK < n <;>
        simp [hb, hb2] at hu <;> refine ⟨fun _ => ?_, fun h' => ?_, fun h'' => ?_⟩ <;>
        first
          | omega
          | exact ⟨hb2, by omega⟩
          | exact absurd hb2 (by omega)
    rw [ownedEnum, ownedEnum] at he
    by_cases h1 : t < n
    · rw [if_pos h1] at he
      by_cases h1' : t' < n
      · rw [if_pos h1'] at he
        exact absurd (hS.hinj t t' h1 h1' he) (by omega)
      · rw [if_neg h1'] at he
        obtain ⟨c1, c2, c3⟩ := hbounds t' ht' h1'
        by_cases h2' : t' = n
        · rw [if_pos h2'] at he
          exact hS.hdp t h1 (he ▸ Or.inl ⟨c1 h2', rfl⟩)
        · rw [if_neg h2'] at he
          by_cases h3' : t' = n + 1
          · rw [if_pos h3'] at he
            exact hS.hdp t h1 (he ▸ Or.inr ⟨c2 h3', Or.inl rfl⟩)
          · rw [if_neg h3'] at he
            obtain ⟨c4, c5⟩ := c3 (by omega)
            exact hS.hdp t h1 (he ▸ Or.inr ⟨c4, Or.inr ⟨t' - n - 2, c5, rfl⟩⟩)
    · rw [if_neg h1] at he
      have h1' : ¬ t' < n := by omega
      rw [if_neg h1'] at he
      obtain ⟨c1, c2, c3⟩ := hbounds t ht h1
      obtain ⟨d1, d2, d3⟩ := hbounds t' ht' h1'
      by_cases h2 : t = n
      · rw [if_pos h2] at he
        by_cases h3' : t' = n + 1
        · rw [if_neg (by omega), if_pos h3'] at he
          exact hS.hII (c1 h2) (d2 h3') he
        · rw [if_neg (by omega), if_neg h3'] at he
          obtain ⟨d4, d5⟩ := d3 (by omega)
          exact ((hS.hinnerNe d4 _ d5).1 he.symm)
      · rw [if_neg h2] at he
        by_cases h3 : t = n + 1
        · rw [if_pos h3] at he
          have h3' : ¬ t' = n + 1 := by omega
          rw [if_neg (by omega), if_neg h3'] at he
          obtain ⟨d4, d5⟩ := d3 (by omega)
          exact ((hS.hinnerNe d4 _ d5).2 he.symm)
        · rw [if_neg h3] at he
          rw [if_neg (by omega), if_neg (by omega)] at he
          obtain ⟨c4, c5⟩ := c3 (by omega)
          obtain ⟨d4, d5⟩ := d3 (by omega)
          have := hS.hinnerInj c4 _ _ c5 d5 he
          omega
  intro t ht t' ht' he
  rcases Nat.lt_trichotomy t t' with h | h | h
  · exact absurd he (key t ht t' ht' h)
  · exact h
  · exact absurd he.symm (key t' ht' t ht h)

/-- A canonical file's owned blocks are pairwise-distinct marked bits,
so their number is bounded by the data-block total. -/
theorem structOK_count_le {s : FS} {ino : INode} {n : Nat} (hS : StructOK s ino n) :
    ownedCount n ≤ s.header.data_block_num_tot := by
  classical
  have hmaps : ∀ t ∈ Finset.range (ownedCount n),
      ownedEnum s ino n t - s.header.data_block_offset ∈
        Finset.range s.header.data_block_num_tot := by
    intro t ht
    rw [Finset.mem_range] at ht ⊢
    exact (hS.hmarked _ (ownedEnum_owned t ht)).2.1
  have hinj : Set.InjOn (fun t => ownedEnum s ino n t - s.header.data_block_offset)
      (Finset.range (ownedCount n)) := by
    intro t ht t' ht' he
    rw [Finset.coe_range, Set.mem_Iio] at ht ht'
    have h1 := (hS.hmarked _ (ownedEnum_owned t ht)).1
    have h2 := (hS.hmarked _ (ownedEnum_owned t' ht')).1
    exact ownedEnum_inj hS t ht t' ht' (by dsimp only at he; omega)
  have := Finset.card_le_card_of_injOn _ hmaps hinj
  simpa using this

/-- Field-level description of a successful `alloc_data`. -/
theorem alloc_data_fields {s s1 : FS} {r : Option Nat} (hA : AllocInv s)
    (hfree : ¬ s.header.data_block_num_free = 0)
    (hp : alloc_data s = (s1, r)) :
    ∃ p, s.dataBm p = false ∧ p < s.header.data_block_num_tot ∧
      (∀ q, q < p → s.dataBm q = true) ∧
      r = some (p + s.header.data_block_offset) ∧ AllocInv s1 ∧
      s1.dataBm = (fun q => if q = p then true else s.dataBm q) ∧
      s1.header = { s.header with
        data_block_num_free := s.header.data_block_num_free - 1 } ∧
      s1.blocks = s.blocks ∧ s1.inodes = s.inodes ∧ s1.inodeBm = s.inodeBm ∧
      s1.inode_bitmap_min_pos = s.inode_bitmap_min_pos ∧ s1.clock = s.clock := by
  obtain ⟨p, hbm, hlt, hmin, heq, hAd⟩ := alloc_data_spec hA hfree
  rw [hp] at heq hAd
  injection heq with h1 h2
  subst h1
  exact ⟨p, hbm, hlt, hmin, h2, hAd, rfl, rfl, rfl, rfl, rfl, rfl, rfl⟩

/-- Field-level description of `free_data`. -/
theorem free_data_fields (s : FS) (datano : Nat) :
    (free_data s datano).dataBm = (fun q =>
      if q = datano - s.header.data_block_offset then false else s.dataBm q) ∧
    (free_data s datano).header = { s.header with
      data_block_num_free := s.header.data_block_num_free + 1 } ∧
    (free_data s datano).blocks = s.blocks ∧
    (free_data s datano).inodes = s.inodes ∧
    (free_data s datano).inodeBm = s.inodeBm ∧
    (free_data s datano).inode_bitmap_min_pos = s.inode_bitmap_min_pos ∧
    (free_data s datano).clock = s.clock :=
  ⟨rfl, rfl, rfl, rfl, rfl, rfl, rfl⟩

theorem sameButFree_refl (s : FS) : sameButFree s s s.header.data_block_num_free :=
  ⟨rfl, rfl, rfl, rfl, rfl⟩

theorem sameButFree_trans {s s' s'' : FS} {m m' : Nat}
    (h : sameButFree s s' m) (h' : sameButFree s' s'' m') : sameButFree s s'' m' := by
  obtain ⟨a1, a2, a3, a4, a5⟩ := h
  obtain ⟨b1, b2, b3, b4, b5⟩ := h'
  refine ⟨?_, b2.trans a2, b3.trans a3, b4.trans a4, b5.trans a5⟩
  rw [b1, a1]

theorem sameButFree_commitBlock {s s' : FS} {m : Nat} (h : sameButFree s s' m)
    (b : Nat) (f : Nat → Nat) : sameButFree s (commitBlock s' b f) m :=
  ⟨h.1, h.2.1, h.2.2.1, h.2.2.2.1, h.2.2.2.2⟩

theorem sameButFree_free_data {s s' : FS} {m : Nat} (h : sameButFree s s' m)
    (bn : Nat) : sameButFree s (free_data s' bn) (m + 1) := by
  obtain ⟨a1, a2, a3, a4, a5⟩ := h
  refine ⟨?_, a2, a3, a4, a5⟩
  show { s'.header with
    data_block_num_free := s'.header.data_block_num_free + 1 } = _
  rw [a1]

/-- The header-side consequences of `sameButFree`. -/
theorem sameButFree_core {s s' : FS} {m : Nat} (h : sameButFree s s' m) :
    sameCore s s' ∧ s'.header.data_block_num_free = m ∧
    s'.header.data_block_offset = s.header.data_block_offset ∧
    s'.header.data_block_num_tot = s.header.data_block_num_tot := by
  obtain ⟨a1, a2, a3, a4, a5⟩ := h
  refine ⟨⟨a2, a3, a4, ?_, ?_, ?_, ?_, ?_, ?_, ?_, ?_, a5⟩, ?_, ?_, ?_⟩ <;> rw [a1]

/-- An inode whose indirect pointer is already zero is unchanged by
resetting it. -/
theorem INode_reset_ind {ino : INode} (h : ino.indirect_pointer = 0) :
    ({ ino with indirect_pointer := 0 } : INode) = ino := by
  cases ino
  simp only at h
  simp [h]

/-- An inode whose double-indirect pointer is already zero is unchanged
by resetting it. -/
theorem INode_reset_iind {ino : INode} (h : ino.iindirect_pointer = 0) :
    ({ ino with iindirect_pointer := 0 } : INode) = ino := by
  cases ino
  simp only at h
  simp [h]

theorem ownedCount_zero : ownedCount 0 = 0 := by decide

theorem ownedCount_one : ownedCount 1 = 1 := by decide

theorem ownedCount_two : ownedCount 2 = 3 := by decide

/-- Owned-block delta of an indirect-tier step that keeps the indirect
block. -/
theorem ownedCount_succ_t1 {n : Nat} (h3 : 3 ≤ n)
    (h2 : n ≤ 1 + POINTER_PER_BLOCK) :
    ownedCount n = ownedCount (n - 1) + 1 := by
  simp only [ownedCount, ptrCost, ceilP, POINTER_PER_BLOCK, BLOCK_SIZE] at h2 ⊢
  rw [if_pos (by omega : 1 < n), if_neg (by omega : ¬ 1 + 1024 < n),
    if_pos (by omega : 1 < n - 1), if_neg (by omega : ¬ 1 + 1024 < n - 1)]
  omega

/-- Owned-block delta of a mid-inner tier-2 grow step. -/
theorem ownedCount_succ_t2c {n : Nat} (hn : 1 + POINTER_PER_BLOCK ≤ n)
    (hio : ¬ (n - (1 + POINTER_PER_BLOCK)) % POINTER_PER_BLOCK = 0) :
    ownedCount (n + 1) = ownedCount n + 1 := by
  simp only [ownedCount, ptrCost, ceilP, POINTER_PER_BLOCK, BLOCK_SIZE] at hio hn ⊢
  rw [if_pos (by omega : 1 < n + 1), if_pos (by omega : 1 + 1024 < n + 1),
    if_pos (by omega : 1 < n), if_pos (by omega : 1 + 1024 < n)]
  omega

/-- Owned-block delta of an inner-creating tier-2 grow step. -/
theorem ownedCount_succ_t2b {n : Nat} (hgt : 1 + POINTER_PER_BLOCK < n)
    (hio : (n - (1 + POINTER_PER_BLOCK)) % POINTER_PER_BLOCK = 0) :
    ownedCount (n + 1) = ownedCount n + 2 := by
  simp only [ownedCount, ptrCost, ceilP, POINTER_PER_BLOCK, BLOCK_SIZE] at hio hgt ⊢
  rw [if_pos (by omega : 1 < n + 1), if_pos (by omega : 1 + 1024 < n + 1),
    if_pos (by omega : 1 < n), if_pos (by omega : 1 + 1024 < n)]
  omega

/-- Owned-block delta of the first double-indirect grow step. -/
theorem ownedCount_succ_t2a :
    ownedCount (1 + POINTER_PER_BLOCK + 1) =
      ownedCount (1 + POINTER_PER_BLOCK) + 3 := by decide

/-- The block count never reaches the structural capacity bound while it
fits the device. -/
theorem structOK_lt_cap {s : FS} {ino : INode} {n : Nat} (hS : StructOK s ino n)
    (hn : 1 ≤ n)
    (hcap : s.header.data_block_num_tot ≤ 1 + POINTER_PER_BLOCK +
      POINTER_PER_BLOCK * (POINTER_PER_BLOCK - 1)) :
    n + 1 ≤ 1 + POINTER_PER_BLOCK + POINTER_PER_BLOCK * (POINTER_PER_BLOCK - 1) := by
  have h2 := structOK_count_le hS
  by_cases h1 : 1 < n
  · have h3 : n + 1 ≤ ownedCount n := by
      simp only [ownedCount, ptrCost]
      rw [if_pos h1]
      omega
    omega
  · have h4 : (2:Nat) ≤ 1 + POINTER_PER_BLOCK +
        POINTER_PER_BLOCK * (POINTER_PER_BLOCK - 1) := by decide
    omega

/-- The direct-tier grow step (`block_now = 0`). -/
theorem growStep_spec0 {s : FS} {ino : INode} (h : StepInv s ino 0) :
    (∃ s' ino', growStep s ino 0 = (s', ino', true) ∧ growOkPost s s' ino ino' 0) ∨
    (∃ s', growStep s ino 0 = (s', ino, false) ∧ growFailPost s s' ino 0) := by
  obtain ⟨hA, hS, hcap, hdbo⟩ := h
  by_cases hfree : s.header.data_block_num_free = 0
  · refine Or.inr ⟨s, ?_, ⟨hA, hS, hcap, hdbo⟩, rfl, rfl, sameCore_refl s⟩
    simp only [growStep]
    rw [if_pos (by omega : (0:Nat) < 1), alloc_data_eq_zero s hfree]
  · obtain ⟨p, hbm, hlt, hmin, heq, hAd⟩ := alloc_data_spec hA hfree
    refine Or.inl ⟨(alloc_data s).1,
      { ino with direct_pointer := p + s.header.data_block_offset }, ?_, ?_⟩
    · simp only [growStep]
      rw [if_pos (by omega : (0:Nat) < 1), heq]
    · rw [heq] at hAd ⊢
      refine ⟨⟨hAd, ?_, hcap, hdbo⟩, ?_, ?_, rfl, rfl, rfl, rfl, rfl⟩
      · refine ⟨by omega, fun h1 => absurd h1 (by omega), fun _ => by dsimp only; omega,
          fun _ => ?_, fun h1 => absurd h1 (by omega), fun h1 => absurd h1 (by omega),
          fun _ => ?_, fun h1 => absurd h1 (by omega), fun h1 => absurd h1 (by omega),
          fun h1 => absurd h1 (by omega), ?_, ?_, ?_,
          fun h1 => absurd h1 (by omega), fun h1 => absurd h1 (by omega),
          fun h1 => absurd h1 (by omega)⟩
        · exact hS.hind0 (by omega)
        · exact hS.hiind0 (by omega)
        · rintro b (⟨k, hk, rfl⟩ | hptr)
          · have hk0 : k = 0 := by omega
            subst hk0
            dsimp only [l2p]
            rw [if_pos rfl]
            refine ⟨by omega, by omega, ?_⟩
            rw [Nat.add_sub_cancel, if_pos rfl]
          · rcases hptr with ⟨h1, -⟩ | ⟨h1, -⟩ <;> exact absurd h1 (by omega)
        · intro k k' hk hk' _; omega
        · intro k hk hptr
          rcases hptr with ⟨h1, -⟩ | ⟨h1, -⟩ <;> exact absurd h1 (by omega)
      · dsimp only
        rw [ownedCount_zero, ownedCount_one]
        omega
      · exact ⟨rfl, rfl, rfl, rfl, rfl, rfl, rfl, rfl, rfl, rfl, rfl, rfl⟩

/-- Structure extension for a double-indirect grow step that lands in
the middle of an existing inner pointer block (`id_offset ≠ 0`): only
the current inner block gains a slot. -/
theorem StructOK_grow2_tail {s s' : FS} {ino : INode} {n D : Nat}
    (hS : StructOK s ino n)
    (hn : 1 + POINTER_PER_BLOCK ≤ n)
    (hio : ¬ (n - (1 + POINTER_PER_BLOCK)) % POINTER_PER_BLOCK = 0)
    (hmax1 : n + 1 ≤ 1 + POINTER_PER_BLOCK +
      POINTER_PER_BLOCK * (POINTER_PER_BLOCK - 1))
    (hdbo : 1 ≤ s.header.data_block_offset)
    (hDfresh : ¬ isOwned s ino n D)
    (hgD : s.header.data_block_offset ≤ D ∧
      D - s.header.data_block_offset < s.header.data_block_num_tot)
    (hbmD : s'.dataBm (D - s.header.data_block_offset) = true)
    (hbmMono : ∀ q, s.dataBm q = true → s'.dataBm q = true)
    (ch1 : s'.header.data_block_offset = s.header.data_block_offset)
    (ch2 : s'.header.data_block_num_tot = s.header.data_block_num_tot)
    (hbl' : s'.blocks = fun b =>
      if b = s.blocks ino.iindirect_pointer
          ((n - (1 + POINTER_PER_BLOCK)) / POINTER_PER_BLOCK) then
        updSlot (s.blocks (s.blocks ino.iindirect_pointer
            ((n - (1 + POINTER_PER_BLOCK)) / POINTER_PER_BLOCK)))
          ((n - (1 + POINTER_PER_BLOCK)) % POINTER_PER_BLOCK) D
      else s.blocks b) :
    StructOK s' ino (n + 1) := by
  have hgt : 1 + POINTER_PER_BLOCK < n := by
    rcases Nat.lt_or_ge (1 + POINTER_PER_BLOCK) n with h | h
    · exact h
    · exfalso
      apply hio
      have he : n = 1 + POINTER_PER_BLOCK := by omega
      rw [he]
      simp only [Nat.sub_self, Nat.zero_mod]
  have hidx : (n - (1 + POINTER_PER_BLOCK)) / POINTER_PER_BLOCK <
      ceilP (n - 1 - POINTER_PER_BLOCK) := by
    simp only [ceilP, POINTER_PER_BLOCK, BLOCK_SIZE] at hio hgt ⊢
    omega
  have hIN : isPtrBlock s ino n (s.blocks ino.iindirect_pointer
      ((n - (1 + POINTER_PER_BLOCK)) / POINTER_PER_BLOCK)) :=
    Or.inr ⟨hgt, Or.inr ⟨_, hidx, rfl⟩⟩
  have hNne := hS.hinnerNe hgt _ hidx
  have hneInd : ¬ ino.indirect_pointer = s.blocks ino.iindirect_pointer
      ((n - (1 + POINTER_PER_BLOCK)) / POINTER_PER_BLOCK) :=
    fun he => hNne.1 he.symm
  have hneIind : ¬ ino.iindirect_pointer = s.blocks ino.iindirect_pointer
      ((n - (1 + POINTER_PER_BLOCK)) / POINTER_PER_BLOCK) :=
    fun he => hNne.2 he.symm
  have hbN : ∀ j, s'.blocks (s.blocks ino.iindirect_pointer
      ((n - (1 + POINTER_PER_BLOCK)) / POINTER_PER_BLOCK)) j =
      updSlot (s.blocks (s.blocks ino.iindirect_pointer
        ((n - (1 + POINTER_PER_BLOCK)) / POINTER_PER_BLOCK)))
        ((n - (1 + POINTER_PER_BLOCK)) % POINTER_PER_BLOCK) D j := by
    intro j
    rw [hbl']
    show (if s.blocks ino.iindirect_pointer
        ((n - (1 + POINTER_PER_BLOCK)) / POINTER_PER_BLOCK) =
        s.blocks ino.iindirect_pointer
        ((n - (1 + POINTER_PER_BLOCK)) / POINTER_PER_BLOCK) then
      updSlot (s.blocks (s.blocks ino.iindirect_pointer
          ((n - (1 + POINTER_PER_BLOCK)) / POINTER_PER_BLOCK)))
        ((n - (1 + POINTER_PER_BLOCK)) % POINTER_PER_BLOCK) D
      else s.blocks (s.blocks ino.iindirect_pointer
        ((n - (1 + POINTER_PER_BLOCK)) / POINTER_PER_BLOCK))) j = _
    rw [if_pos rfl]
  have hbOther : ∀ b, ¬ b = s.blocks ino.iindirect_pointer
      ((n - (1 + POINTER_PER_BLOCK)) / POINTER_PER_BLOCK) →
      s'.blocks b = s.blocks b := by
    intro b hb
    rw [hbl']
    show (if b = s.blocks ino.iindirect_pointer
        ((n - (1 + POINTER_PER_BLOCK)) / POINTER_PER_BLOCK) then
      updSlot (s.blocks (s.blocks ino.iindirect_pointer
          ((n - (1 + POINTER_PER_BLOCK)) / POINTER_PER_BLOCK)))
        ((n - (1 + POINTER_PER_BLOCK)) % POINTER_PER_BLOCK) D
      else s.blocks b) = s.blocks b
    rw [if_neg hb]
  have hl2pOld : ∀ k, k < n → l2p s' ino k = l2p s ino k := by
    intro k hk
    by_cases hk2 : k < 1 + POINTER_PER_BLOCK
    · by_cases h0 : k = 0
      · simp only [l2p, h0]
        rw [if_pos True.intro, if_pos True.intro]
      · rw [l2p_tier1 s' ino (by omega) hk2, l2p_tier1 s ino (by omega) hk2,
          hbOther ino.indirect_pointer hneInd]
    · rw [l2p_tier2 s' ino (by omega), l2p_tier2 s ino (by omega),
        hbOther ino.iindirect_pointer hneIind]
      by_cases hq : (k - (1 + POINTER_PER_BLOCK)) / POINTER_PER_BLOCK =
          (n - (1 + POINTER_PER_BLOCK)) / POINTER_PER_BLOCK
      · rw [hq, hbN]
        rw [updSlot_ne]
        simp only [POINTER_PER_BLOCK, BLOCK_SIZE] at hq hk2 ⊢
        omega
      · rw [hbOther (s.blocks ino.iindirect_pointer
          ((k - (1 + POINTER_PER_BLOCK)) / POINTER_PER_BLOCK))
          (fun he => hq (hS.hinnerInj hgt _ _ (div_lt_ceilP (by omega)) hidx he))]
  have hl2pN : l2p s' ino n = D := by
    rw [l2p_tier2 s' ino (by omega), hbOther ino.iindirect_pointer hneIind, hbN,
      updSlot_eq]
  have hceilA : ceilP (n - 1 - POINTER_PER_BLOCK) =
      (n - (1 + POINTER_PER_BLOCK)) / POINTER_PER_BLOCK + 1 := by
    simp only [ceilP, POINTER_PER_BLOCK, BLOCK_SIZE] at hio ⊢
    omega
  have hceilB : ceilP (n + 1 - 1 - POINTER_PER_BLOCK) =
      (n - (1 + POINTER_PER_BLOCK)) / POINTER_PER_BLOCK + 1 := by
    simp only [ceilP, POINTER_PER_BLOCK, BLOCK_SIZE] at hio hgt ⊢
    omega
  have hptr' : ∀ b, isPtrBlock s' ino (n + 1) b → isPtrBlock s ino n b := by
    rintro b (⟨-, rfl⟩ | ⟨-, rfl | ⟨i, hi, rfl⟩⟩)
    · exact Or.inl ⟨by omega, rfl⟩
    · exact Or.inr ⟨hgt, Or.inl rfl⟩
    · rw [hbOther ino.iindirect_pointer hneIind]
      refine Or.inr ⟨hgt, Or.inr ⟨i, ?_, rfl⟩⟩
      rw [hceilB] at hi
      rw [hceilA]
      exact hi
  have hD0 : ¬ D = 0 := by omega
  refine ⟨hmax1, fun h1 => absurd h1 (by omega), fun _ => hS.hdirect1 (by omega),
    fun h1 => absurd h1 (by omega), fun _ => hS.hind1 (by omega), ?_,
    fun h1 => absurd h1 (by omega), fun _ => hS.hiind1 hgt,
    ?_, ?_, ?_, ?_, ?_, fun _ _ => hS.hII (by omega) hgt, ?_, ?_⟩
  · -- hindSlots
    intro _ j hj
    rw [hbOther ino.indirect_pointer hneInd, hS.hindSlots (by omega) j hj]
    omega
  · -- houterSlots
    intro _ i hi
    rw [hbOther ino.iindirect_pointer hneIind, hS.houterSlots hgt i hi, hceilA,
      hceilB]
  · -- hinnerSlots
    intro _ i hi j hj
    rw [hceilB] at hi
    rw [hbOther ino.iindirect_pointer hneIind]
    by_cases hiq : i = (n - (1 + POINTER_PER_BLOCK)) / POINTER_PER_BLOCK
    · subst hiq
      rw [hbN j]
      by_cases hjio : j = (n - (1 + POINTER_PER_BLOCK)) % POINTER_PER_BLOCK
      · subst hjio
        rw [updSlot_eq]
        refine iff_of_false hD0 ?_
        simp only [POINTER_PER_BLOCK, BLOCK_SIZE]
        simp only [POINTER_PER_BLOCK, BLOCK_SIZE] at hgt
        omega
      · rw [updSlot_ne hjio, hS.hinnerSlots hgt _ (by rw [hceilA]; omega) j hj]
        simp only [POINTER_PER_BLOCK, BLOCK_SIZE] at hjio hj ⊢
        omega
    · rw [hbOther (s.blocks ino.iindirect_pointer i)
        (fun he => hiq (hS.hinnerInj hgt _ _ (by rw [hceilA]; omega) hidx he)),
        hS.hinnerSlots hgt i (by rw [hceilA]; omega) j hj]
      simp only [POINTER_PER_BLOCK, BLOCK_SIZE] at hiq hi hj ⊢
      omega
  · -- hmarked
    rintro b (⟨k, hk, rfl⟩ | hptr)
    · by_cases hkn : k = n
      · subst hkn
        rw [hl2pN, ch1, ch2]
        exact ⟨hgD.1, hgD.2, hbmD⟩
      · rw [hl2pOld k (by omega), ch1, ch2]
        obtain ⟨m1, m2, m3⟩ := hS.hmarked _ (Or.inl ⟨k, by omega, rfl⟩)
        exact ⟨m1, m2, hbmMono _ m3⟩
    · rw [ch1, ch2]
      obtain ⟨m1, m2, m3⟩ := hS.hmarked _ (Or.inr (hptr' _ hptr))
      exact ⟨m1, m2, hbmMono _ m3⟩
  · -- hinj
    intro k k' hk hk' he
    by_cases hkn : k = n <;> by_cases hkn' : k' = n
    · omega
    · exfalso
      subst hkn
      rw [hl2pN, hl2pOld k' (by omega)] at he
      exact hDfresh (Or.inl ⟨k', by omega, he⟩)
    · exfalso
      subst hkn'
      rw [hl2pN, hl2pOld k (by omega)] at he
      exact hDfresh (Or.inl ⟨k, by omega, he.symm⟩)
    · rw [hl2pOld k (by omega), hl2pOld k' (by omega)] at he
      exact hS.hinj k k' (by omega) (by omega) he
  · -- hdp
    intro k hk hptr
    by_cases hkn : k = n
    · rw [hkn, hl2pN] at hptr
      exact hDfresh (Or.inr (hptr' _ hptr))
    · rw [hl2pOld k (by omega)] at hptr
      exact hS.hdp k (by omega) (hptr' _ hptr)
  · -- hinnerNe
    intro _ i hi
    rw [hceilB] at hi
    rw [hbOther ino.iindirect_pointer hneIind]
    exact hS.hinnerNe hgt i (by rw [hceilA]; omega)
  · -- hinnerInj
    intro _ i i' hi hi'
    rw [hceilB] at hi hi'
    rw [hbOther ino.iindirect_pointer hneIind]
    exact hS.hinnerInj hgt i i' (by rw [hceilA]; omega) (by rw [hceilA]; omega)

/-- Structure extension for a double-indirect grow step that starts a
new inner pointer block below an existing outer block
(`id_offset = 0`, `id_ind > 0`): a fresh zeroed inner block `N` is hung
into the outer slot and receives the fresh data block `D` at slot 0. -/
theorem StructOK_grow2_mid {s s' : FS} {ino : INode} {n N D : Nat}
    (hS : StructOK s ino n)
    (hgt : 1 + POINTER_PER_BLOCK < n)
    (hio : (n - (1 + POINTER_PER_BLOCK)) % POINTER_PER_BLOCK = 0)
    (hmax1 : n + 1 ≤ 1 + POINTER_PER_BLOCK +
      POINTER_PER_BLOCK * (POINTER_PER_BLOCK - 1))
    (hdbo : 1 ≤ s.header.data_block_offset)
    (hNfresh : ¬ isOwned s ino n N) (hDfresh : ¬ isOwned s ino n D)
    (hDN : ¬ D = N)
    (hgN : s.header.data_block_offset ≤ N ∧
      N - s.header.data_block_offset < s.header.data_block_num_tot)
    (hgD : s.header.data_block_offset ≤ D ∧
      D - s.header.data_block_offset < s.header.data_block_num_tot)
    (hbmN : s'.dataBm (N - s.header.data_block_offset) = true)
    (hbmD : s'.dataBm (D - s.header.data_block_offset) = true)
    (hbmMono : ∀ q, s.dataBm q = true → s'.dataBm q = true)
    (ch1 : s'.header.data_block_offset = s.header.data_block_offset)
    (ch2 : s'.header.data_block_num_tot = s.header.data_block_num_tot)
    (hbl' : s'.blocks = fun b =>
      if b = N then updSlot zeroBlock 0 D
      else if b = ino.iindirect_pointer then
        updSlot (s.blocks ino.iindirect_pointer)
          ((n - (1 + POINTER_PER_BLOCK)) / POINTER_PER_BLOCK) N
      else s.blocks b) :
    StructOK s' ino (n + 1) := by
  have hceilA : ceilP (n - 1 - POINTER_PER_BLOCK) =
      (n - (1 + POINTER_PER_BLOCK)) / POINTER_PER_BLOCK := by
    simp only [ceilP, POINTER_PER_BLOCK, BLOCK_SIZE] at hio hgt ⊢
    omega
  have hceilB : ceilP (n + 1 - 1 - POINTER_PER_BLOCK) =
      (n - (1 + POINTER_PER_BLOCK)) / POINTER_PER_BLOCK + 1 := by
    simp only [ceilP, POINTER_PER_BLOCK, BLOCK_SIZE] at hio hgt ⊢
    omega
  have hNiind : ¬ N = ino.iindirect_pointer :=
    fun he => hNfresh (Or.inr (Or.inr ⟨hgt, Or.inl he⟩))
  have hNind : ¬ N = ino.indirect_pointer :=
    fun he => hNfresh (Or.inr (Or.inl ⟨by omega, he⟩))
  have hbN : ∀ j, s'.blocks N j = updSlot zeroBlock 0 D j := by
    intro j
    rw [hbl']
    show (if N = N then updSlot zeroBlock 0 D
      else if N = ino.iindirect_pointer then
        updSlot (s.blocks ino.iindirect_pointer)
          ((n - (1 + POINTER_PER_BLOCK)) / POINTER_PER_BLOCK) N
      else s.blocks N) j = _
    rw [if_pos rfl]
  have hbO : ∀ i, s'.blocks ino.iindirect_pointer i =
      updSlot (s.blocks ino.iindirect_pointer)
        ((n - (1 + POINTER_PER_BLOCK)) / POINTER_PER_BLOCK) N i := by
    intro i
    rw [hbl']
    show (if ino.iindirect_pointer = N then updSlot zeroBlock 0 D
      else if ino.iindirect_pointer = ino.iindirect_pointer then
        updSlot (s.blocks ino.iindirect_pointer)
          ((n - (1 + POINTER_PER_BLOCK)) / POINTER_PER_BLOCK) N
      else s.blocks ino.iindirect_pointer) i = _
    rw [if_neg (fun he => hNiind he.symm), if_pos rfl]
  have hbOther : ∀ b, ¬ b = N → ¬ b = ino.iindirect_pointer →
      s'.blocks b = s.blocks b := by
    intro b hb1 hb2
    rw [hbl']
    show (if b = N then updSlot zeroBlock 0 D
      else if b = ino.iindirect_pointer then
        updSlot (s.blocks ino.iindirect_pointer)
          ((n - (1 + POINTER_PER_BLOCK)) / POINTER_PER_BLOCK) N
      else s.blocks b) = s.blocks b
    rw [if_neg hb1, if_neg hb2]
  have hInnOwned : ∀ i, i < (n - (1 + POINTER_PER_BLOCK)) / POINTER_PER_BLOCK →
      isPtrBlock s ino n (s.blocks ino.iindirect_pointer i) := by
    intro i hi
    exact Or.inr ⟨hgt, Or.inr ⟨i, by rw [hceilA]; exact hi, rfl⟩⟩
  have hInnNeN : ∀ i, i < (n - (1 + POINTER_PER_BLOCK)) / POINTER_PER_BLOCK →
      ¬ s.blocks ino.iindirect_pointer i = N := by
    intro i hi he
    exact hNfresh (he ▸ Or.inr (hInnOwned i hi))
  have hIndIind : ino.indirect_pointer ≠ ino.iindirect_pointer :=
    hS.hII (by omega) hgt
  have hl2pOld : ∀ k, k < n → l2p s' ino k = l2p s ino k := by
    intro k hk
    by_cases hk2 : k < 1 + POINTER_PER_BLOCK
    · by_cases h0 : k = 0
      · simp only [l2p, h0]
        rw [if_pos True.intro, if_pos True.intro]
      · rw [l2p_tier1 s' ino (by omega) hk2, l2p_tier1 s ino (by omega) hk2,
          hbOther ino.indirect_pointer (fun he => hNind he.symm) hIndIind]
    · rw [l2p_tier2 s' ino (by omega), l2p_tier2 s ino (by omega), hbO]
      have hdiv : (k - (1 + POINTER_PER_BLOCK)) / POINTER_PER_BLOCK <
          (n - (1 + POINTER_PER_BLOCK)) / POINTER_PER_BLOCK := by
        simp only [POINTER_PER_BLOCK, BLOCK_SIZE] at hio hk2 ⊢
        omega
      rw [updSlot_ne (by omega)]
      rw [hbOther (s.blocks ino.iindirect_pointer
          ((k - (1 + POINTER_PER_BLOCK)) / POINTER_PER_BLOCK))
        (hInnNeN _ hdiv)
        ((hS.hinnerNe hgt _ (by rw [hceilA]; omega)).2)]
  have hl2pN : l2p s' ino n = D := by
    rw [l2p_tier2 s' ino (by omega), hbO, updSlot_eq, hio, hbN, updSlot_eq]
  have hptr' : ∀ b, isPtrBlock s' ino (n + 1) b →
      isPtrBlock s ino n b ∨ b = N := by
    rintro b (⟨-, rfl⟩ | ⟨-, rfl | ⟨i, hi, rfl⟩⟩)
    · exact Or.inl (Or.inl ⟨by omega, rfl⟩)
    · exact Or.inl (Or.inr ⟨hgt, Or.inl rfl⟩)
    · rw [hceilB] at hi
      rw [hbO i]
      by_cases hiq : i = (n - (1 + POINTER_PER_BLOCK)) / POINTER_PER_BLOCK
      · subst hiq
        rw [updSlot_eq]
        exact Or.inr rfl
      · rw [updSlot_ne hiq]
        exact Or.inl (Or.inr ⟨hgt, Or.inr ⟨i, by rw [hceilA]; omega, rfl⟩⟩)
  have hD0 : ¬ D = 0 := by omega
  have hN0 : ¬ N = 0 := by omega
  refine ⟨hmax1, fun h1 => absurd h1 (by omega), fun _ => hS.hdirect1 (by omega),
    fun h1 => absurd h1 (by omega), fun _ => hS.hind1 (by omega), ?_,
    fun h1 => absurd h1 (by omega), fun _ => hS.hiind1 hgt,
    ?_, ?_, ?_, ?_, ?_, fun _ _ => hS.hII (by omega) hgt, ?_, ?_⟩
  · -- hindSlots
    intro _ j hj
    rw [hbOther ino.indirect_pointer (fun he => hNind he.symm) hIndIind,
      hS.hindSlots (by omega) j hj]
    omega
  · -- houterSlots
    intro _ i hi
    rw [hbO i]
    by_cases hiq : i = (n - (1 + POINTER_PER_BLOCK)) / POINTER_PER_BLOCK
    · subst hiq
      rw [updSlot_eq, hceilB]
      exact iff_of_false hN0 (by omega)
    · rw [updSlot_ne hiq, hS.houterSlots hgt i hi, hceilA, hceilB]
      omega
  · -- hinnerSlots
    intro _ i hi j hj
    rw [hceilB] at hi
    rw [hbO i]
    by_cases hiq : i = (n - (1 + POINTER_PER_BLOCK)) / POINTER_PER_BLOCK
    · subst hiq
      rw [updSlot_eq, hbN j]
      by_cases hj0 : j = 0
      · subst hj0
        rw [updSlot_eq]
        refine iff_of_false hD0 ?_
        simp only [POINTER_PER_BLOCK, BLOCK_SIZE] at hio hgt ⊢
        omega
      · rw [updSlot_ne hj0]
        refine iff_of_true rfl ?_
        simp only [POINTER_PER_BLOCK, BLOCK_SIZE] at hio hj0 hgt ⊢
        omega
    · rw [updSlot_ne hiq]
      rw [hbOther (s.blocks ino.iindirect_pointer i)
        (hInnNeN i (by omega)) ((hS.hinnerNe hgt i (by rw [hceilA]; omega)).2),
        hS.hinnerSlots hgt i (by rw [hceilA]; omega) j hj]
      simp only [POINTER_PER_BLOCK, BLOCK_SIZE] at hio hiq hi hj ⊢
      omega
  · -- hmarked
    rintro b (⟨k, hk, rfl⟩ | hptr)
    · by_cases hkn : k = n
      · rw [hkn, hl2pN, ch1, ch2]
        exact ⟨hgD.1, hgD.2, hbmD⟩
      · rw [hl2pOld k (by omega), ch1, ch2]
        obtain ⟨m1, m2, m3⟩ := hS.hmarked _ (Or.inl ⟨k, by omega, rfl⟩)
        exact ⟨m1, m2, hbmMono _ m3⟩
    · rw [ch1, ch2]
      rcases hptr' _ hptr with hold | rfl
      · obtain ⟨m1, m2, m3⟩ := hS.hmarked _ (Or.inr hold)
        exact ⟨m1, m2, hbmMono _ m3⟩
      · exact ⟨hgN.1, hgN.2, hbmN⟩
  · -- hinj
    intro k k' hk hk' he
    by_cases hkn : k = n <;> by_cases hkn' : k' = n
    · omega
    · exfalso
      rw [hkn, hl2pN, hl2pOld k' (by omega)] at he
      exact hDfresh (Or.inl ⟨k', by omega, he⟩)
    · exfalso
      rw [hkn', hl2pN, hl2pOld k (by omega)] at he
      exact hDfresh (Or.inl ⟨k, by omega, he.symm⟩)
    · rw [hl2pOld k (by omega), hl2pOld k' (by omega)] at he
      exact hS.hinj k k' (by omega) (by omega) he
  · -- hdp
    intro k hk hptr
    by_cases hkn : k = n
    · rw [hkn, hl2pN] at hptr
      rcases hptr' _ hptr with hold | he
      · exact hDfresh (Or.inr hold)
      · exact hDN he
    · rw [hl2pOld k (by omega)] at hptr
      rcases hptr' _ hptr with hold | he
      · exact hS.hdp k (by omega) hold
      · exact hNfresh (he ▸ Or.inl ⟨k, by omega, rfl⟩)
  · -- hinnerNe
    intro _ i hi
    rw [hceilB] at hi
    rw [hbO i]
    by_cases hiq : i = (n - (1 + POINTER_PER_BLOCK)) / POINTER_PER_BLOCK
    · subst hiq
      rw [updSlot_eq]
      exact ⟨fun he => hNind he, fun he => hNiind he⟩
    · rw [updSlot_ne hiq]
      exact hS.hinnerNe hgt i (by rw [hceilA]; omega)
  · -- hinnerInj
    intro _ i i' hi hi' he
    rw [hceilB] at hi hi'
    rw [hbO i, hbO i'] at he
    by_cases hiq : i = (n - (1 + POINTER_PER_BLOCK)) / POINTER_PER_BLOCK <;>
      by_cases hiq' : i' = (n - (1 + POINTER_PER_BLOCK)) / POINTER_PER_BLOCK
    · omega
    · exfalso
      rw [hiq, updSlot_eq, updSlot_ne hiq'] at he
      exact hInnNeN i' (by omega) he.symm
    · exfalso
      rw [hiq', updSlot_eq, updSlot_ne hiq] at he
      exact hInnNeN i (by omega) he
    · rw [updSlot_ne hiq, updSlot_ne hiq'] at he
      exact hS.hinnerInj hgt i i' (by rw [hceilA]; omega) (by rw [hceilA]; omega) he

/-- Structure extension for the first double-indirect grow step
(`block_now = 1 + P`): fresh outer block `O`, fresh inner block `N`
hung into its slot 0, fresh data block `D` at the inner slot 0. -/
theorem StructOK_grow2_start {s s' : FS} {ino : INode} {O N D : Nat}
    (hS : StructOK s ino (1 + POINTER_PER_BLOCK))
    (hdbo : 1 ≤ s.header.data_block_offset)
    (hOfresh : ¬ isOwned s ino (1 + POINTER_PER_BLOCK) O)
    (hNfresh : ¬ isOwned s ino (1 + POINTER_PER_BLOCK) N)
    (hDfresh : ¬ isOwned s ino (1 + POINTER_PER_BLOCK) D)
    (hNO : ¬ N = O) (hDN : ¬ D = N) (hDO : ¬ D = O)
    (hgO : s.header.data_block_offset ≤ O ∧
      O - s.header.data_block_offset < s.header.data_block_num_tot)
    (hgN : s.header.data_block_offset ≤ N ∧
      N - s.header.data_block_offset < s.header.data_block_num_tot)
    (hgD : s.header.data_block_offset ≤ D ∧
      D - s.header.data_block_offset < s.header.data_block_num_tot)
    (hbmO : s'.dataBm (O - s.header.data_block_offset) = true)
    (hbmN : s'.dataBm (N - s.header.data_block_offset) = true)
    (hbmD : s'.dataBm (D - s.header.data_block_offset) = true)
    (hbmMono : ∀ q, s.dataBm q = true → s'.dataBm q = true)
    (ch1 : s'.header.data_block_offset = s.header.data_block_offset)
    (ch2 : s'.header.data_block_num_tot = s.header.data_block_num_tot)
    (hbl' : s'.blocks = fun b =>
      if b = N then updSlot zeroBlock 0 D
      else if b = O then updSlot zeroBlock 0 N
      else s.blocks b) :
    StructOK s' { ino with iindirect_pointer := O }
      (1 + POINTER_PER_BLOCK + 1) := by
  have hmax1 : 1 + POINTER_PER_BLOCK + 1 ≤ 1 + POINTER_PER_BLOCK +
      POINTER_PER_BLOCK * (POINTER_PER_BLOCK - 1) := by decide
  have hceilB : ceilP (1 + POINTER_PER_BLOCK + 1 - 1 - POINTER_PER_BLOCK) = 1 := by
    simp only [ceilP, POINTER_PER_BLOCK, BLOCK_SIZE]
  have hIndOwn : isPtrBlock s ino (1 + POINTER_PER_BLOCK)
      ino.indirect_pointer := Or.inl ⟨by decide, rfl⟩
  have hNind : ¬ N = ino.indirect_pointer :=
    fun he => hNfresh (Or.inr (he ▸ hIndOwn))
  have hOind : ¬ O = ino.indirect_pointer :=
    fun he => hOfresh (Or.inr (he ▸ hIndOwn))
  have hbN : ∀ j, s'.blocks N j = updSlot zeroBlock 0 D j := by
    intro j
    rw [hbl']
    show (if N = N then updSlot zeroBlock 0 D
      else if N = O then updSlot zeroBlock 0 N else s.blocks N) j = _
    rw [if_pos rfl]
  have hbO : ∀ j, s'.blocks O j = updSlot zeroBlock 0 N j := by
    intro j
    rw [hbl']
    show (if O = N then updSlot zeroBlock 0 D
      else if O = O then updSlot zeroBlock 0 N else s.blocks O) j = _
    rw [if_neg (fun he => hNO he.symm), if_pos rfl]
  have hbOther : ∀ b, ¬ b = N → ¬ b = O → s'.blocks b = s.blocks b := by
    intro b hb1 hb2
    rw [hbl']
    show (if b = N then updSlot zeroBlock 0 D
      else if b = O then updSlot zeroBlock 0 N else s.blocks b) = s.blocks b
    rw [if_neg hb1, if_neg hb2]
  have hl2pOld : ∀ k, k < 1 + POINTER_PER_BLOCK →
      l2p s' { ino with iindirect_pointer := O } k = l2p s ino k := by
    intro k hk
    by_cases h0 : k = 0
    · simp [l2p, h0]
    · rw [l2p_tier1 s' _ (by omega) hk, l2p_tier1 s ino (by omega) hk]
      show s'.blocks ino.indirect_pointer (k - 1) =
        s.blocks ino.indirect_pointer (k - 1)
      rw [hbOther ino.indirect_pointer (fun he => hNind he.symm)
        (fun he => hOind he.symm)]
  have hl2pN : l2p s' { ino with iindirect_pointer := O }
      (1 + POINTER_PER_BLOCK) = D := by
    rw [l2p_tier2 s' _ (le_refl _)]
    show s'.blocks (s'.blocks O
      ((1 + POINTER_PER_BLOCK - (1 + POINTER_PER_BLOCK)) / POINTER_PER_BLOCK))
      ((1 + POINTER_PER_BLOCK - (1 + POINTER_PER_BLOCK)) % POINTER_PER_BLOCK) = D
    rw [Nat.sub_self, Nat.zero_div, Nat.zero_mod, hbO, updSlot_eq, hbN,
      updSlot_eq]
  have hbO' : s'.blocks ({ ino with iindirect_pointer := O } :
      INode).iindirect_pointer = s'.blocks O := rfl
  have hptr' : ∀ b, isPtrBlock s' { ino with iindirect_pointer := O }
      (1 + POINTER_PER_BLOCK + 1) b →
      b = ino.indirect_pointer ∨ b = O ∨ b = N := by
    rintro b (⟨-, rfl⟩ | ⟨-, rfl | ⟨i, hi, rfl⟩⟩)
    · exact Or.inl rfl
    · exact Or.inr (Or.inl rfl)
    · rw [hceilB] at hi
      have hi0 : i = 0 := by omega
      subst hi0
      rw [hbO', hbO, updSlot_eq]
      exact Or.inr (Or.inr rfl)
  have hO0 : ¬ O = 0 := by omega
  have hN0 : ¬ N = 0 := by omega
  have hD0 : ¬ D = 0 := by omega
  refine ⟨hmax1, fun h1 => absurd h1 (by omega),
    fun _ => hS.hdirect1 (by decide), fun h1 => absurd h1 (by decide),
    fun _ => hS.hind1 (by decide), ?_,
    fun h1 => absurd h1 (by omega), fun _ => hO0, ?_, ?_, ?_, ?_, ?_,
    fun _ _ he => hOfresh (Or.inr ((show ino.indirect_pointer = O from he) ▸
      hIndOwn)), ?_, ?_⟩
  · -- hindSlots
    intro _ j hj
    show s'.blocks ino.indirect_pointer j = 0 ↔ _
    rw [hbOther ino.indirect_pointer (fun he => hNind he.symm)
        (fun he => hOind he.symm),
      hS.hindSlots (by decide) j hj]
    omega
  · -- houterSlots
    intro _ i hi
    rw [hbO', hbO i, hceilB]
    by_cases hi0 : i = 0
    · subst hi0
      rw [updSlot_eq]
      exact iff_of_false hN0 (by omega)
    · rw [updSlot_ne hi0]
      exact iff_of_true rfl (by omega)
  · -- hinnerSlots
    intro _ i hi j hj
    rw [hceilB] at hi
    have hi0 : i = 0 := by omega
    subst hi0
    rw [hbO', hbO, updSlot_eq, hbN j]
    by_cases hj0 : j = 0
    · subst hj0
      rw [updSlot_eq]
      refine iff_of_false hD0 ?_
      simp only [POINTER_PER_BLOCK, BLOCK_SIZE]
      omega
    · rw [updSlot_ne hj0]
      refine iff_of_true rfl ?_
      simp only [POINTER_PER_BLOCK, BLOCK_SIZE] at hj0 ⊢
      omega
  · -- hmarked
    rintro b (⟨k, hk, rfl⟩ | hptr)
    · by_cases hkn : k = 1 + POINTER_PER_BLOCK
      · rw [hkn, hl2pN, ch1, ch2]
        exact ⟨hgD.1, hgD.2, hbmD⟩
      · rw [hl2pOld k (by omega), ch1, ch2]
        obtain ⟨m1, m2, m3⟩ := hS.hmarked _ (Or.inl ⟨k, by omega, rfl⟩)
        exact ⟨m1, m2, hbmMono _ m3⟩
    · rw [ch1, ch2]
      rcases hptr' _ hptr with rfl | rfl | rfl
      · obtain ⟨m1, m2, m3⟩ := hS.hmarked _ (Or.inr hIndOwn)
        exact ⟨m1, m2, hbmMono _ m3⟩
      · exact ⟨hgO.1, hgO.2, hbmO⟩
      · exact ⟨hgN.1, hgN.2, hbmN⟩
  · -- hinj
    intro k k' hk hk' he
    by_cases hkn : k = 1 + POINTER_PER_BLOCK <;>
      by_cases hkn' : k' = 1 + POINTER_PER_BLOCK
    · omega
    · exfalso
      rw [hkn, hl2pN, hl2pOld k' (by omega)] at he
      exact hDfresh (Or.inl ⟨k', by omega, he⟩)
    · exfalso
      rw [hkn', hl2pN, hl2pOld k (by omega)] at he
      exact hDfresh (Or.inl ⟨k, by omega, he.symm⟩)
    · rw [hl2pOld k (by omega), hl2pOld k' (by omega)] at he
      exact hS.hinj k k' (by omega) (by omega) he
  · -- hdp
    intro k hk hptr
    by_cases hkn : k = 1 + POINTER_PER_BLOCK
    · rw [hkn, hl2pN] at hptr
      rcases hptr' _ hptr with he | he | he
      · exact hDfresh (Or.inr (he ▸ hIndOwn))
      · exact hDO he
      · exact hDN he
    · rw [hl2pOld k (by omega)] at hptr
      have hown : isOwned s ino (1 + POINTER_PER_BLOCK) (l2p s ino k) :=
        Or.inl ⟨k, by omega, rfl⟩
      rcases hptr' _ hptr with he | he | he
      · exact hS.hdp k (by omega) (he ▸ hIndOwn)
      · exact hOfresh (he ▸ hown)
      · exact hNfresh (he ▸ hown)
  · -- hinnerNe
    intro _ i hi
    rw [hceilB] at hi
    have hi0 : i = 0 := by omega
    subst hi0
    rw [hbO', hbO, updSlot_eq]
    exact ⟨fun he => hNind he, fun he => hNO he⟩
  · -- hinnerInj
    intro _ i i' hi hi' _
    rw [hceilB] at hi hi'
    omega

/-- Structure restriction for a double-indirect shrink step that frees a
data block in the middle of an inner pointer block: only the current
inner block loses its last filled slot. -/
theorem StructOK_shrink2_tail {s s' : FS} {ino : INode} {n : Nat}
    (hS : StructOK s ino n)
    (hn : 1 + POINTER_PER_BLOCK < n)
    (hio : ¬ (n - 1 - (1 + POINTER_PER_BLOCK)) % POINTER_PER_BLOCK = 0)
    (hdbo : 1 ≤ s.header.data_block_offset)
    (ch1 : s'.header.data_block_offset = s.header.data_block_offset)
    (ch2 : s'.header.data_block_num_tot = s.header.data_block_num_tot)
    (hbm' : s'.dataBm = fun q =>
      if q = s.blocks (s.blocks ino.iindirect_pointer
          ((n - 1 - (1 + POINTER_PER_BLOCK)) / POINTER_PER_BLOCK))
          ((n - 1 - (1 + POINTER_PER_BLOCK)) % POINTER_PER_BLOCK) -
          s.header.data_block_offset
      then false else s.dataBm q)
    (hbl' : s'.blocks = fun b =>
      if b = s.blocks ino.iindirect_pointer
          ((n - 1 - (1 + POINTER_PER_BLOCK)) / POINTER_PER_BLOCK) then
        updSlot (s.blocks (s.blocks ino.iindirect_pointer
            ((n - 1 - (1 + POINTER_PER_BLOCK)) / POINTER_PER_BLOCK)))
          ((n - 1 - (1 + POINTER_PER_BLOCK)) % POINTER_PER_BLOCK) 0
      else s.blocks b) :
    StructOK s' ino (n - 1) ∧
    (∀ k, k < n - 1 → l2p s' ino k = l2p s ino k) ∧
    (∀ b, isPtrBlock s' ino (n - 1) b → isPtrBlock s ino n b) := by
  have hgt : 1 + POINTER_PER_BLOCK < n - 1 := by
    simp only [POINTER_PER_BLOCK, BLOCK_SIZE] at hio hn ⊢
    omega
  have hidx : (n - 1 - (1 + POINTER_PER_BLOCK)) / POINTER_PER_BLOCK <
      ceilP (n - 1 - POINTER_PER_BLOCK) := by
    simp only [ceilP, POINTER_PER_BLOCK, BLOCK_SIZE] at hio hn ⊢
    omega
  have hIN : isPtrBlock s ino n (s.blocks ino.iindirect_pointer
      ((n - 1 - (1 + POINTER_PER_BLOCK)) / POINTER_PER_BLOCK)) :=
    Or.inr ⟨hn, Or.inr ⟨_, hidx, rfl⟩⟩
  have hNne := hS.hinnerNe hn _ hidx
  have hneInd : ¬ ino.indirect_pointer = s.blocks ino.iindirect_pointer
      ((n - 1 - (1 + POINTER_PER_BLOCK)) / POINTER_PER_BLOCK) :=
    fun he => hNne.1 he.symm
  have hneIind : ¬ ino.iindirect_pointer = s.blocks ino.iindirect_pointer
      ((n - 1 - (1 + POINTER_PER_BLOCK)) / POINTER_PER_BLOCK) :=
    fun he => hNne.2 he.symm
  have hbN : ∀ j, s'.blocks (s.blocks ino.iindirect_pointer
      ((n - 1 - (1 + POINTER_PER_BLOCK)) / POINTER_PER_BLOCK)) j =
      updSlot (s.blocks (s.blocks ino.iindirect_pointer
        ((n - 1 - (1 + POINTER_PER_BLOCK)) / POINTER_PER_BLOCK)))
        ((n - 1 - (1 + POINTER_PER_BLOCK)) % POINTER_PER_BLOCK) 0 j := by
    intro j
    rw [hbl']
    show (if s.blocks ino.iindirect_pointer
        ((n - 1 - (1 + POINTER_PER_BLOCK)) / POINTER_PER_BLOCK) =
        s.blocks ino.iindirect_pointer
        ((n - 1 - (1 + POINTER_PER_BLOCK)) / POINTER_PER_BLOCK) then
      updSlot (s.blocks (s.blocks ino.iindirect_pointer
          ((n - 1 - (1 + POINTER_PER_BLOCK)) / POINTER_PER_BLOCK)))
        ((n - 1 - (1 + POINTER_PER_BLOCK)) % POINTER_PER_BLOCK) 0
      else s.blocks (s.blocks ino.iindirect_pointer
        ((n - 1 - (1 + POINTER_PER_BLOCK)) / POINTER_PER_BLOCK))) j = _
    rw [if_pos rfl]
  have hbOther : ∀ b, ¬ b = s.blocks ino.iindirect_pointer
      ((n - 1 - (1 + POINTER_PER_BLOCK)) / POINTER_PER_BLOCK) →
      s'.blocks b = s.blocks b := by
    intro b hb
    rw [hbl']
    show (if b = s.blocks ino.iindirect_pointer
        ((n - 1 - (1 + POINTER_PER_BLOCK)) / POINTER_PER_BLOCK) then
      updSlot (s.blocks (s.blocks ino.iindirect_pointer
          ((n - 1 - (1 + POINTER_PER_BLOCK)) / POINTER_PER_BLOCK)))
        ((n - 1 - (1 + POINTER_PER_BLOCK)) % POINTER_PER_BLOCK) 0
      else s.blocks b) = s.blocks b
    rw [if_neg hb]
  have hDeq : l2p s ino (n - 1) = s.blocks (s.blocks ino.iindirect_pointer
      ((n - 1 - (1 + POINTER_PER_BLOCK)) / POINTER_PER_BLOCK))
      ((n - 1 - (1 + POINTER_PER_BLOCK)) % POINTER_PER_BLOCK) :=
    l2p_tier2 s ino (by omega)
  have hbmKeep : ∀ b, isOwned s ino n b → ¬ b = l2p s ino (n - 1) →
      s'.dataBm (b - s.header.data_block_offset) = true := by
    intro b hb hbne
    obtain ⟨m1, m2, m3⟩ := hS.hmarked b hb
    obtain ⟨m1', m2', m3'⟩ := hS.hmarked _ (Or.inl ⟨n - 1, by omega, rfl⟩)
    rw [hDeq] at m1' hbne
    rw [hbm']
    show (if b - s.header.data_block_offset = s.blocks (s.blocks
        ino.iindirect_pointer
        ((n - 1 - (1 + POINTER_PER_BLOCK)) / POINTER_PER_BLOCK))
        ((n - 1 - (1 + POINTER_PER_BLOCK)) % POINTER_PER_BLOCK) -
        s.header.data_block_offset
      then false else s.dataBm (b - s.header.data_block_offset)) = true
    rw [if_neg (by omega)]
    exact m3
  have hl2pOld : ∀ k, k < n - 1 → l2p s' ino k = l2p s ino k := by
    intro k hk
    by_cases hk2 : k < 1 + POINTER_PER_BLOCK
    · by_cases h0 : k = 0
      · simp only [l2p, h0]
        rw [if_pos True.intro, if_pos True.intro]
      · rw [l2p_tier1 s' ino (by omega) hk2, l2p_tier1 s ino (by omega) hk2,
          hbOther ino.indirect_pointer hneInd]
    · rw [l2p_tier2 s' ino (by omega), l2p_tier2 s ino (by omega),
        hbOther ino.iindirect_pointer hneIind]
      by_cases hq : (k - (1 + POINTER_PER_BLOCK)) / POINTER_PER_BLOCK =
          (n - 1 - (1 + POINTER_PER_BLOCK)) / POINTER_PER_BLOCK
      · rw [hq, hbN]
        rw [updSlot_ne]
        simp only [POINTER_PER_BLOCK, BLOCK_SIZE] at hq hk2 hio ⊢
        omega
      · rw [hbOther (s.blocks ino.iindirect_pointer
          ((k - (1 + POINTER_PER_BLOCK)) / POINTER_PER_BLOCK))
          (fun he => hq (hS.hinnerInj hn _ _ (div_lt_ceilP (by omega)) hidx he))]
  have hceilA : ceilP (n - 1 - POINTER_PER_BLOCK) =
      (n - 1 - (1 + POINTER_PER_BLOCK)) / POINTER_PER_BLOCK + 1 := by
    simp only [ceilP, POINTER_PER_BLOCK, BLOCK_SIZE] at hio hn ⊢
    omega
  have hceilB : ceilP (n - 1 - 1 - POINTER_PER_BLOCK) =
      (n - 1 - (1 + POINTER_PER_BLOCK)) / POINTER_PER_BLOCK + 1 := by
    simp only [ceilP, POINTER_PER_BLOCK, BLOCK_SIZE] at hio hn ⊢
    omega
  have hptr' : ∀ b, isPtrBlock s' ino (n - 1) b → isPtrBlock s ino n b := by
    rintro b (⟨-, rfl⟩ | ⟨-, rfl | ⟨i, hi, rfl⟩⟩)
    · exact Or.inl ⟨by omega, rfl⟩
    · exact Or.inr ⟨hn, Or.inl rfl⟩
    · rw [hbOther ino.iindirect_pointer hneIind]
      refine Or.inr ⟨hn, Or.inr ⟨i, ?_, rfl⟩⟩
      rw [hceilB] at hi
      rw [hceilA]
      exact hi
  refine ⟨⟨by have := hS.hmax; omega, fun h1 => absurd h1 (by omega),
    fun _ => hS.hdirect1 (by omega),
    fun h1 => absurd h1 (by omega), fun _ => hS.hind1 (by omega), ?_,
    fun h1 => absurd h1 (by omega), fun _ => hS.hiind1 hn,
    ?_, ?_, ?_, ?_, ?_, fun _ _ => hS.hII (by omega) hn, ?_, ?_⟩, hl2pOld, hptr'⟩
  · -- hindSlots
    intro _ j hj
    rw [hbOther ino.indirect_pointer hneInd, hS.hindSlots (by omega) j hj]
    omega
  · -- houterSlots
    intro _ i hi
    rw [hbOther ino.iindirect_pointer hneIind, hS.houterSlots hn i hi, hceilA,
      hceilB]
  · -- hinnerSlots
    intro _ i hi j hj
    rw [hceilB] at hi
    rw [hbOther ino.iindirect_pointer hneIind]
    by_cases hiq : i = (n - 1 - (1 + POINTER_PER_BLOCK)) / POINTER_PER_BLOCK
    · subst hiq
      rw [hbN j]
      by_cases hjio : j = (n - 1 - (1 + POINTER_PER_BLOCK)) % POINTER_PER_BLOCK
      · subst hjio
        rw [updSlot_eq]
        refine iff_of_true rfl ?_
        simp only [POINTER_PER_BLOCK, BLOCK_SIZE] at hio hn ⊢
        omega
      · rw [updSlot_ne hjio, hS.hinnerSlots hn _ (by rw [hceilA]; omega) j hj]
        simp only [POINTER_PER_BLOCK, BLOCK_SIZE] at hjio hj hio hn ⊢
        omega
    · rw [hbOther (s.blocks ino.iindirect_pointer i)
        (fun he => hiq (hS.hinnerInj hn _ _ (by rw [hceilA]; omega) hidx he)),
        hS.hinnerSlots hn i (by rw [hceilA]; omega) j hj]
      simp only [POINTER_PER_BLOCK, BLOCK_SIZE] at hiq hi hj hio hn ⊢
      omega
  · -- hmarked
    rintro b (⟨k, hk, rfl⟩ | hptr)
    · rw [hl2pOld k (by omega), ch1, ch2]
      obtain ⟨m1, m2, -⟩ := hS.hmarked _ (Or.inl ⟨k, by omega, rfl⟩)
      refine ⟨m1, m2, hbmKeep _ (Or.inl ⟨k, by omega, rfl⟩) ?_⟩
      intro he
      exact absurd (hS.hinj k (n - 1) (by omega) (by omega) he) (by omega)
    · rw [ch1, ch2]
      have hold := hptr' _ hptr
      obtain ⟨m1, m2, -⟩ := hS.hmarked _ (Or.inr hold)
      refine ⟨m1, m2, hbmKeep _ (Or.inr hold) ?_⟩
      intro he
      exact hS.hdp (n - 1) (by omega) (he ▸ hold)
  · -- hinj
    intro k k' hk hk' he
    rw [hl2pOld k (by omega), hl2pOld k' (by omega)] at he
    exact hS.hinj k k' (by omega) (by omega) he
  · -- hdp
    intro k hk hptr
    rw [hl2pOld k (by omega)] at hptr
    exact hS.hdp k (by omega) (hptr' _ hptr)
  · -- hinnerNe
    intro _ i hi
    rw [hceilB] at hi
    rw [hbOther ino.iindirect_pointer hneIind]
    exact hS.hinnerNe hn i (by rw [hceilA]; omega)
  · -- hinnerInj
    intro _ i i' hi hi'
    rw [hceilB] at hi hi'
    rw [hbOther ino.iindirect_pointer hneIind]
    exact hS.hinnerInj hn i i' (by rw [hceilA]; omega) (by rw [hceilA]; omega)

/-- Structure restriction for a double-indirect shrink step that frees
the last data block of an inner pointer block (and the inner block
itself), with other inner blocks remaining (`id_ind ≠ 0`).  The freed
inner block's final contents `g` are irrelevant. -/
theorem StructOK_shrink2_mid {s s' : FS} {ino : INode} {n : Nat} {g : Nat → Nat}
    (hS : StructOK s ino n)
    (hn : 1 + POINTER_PER_BLOCK < n)
    (hio : (n - 1 - (1 + POINTER_PER_BLOCK)) % POINTER_PER_BLOCK = 0)
    (hii : ¬ (n - 1 - (1 + POINTER_PER_BLOCK)) / POINTER_PER_BLOCK = 0)
    (hdbo : 1 ≤ s.header.data_block_offset)
    (ch1 : s'.header.data_block_offset = s.header.data_block_offset)
    (ch2 : s'.header.data_block_num_tot = s.header.data_block_num_tot)
    (hbm' : s'.dataBm = fun q =>
      if q = s.blocks ino.iindirect_pointer
          ((n - 1 - (1 + POINTER_PER_BLOCK)) / POINTER_PER_BLOCK) -
          s.header.data_block_offset
      then false
      else if q = s.blocks (s.blocks ino.iindirect_pointer
          ((n - 1 - (1 + POINTER_PER_BLOCK)) / POINTER_PER_BLOCK))
          ((n - 1 - (1 + POINTER_PER_BLOCK)) % POINTER_PER_BLOCK) -
          s.header.data_block_offset
      then false else s.dataBm q)
    (hbl' : s'.blocks = fun b =>
      if b = ino.iindirect_pointer then
        updSlot (s.blocks ino.iindirect_pointer)
          ((n - 1 - (1 + POINTER_PER_BLOCK)) / POINTER_PER_BLOCK) 0
      else if b = s.blocks ino.iindirect_pointer
          ((n - 1 - (1 + POINTER_PER_BLOCK)) / POINTER_PER_BLOCK) then g
      else s.blocks b) :
    StructOK s' ino (n - 1) ∧
    (∀ k, k < n - 1 → l2p s' ino k = l2p s ino k) ∧
    (∀ b, isPtrBlock s' ino (n - 1) b → isPtrBlock s ino n b) := by
  have hgt : 1 + POINTER_PER_BLOCK < n - 1 := by
    simp only [POINTER_PER_BLOCK, BLOCK_SIZE] at hio hii hn ⊢
    omega
  have hidx : (n - 1 - (1 + POINTER_PER_BLOCK)) / POINTER_PER_BLOCK <
      ceilP (n - 1 - POINTER_PER_BLOCK) := by
    simp only [ceilP, POINTER_PER_BLOCK, BLOCK_SIZE] at hio hn ⊢
    omega
  have hIN : isPtrBlock s ino n (s.blocks ino.iindirect_pointer
      ((n - 1 - (1 + POINTER_PER_BLOCK)) / POINTER_PER_BLOCK)) :=
    Or.inr ⟨hn, Or.inr ⟨_, hidx, rfl⟩⟩
  have hNne := hS.hinnerNe hn _ hidx
  have hneInd : ¬ ino.indirect_pointer = s.blocks ino.iindirect_pointer
      ((n - 1 - (1 + POINTER_PER_BLOCK)) / POINTER_PER_BLOCK) :=
    fun he => hNne.1 he.symm
  have hneIind : ¬ ino.iindirect_pointer = s.blocks ino.iindirect_pointer
      ((n - 1 - (1 + POINTER_PER_BLOCK)) / POINTER_PER_BLOCK) :=
    fun he => hNne.2 he.symm
  have hIndIind : ino.indirect_pointer ≠ ino.iindirect_pointer :=
    hS.hII (by omega) hn
  have hbO : ∀ i, s'.blocks ino.iindirect_pointer i =
      updSlot (s.blocks ino.iindirect_pointer)
        ((n - 1 - (1 + POINTER_PER_BLOCK)) / POINTER_PER_BLOCK) 0 i := by
    intro i
    rw [hbl']
    show (if ino.iindirect_pointer = ino.iindirect_pointer then
      updSlot (s.blocks ino.iindirect_pointer)
        ((n - 1 - (1 + POINTER_PER_BLOCK)) / POINTER_PER_BLOCK) 0
      else if ino.iindirect_pointer = s.blocks ino.iindirect_pointer
          ((n - 1 - (1 + POINTER_PER_BLOCK)) / POINTER_PER_BLOCK) then g
      else s.blocks ino.iindirect_pointer) i = _
    rw [if_pos rfl]
  have hbOther : ∀ b, ¬ b = ino.iindirect_pointer →
      ¬ b = s.blocks ino.iindirect_pointer
        ((n - 1 - (1 + POINTER_PER_BLOCK)) / POINTER_PER_BLOCK) →
      s'.blocks b = s.blocks b := by
    intro b hb1 hb2
    rw [hbl']
    show (if b = ino.iindirect_pointer then
      updSlot (s.blocks ino.iindirect_pointer)
        ((n - 1 - (1 + POINTER_PER_BLOCK)) / POINTER_PER_BLOCK) 0
      else if b = s.blocks ino.iindirect_pointer
          ((n - 1 - (1 + POINTER_PER_BLOCK)) / POINTER_PER_BLOCK) then g
      else s.blocks b) = s.blocks b
    rw [if_neg hb1, if_neg hb2]
  have hDeq : l2p s ino (n - 1) = s.blocks (s.blocks ino.iindirect_pointer
      ((n - 1 - (1 + POINTER_PER_BLOCK)) / POINTER_PER_BLOCK))
      ((n - 1 - (1 + POINTER_PER_BLOCK)) % POINTER_PER_BLOCK) :=
    l2p_tier2 s ino (by omega)
  have hceilA : ceilP (n - 1 - POINTER_PER_BLOCK) =
      (n - 1 - (1 + POINTER_PER_BLOCK)) / POINTER_PER_BLOCK + 1 := by
    simp only [ceilP, POINTER_PER_BLOCK, BLOCK_SIZE] at hio hn ⊢
    omega
  have hceilB : ceilP (n - 1 - 1 - POINTER_PER_BLOCK) =
      (n - 1 - (1 + POINTER_PER_BLOCK)) / POINTER_PER_BLOCK := by
    simp only [ceilP, POINTER_PER_BLOCK, BLOCK_SIZE] at hio hii hn ⊢
    omega
  have hbmKeep : ∀ b, isOwned s ino n b → ¬ b = l2p s ino (n - 1) →
      ¬ b = s.blocks ino.iindirect_pointer
        ((n - 1 - (1 + POINTER_PER_BLOCK)) / POINTER_PER_BLOCK) →
      s'.dataBm (b - s.header.data_block_offset) = true := by
    intro b hb hbne hbne2
    obtain ⟨m1, m2, m3⟩ := hS.hmarked b hb
    obtain ⟨m1', m2', -⟩ := hS.hmarked _ (Or.inl ⟨n - 1, by omega, rfl⟩)
    obtain ⟨m1'', m2'', -⟩ := hS.hmarked _ (Or.inr hIN)
    rw [hDeq] at m1' hbne
    rw [hbm']
    show (if b - s.header.data_block_offset = s.blocks ino.iindirect_pointer
        ((n - 1 - (1 + POINTER_PER_BLOCK)) / POINTER_PER_BLOCK) -
        s.header.data_block_offset
      then false
      else if b - s.header.data_block_offset = s.blocks (s.blocks
          ino.iindirect_pointer
          ((n - 1 - (1 + POINTER_PER_BLOCK)) / POINTER_PER_BLOCK))
          ((n - 1 - (1 + POINTER_PER_BLOCK)) % POINTER_PER_BLOCK) -
          s.header.data_block_offset
      then false else s.dataBm (b - s.header.data_block_offset)) = true
    rw [if_neg (by omega), if_neg (by omega)]
    exact m3
  have hl2pOld : ∀ k, k < n - 1 → l2p s' ino k = l2p s ino k := by
    intro k hk
    by_cases hk2 : k < 1 + POINTER_PER_BLOCK
    · by_cases h0 : k = 0
      · simp only [l2p, h0]
        rw [if_pos True.intro, if_pos True.intro]
      · rw [l2p_tier1 s' ino (by omega) hk2, l2p_tier1 s ino (by omega) hk2,
          hbOther ino.indirect_pointer (fun he => hIndIind he) hneInd]
    · rw [l2p_tier2 s' ino (by omega), l2p_tier2 s ino (by omega), hbO]
      have hdiv : (k - (1 + POINTER_PER_BLOCK)) / POINTER_PER_BLOCK <
          (n - 1 - (1 + POINTER_PER_BLOCK)) / POINTER_PER_BLOCK := by
        simp only [POINTER_PER_BLOCK, BLOCK_SIZE] at hio hk2 ⊢
        omega
      rw [updSlot_ne (by omega)]
      rw [hbOther (s.blocks ino.iindirect_pointer
          ((k - (1 + POINTER_PER_BLOCK)) / POINTER_PER_BLOCK))
        ((hS.hinnerNe hn _ (by rw [hceilA]; omega)).2)
        (fun he => absurd (hS.hinnerInj hn _ _ (by rw [hceilA]; omega) hidx he)
          (by omega))]
  have hptr' : ∀ b, isPtrBlock s' ino (n - 1) b → isPtrBlock s ino n b := by
    rintro b (⟨-, rfl⟩ | ⟨-, rfl | ⟨i, hi, rfl⟩⟩)
    · exact Or.inl ⟨by omega, rfl⟩
    · exact Or.inr ⟨hn, Or.inl rfl⟩
    · rw [hceilB] at hi
      rw [hbO i, updSlot_ne (by omega)]
      exact Or.inr ⟨hn, Or.inr ⟨i, by rw [hceilA]; omega, rfl⟩⟩
  have hNotherPtr : ∀ i, i < (n - 1 - (1 + POINTER_PER_BLOCK)) /
      POINTER_PER_BLOCK → ¬ s.blocks ino.iindirect_pointer i =
      s.blocks ino.iindirect_pointer
        ((n - 1 - (1 + POINTER_PER_BLOCK)) / POINTER_PER_BLOCK) := by
    intro i hi he
    exact absurd (hS.hinnerInj hn _ _ (by rw [hceilA]; omega) hidx he) (by omega)
  refine ⟨⟨by have := hS.hmax; omega, fun h1 => absurd h1 (by omega),
    fun _ => hS.hdirect1 (by omega),
    fun h1 => absurd h1 (by omega), fun _ => hS.hind1 (by omega), ?_,
    fun h1 => absurd h1 (by omega), fun _ => hS.hiind1 hn,
    ?_, ?_, ?_, ?_, ?_, fun _ _ => hS.hII (by omega) hn, ?_, ?_⟩, hl2pOld, hptr'⟩
  · -- hindSlots
    intro _ j hj
    rw [hbOther ino.indirect_pointer (fun he => hIndIind he) hneInd,
      hS.hindSlots (by omega) j hj]
    omega
  · -- houterSlots
    intro _ i hi
    rw [hbO i]
    by_cases hiq : i = (n - 1 - (1 + POINTER_PER_BLOCK)) / POINTER_PER_BLOCK
    · subst hiq
      rw [updSlot_eq, hceilB]
      exact iff_of_true rfl (by omega)
    · rw [updSlot_ne hiq, hS.houterSlots hn i hi, hceilA, hceilB]
      omega
  · -- hinnerSlots
    intro _ i hi j hj
    rw [hceilB] at hi
    rw [hbO i, updSlot_ne (by omega)]
    rw [hbOther (s.blocks ino.iindirect_pointer i)
        ((hS.hinnerNe hn i (by rw [hceilA]; omega)).2) (hNotherPtr i hi),
      hS.hinnerSlots hn i (by rw [hceilA]; omega) j hj]
    simp only [POINTER_PER_BLOCK, BLOCK_SIZE] at hio hi hj hn ⊢
    omega
  · -- hmarked
    rintro b (⟨k, hk, rfl⟩ | hptr)
    · rw [hl2pOld k (by omega), ch1, ch2]
      obtain ⟨m1, m2, -⟩ := hS.hmarked _ (Or.inl ⟨k, by omega, rfl⟩)
      refine ⟨m1, m2, hbmKeep _ (Or.inl ⟨k, by omega, rfl⟩) ?_ ?_⟩
      · intro he
        exact absurd (hS.hinj k (n - 1) (by omega) (by omega) he) (by omega)
      · intro he
        exact hS.hdp k (by omega) (he ▸ hIN)
    · rw [ch1, ch2]
      rcases hptr with ⟨-, rfl⟩ | ⟨-, rfl | ⟨i, hi, rfl⟩⟩
      · have hown : isPtrBlock s ino n ino.indirect_pointer :=
          Or.inl ⟨by omega, rfl⟩
        obtain ⟨m1, m2, -⟩ := hS.hmarked _ (Or.inr hown)
        refine ⟨m1, m2, hbmKeep _ (Or.inr hown) ?_ hneInd⟩
        intro he
        exact hS.hdp (n - 1) (by omega) (he ▸ hown)
      · have hown : isPtrBlock s ino n ino.iindirect_pointer :=
          Or.inr ⟨hn, Or.inl rfl⟩
        obtain ⟨m1, m2, -⟩ := hS.hmarked _ (Or.inr hown)
        refine ⟨m1, m2, hbmKeep _ (Or.inr hown) ?_ hneIind⟩
        intro he
        exact hS.hdp (n - 1) (by omega) (he ▸ hown)
      · rw [hceilB] at hi
        rw [hbO i, updSlot_ne (by omega)]
        have hown : isPtrBlock s ino n (s.blocks ino.iindirect_pointer i) :=
          Or.inr ⟨hn, Or.inr ⟨i, by rw [hceilA]; omega, rfl⟩⟩
        obtain ⟨m1, m2, -⟩ := hS.hmarked _ (Or.inr hown)
        refine ⟨m1, m2, hbmKeep _ (Or.inr hown) ?_ (hNotherPtr i hi)⟩
        intro he
        exact hS.hdp (n - 1) (by omega) (he ▸ hown)
  · -- hinj
    intro k k' hk hk' he
    rw [hl2pOld k (by omega), hl2pOld k' (by omega)] at he
    exact hS.hinj k k' (by omega) (by omega) he
  · -- hdp
    intro k hk hptr
    rw [hl2pOld k (by omega)] at hptr
    exact hS.hdp k (by omega) (hptr' _ hptr)
  · -- hinnerNe
    intro _ i hi
    rw [hceilB] at hi
    rw [hbO i, updSlot_ne (by omega)]
    exact hS.hinnerNe hn i (by rw [hceilA]; omega)
  · -- hinnerInj
    intro _ i i' hi hi' he
    rw [hceilB] at hi hi'
    rw [hbO i, hbO i', updSlot_ne (by omega), updSlot_ne (by omega)] at he
    exact hS.hinnerInj hn i i' (by rw [hceilA]; omega) (by rw [hceilA]; omega) he

/-- Structure restriction for the last double-indirect shrink step
(`block_now = 2 + P`): the data block, the single inner block and the
outer block are all freed; the freed blocks' contents are irrelevant. -/
theorem StructOK_shrink2_start {s s' : FS} {ino : INode} {g g2 : Nat → Nat}
    (hS : StructOK s ino (1 + POINTER_PER_BLOCK + 1))
    (hdbo : 1 ≤ s.header.data_block_offset)
    (ch1 : s'.header.data_block_offset = s.header.data_block_offset)
    (ch2 : s'.header.data_block_num_tot = s.header.data_block_num_tot)
    (hbm' : s'.dataBm = fun q =>
      if q = ino.iindirect_pointer - s.header.data_block_offset then false
      else if q = s.blocks ino.iindirect_pointer 0 -
          s.header.data_block_offset then false
      else if q = s.blocks (s.blocks ino.iindirect_pointer 0) 0 -
          s.header.data_block_offset then false
      else s.dataBm q)
    (hbl' : s'.blocks = fun b =>
      if b = ino.iindirect_pointer then g
      else if b = s.blocks ino.iindirect_pointer 0 then g2
      else s.blocks b) :
    StructOK s' { ino with iindirect_pointer := 0 }
      (1 + POINTER_PER_BLOCK) ∧
    (∀ k, k < 1 + POINTER_PER_BLOCK →
      l2p s' { ino with iindirect_pointer := 0 } k = l2p s ino k) ∧
    (∀ b, isPtrBlock s' { ino with iindirect_pointer := 0 }
      (1 + POINTER_PER_BLOCK) b →
      isPtrBlock s ino (1 + POINTER_PER_BLOCK + 1) b) := by
  have hn : 1 + POINTER_PER_BLOCK < 1 + POINTER_PER_BLOCK + 1 := by omega
  have hceilA : ceilP (1 + POINTER_PER_BLOCK + 1 - 1 - POINTER_PER_BLOCK)
      = 1 := by
    simp only [ceilP, POINTER_PER_BLOCK, BLOCK_SIZE]
  have hidx : 0 < ceilP (1 + POINTER_PER_BLOCK + 1 - 1 - POINTER_PER_BLOCK) := by
    rw [hceilA]
    omega
  have hIN : isPtrBlock s ino (1 + POINTER_PER_BLOCK + 1)
      (s.blocks ino.iindirect_pointer 0) :=
    Or.inr ⟨hn, Or.inr ⟨0, hidx, rfl⟩⟩
  have hIIN : isPtrBlock s ino (1 + POINTER_PER_BLOCK + 1)
      ino.iindirect_pointer := Or.inr ⟨hn, Or.inl rfl⟩
  have hIndP : isPtrBlock s ino (1 + POINTER_PER_BLOCK + 1)
      ino.indirect_pointer := Or.inl ⟨by omega, rfl⟩
  have hNne := hS.hinnerNe hn 0 hidx
  have hneInd : ¬ ino.indirect_pointer = s.blocks ino.iindirect_pointer 0 :=
    fun he => hNne.1 he.symm
  have hIndIind : ino.indirect_pointer ≠ ino.iindirect_pointer :=
    hS.hII (by omega) hn
  have hDeq : l2p s ino (1 + POINTER_PER_BLOCK) =
      s.blocks (s.blocks ino.iindirect_pointer
        ((1 + POINTER_PER_BLOCK - (1 + POINTER_PER_BLOCK)) / POINTER_PER_BLOCK))
        ((1 + POINTER_PER_BLOCK - (1 + POINTER_PER_BLOCK)) % POINTER_PER_BLOCK) :=
    l2p_tier2 s ino (le_refl _)
  have hDeq' : l2p s ino (1 + POINTER_PER_BLOCK) =
      s.blocks (s.blocks ino.iindirect_pointer 0) 0 := by
    rw [hDeq, Nat.sub_self, Nat.zero_div, Nat.zero_mod]
  have hbOther : ∀ b, ¬ b = ino.iindirect_pointer →
      ¬ b = s.blocks ino.iindirect_pointer 0 →
      s'.blocks b = s.blocks b := by
    intro b hb1 hb2
    rw [hbl']
    show (if b = ino.iindirect_pointer then g
      else if b = s.blocks ino.iindirect_pointer 0 then g2
      else s.blocks b) = s.blocks b
    rw [if_neg hb1, if_neg hb2]
  have hbmKeep : ∀ b, isOwned s ino (1 + POINTER_PER_BLOCK + 1) b →
      ¬ b = l2p s ino (1 + POINTER_PER_BLOCK) →
      ¬ b = s.blocks ino.iindirect_pointer 0 →
      ¬ b = ino.iindirect_pointer →
      s'.dataBm (b - s.header.data_block_offset) = true := by
    intro b hb hbne1 hbne2 hbne3
    obtain ⟨m1, m2, m3⟩ := hS.hmarked b hb
    obtain ⟨d1, d2, -⟩ := hS.hmarked _
      (Or.inl ⟨1 + POINTER_PER_BLOCK, by omega, rfl⟩)
    obtain ⟨e1, e2, -⟩ := hS.hmarked _ (Or.inr hIN)
    obtain ⟨c1, c2, -⟩ := hS.hmarked _ (Or.inr hIIN)
    rw [hDeq'] at d1 hbne1
    rw [hbm']
    show (if b - s.header.data_block_offset =
        ino.iindirect_pointer - s.header.data_block_offset then false
      else if b - s.header.data_block_offset =
        s.blocks ino.iindirect_pointer 0 - s.header.data_block_offset then false
      else if b - s.header.data_block_offset =
        s.blocks (s.blocks ino.iindirect_pointer 0) 0 -
          s.header.data_block_offset then false
      else s.dataBm (b - s.header.data_block_offset)) = true
    rw [if_neg (by omega), if_neg (by omega), if_neg (by omega)]
    exact m3
  have hl2pOld : ∀ k, k < 1 + POINTER_PER_BLOCK →
      l2p s' { ino with iindirect_pointer := 0 } k = l2p s ino k := by
    intro k hk
    by_cases h0 : k = 0
    · simp [l2p, h0]
    · rw [l2p_tier1 s' _ (by omega) hk, l2p_tier1 s ino (by omega) hk]
      show s'.blocks ino.indirect_pointer (k - 1) =
        s.blocks ino.indirect_pointer (k - 1)
      rw [hbOther ino.indirect_pointer (fun he => hIndIind he) hneInd]
  refine ⟨⟨by decide, fun h1 => absurd h1 (by omega),
    fun _ => hS.hdirect1 (by omega), fun h1 => absurd h1 (by decide),
    fun _ => hS.hind1 (by decide), ?_,
    fun _ => rfl, fun h1 => absurd h1 (by decide),
    fun h1 => absurd h1 (by decide), fun h1 => absurd h1 (by decide),
    ?_, ?_, ?_, fun _ h2 => absurd h2 (by decide),
    fun h1 => absurd h1 (by decide), fun h1 => absurd h1 (by decide)⟩, hl2pOld, ?_⟩
  · -- hindSlots
    intro _ j hj
    show s'.blocks ino.indirect_pointer j = 0 ↔ _
    rw [hbOther ino.indirect_pointer (fun he => hIndIind he) hneInd,
      hS.hindSlots (by decide) j hj]
    omega
  · -- hmarked
    rintro b (⟨k, hk, rfl⟩ | hptr)
    · rw [hl2pOld k (by omega), ch1, ch2]
      obtain ⟨m1, m2, -⟩ := hS.hmarked _ (Or.inl ⟨k, by omega, rfl⟩)
      refine ⟨m1, m2, hbmKeep _ (Or.inl ⟨k, by omega, rfl⟩) ?_ ?_ ?_⟩
      · intro he
        exact absurd (hS.hinj k (1 + POINTER_PER_BLOCK) (by omega) (by omega)
          he) (by omega)
      · intro he
        exact hS.hdp k (by omega) (he ▸ hIN)
      · intro he
        exact hS.hdp k (by omega) (he ▸ hIIN)
    · rcases hptr with ⟨-, hbe⟩ | ⟨habs, -⟩
      · have hbe' : b = ino.indirect_pointer := hbe
        subst hbe'
        rw [ch1, ch2]
        obtain ⟨m1, m2, -⟩ := hS.hmarked _ (Or.inr hIndP)
        refine ⟨m1, m2, hbmKeep _ (Or.inr hIndP) ?_ hneInd hIndIind⟩
        intro he
        exact hS.hdp (1 + POINTER_PER_BLOCK) (by omega) (he ▸ hIndP)
      · exact absurd habs (by decide)
  · -- hinj
    intro k k' hk hk' he
    rw [hl2pOld k (by omega), hl2pOld k' (by omega)] at he
    exact hS.hinj k k' (by omega) (by omega) he
  · -- hdp
    intro k hk hptr
    rcases hptr with ⟨-, hbe⟩ | ⟨habs, -⟩
    · have hbe' : l2p s' { ino with iindirect_pointer := 0 } k =
          ino.indirect_pointer := hbe
      rw [hl2pOld k (by omega)] at hbe'
      exact hS.hdp k (by omega) (hbe'.symm ▸ hIndP)
    · exact absurd habs (by decide)
  · -- pointer-block transfer
    rintro b (⟨-, hbe⟩ | ⟨habs, -⟩)
    · have hbe' : b = ino.indirect_pointer := hbe
      subst hbe'
      exact Or.inl ⟨by omega, rfl⟩
    · exact absurd habs (by decide)

/-- Structure restriction for an indirect-tier shrink step that leaves
the indirect block in place (`3 ≤ block_now ≤ 1 + P`). -/
theorem StructOK_shrink1_plain {s s' : FS} {ino : INode} {n : Nat}
    (hS : StructOK s ino n)
    (hn3 : 3 ≤ n) (hnP : n ≤ 1 + POINTER_PER_BLOCK)
    (hdbo : 1 ≤ s.header.data_block_offset)
    (ch1 : s'.header.data_block_offset = s.header.data_block_offset)
    (ch2 : s'.header.data_block_num_tot = s.header.data_block_num_tot)
    (hbm' : s'.dataBm = fun q =>
      if q = s.blocks ino.indirect_pointer (n - 1 - 1) -
          s.header.data_block_offset
      then false else s.dataBm q)
    (hbl' : s'.blocks = fun b =>
      if b = ino.indirect_pointer then
        updSlot (s.blocks ino.indirect_pointer) (n - 1 - 1) 0
      else s.blocks b) :
    StructOK s' ino (n - 1) ∧
    (∀ k, k < n - 1 → l2p s' ino k = l2p s ino k) ∧
    (∀ b, isPtrBlock s' ino (n - 1) b → isPtrBlock s ino n b) := by
  have hInd : isPtrBlock s ino n ino.indirect_pointer := Or.inl ⟨by omega, rfl⟩
  have hDeq : l2p s ino (n - 1) = s.blocks ino.indirect_pointer (n - 1 - 1) :=
    l2p_tier1 s ino (by omega) (by omega)
  have hbI : ∀ j, s'.blocks ino.indirect_pointer j =
      updSlot (s.blocks ino.indirect_pointer) (n - 1 - 1) 0 j := by
    intro j
    rw [hbl']
    show (if ino.indirect_pointer = ino.indirect_pointer then
      updSlot (s.blocks ino.indirect_pointer) (n - 1 - 1) 0
      else s.blocks ino.indirect_pointer) j = _
    rw [if_pos rfl]
  have hbmKeep : ∀ b, isOwned s ino n b → ¬ b = l2p s ino (n - 1) →
      s'.dataBm (b - s.header.data_block_offset) = true := by
    intro b hb hbne
    obtain ⟨m1, m2, m3⟩ := hS.hmarked b hb
    obtain ⟨m1', m2', -⟩ := hS.hmarked _ (Or.inl ⟨n - 1, by omega, rfl⟩)
    rw [hDeq] at m1' hbne
    rw [hbm']
    show (if b - s.header.data_block_offset =
        s.blocks ino.indirect_pointer (n - 1 - 1) - s.header.data_block_offset
      then false else s.dataBm (b - s.header.data_block_offset)) = true
    rw [if_neg (by omega)]
    exact m3
  have hl2pOld : ∀ k, k < n - 1 → l2p s' ino k = l2p s ino k := by
    intro k hk
    by_cases h0 : k = 0
    · simp only [l2p, h0]
      rw [if_pos True.intro, if_pos True.intro]
    · rw [l2p_tier1 s' ino (by omega) (by omega),
        l2p_tier1 s ino (by omega) (by omega), hbI (k - 1),
        updSlot_ne (by omega : ¬ k - 1 = n - 1 - 1)]
  have hptr' : ∀ b, isPtrBlock s' ino (n - 1) b → isPtrBlock s ino n b := by
    rintro b (⟨h1, rfl⟩ | ⟨h2, -⟩)
    · exact Or.inl ⟨by omega, rfl⟩
    · exact absurd h2 (by omega)
  refine ⟨⟨by have := hS.hmax; omega, fun h1 => absurd h1 (by omega),
    fun _ => hS.hdirect1 (by omega), fun h1 => absurd h1 (by omega),
    fun _ => hS.hind1 (by omega), ?_, fun _ => hS.hiind0 hnP,
    fun h1 => absurd h1 (by omega), fun h1 => absurd h1 (by omega),
    fun h1 => absurd h1 (by omega), ?_, ?_, ?_,
    fun _ h2 => absurd h2 (by omega), fun h1 => absurd h1 (by omega),
    fun h1 => absurd h1 (by omega)⟩, hl2pOld, hptr'⟩
  · -- hindSlots
    intro _ j hj
    rw [hbI j]
    by_cases hj2 : j = n - 1 - 1
    · subst hj2
      rw [updSlot_eq]
      refine iff_of_true rfl ?_
      omega
    · rw [updSlot_ne hj2, hS.hindSlots (by omega) j hj]
      omega
  · -- hmarked
    rintro b (⟨k, hk, rfl⟩ | hptr)
    · rw [hl2pOld k (by omega), ch1, ch2]
      obtain ⟨m1, m2, -⟩ := hS.hmarked _ (Or.inl ⟨k, by omega, rfl⟩)
      refine ⟨m1, m2, hbmKeep _ (Or.inl ⟨k, by omega, rfl⟩) ?_⟩
      intro he
      exact absurd (hS.hinj k (n - 1) (by omega) (by omega) he) (by omega)
    · rcases hptr with ⟨-, rfl⟩ | ⟨h2, -⟩
      · rw [ch1, ch2]
        obtain ⟨m1, m2, -⟩ := hS.hmarked _ (Or.inr hInd)
        refine ⟨m1, m2, hbmKeep _ (Or.inr hInd) ?_⟩
        intro he
        exact hS.hdp (n - 1) (by omega) (he ▸ hInd)
      · exact absurd h2 (by omega)
  · -- hinj
    intro k k' hk hk' he
    rw [hl2pOld k (by omega), hl2pOld k' (by omega)] at he
    exact hS.hinj k k' (by omega) (by omega) he
  · -- hdp
    intro k hk hptr
    rw [hl2pOld k (by omega)] at hptr
    exact hS.hdp k (by omega) (hptr' _ hptr)

/-- Structure restriction for the last indirect-tier shrink step
(`block_now = 2`): the data block and the indirect block are freed. -/
theorem StructOK_shrink1_drop {s s' : FS} {ino : INode} {g : Nat → Nat}
    (hS : StructOK s ino 2)
    (hdbo : 1 ≤ s.header.data_block_offset)
    (ch1 : s'.header.data_block_offset = s.header.data_block_offset)
    (ch2 : s'.header.data_block_num_tot = s.header.data_block_num_tot)
    (hbm' : s'.dataBm = fun q =>
      if q = ino.indirect_pointer - s.header.data_block_offset then false
      else if q = s.blocks ino.indirect_pointer 0 -
          s.header.data_block_offset
      then false else s.dataBm q)
    (hbl' : s'.blocks = fun b =>
      if b = ino.indirect_pointer then g else s.blocks b) :
    StructOK s' { ino with indirect_pointer := 0 } 1 ∧
    (∀ k, k < 1 → l2p s' { ino with indirect_pointer := 0 } k = l2p s ino k) ∧
    (∀ b, isPtrBlock s' { ino with indirect_pointer := 0 } 1 b →
      isPtrBlock s ino 2 b) := by
  have hInd : isPtrBlock s ino 2 ino.indirect_pointer := Or.inl ⟨by omega, rfl⟩
  have hDeq : l2p s ino 1 = s.blocks ino.indirect_pointer 0 := by
    rw [l2p_tier1 s ino (by omega) (by decide)]
  have hbmKeep : ∀ b, isOwned s ino 2 b → ¬ b = l2p s ino 1 →
      ¬ b = ino.indirect_pointer →
      s'.dataBm (b - s.header.data_block_offset) = true := by
    intro b hb hbne1 hbne2
    obtain ⟨m1, m2, m3⟩ := hS.hmarked b hb
    obtain ⟨m1', m2', -⟩ := hS.hmarked _ (Or.inl ⟨1, by omega, rfl⟩)
    obtain ⟨c1, c2, -⟩ := hS.hmarked _ (Or.inr hInd)
    rw [hDeq] at m1' hbne1
    rw [hbm']
    show (if b - s.header.data_block_offset =
        ino.indirect_pointer - s.header.data_block_offset then false
      else if b - s.header.data_block_offset =
        s.blocks ino.indirect_pointer 0 - s.header.data_block_offset then false
      else s.dataBm (b - s.header.data_block_offset)) = true
    rw [if_neg (by omega), if_neg (by omega)]
    exact m3
  have hl2pOld : ∀ k, k < 1 →
      l2p s' { ino with indirect_pointer := 0 } k = l2p s ino k := by
    intro k hk
    have h0 : k = 0 := by omega
    simp [l2p, h0]
  have hptr' : ∀ b, isPtrBlock s' { ino with indirect_pointer := 0 } 1 b →
      isPtrBlock s ino 2 b := by
    rintro b (⟨h1, -⟩ | ⟨h1, -⟩) <;> exact absurd h1 (by decide)
  refine ⟨⟨by decide, fun h1 => absurd h1 (by omega),
    fun _ => hS.hdirect1 (by omega), fun _ => rfl,
    fun h1 => absurd h1 (by decide), fun h1 => absurd h1 (by decide),
    fun _ => hS.hiind0 (by decide), fun h1 => absurd h1 (by decide),
    fun h1 => absurd h1 (by decide), fun h1 => absurd h1 (by decide),
    ?_, ?_, ?_, fun _ h2 => absurd h2 (by decide),
    fun h1 => absurd h1 (by decide), fun h1 => absurd h1 (by decide)⟩,
    hl2pOld, hptr'⟩
  · -- hmarked
    rintro b (⟨k, hk, rfl⟩ | hptr)
    · have h0 : k = 0 := by omega
      subst h0
      rw [hl2pOld 0 (by omega), ch1, ch2]
      obtain ⟨m1, m2, -⟩ := hS.hmarked _ (Or.inl ⟨0, by omega, rfl⟩)
      refine ⟨m1, m2, hbmKeep _ (Or.inl ⟨0, by omega, rfl⟩) ?_ ?_⟩
      · intro he
        exact absurd (hS.hinj 0 1 (by omega) (by omega) he) (by omega)
      · intro he
        exact hS.hdp 0 (by omega) (he ▸ hInd)
    · rcases hptr with ⟨h1, -⟩ | ⟨h1, -⟩ <;> exact absurd h1 (by decide)
  · -- hinj
    intro k k' hk hk' _
    omega
  · -- hdp
    intro k hk hptr
    rcases hptr with ⟨h1, -⟩ | ⟨h1, -⟩ <;> exact absurd h1 (by decide)

/-- The indirect-tier grow step for `block_now = 1`: create the indirect
block, then allocate the second data block; on failure of the second
allocation the indirect block is freed again. -/
theorem growStep_spec1_create {s : FS} {ino : INode} (h : StepInv s ino 1) :
    (∃ s' ino', growStep s ino 1 = (s', ino', true) ∧ growOkPost s s' ino ino' 1) ∨
    (∃ s', growStep s ino 1 = (s', ino, false) ∧ growFailPost s s' ino 1) := by
  obtain ⟨hA, hS, hcap, hdbo⟩ := h
  have hind0 : ino.indirect_pointer = 0 := hS.hind0 (by omega)
  by_cases hfree : s.header.data_block_num_free = 0
  · refine Or.inr ⟨s, ?_, ⟨hA, hS, hcap, hdbo⟩, rfl, rfl, sameCore_refl s⟩
    simp only [growStep]
    rw [if_neg (by omega : ¬ (1:Nat) < 1),
      if_pos (show (1:Nat) < 1 + POINTER_PER_BLOCK by decide),
      if_pos True.intro, alloc_data_eq_zero s hfree]
  · rcases hp1 : alloc_data s with ⟨s1, r1⟩
    obtain ⟨p1, hbm1, hlt1, hmin1, hr1, hA1, f1bm, f1h, f1bl, f1in, f1ibm, f1imp, f1ck⟩ :=
      alloc_data_fields hA hfree hp1
    subst hr1
    have hA2 : AllocInv (commitBlock s1 (p1 + s.header.data_block_offset) zeroBlock) :=
      AllocInv_commitBlock hA1
    have hXh : (commitBlock s1 (p1 + s.header.data_block_offset) zeroBlock).header
        = { s.header with data_block_num_free := s.header.data_block_num_free - 1 } := f1h
    have hXdbo : (commitBlock s1 (p1 + s.header.data_block_offset)
        zeroBlock).header.data_block_offset = s.header.data_block_offset := by
      rw [hXh]
    have hsbX : sameButFree s (commitBlock s1 (p1 + s.header.data_block_offset) zeroBlock)
        (s.header.data_block_num_free - 1) :=
      sameButFree_commitBlock ⟨f1h, f1in, f1ibm, f1imp, f1ck⟩ _ _
    by_cases hfree2 : s.header.data_block_num_free - 1 = 0
    · -- the second allocation fails: the step undoes itself
      have hz : alloc_data (commitBlock s1 (p1 + s.header.data_block_offset) zeroBlock) =
          (commitBlock s1 (p1 + s.header.data_block_offset) zeroBlock, none) :=
        alloc_data_eq_zero _ (by rw [hXh]; exact hfree2)
      have hg : growStep s ino 1 =
          (free_data (commitBlock s1 (p1 + s.header.data_block_offset) zeroBlock)
            (p1 + s.header.data_block_offset),
           { ino with indirect_pointer := 0 }, false) := by
        simp only [growStep, hp1, hz]
        rw [if_neg (by omega : ¬ (1:Nat) < 1),
          if_pos (show (1:Nat) < 1 + POINTER_PER_BLOCK by decide), if_pos True.intro]
      rw [INode_reset_ind hind0] at hg
      have hsbF : sameButFree s
          (free_data (commitBlock s1 (p1 + s.header.data_block_offset) zeroBlock)
            (p1 + s.header.data_block_offset))
          (s.header.data_block_num_free - 1 + 1) :=
        sameButFree_free_data hsbX _
      obtain ⟨hcore, cfree, cdbo, ctot⟩ := sameButFree_core hsbF
      have hFbm : (free_data (commitBlock s1 (p1 + s.header.data_block_offset) zeroBlock)
          (p1 + s.header.data_block_offset)).dataBm = s.dataBm := by
        funext q
        show (if q = (p1 + s.header.data_block_offset) -
            (commitBlock s1 (p1 + s.header.data_block_offset)
              zeroBlock).header.data_block_offset
          then false else s1.dataBm q) = s.dataBm q
        rw [hXdbo, Nat.add_sub_cancel, f1bm]
        by_cases hq : q = p1
        · rw [if_pos hq, hq, hbm1]
        · rw [if_neg hq]
          show (if q = p1 then true else s.dataBm q) = s.dataBm q
          rw [if_neg hq]
      have hAF : AllocInv (free_data (commitBlock s1 (p1 + s.header.data_block_offset)
          zeroBlock) (p1 + s.header.data_block_offset)) := by
        refine allocInv_step hA2 (AllocStep.freeD _ _ ?_ ?_)
        · rw [hXdbo]
          omega
        · rw [hXdbo, Nat.add_sub_cancel]
          show s1.dataBm p1 = true
          rw [f1bm]
          show (if p1 = p1 then true else s.dataBm p1) = true
          rw [if_pos rfl]
      have hSOK : StructOK (free_data (commitBlock s1 (p1 + s.header.data_block_offset)
          zeroBlock) (p1 + s.header.data_block_offset)) ino 1 := by
        refine StructOK_congr hS (fun b hb => ?_) cdbo ctot (fun b hb => ?_)
        · rw [hFbm]
          exact (hS.hmarked b hb).2.2
        · rcases hb with ⟨h1, -⟩ | ⟨h1, -⟩ <;> exact absurd h1 (by decide)
      refine Or.inr ⟨_, hg, ⟨hAF, hSOK, by rw [ctot]; exact hcap,
        by rw [cdbo]; exact hdbo⟩, ?_, hFbm, hcore⟩
      rw [cfree]
      omega
    · -- the second allocation succeeds
      rcases hp2 : alloc_data (commitBlock s1 (p1 + s.header.data_block_offset) zeroBlock)
        with ⟨s3, r2⟩
      obtain ⟨p2, hbm2, hlt2, hmin2, hr2, hA3, f2bm, f2h, f2bl, f2in, f2ibm, f2imp, f2ck⟩ :=
        alloc_data_fields hA2 (by intro hc; apply hfree2; rw [hXh] at hc; exact hc) hp2
      subst hr2
      have hg : growStep s ino 1 =
          (commitBlock s3 (p1 + s.header.data_block_offset)
            (updSlot (s3.blocks (p1 + s.header.data_block_offset)) 0
              (p2 + s.header.data_block_offset)),
           { ino with indirect_pointer := p1 + s.header.data_block_offset }, true) := by
        simp only [growStep, hp1, hp2, hXdbo]
        rw [if_neg (by omega : ¬ (1:Nat) < 1),
          if_pos (show (1:Nat) < 1 + POINTER_PER_BLOCK by decide), if_pos True.intro]
      have h3bm : s3.dataBm =
          (fun q => if q = p2 then true else if q = p1 then true else s.dataBm q) := by
        funext q
        rw [f2bm]
        show (if q = p2 then true else s1.dataBm q) =
          (if q = p2 then true else if q = p1 then true else s.dataBm q)
        rw [f1bm]
      have h3bl : s3.blocks = (fun b =>
          if b = p1 + s.header.data_block_offset then zeroBlock else s.blocks b) := by
        rw [f2bl]
        show (fun b => if b = p1 + s.header.data_block_offset then zeroBlock
          else s1.blocks b) = _
        rw [f1bl]
      have hXfree : (commitBlock s1 (p1 + s.header.data_block_offset)
          zeroBlock).header.data_block_num_free = s.header.data_block_num_free - 1 := by
        rw [hXh]
      have hsb3 : sameButFree s s3 (s.header.data_block_num_free - 1 - 1) := by
        have h0 := sameButFree_trans hsbX ⟨f2h, f2in, f2ibm, f2imp, f2ck⟩
        rw [hXfree] at h0
        exact h0
      have hp2p1 : p2 ≠ p1 ∧ s.dataBm p2 = false := by
        have h4 : (if p2 = p1 then true else s.dataBm p2) = false := by
          have h3 : s1.dataBm p2 = false := hbm2
          rw [f1bm] at h3
          exact h3
        by_cases hq : p2 = p1
        · rw [if_pos hq] at h4
          cases h4
        · rw [if_neg hq] at h4
          exact ⟨hq, h4⟩
      obtain ⟨hne21, hsp2⟩ := hp2p1
      have hlt2' : p2 < s.header.data_block_num_tot := by
        have h5 := hlt2
        rw [hXh] at h5
        exact h5
      have main : ∀ s' : FS,
          s'.dataBm = (fun q => if q = p2 then true else
            if q = p1 then true else s.dataBm q) →
          s'.blocks = (fun b => if b = p1 + s.header.data_block_offset then
            updSlot zeroBlock 0 (p2 + s.header.data_block_offset) else s.blocks b) →
          sameButFree s s' (s.header.data_block_num_free - 1 - 1) → AllocInv s' →
          growOkPost s s' ino
            { ino with indirect_pointer := p1 + s.header.data_block_offset } 1 := by
        intro s' hbm' hbl' hsb' hA'
        obtain ⟨hcore, cfree, cdbo, ctot⟩ := sameButFree_core hsb'
        have hfresh1 : ¬ isOwned s ino 1 (p1 + s.header.data_block_offset) :=
          fresh_not_owned hS hbm1
        have hfresh2 : ¬ isOwned s ino 1 (p2 + s.header.data_block_offset) :=
          fresh_not_owned hS hsp2
        have hbmMono : ∀ q, s.dataBm q = true → s'.dataBm q = true := by
          intro q hq
          rw [hbm']
          show (if q = p2 then true else if q = p1 then true else s.dataBm q) = true
          by_cases hq2 : q = p2
          · rw [if_pos hq2]
          · rw [if_neg hq2]
            by_cases hq1 : q = p1
            · rw [if_pos hq1]
            · rw [if_neg hq1]
              exact hq
        have hl2p0 : l2p s' { ino with
            indirect_pointer := p1 + s.header.data_block_offset } 0 =
            ino.direct_pointer := rfl
        have hl2p1 : l2p s' { ino with
            indirect_pointer := p1 + s.header.data_block_offset } 1 =
            p2 + s.header.data_block_offset := by
          simp only [l2p]
          rw [if_neg (by decide : ¬ (1:Nat) = 0),
            if_pos (by decide : (1:Nat) < 1 + POINTER_PER_BLOCK)]
          show s'.blocks (p1 + s.header.data_block_offset) (1 - 1) = _
          rw [hbl']
          show (if p1 + s.header.data_block_offset = p1 + s.header.data_block_offset then
            updSlot zeroBlock 0 (p2 + s.header.data_block_offset)
            else s.blocks (p1 + s.header.data_block_offset)) (1 - 1) = _
          rw [if_pos rfl]
          rfl
        have hSOK : StructOK s'
            { ino with indirect_pointer := p1 + s.header.data_block_offset } 2 := by
          refine ⟨by decide, fun h1 => absurd h1 (by omega),
            fun _ => hS.hdirect1 (by omega),
            fun h1 => absurd h1 (by omega), fun _ => by dsimp only; omega, ?_,
            fun _ => hS.hiind0 (by omega), fun h1 => absurd h1 (by decide),
            fun h1 => absurd h1 (by decide), fun h1 => absurd h1 (by decide),
            ?_, ?_, ?_, fun _ h2 => absurd h2 (by decide),
            fun h1 => absurd h1 (by decide), fun h1 => absurd h1 (by decide)⟩
          · intro _ j hj
            show s'.blocks (p1 + s.header.data_block_offset) j = 0 ↔
              min (2 - 1) POINTER_PER_BLOCK ≤ j
            rw [hbl']
            show (if p1 + s.header.data_block_offset = p1 + s.header.data_block_offset then
              updSlot zeroBlock 0 (p2 + s.header.data_block_offset)
              else s.blocks (p1 + s.header.data_block_offset)) j = 0 ↔ _
            rw [if_pos rfl]
            simp only [updSlot]
            by_cases hj0 : j = 0
            · rw [if_pos hj0]
              omega
            · rw [if_neg hj0]
              simp only [zeroBlock]
              exact iff_of_true (by trivial) (by omega)
          · rintro b (⟨k, hk, rfl⟩ | hptr)
            · by_cases hk0 : k = 0
              · subst hk0
                rw [hl2p0, cdbo, ctot]
                obtain ⟨m1, m2, m3⟩ :=
                  hS.hmarked ino.direct_pointer (Or.inl ⟨0, by omega, rfl⟩)
                exact ⟨m1, m2, hbmMono _ m3⟩
              · have hk1 : k = 1 := by omega
                subst hk1
                rw [hl2p1, cdbo, ctot]
                refine ⟨by omega, by omega, ?_⟩
                rw [Nat.add_sub_cancel, hbm']
                show (if p2 = p2 then true else
                  if p2 = p1 then true else s.dataBm p2) = true
                rw [if_pos rfl]
            · rcases hptr with ⟨-, hbe⟩ | ⟨h2, -⟩
              · have hbe' : b = p1 + s.header.data_block_offset := hbe
                subst hbe'
                rw [cdbo, ctot]
                refine ⟨by omega, by omega, ?_⟩
                rw [Nat.add_sub_cancel, hbm']
                show (if p1 = p2 then true else
                  if p1 = p1 then true else s.dataBm p1) = true
                rw [if_neg (fun he => hne21 he.symm), if_pos rfl]
              · exact absurd h2 (by decide)
          · intro k k' hk hk' he
            by_cases hk0 : k = 0 <;> by_cases hk0' : k' = 0
            · omega
            · exfalso
              have hk1' : k' = 1 := by omega
              subst hk0
              subst hk1'
              rw [hl2p0, hl2p1] at he
              exact hfresh2 (Or.inl ⟨0, by omega, he.symm⟩)
            · exfalso
              have hk1 : k = 1 := by omega
              subst hk1
              subst hk0'
              rw [hl2p0, hl2p1] at he
              exact hfresh2 (Or.inl ⟨0, by omega, he⟩)
            · omega
          · intro k hk hptr
            rcases hptr with ⟨-, hbe⟩ | ⟨h2, -⟩
            · have hbe' : l2p s' { ino with
                  indirect_pointer := p1 + s.header.data_block_offset } k =
                  p1 + s.header.data_block_offset := hbe
              by_cases hk0 : k = 0
              · subst hk0
                rw [hl2p0] at hbe'
                exact hfresh1 (Or.inl ⟨0, by omega, hbe'.symm⟩)
              · have hk1 : k = 1 := by omega
                subst hk1
                rw [hl2p1] at hbe'
                exact hne21 (by omega)
            · exact absurd h2 (by decide)
        refine ⟨⟨hA', hSOK, by rw [ctot]; exact hcap, by rw [cdbo]; exact hdbo⟩,
          ?_, hcore, rfl, rfl, rfl, rfl, rfl⟩
        rw [cfree, ownedCount_two, ownedCount_one]
        omega
      refine Or.inl ⟨_, _, hg, main _ h3bm ?_ (sameButFree_commitBlock hsb3 _ _)
        (AllocInv_commitBlock hA3)⟩
      funext b
      show (if b = p1 + s.header.data_block_offset then
        updSlot (s3.blocks (p1 + s.header.data_block_offset)) 0
          (p2 + s.header.data_block_offset)
        else s3.blocks b) = _
      by_cases hb : b = p1 + s.header.data_block_offset
      · rw [if_pos hb, if_pos hb]
        have h6 : s3.blocks (p1 + s.header.data_block_offset) = zeroBlock := by
          rw [h3bl]
          show (if p1 + s.header.data_block_offset = p1 + s.header.data_block_offset then
            zeroBlock else s.blocks (p1 + s.header.data_block_offset)) = zeroBlock
          rw [if_pos rfl]
        rw [h6]
      · rw [if_neg hb, if_neg hb, h3bl]
        show (if b = p1 + s.header.data_block_offset then zeroBlock
          else s.blocks b) = s.blocks b
        rw [if_neg hb]

/-- The indirect-tier grow step for `2 ≤ block_now < 1 + P`: the branch
that only fills a new slot of the existing indirect block. -/
theorem growStep_spec1_plain {s : FS} {ino : INode} {n : Nat} (h : StepInv s ino n)
    (hn1 : 2 ≤ n) (hn2 : n < 1 + POINTER_PER_BLOCK) :
    (∃ s' ino', growStep s ino n = (s', ino', true) ∧ growOkPost s s' ino ino' n) ∨
    (∃ s', growStep s ino n = (s', ino, false) ∧ growFailPost s s' ino n) := by
  obtain ⟨hA, hS, hcap, hdbo⟩ := h
  by_cases hfree : s.header.data_block_num_free = 0
  · refine Or.inr ⟨s, ?_, ⟨hA, hS, hcap, hdbo⟩, rfl, rfl, sameCore_refl s⟩
    simp only [growStep]
    rw [if_neg (by omega : ¬ n < 1), if_pos hn2,
      if_neg (by omega : ¬ n - 1 = 0), alloc_data_eq_zero s hfree]
  · rcases hp1 : alloc_data s with ⟨s1, r1⟩
    obtain ⟨p, hbm1, hlt1, hmin1, hr1, hA1, f1bm, f1h, f1bl, f1in, f1ibm, f1imp, f1ck⟩ :=
      alloc_data_fields hA hfree hp1
    subst hr1
    have hIne : ino.indirect_pointer ≠ 0 := hS.hind1 (by omega)
    have hg : growStep s ino n =
        (commitBlock s1 ino.indirect_pointer
          (updSlot (s1.blocks ino.indirect_pointer) (n - 1)
            (p + s.header.data_block_offset)), ino, true) := by
      simp only [growStep]
      rw [if_neg (by omega : ¬ n < 1), if_pos hn2,
        if_neg (by omega : ¬ n - 1 = 0), hp1]
    have hsb : sameButFree s (commitBlock s1 ino.indirect_pointer
        (updSlot (s1.blocks ino.indirect_pointer) (n - 1)
          (p + s.header.data_block_offset))) (s.header.data_block_num_free - 1) :=
      sameButFree_commitBlock ⟨f1h, f1in, f1ibm, f1imp, f1ck⟩ _ _
    have main : ∀ s' : FS,
        s'.dataBm = (fun q => if q = p then true else s.dataBm q) →
        s'.blocks = (fun b => if b = ino.indirect_pointer then
          updSlot (s.blocks ino.indirect_pointer) (n - 1)
            (p + s.header.data_block_offset) else s.blocks b) →
        sameButFree s s' (s.header.data_block_num_free - 1) → AllocInv s' →
        growOkPost s s' ino ino n := by
      intro s' hbm' hbl' hsb' hA'
      obtain ⟨hcore, cfree, cdbo, ctot⟩ := sameButFree_core hsb'
      have hfresh : ¬ isOwned s ino n (p + s.header.data_block_offset) :=
        fresh_not_owned hS hbm1
      have hI : isPtrBlock s ino n ino.indirect_pointer := Or.inl ⟨by omega, rfl⟩
      have hd2I : p + s.header.data_block_offset ≠ ino.indirect_pointer :=
        fun he => hfresh (Or.inr (by rw [he]; exact hI))
      have hblI : ∀ j, s'.blocks ino.indirect_pointer j =
          updSlot (s.blocks ino.indirect_pointer) (n - 1)
            (p + s.header.data_block_offset) j := by
        intro j
        rw [hbl']
        show (if ino.indirect_pointer = ino.indirect_pointer then
          updSlot (s.blocks ino.indirect_pointer) (n - 1)
            (p + s.header.data_block_offset)
          else s.blocks ino.indirect_pointer) j = _
        rw [if_pos rfl]
      have hbmMono : ∀ q, s.dataBm q = true → s'.dataBm q = true := by
        intro q hq
        rw [hbm']
        show (if q = p then true else s.dataBm q) = true
        by_cases hqp : q = p
        · rw [if_pos hqp]
        · rw [if_neg hqp]; exact hq
      have hbmP : s'.dataBm p = true := by
        rw [hbm']
        show (if p = p then true else s.dataBm p) = true
        rw [if_pos rfl]
      have hl2pOld : ∀ k, k < n → l2p s' ino k = l2p s ino k := by
        intro k hk
        simp only [l2p]
        by_cases h0 : k = 0
        · simp [h0]
        · rw [if_neg h0, if_neg h0, if_pos (by omega : k < 1 + POINTER_PER_BLOCK),
            if_pos (by omega : k < 1 + POINTER_PER_BLOCK), hblI (k - 1)]
          simp only [updSlot]
          rw [if_neg (by omega : ¬ k - 1 = n - 1)]
      have hl2pN : l2p s' ino n = p + s.header.data_block_offset := by
        simp only [l2p]
        rw [if_neg (by omega : ¬ n = 0), if_pos hn2, hblI (n - 1)]
        simp [updSlot]
      have hSOK : StructOK s' ino (n + 1) := by
        refine ⟨?_, fun h1 => absurd h1 (by omega), fun _ => hS.hdirect1 (by omega),
          fun h1 => absurd h1 (by omega), fun _ => hIne, ?_,
          fun _ => hS.hiind0 (by omega), fun h1 => absurd h1 (by omega),
          fun h1 => absurd h1 (by omega), fun h1 => absurd h1 (by omega),
          ?_, ?_, ?_, fun _ h2 => absurd h2 (by omega),
          fun h1 => absurd h1 (by omega), fun h1 => absurd h1 (by omega)⟩
        · have hle : 1 + POINTER_PER_BLOCK ≤ 1 + POINTER_PER_BLOCK +
              POINTER_PER_BLOCK * (POINTER_PER_BLOCK - 1) :=
            Nat.le_add_right _ _
          omega
        · intro _ j hj
          rw [hblI j]
          simp only [updSlot]
          by_cases hjn : j = n - 1
          · rw [if_pos hjn]
            omega
          · rw [if_neg hjn, hS.hindSlots (by omega) j hj]
            omega
        · rintro b (⟨k, hk, rfl⟩ | hptr)
          · by_cases hkn : k = n
            · subst hkn
              rw [hl2pN, cdbo, ctot]
              refine ⟨by omega, by omega, ?_⟩
              rw [Nat.add_sub_cancel]
              exact hbmP
            · rw [hl2pOld k (by omega), cdbo, ctot]
              obtain ⟨m1, m2, m3⟩ := hS.hmarked _ (Or.inl ⟨k, by omega, rfl⟩)
              exact ⟨m1, m2, hbmMono _ m3⟩
          · rcases hptr with ⟨-, rfl⟩ | ⟨h2, -⟩
            · rw [cdbo, ctot]
              obtain ⟨m1, m2, m3⟩ := hS.hmarked _ (Or.inr hI)
              exact ⟨m1, m2, hbmMono _ m3⟩
            · exact absurd h2 (by omega)
        · intro k k' hk hk' he
          by_cases hkn : k = n <;> by_cases hkn' : k' = n
          · omega
          · exfalso
            subst hkn
            rw [hl2pN, hl2pOld k' (by omega)] at he
            exact hfresh (Or.inl ⟨k', by omega, he⟩)
          · exfalso
            subst hkn'
            rw [hl2pN, hl2pOld k (by omega)] at he
            exact hfresh (Or.inl ⟨k, by omega, he.symm⟩)
          · rw [hl2pOld k (by omega), hl2pOld k' (by omega)] at he
            exact hS.hinj k k' (by omega) (by omega) he
        · intro k hk hptr
          rcases hptr with ⟨-, hbe⟩ | ⟨h2, -⟩
          · by_cases hkn : k = n
            · subst hkn
              rw [hl2pN] at hbe
              exact hd2I hbe
            · rw [hl2pOld k (by omega)] at hbe
              exact hS.hdp k (by omega) (Or.inl ⟨by omega, hbe⟩)
          · exact absurd h2 (by omega)
      refine ⟨⟨hA', hSOK, by rw [ctot]; exact hcap, by rw [cdbo]; exact hdbo⟩,
        ?_, hcore, rfl, rfl, rfl, rfl, rfl⟩
      rw [cfree]
      have hc1 : ownedCount (n + 1) = ownedCount n + 1 := by
        simp only [ownedCount, ptrCost]
        rw [if_pos (by omega : 1 < n + 1), if_pos (by omega : 1 < n),
          if_neg (by omega : ¬ 1 + POINTER_PER_BLOCK < n + 1),
          if_neg (by omega : ¬ 1 + POINTER_PER_BLOCK < n)]
      rw [hc1]
      omega
    refine Or.inl ⟨_, ino, hg, main _ f1bm ?_ hsb (AllocInv_commitBlock hA1)⟩
    show (fun b => if b = ino.indirect_pointer then
      updSlot (s1.blocks ino.indirect_pointer) (n - 1)
        (p + s.header.data_block_offset) else s1.blocks b) = _
    rw [f1bl]

/-- The double-indirect grow step in the middle of an inner block
(`id_offset ≠ 0`): one allocation, one inner-block commit. -/
theorem growStep_spec2_tail {s : FS} {ino : INode} {n : Nat} (h : StepInv s ino n)
    (hn : 1 + POINTER_PER_BLOCK ≤ n)
    (hio : ¬ (n - (1 + POINTER_PER_BLOCK)) % POINTER_PER_BLOCK = 0) :
    (∃ s' ino', growStep s ino n = (s', ino', true) ∧ growOkPost s s' ino ino' n) ∨
    (∃ s', growStep s ino n = (s', ino, false) ∧ growFailPost s s' ino n) := by
  obtain ⟨hA, hS, hcap, hdbo⟩ := h
  have hgt : 1 + POINTER_PER_BLOCK < n := by
    rcases Nat.lt_or_ge (1 + POINTER_PER_BLOCK) n with h1 | h1
    · exact h1
    · exfalso
      apply hio
      rw [show n = 1 + POINTER_PER_BLOCK from by omega]
      simp only [Nat.sub_self, Nat.zero_mod]
  have hgT : growStep s ino n = growStepTier2Tail s ino
      ((n - (1 + POINTER_PER_BLOCK)) / POINTER_PER_BLOCK)
      ((n - (1 + POINTER_PER_BLOCK)) % POINTER_PER_BLOCK) false false := by
    simp only [growStep]
    rw [if_neg (by omega : ¬ n < 1),
      if_neg (by omega : ¬ n < 1 + POINTER_PER_BLOCK), if_neg hio]
  by_cases hfree : s.header.data_block_num_free = 0
  · have hz : alloc_data s = (s, none) := alloc_data_eq_zero s hfree
    have hg : growStep s ino n = (commitBlock s ino.iindirect_pointer
        (s.blocks ino.iindirect_pointer), ino, false) := by
      rw [hgT]
      simp only [growStepTier2Tail, hz,
        if_neg (show ¬ false = true by decide)]
    refine Or.inr ⟨_, hg, ⟨AllocInv_commitBlock hA, ?_, hcap, hdbo⟩, rfl, rfl,
      ⟨rfl, rfl, rfl, rfl, rfl, rfl, rfl, rfl, rfl, rfl, rfl, rfl⟩⟩
    refine StructOK_congr hS (fun b hb => (hS.hmarked b hb).2.2) rfl rfl ?_
    intro b _
    show (if b = ino.iindirect_pointer then s.blocks ino.iindirect_pointer
      else s.blocks b) = s.blocks b
    by_cases hb : b = ino.iindirect_pointer
    · rw [if_pos hb, hb]
    · rw [if_neg hb]
  · rcases hp1 : alloc_data s with ⟨s1, r1⟩
    obtain ⟨p, hbm1, hlt1, hmin1, hr1, hA1, f1bm, f1h, f1bl, f1in, f1ibm, f1imp, f1ck⟩ :=
      alloc_data_fields hA hfree hp1
    subst hr1
    have hg : growStep s ino n = (commitBlock s1
        (s.blocks ino.iindirect_pointer
          ((n - (1 + POINTER_PER_BLOCK)) / POINTER_PER_BLOCK))
        (updSlot (s.blocks (s.blocks ino.iindirect_pointer
            ((n - (1 + POINTER_PER_BLOCK)) / POINTER_PER_BLOCK)))
          ((n - (1 + POINTER_PER_BLOCK)) % POINTER_PER_BLOCK)
          (p + s.header.data_block_offset)), ino, true) := by
      rw [hgT]
      simp only [growStepTier2Tail, hp1]
    have hsb : sameButFree s (commitBlock s1
        (s.blocks ino.iindirect_pointer
          ((n - (1 + POINTER_PER_BLOCK)) / POINTER_PER_BLOCK))
        (updSlot (s.blocks (s.blocks ino.iindirect_pointer
            ((n - (1 + POINTER_PER_BLOCK)) / POINTER_PER_BLOCK)))
          ((n - (1 + POINTER_PER_BLOCK)) % POINTER_PER_BLOCK)
          (p + s.header.data_block_offset)))
        (s.header.data_block_num_free - 1) :=
      sameButFree_commitBlock ⟨f1h, f1in, f1ibm, f1imp, f1ck⟩ _ _
    obtain ⟨hcore, cfree, cdbo, ctot⟩ := sameButFree_core hsb
    have hbmD : (commitBlock s1
        (s.blocks ino.iindirect_pointer
          ((n - (1 + POINTER_PER_BLOCK)) / POINTER_PER_BLOCK))
        (updSlot (s.blocks (s.blocks ino.iindirect_pointer
            ((n - (1 + POINTER_PER_BLOCK)) / POINTER_PER_BLOCK)))
          ((n - (1 + POINTER_PER_BLOCK)) % POINTER_PER_BLOCK)
          (p + s.header.data_block_offset))).dataBm
        (p + s.header.data_block_offset - s.header.data_block_offset) = true := by
      rw [Nat.add_sub_cancel]
      show s1.dataBm p = true
      rw [f1bm]
      show (if p = p then true else s.dataBm p) = true
      rw [if_pos rfl]
    have hbmMono : ∀ q, s.dataBm q = true → (commitBlock s1
        (s.blocks ino.iindirect_pointer
          ((n - (1 + POINTER_PER_BLOCK)) / POINTER_PER_BLOCK))
        (updSlot (s.blocks (s.blocks ino.iindirect_pointer
            ((n - (1 + POINTER_PER_BLOCK)) / POINTER_PER_BLOCK)))
          ((n - (1 + POINTER_PER_BLOCK)) % POINTER_PER_BLOCK)
          (p + s.header.data_block_offset))).dataBm q = true := by
      intro q hq
      show s1.dataBm q = true
      rw [f1bm]
      show (if q = p then true else s.dataBm q) = true
      by_cases hqp : q = p
      · rw [if_pos hqp]
      · rw [if_neg hqp]
        exact hq
    have hSOK := StructOK_grow2_tail hS hn hio
      (structOK_lt_cap hS (by omega) hcap) hdbo
      (fresh_not_owned hS hbm1) ⟨by omega, by omega⟩ hbmD hbmMono cdbo ctot
      (by
        show (fun b => if b = s.blocks ino.iindirect_pointer
            ((n - (1 + POINTER_PER_BLOCK)) / POINTER_PER_BLOCK) then
          updSlot (s.blocks (s.blocks ino.iindirect_pointer
              ((n - (1 + POINTER_PER_BLOCK)) / POINTER_PER_BLOCK)))
            ((n - (1 + POINTER_PER_BLOCK)) % POINTER_PER_BLOCK)
            (p + s.header.data_block_offset)
          else s1.blocks b) = _
        rw [f1bl])
    refine Or.inl ⟨_, ino, hg, ⟨AllocInv_commitBlock hA1, hSOK,
      by rw [ctot]; exact hcap, by rw [cdbo]; exact hdbo⟩,
      ?_, hcore, rfl, rfl, rfl, rfl, rfl⟩
    rw [cfree, ownedCount_succ_t2c hn hio]
    omega

/-- The double-indirect grow step that creates a fresh inner pointer
block under an existing outer block (`id_offset = 0`, `id_ind ≠ 0`). -/
theorem growStep_spec2_mid {s : FS} {ino : INode} {n : Nat} (h : StepInv s ino n)
    (hn : 1 + POINTER_PER_BLOCK ≤ n)
    (hio : (n - (1 + POINTER_PER_BLOCK)) % POINTER_PER_BLOCK = 0)
    (hii : ¬ (n - (1 + POINTER_PER_BLOCK)) / POINTER_PER_BLOCK = 0) :
    (∃ s' ino', growStep s ino n = (s', ino', true) ∧ growOkPost s s' ino ino' n) ∨
    (∃ s', growStep s ino n = (s', ino, false) ∧ growFailPost s s' ino n) := by
  obtain ⟨hA, hS, hcap, hdbo⟩ := h
  have hgt : 1 + POINTER_PER_BLOCK < n := by
    simp only [POINTER_PER_BLOCK, BLOCK_SIZE] at hii hn ⊢
    omega
  have hgM : growStep s ino n = growStepTier2Mid s ino
      ((n - (1 + POINTER_PER_BLOCK)) / POINTER_PER_BLOCK)
      ((n - (1 + POINTER_PER_BLOCK)) % POINTER_PER_BLOCK) false := by
    simp only [growStep]
    rw [if_neg (by omega : ¬ n < 1),
      if_neg (by omega : ¬ n < 1 + POINTER_PER_BLOCK), if_pos hio, if_neg hii]
  have hceilA : ceilP (n - 1 - POINTER_PER_BLOCK) =
      (n - (1 + POINTER_PER_BLOCK)) / POINTER_PER_BLOCK := by
    simp only [ceilP, POINTER_PER_BLOCK, BLOCK_SIZE] at hio hgt ⊢
    omega
  have hiidx : (n - (1 + POINTER_PER_BLOCK)) / POINTER_PER_BLOCK < POINTER_PER_BLOCK := by
    have h2 := structOK_count_le hS
    have h3 : n + 1 ≤ ownedCount n := by
      simp only [ownedCount, ptrCost]
      rw [if_pos (by omega : 1 < n)]
      omega
    simp only [POINTER_PER_BLOCK, BLOCK_SIZE] at hcap hn ⊢
    omega
  have houtz : s.blocks ino.iindirect_pointer
      ((n - (1 + POINTER_PER_BLOCK)) / POINTER_PER_BLOCK) = 0 := by
    rw [hS.houterSlots hgt _ hiidx, hceilA]
  by_cases hfree : s.header.data_block_num_free = 0
  · have hz : alloc_data s = (s, none) := alloc_data_eq_zero s hfree
    have hg : growStep s ino n = (s, ino, false) := by
      rw [hgM]
      simp only [growStepTier2Mid, hz, if_neg (show ¬ false = true by decide)]
    exact Or.inr ⟨s, hg, ⟨hA, hS, hcap, hdbo⟩, rfl, rfl, sameCore_refl s⟩
  · rcases hp1 : alloc_data s with ⟨s1, r1⟩
    obtain ⟨p1, hbm1, hlt1, hmin1, hr1, hA1, f1bm, f1h, f1bl, f1in, f1ibm, f1imp,
      f1ck⟩ := alloc_data_fields hA hfree hp1
    subst hr1
    have hNfresh : ¬ isOwned s ino n (p1 + s.header.data_block_offset) :=
      fresh_not_owned hS hbm1
    have hNiind : ¬ p1 + s.header.data_block_offset = ino.iindirect_pointer :=
      fun he => hNfresh (Or.inr (Or.inr ⟨hgt, Or.inl he⟩))
    have hA3 : AllocInv (commitBlock
        (commitBlock s1 (p1 + s.header.data_block_offset) zeroBlock)
        ino.iindirect_pointer
        (updSlot (s.blocks ino.iindirect_pointer)
          ((n - (1 + POINTER_PER_BLOCK)) / POINTER_PER_BLOCK)
          (p1 + s.header.data_block_offset))) :=
      AllocInv_commitBlock (AllocInv_commitBlock hA1)
    have hsb3 : sameButFree s (commitBlock
        (commitBlock s1 (p1 + s.header.data_block_offset) zeroBlock)
        ino.iindirect_pointer
        (updSlot (s.blocks ino.iindirect_pointer)
          ((n - (1 + POINTER_PER_BLOCK)) / POINTER_PER_BLOCK)
          (p1 + s.header.data_block_offset)))
        (s.header.data_block_num_free - 1) :=
      sameButFree_commitBlock (sameButFree_commitBlock
        ⟨f1h, f1in, f1ibm, f1imp, f1ck⟩ _ _) _ _
    obtain ⟨hcore3, c3free, c3dbo, c3tot⟩ := sameButFree_core hsb3
    have houter3 : (commitBlock
        (commitBlock s1 (p1 + s.header.data_block_offset) zeroBlock)
        ino.iindirect_pointer
        (updSlot (s.blocks ino.iindirect_pointer)
          ((n - (1 + POINTER_PER_BLOCK)) / POINTER_PER_BLOCK)
          (p1 + s.header.data_block_offset))).blocks ino.iindirect_pointer =
        updSlot (s.blocks ino.iindirect_pointer)
          ((n - (1 + POINTER_PER_BLOCK)) / POINTER_PER_BLOCK)
          (p1 + s.header.data_block_offset) := by
      show (if ino.iindirect_pointer = ino.iindirect_pointer then
        updSlot (s.blocks ino.iindirect_pointer)
          ((n - (1 + POINTER_PER_BLOCK)) / POINTER_PER_BLOCK)
          (p1 + s.header.data_block_offset)
        else (commitBlock s1 (p1 + s.header.data_block_offset)
          zeroBlock).blocks ino.iindirect_pointer) = _
      rw [if_pos rfl]
    have hinner3 : (commitBlock
        (commitBlock s1 (p1 + s.header.data_block_offset) zeroBlock)
        ino.iindirect_pointer
        (updSlot (s.blocks ino.iindirect_pointer)
          ((n - (1 + POINTER_PER_BLOCK)) / POINTER_PER_BLOCK)
          (p1 + s.header.data_block_offset))).blocks
        (p1 + s.header.data_block_offset) = zeroBlock := by
      show (if p1 + s.header.data_block_offset = ino.iindirect_pointer then
        updSlot (s.blocks ino.iindirect_pointer)
          ((n - (1 + POINTER_PER_BLOCK)) / POINTER_PER_BLOCK)
          (p1 + s.header.data_block_offset)
        else (commitBlock s1 (p1 + s.header.data_block_offset)
          zeroBlock).blocks (p1 + s.header.data_block_offset)) = _
      rw [if_neg hNiind]
      show (if p1 + s.header.data_block_offset = p1 + s.header.data_block_offset
        then zeroBlock else s1.blocks (p1 + s.header.data_block_offset)) = _
      rw [if_pos rfl]
    have hother3 : ∀ b, ¬ b = p1 + s.header.data_block_offset →
        ¬ b = ino.iindirect_pointer → (commitBlock
        (commitBlock s1 (p1 + s.header.data_block_offset) zeroBlock)
        ino.iindirect_pointer
        (updSlot (s.blocks ino.iindirect_pointer)
          ((n - (1 + POINTER_PER_BLOCK)) / POINTER_PER_BLOCK)
          (p1 + s.header.data_block_offset))).blocks b = s.blocks b := by
      intro b hb1 hb2
      show (if b = ino.iindirect_pointer then
        updSlot (s.blocks ino.iindirect_pointer)
          ((n - (1 + POINTER_PER_BLOCK)) / POINTER_PER_BLOCK)
          (p1 + s.header.data_block_offset)
        else (commitBlock s1 (p1 + s.header.data_block_offset)
          zeroBlock).blocks b) = _
      rw [if_neg hb2]
      show (if b = p1 + s.header.data_block_offset then zeroBlock
        else s1.blocks b) = _
      rw [if_neg hb1, f1bl]
    have h3bm : (commitBlock
        (commitBlock s1 (p1 + s.header.data_block_offset) zeroBlock)
        ino.iindirect_pointer
        (updSlot (s.blocks ino.iindirect_pointer)
          ((n - (1 + POINTER_PER_BLOCK)) / POINTER_PER_BLOCK)
          (p1 + s.header.data_block_offset))).dataBm =
        (fun q => if q = p1 then true else s.dataBm q) := f1bm
    by_cases hfree2 : s.header.data_block_num_free - 1 = 0
    · -- second allocation fails: the inner block is freed again
      have hz2 : alloc_data (commitBlock
          (commitBlock s1 (p1 + s.header.data_block_offset) zeroBlock)
          ino.iindirect_pointer
          (updSlot (s.blocks ino.iindirect_pointer)
            ((n - (1 + POINTER_PER_BLOCK)) / POINTER_PER_BLOCK)
            (p1 + s.header.data_block_offset))) = (commitBlock
          (commitBlock s1 (p1 + s.header.data_block_offset) zeroBlock)
          ino.iindirect_pointer
          (updSlot (s.blocks ino.iindirect_pointer)
            ((n - (1 + POINTER_PER_BLOCK)) / POINTER_PER_BLOCK)
            (p1 + s.header.data_block_offset)), none) :=
        alloc_data_eq_zero _ (by rw [c3free]; exact hfree2)
      have hg : growStep s ino n = (commitBlock (free_data (commitBlock
          (commitBlock s1 (p1 + s.header.data_block_offset) zeroBlock)
          ino.iindirect_pointer
          (updSlot (s.blocks ino.iindirect_pointer)
            ((n - (1 + POINTER_PER_BLOCK)) / POINTER_PER_BLOCK)
            (p1 + s.header.data_block_offset)))
          (p1 + s.header.data_block_offset)) ino.iindirect_pointer
          (updSlot (updSlot (s.blocks ino.iindirect_pointer)
            ((n - (1 + POINTER_PER_BLOCK)) / POINTER_PER_BLOCK)
            (p1 + s.header.data_block_offset))
            ((n - (1 + POINTER_PER_BLOCK)) / POINTER_PER_BLOCK) 0),
          ino, false) := by
        rw [hgM]
        simp only [growStepTier2Mid, growStepTier2Tail, hp1, hz2,
          if_neg (show ¬ false = true by decide), if_pos True.intro]
        rw [houter3, updSlot_eq]
      have hsbF : sameButFree s (commitBlock (free_data (commitBlock
          (commitBlock s1 (p1 + s.header.data_block_offset) zeroBlock)
          ino.iindirect_pointer
          (updSlot (s.blocks ino.iindirect_pointer)
            ((n - (1 + POINTER_PER_BLOCK)) / POINTER_PER_BLOCK)
            (p1 + s.header.data_block_offset)))
          (p1 + s.header.data_block_offset)) ino.iindirect_pointer
          (updSlot (updSlot (s.blocks ino.iindirect_pointer)
            ((n - (1 + POINTER_PER_BLOCK)) / POINTER_PER_BLOCK)
            (p1 + s.header.data_block_offset))
            ((n - (1 + POINTER_PER_BLOCK)) / POINTER_PER_BLOCK) 0))
          (s.header.data_block_num_free - 1 + 1) :=
        sameButFree_commitBlock (sameButFree_free_data hsb3 _) _ _
      obtain ⟨hcoreF, cFfree, cFdbo, cFtot⟩ := sameButFree_core hsbF
      have hFbm : (commitBlock (free_data (commitBlock
          (commitBlock s1 (p1 + s.header.data_block_offset) zeroBlock)
          ino.iindirect_pointer
          (updSlot (s.blocks ino.iindirect_pointer)
            ((n - (1 + POINTER_PER_BLOCK)) / POINTER_PER_BLOCK)
            (p1 + s.header.data_block_offset)))
          (p1 + s.header.data_block_offset)) ino.iindirect_pointer
          (updSlot (updSlot (s.blocks ino.iindirect_pointer)
            ((n - (1 + POINTER_PER_BLOCK)) / POINTER_PER_BLOCK)
            (p1 + s.header.data_block_offset))
            ((n - (1 + POINTER_PER_BLOCK)) / POINTER_PER_BLOCK) 0)).dataBm =
          s.dataBm := by
        funext q
        show (if q = (p1 + s.header.data_block_offset) - (commitBlock
          (commitBlock s1 (p1 + s.header.data_block_offset) zeroBlock)
          ino.iindirect_pointer
          (updSlot (s.blocks ino.iindirect_pointer)
            ((n - (1 + POINTER_PER_BLOCK)) / POINTER_PER_BLOCK)
            (p1 + s.header.data_block_offset))).header.data_block_offset
          then false else s1.dataBm q) = s.dataBm q
        rw [c3dbo, Nat.add_sub_cancel, f1bm]
        by_cases hq : q = p1
        · rw [if_pos hq, hq, hbm1]
        · rw [if_neg hq]
          show (if q = p1 then true else s.dataBm q) = s.dataBm q
          rw [if_neg hq]
      have hAF : AllocInv (commitBlock (free_data (commitBlock
          (commitBlock s1 (p1 + s.header.data_block_offset) zeroBlock)
          ino.iindirect_pointer
          (updSlot (s.blocks ino.iindirect_pointer)
            ((n - (1 + POINTER_PER_BLOCK)) / POINTER_PER_BLOCK)
            (p1 + s.header.data_block_offset)))
          (p1 + s.header.data_block_offset)) ino.iindirect_pointer
          (updSlot (updSlot (s.blocks ino.iindirect_pointer)
            ((n - (1 + POINTER_PER_BLOCK)) / POINTER_PER_BLOCK)
            (p1 + s.header.data_block_offset))
            ((n - (1 + POINTER_PER_BLOCK)) / POINTER_PER_BLOCK) 0)) := by
        refine AllocInv_commitBlock (allocInv_step hA3 (AllocStep.freeD _ _ ?_ ?_))
        · rw [c3dbo]
          omega
        · rw [c3dbo, Nat.add_sub_cancel]
          show s1.dataBm p1 = true
          rw [f1bm]
          show (if p1 = p1 then true else s.dataBm p1) = true
          rw [if_pos rfl]
      have hSOK : StructOK (commitBlock (free_data (commitBlock
          (commitBlock s1 (p1 + s.header.data_block_offset) zeroBlock)
          ino.iindirect_pointer
          (updSlot (s.blocks ino.iindirect_pointer)
            ((n - (1 + POINTER_PER_BLOCK)) / POINTER_PER_BLOCK)
            (p1 + s.header.data_block_offset)))
          (p1 + s.header.data_block_offset)) ino.iindirect_pointer
          (updSlot (updSlot (s.blocks ino.iindirect_pointer)
            ((n - (1 + POINTER_PER_BLOCK)) / POINTER_PER_BLOCK)
            (p1 + s.header.data_block_offset))
            ((n - (1 + POINTER_PER_BLOCK)) / POINTER_PER_BLOCK) 0)) ino n := by
        refine StructOK_congr hS (fun b hb => ?_) cFdbo cFtot (fun b hb => ?_)
        · rw [hFbm]
          exact (hS.hmarked b hb).2.2
        · show (if b = ino.iindirect_pointer then
            updSlot (updSlot (s.blocks ino.iindirect_pointer)
              ((n - (1 + POINTER_PER_BLOCK)) / POINTER_PER_BLOCK)
              (p1 + s.header.data_block_offset))
              ((n - (1 + POINTER_PER_BLOCK)) / POINTER_PER_BLOCK) 0
            else (commitBlock
              (commitBlock s1 (p1 + s.header.data_block_offset) zeroBlock)
              ino.iindirect_pointer
              (updSlot (s.blocks ino.iindirect_pointer)
                ((n - (1 + POINTER_PER_BLOCK)) / POINTER_PER_BLOCK)
                (p1 + s.header.data_block_offset))).blocks b) = s.blocks b
          by_cases hbi : b = ino.iindirect_pointer
          · rw [if_pos hbi, hbi]
            funext j
            by_cases hj : j = (n - (1 + POINTER_PER_BLOCK)) / POINTER_PER_BLOCK
            · rw [hj, updSlot_eq, houtz]
            · rw [updSlot_ne hj, updSlot_ne hj]
          · rw [if_neg hbi]
            have hbN : ¬ b = p1 + s.header.data_block_offset :=
              fun he => hNfresh (he ▸ Or.inr hb)
            exact hother3 b hbN hbi
      refine Or.inr ⟨_, hg, ⟨hAF, hSOK, by rw [cFtot]; exact hcap,
        by rw [cFdbo]; exact hdbo⟩, ?_, hFbm, hcoreF⟩
      rw [cFfree]
      omega
    · -- second allocation succeeds
      rcases hp2 : alloc_data (commitBlock
          (commitBlock s1 (p1 + s.header.data_block_offset) zeroBlock)
          ino.iindirect_pointer
          (updSlot (s.blocks ino.iindirect_pointer)
            ((n - (1 + POINTER_PER_BLOCK)) / POINTER_PER_BLOCK)
            (p1 + s.header.data_block_offset))) with ⟨s4, r2⟩
      obtain ⟨p2, hbm2, hlt2, hmin2, hr2, hA4, f2bm, f2h, f2bl, f2in, f2ibm,
        f2imp, f2ck⟩ := alloc_data_fields hA3
        (by intro hc; apply hfree2; rw [c3free] at hc; exact hc) hp2
      subst hr2
      have hg : growStep s ino n = (commitBlock s4
          (p1 + s.header.data_block_offset)
          (updSlot zeroBlock 0 (p2 + s.header.data_block_offset)),
          ino, true) := by
        rw [hgM]
        simp only [growStepTier2Mid, growStepTier2Tail, hp1, hp2]
        rw [houter3, updSlot_eq, hinner3, hio, c3dbo]
      have hp2p1 : ¬ p2 = p1 ∧ s.dataBm p2 = false := by
        have h4 : (if p2 = p1 then true else s.dataBm p2) = false := by
          have h3 : s1.dataBm p2 = false := hbm2
          rw [f1bm] at h3
          exact h3
        by_cases hq : p2 = p1
        · rw [if_pos hq] at h4
          cases h4
        · rw [if_neg hq] at h4
          exact ⟨hq, h4⟩
      obtain ⟨hne21, hsp2⟩ := hp2p1
      have hlt2' : p2 < s.header.data_block_num_tot := by
        have h5 := hlt2
        rw [c3tot] at h5
        exact h5
      have hsbF : sameButFree s (commitBlock s4
          (p1 + s.header.data_block_offset)
          (updSlot zeroBlock 0 (p2 + s.header.data_block_offset)))
          (s.header.data_block_num_free - 1 - 1) := by
        refine sameButFree_commitBlock ?_ _ _
        have h0 := sameButFree_trans hsb3 ⟨f2h, f2in, f2ibm, f2imp, f2ck⟩
        rw [c3free] at h0
        exact h0
      obtain ⟨hcoreF, cFfree, cFdbo, cFtot⟩ := sameButFree_core hsbF
      have h4bm : (commitBlock s4 (p1 + s.header.data_block_offset)
          (updSlot zeroBlock 0 (p2 + s.header.data_block_offset))).dataBm =
          (fun q => if q = p2 then true else if q = p1 then true
            else s.dataBm q) := by
        funext q
        show s4.dataBm q = _
        rw [f2bm]
        show (if q = p2 then true else s1.dataBm q) = _
        rw [f1bm]
      have hbmMono : ∀ q, s.dataBm q = true → (commitBlock s4
          (p1 + s.header.data_block_offset)
          (updSlot zeroBlock 0 (p2 + s.header.data_block_offset))).dataBm q
          = true := by
        intro q hq
        rw [h4bm]
        show (if q = p2 then true else if q = p1 then true
          else s.dataBm q) = true
        by_cases hq2 : q = p2
        · rw [if_pos hq2]
        · rw [if_neg hq2]
          by_cases hq1 : q = p1
          · rw [if_pos hq1]
          · rw [if_neg hq1]
            exact hq
      have hbmN : (commitBlock s4 (p1 + s.header.data_block_offset)
          (updSlot zeroBlock 0 (p2 + s.header.data_block_offset))).dataBm
          (p1 + s.header.data_block_offset - s.header.data_block_offset)
          = true := by
        rw [Nat.add_sub_cancel, h4bm]
        show (if p1 = p2 then true else if p1 = p1 then true
          else s.dataBm p1) = true
        rw [if_neg (fun he => hne21 he.symm), if_pos rfl]
      have hbmD : (commitBlock s4 (p1 + s.header.data_block_offset)
          (updSlot zeroBlock 0 (p2 + s.header.data_block_offset))).dataBm
          (p2 + s.header.data_block_offset - s.header.data_block_offset)
          = true := by
        rw [Nat.add_sub_cancel, h4bm]
        show (if p2 = p2 then true else if p2 = p1 then true
          else s.dataBm p2) = true
        rw [if_pos rfl]
      have hbl' : (commitBlock s4 (p1 + s.header.data_block_offset)
          (updSlot zeroBlock 0 (p2 + s.header.data_block_offset))).blocks =
          (fun b => if b = p1 + s.header.data_block_offset then
            updSlot zeroBlock 0 (p2 + s.header.data_block_offset)
          else if b = ino.iindirect_pointer then
            updSlot (s.blocks ino.iindirect_pointer)
              ((n - (1 + POINTER_PER_BLOCK)) / POINTER_PER_BLOCK)
              (p1 + s.header.data_block_offset)
          else s.blocks b) := by
        funext b
        show (if b = p1 + s.header.data_block_offset then
          updSlot zeroBlock 0 (p2 + s.header.data_block_offset)
          else s4.blocks b) = _
        by_cases hb1 : b = p1 + s.header.data_block_offset
        · rw [if_pos hb1, if_pos hb1]
        · rw [if_neg hb1, if_neg hb1, f2bl]
          by_cases hb2 : b = ino.iindirect_pointer
          · rw [if_pos hb2, hb2, houter3]
          · rw [if_neg hb2]
            exact hother3 b hb1 hb2
      have hSOK := StructOK_grow2_mid hS hgt hio
        (structOK_lt_cap hS (by omega) hcap) hdbo
        (fresh_not_owned hS hbm1) (fresh_not_owned hS hsp2)
        (by omega) ⟨by omega, by omega⟩ ⟨by omega, by omega⟩
        hbmN hbmD hbmMono cFdbo cFtot hbl'
      refine Or.inl ⟨_, ino, hg, ⟨AllocInv_commitBlock hA4, hSOK,
        by rw [cFtot]; exact hcap, by rw [cFdbo]; exact hdbo⟩,
        ?_, hcoreF, rfl, rfl, rfl, rfl, rfl⟩
      rw [cFfree, ownedCount_succ_t2b hgt hio]
      omega

/-- The first double-indirect grow step (`block_now = 1 + P`): allocate
and zero the outer block, then a fresh inner block, then the data block;
on failure every block allocated by the step is freed again. -/
theorem growStep_spec2_start {s : FS} {ino : INode}
    (h : StepInv s ino (1 + POINTER_PER_BLOCK)) :
    (∃ s' ino', growStep s ino (1 + POINTER_PER_BLOCK) = (s', ino', true) ∧
      growOkPost s s' ino ino' (1 + POINTER_PER_BLOCK)) ∨
    (∃ s', growStep s ino (1 + POINTER_PER_BLOCK) = (s', ino, false) ∧
      growFailPost s s' ino (1 + POINTER_PER_BLOCK)) := by
  obtain ⟨hA, hS, hcap, hdbo⟩ := h
  have hiind0 : ino.iindirect_pointer = 0 := hS.hiind0 (le_refl _)
  by_cases hfree : s.header.data_block_num_free = 0
  · have hz : alloc_data s = (s, none) := alloc_data_eq_zero s hfree
    have hg : growStep s ino (1 + POINTER_PER_BLOCK) = (s, ino, false) := by
      simp only [growStep, hz, Nat.sub_self, Nat.zero_div, Nat.zero_mod,
        if_pos True.intro]
      rw [if_neg (by decide : ¬ 1 + POINTER_PER_BLOCK < 1),
        if_neg (by decide : ¬ 1 + POINTER_PER_BLOCK < 1 + POINTER_PER_BLOCK)]
    exact Or.inr ⟨s, hg, ⟨hA, hS, hcap, hdbo⟩, rfl, rfl, sameCore_refl s⟩
  · rcases hp1 : alloc_data s with ⟨s1, r1⟩
    obtain ⟨p1, hbm1, hlt1, hmin1, hr1, hA1, f1bm, f1h, f1bl, f1in, f1ibm, f1imp,
      f1ck⟩ := alloc_data_fields hA hfree hp1
    subst hr1
    have hA2 : AllocInv (commitBlock s1 (p1 + s.header.data_block_offset)
        zeroBlock) := AllocInv_commitBlock hA1
    have hsb2 : sameButFree s (commitBlock s1 (p1 + s.header.data_block_offset)
        zeroBlock) (s.header.data_block_num_free - 1) :=
      sameButFree_commitBlock ⟨f1h, f1in, f1ibm, f1imp, f1ck⟩ _ _
    obtain ⟨hcore2, c2free, c2dbo, c2tot⟩ := sameButFree_core hsb2
    have hX2bO : (commitBlock s1 (p1 + s.header.data_block_offset)
        zeroBlock).blocks (p1 + s.header.data_block_offset) = zeroBlock := by
      show (if p1 + s.header.data_block_offset = p1 + s.header.data_block_offset
        then zeroBlock else s1.blocks (p1 + s.header.data_block_offset)) = _
      rw [if_pos rfl]
    have hino1 : ({ ({ ino with
        iindirect_pointer := p1 + s.header.data_block_offset } : INode) with
        iindirect_pointer := 0 } : INode) = ino := by
      show ({ ino with iindirect_pointer := 0 } : INode) = ino
      exact INode_reset_iind hiind0
    by_cases hfree2 : s.header.data_block_num_free - 1 = 0
    · -- the second allocation fails: free the outer block again
      have hz2 : alloc_data (commitBlock s1 (p1 + s.header.data_block_offset)
          zeroBlock) = (commitBlock s1 (p1 + s.header.data_block_offset)
          zeroBlock, none) := alloc_data_eq_zero _ (by rw [c2free]; exact hfree2)
      have hg : growStep s ino (1 + POINTER_PER_BLOCK) =
          (free_data (commitBlock s1 (p1 + s.header.data_block_offset) zeroBlock)
            (p1 + s.header.data_block_offset),
           { ino with iindirect_pointer := 0 }, false) := by
        simp only [growStep, growStepTier2Mid, hp1, hz2, Nat.sub_self,
          Nat.zero_div, Nat.zero_mod, if_pos True.intro,
          if_neg (show ¬ false = true by decide)]
        rw [if_neg (by decide : ¬ 1 + POINTER_PER_BLOCK < 1),
          if_neg (by decide : ¬ 1 + POINTER_PER_BLOCK < 1 + POINTER_PER_BLOCK)]
      rw [INode_reset_iind hiind0] at hg
      have hsbF : sameButFree s (free_data
          (commitBlock s1 (p1 + s.header.data_block_offset) zeroBlock)
          (p1 + s.header.data_block_offset))
          (s.header.data_block_num_free - 1 + 1) :=
        sameButFree_free_data hsb2 _
      obtain ⟨hcoreF, cFfree, cFdbo, cFtot⟩ := sameButFree_core hsbF
      have hFbm : (free_data
          (commitBlock s1 (p1 + s.header.data_block_offset) zeroBlock)
          (p1 + s.header.data_block_offset)).dataBm = s.dataBm := by
        funext q
        show (if q = (p1 + s.header.data_block_offset) -
            (commitBlock s1 (p1 + s.header.data_block_offset)
              zeroBlock).header.data_block_offset
          then false else s1.dataBm q) = s.dataBm q
        rw [c2dbo, Nat.add_sub_cancel, f1bm]
        by_cases hq : q = p1
        · rw [if_pos hq, hq, hbm1]
        · rw [if_neg hq]
          show (if q = p1 then true else s.dataBm q) = s.dataBm q
          rw [if_neg hq]
      have hAF : AllocInv (free_data
          (commitBlock s1 (p1 + s.header.data_block_offset) zeroBlock)
          (p1 + s.header.data_block_offset)) := by
        refine allocInv_step hA2 (AllocStep.freeD _ _ ?_ ?_)
        · rw [c2dbo]
          omega
        · rw [c2dbo, Nat.add_sub_cancel]
          show s1.dataBm p1 = true
          rw [f1bm]
          show (if p1 = p1 then true else s.dataBm p1) = true
          rw [if_pos rfl]
      have hSOK : StructOK (free_data
          (commitBlock s1 (p1 + s.header.data_block_offset) zeroBlock)
          (p1 + s.header.data_block_offset)) ino (1 + POINTER_PER_BLOCK) := by
        refine StructOK_congr hS (fun b hb => ?_) cFdbo cFtot (fun b hb => ?_)
        · rw [hFbm]
          exact (hS.hmarked b hb).2.2
        · have hbne : ¬ b = p1 + s.header.data_block_offset :=
            fun he => fresh_not_owned hS hbm1 (he ▸ Or.inr hb)
          show (if b = p1 + s.header.data_block_offset then zeroBlock
            else s1.blocks b) = _
          rw [if_neg hbne, f1bl]
      refine Or.inr ⟨_, hg, ⟨hAF, hSOK, by rw [cFtot]; exact hcap,
        by rw [cFdbo]; exact hdbo⟩, ?_, hFbm, hcoreF⟩
      rw [cFfree]
      omega
    · -- second allocation succeeds: the inner pointer block
      rcases hp2 : alloc_data (commitBlock s1 (p1 + s.header.data_block_offset)
          zeroBlock) with ⟨s2m, r2⟩
      obtain ⟨p2, hbm2, hlt2, hmin2, hr2, hA2m, f2bm, f2h, f2bl, f2in, f2ibm,
        f2imp, f2ck⟩ := alloc_data_fields hA2
        (by intro hc; apply hfree2; rw [c2free] at hc; exact hc) hp2
      subst hr2
      have hp2p1 : ¬ p2 = p1 ∧ s.dataBm p2 = false := by
        have h4 : (if p2 = p1 then true else s.dataBm p2) = false := by
          have h3 : s1.dataBm p2 = false := hbm2
          rw [f1bm] at h3
          exact h3
        by_cases hq : p2 = p1
        · rw [if_pos hq] at h4
          cases h4
        · rw [if_neg hq] at h4
          exact ⟨hq, h4⟩
      obtain ⟨hne21, hsp2⟩ := hp2p1
      have hlt2' : p2 < s.header.data_block_num_tot := by
        have h5 := hlt2
        rw [c2tot] at h5
        exact h5
      have hsbZ : sameButFree s (commitBlock
          (commitBlock s2m (p2 + s.header.data_block_offset) zeroBlock)
          (p1 + s.header.data_block_offset)
          (updSlot zeroBlock 0 (p2 + s.header.data_block_offset)))
          (s.header.data_block_num_free - 1 - 1) := by
        refine sameButFree_commitBlock (sameButFree_commitBlock ?_ _ _) _ _
        have h0 := sameButFree_trans hsb2 ⟨f2h, f2in, f2ibm, f2imp, f2ck⟩
        rw [c2free] at h0
        exact h0
      obtain ⟨hcoreZ, cZfree, cZdbo, cZtot⟩ := sameButFree_core hsbZ
      have hAZ : AllocInv (commitBlock
          (commitBlock s2m (p2 + s.header.data_block_offset) zeroBlock)
          (p1 + s.header.data_block_offset)
          (updSlot zeroBlock 0 (p2 + s.header.data_block_offset))) :=
        AllocInv_commitBlock (AllocInv_commitBlock hA2m)
      have hZbm : (commitBlock
          (commitBlock s2m (p2 + s.header.data_block_offset) zeroBlock)
          (p1 + s.header.data_block_offset)
          (updSlot zeroBlock 0 (p2 + s.header.data_block_offset))).dataBm =
          (fun q => if q = p2 then true else if q = p1 then true
            else s.dataBm q) := by
        funext q
        show s2m.dataBm q = _
        rw [f2bm]
        show (if q = p2 then true else s1.dataBm q) = _
        rw [f1bm]
      have hZbO : (commitBlock
          (commitBlock s2m (p2 + s.header.data_block_offset) zeroBlock)
          (p1 + s.header.data_block_offset)
          (updSlot zeroBlock 0 (p2 + s.header.data_block_offset))).blocks
          (p1 + s.header.data_block_offset) =
          updSlot zeroBlock 0 (p2 + s.header.data_block_offset) := by
        show (if p1 + s.header.data_block_offset = p1 + s.header.data_block_offset
          then updSlot zeroBlock 0 (p2 + s.header.data_block_offset)
          else (commitBlock s2m (p2 + s.header.data_block_offset)
            zeroBlock).blocks (p1 + s.header.data_block_offset)) = _
        rw [if_pos rfl]
      have hZbN : (commitBlock
          (commitBlock s2m (p2 + s.header.data_block_offset) zeroBlock)
          (p1 + s.header.data_block_offset)
          (updSlot zeroBlock 0 (p2 + s.header.data_block_offset))).blocks
          (p2 + s.header.data_block_offset) = zeroBlock := by
        show (if p2 + s.header.data_block_offset = p1 + s.header.data_block_offset
          then updSlot zeroBlock 0 (p2 + s.header.data_block_offset)
          else (commitBlock s2m (p2 + s.header.data_block_offset)
            zeroBlock).blocks (p2 + s.header.data_block_offset)) = _
        rw [if_neg (by omega)]
        show (if p2 + s.header.data_block_offset = p2 + s.header.data_block_offset
          then zeroBlock else s2m.blocks (p2 + s.header.data_block_offset)) = _
        rw [if_pos rfl]
      have hZbOther : ∀ b, ¬ b = p1 + s.header.data_block_offset →
          ¬ b = p2 + s.header.data_block_offset → (commitBlock
          (commitBlock s2m (p2 + s.header.data_block_offset) zeroBlock)
          (p1 + s.header.data_block_offset)
          (updSlot zeroBlock 0 (p2 + s.header.data_block_offset))).blocks b =
          s.blocks b := by
        intro b hb1 hb2
        show (if b = p1 + s.header.data_block_offset
          then updSlot zeroBlock 0 (p2 + s.header.data_block_offset)
          else (commitBlock s2m (p2 + s.header.data_block_offset)
            zeroBlock).blocks b) = _
        rw [if_neg hb1]
        show (if b = p2 + s.header.data_block_offset then zeroBlock
          else s2m.blocks b) = _
        rw [if_neg hb2, f2bl]
        show (if b = p1 + s.header.data_block_offset then zeroBlock
          else s1.blocks b) = _
        rw [if_neg hb1, f1bl]
      have hgZ : growStep s ino (1 + POINTER_PER_BLOCK) =
          growStepTier2Tail (commitBlock
            (commitBlock s2m (p2 + s.header.data_block_offset) zeroBlock)
            (p1 + s.header.data_block_offset)
            (updSlot zeroBlock 0 (p2 + s.header.data_block_offset)))
          { ino with iindirect_pointer := p1 + s.header.data_block_offset }
          0 0 true true := by
        simp only [growStep, growStepTier2Mid, hp1, hp2, Nat.sub_self,
          Nat.zero_div, Nat.zero_mod, if_pos True.intro, c2dbo, hX2bO]
        rw [if_neg (by decide : ¬ 1 + POINTER_PER_BLOCK < 1),
          if_neg (by decide : ¬ 1 + POINTER_PER_BLOCK < 1 + POINTER_PER_BLOCK)]
      by_cases hfree3 : s.header.data_block_num_free - 1 - 1 = 0
      · -- the third allocation fails: free the inner and outer blocks
        have hz3 : alloc_data (commitBlock
            (commitBlock s2m (p2 + s.header.data_block_offset) zeroBlock)
            (p1 + s.header.data_block_offset)
            (updSlot zeroBlock 0 (p2 + s.header.data_block_offset))) =
            (commitBlock
            (commitBlock s2m (p2 + s.header.data_block_offset) zeroBlock)
            (p1 + s.header.data_block_offset)
            (updSlot zeroBlock 0 (p2 + s.header.data_block_offset)), none) :=
          alloc_data_eq_zero _ (by rw [cZfree]; exact hfree3)
        have hg : growStep s ino (1 + POINTER_PER_BLOCK) =
            (free_data (commitBlock (free_data (commitBlock
              (commitBlock s2m (p2 + s.header.data_block_offset) zeroBlock)
              (p1 + s.header.data_block_offset)
              (updSlot zeroBlock 0 (p2 + s.header.data_block_offset)))
              (p2 + s.header.data_block_offset))
              (p1 + s.header.data_block_offset)
              (updSlot (updSlot zeroBlock 0 (p2 + s.header.data_block_offset))
                0 0))
              (p1 + s.header.data_block_offset),
             { ino with iindirect_pointer := 0 }, false) := by
          rw [hgZ]
          simp only [growStepTier2Tail, hz3, if_pos True.intro]
          rw [hZbO, updSlot_eq]
        rw [INode_reset_iind hiind0] at hg
        have hsbF : sameButFree s (free_data (commitBlock (free_data (commitBlock
            (commitBlock s2m (p2 + s.header.data_block_offset) zeroBlock)
            (p1 + s.header.data_block_offset)
            (updSlot zeroBlock 0 (p2 + s.header.data_block_offset)))
            (p2 + s.header.data_block_offset))
            (p1 + s.header.data_block_offset)
            (updSlot (updSlot zeroBlock 0 (p2 + s.header.data_block_offset))
              0 0))
            (p1 + s.header.data_block_offset))
            (s.header.data_block_num_free - 1 - 1 + 1 + 1) :=
          sameButFree_free_data (sameButFree_commitBlock
            (sameButFree_free_data hsbZ _) _ _) _
        obtain ⟨hcoreF, cFfree, cFdbo, cFtot⟩ := sameButFree_core hsbF
        have hmid_dbo : (commitBlock (free_data (commitBlock
            (commitBlock s2m (p2 + s.header.data_block_offset) zeroBlock)
            (p1 + s.header.data_block_offset)
            (updSlot zeroBlock 0 (p2 + s.header.data_block_offset)))
            (p2 + s.header.data_block_offset))
            (p1 + s.header.data_block_offset)
            (updSlot (updSlot zeroBlock 0 (p2 + s.header.data_block_offset))
              0 0)).header.data_block_offset = s.header.data_block_offset := by
          obtain ⟨-, -, hd, -⟩ := sameButFree_core (sameButFree_commitBlock
            (sameButFree_free_data hsbZ (p2 + s.header.data_block_offset)) _ _)
          exact hd
        have hFbm : (free_data (commitBlock (free_data (commitBlock
            (commitBlock s2m (p2 + s.header.data_block_offset) zeroBlock)
            (p1 + s.header.data_block_offset)
            (updSlot zeroBlock 0 (p2 + s.header.data_block_offset)))
            (p2 + s.header.data_block_offset))
            (p1 + s.header.data_block_offset)
            (updSlot (updSlot zeroBlock 0 (p2 + s.header.data_block_offset))
              0 0))
            (p1 + s.header.data_block_offset)).dataBm = s.dataBm := by
          funext q
          show (if q = (p1 + s.header.data_block_offset) -
              (commitBlock (free_data (commitBlock
                (commitBlock s2m (p2 + s.header.data_block_offset) zeroBlock)
                (p1 + s.header.data_block_offset)
                (updSlot zeroBlock 0 (p2 + s.header.data_block_offset)))
                (p2 + s.header.data_block_offset))
                (p1 + s.header.data_block_offset)
                (updSlot (updSlot zeroBlock 0 (p2 + s.header.data_block_offset))
                  0 0)).header.data_block_offset
            then false
            else (if q = (p2 + s.header.data_block_offset) -
                (commitBlock
                  (commitBlock s2m (p2 + s.header.data_block_offset) zeroBlock)
                  (p1 + s.header.data_block_offset)
                  (updSlot zeroBlock 0
                    (p2 + s.header.data_block_offset))).header.data_block_offset
              then false else s2m.dataBm q)) = s.dataBm q
          rw [hmid_dbo, cZdbo, Nat.add_sub_cancel, Nat.add_sub_cancel, f2bm]
          by_cases hq1 : q = p1
          · rw [if_pos hq1, hq1, hbm1]
          · rw [if_neg hq1]
            by_cases hq2 : q = p2
            · rw [if_pos hq2, hq2, hsp2]
            · rw [if_neg hq2]
              show (if q = p2 then true else s1.dataBm q) = s.dataBm q
              rw [if_neg hq2, f1bm]
              show (if q = p1 then true else s.dataBm q) = s.dataBm q
              rw [if_neg hq1]
        have hAF : AllocInv (free_data (commitBlock (free_data (commitBlock
            (commitBlock s2m (p2 + s.header.data_block_offset) zeroBlock)
            (p1 + s.header.data_block_offset)
            (updSlot zeroBlock 0 (p2 + s.header.data_block_offset)))
            (p2 + s.header.data_block_offset))
            (p1 + s.header.data_block_offset)
            (updSlot (updSlot zeroBlock 0 (p2 + s.header.data_block_offset))
              0 0))
            (p1 + s.header.data_block_offset)) := by
          refine allocInv_step (AllocInv_commitBlock
            (allocInv_step hAZ (AllocStep.freeD _ _ ?_ ?_)))
            (AllocStep.freeD _ _ ?_ ?_)
          · rw [cZdbo]
            omega
          · rw [cZdbo, Nat.add_sub_cancel, hZbm]
            show (if p2 = p2 then true else if p2 = p1 then true
              else s.dataBm p2) = true
            rw [if_pos rfl]
          · rw [hmid_dbo]
            omega
          · rw [hmid_dbo, Nat.add_sub_cancel]
            show (if p1 = (p2 + s.header.data_block_offset) - (commitBlock
                (commitBlock s2m (p2 + s.header.data_block_offset) zeroBlock)
                (p1 + s.header.data_block_offset)
                (updSlot zeroBlock 0
                  (p2 + s.header.data_block_offset))).header.data_block_offset
              then false else (commitBlock
                (commitBlock s2m (p2 + s.header.data_block_offset) zeroBlock)
                (p1 + s.header.data_block_offset)
                (updSlot zeroBlock 0
                  (p2 + s.header.data_block_offset))).dataBm p1) = true
            rw [cZdbo, Nat.add_sub_cancel, if_neg (by omega : ¬ p1 = p2), hZbm]
            show (if p1 = p2 then true else if p1 = p1 then true
              else s.dataBm p1) = true
            rw [if_neg (by omega : ¬ p1 = p2), if_pos rfl]
        have hIndNe1 : ¬ ino.indirect_pointer = p1 + s.header.data_block_offset :=
          fun he => fresh_not_owned hS hbm1
            (he ▸ Or.inr (Or.inl ⟨by decide, rfl⟩))
        have hIndNe2 : ¬ ino.indirect_pointer = p2 + s.header.data_block_offset :=
          fun he => fresh_not_owned hS hsp2
            (he ▸ Or.inr (Or.inl ⟨by decide, rfl⟩))
        have hSOK : StructOK (free_data (commitBlock (free_data (commitBlock
            (commitBlock s2m (p2 + s.header.data_block_offset) zeroBlock)
            (p1 + s.header.data_block_offset)
            (updSlot zeroBlock 0 (p2 + s.header.data_block_offset)))
            (p2 + s.header.data_block_offset))
            (p1 + s.header.data_block_offset)
            (updSlot (updSlot zeroBlock 0 (p2 + s.header.data_block_offset))
              0 0))
            (p1 + s.header.data_block_offset)) ino (1 + POINTER_PER_BLOCK) := by
          refine StructOK_congr hS (fun b hb => ?_) cFdbo cFtot (fun b hb => ?_)
          · rw [hFbm]
            exact (hS.hmarked b hb).2.2
          · rcases hb with ⟨-, rfl⟩ | ⟨habs, -⟩
            · show (if ino.indirect_pointer = p1 + s.header.data_block_offset
                then updSlot (updSlot zeroBlock 0
                  (p2 + s.header.data_block_offset)) 0 0
                else (commitBlock
                  (commitBlock s2m (p2 + s.header.data_block_offset) zeroBlock)
                  (p1 + s.header.data_block_offset)
                  (updSlot zeroBlock 0
                    (p2 + s.header.data_block_offset))).blocks
                  ino.indirect_pointer) = s.blocks ino.indirect_pointer
              rw [if_neg hIndNe1]
              exact hZbOther ino.indirect_pointer hIndNe1 hIndNe2
            · exact absurd habs (by decide)
        refine Or.inr ⟨_, hg, ⟨hAF, hSOK, by rw [cFtot]; exact hcap,
          by rw [cFdbo]; exact hdbo⟩, ?_, hFbm, hcoreF⟩
        rw [cFfree]
        omega
      · -- the third allocation succeeds: the data block
        rcases hp3 : alloc_data (commitBlock
            (commitBlock s2m (p2 + s.header.data_block_offset) zeroBlock)
            (p1 + s.header.data_block_offset)
            (updSlot zeroBlock 0 (p2 + s.header.data_block_offset)))
          with ⟨s4, r3⟩
        obtain ⟨p3, hbm3, hlt3, hmin3, hr3, hA4, f3bm, f3h, f3bl, f3in, f3ibm,
          f3imp, f3ck⟩ := alloc_data_fields hAZ
          (by intro hc; apply hfree3; rw [cZfree] at hc; exact hc) hp3
        subst hr3
        have hg : growStep s ino (1 + POINTER_PER_BLOCK) =
            (commitBlock s4 (p2 + s.header.data_block_offset)
              (updSlot zeroBlock 0 (p3 + s.header.data_block_offset)),
             { ino with iindirect_pointer := p1 + s.header.data_block_offset },
             true) := by
          rw [hgZ]
          simp only [growStepTier2Tail, hp3]
          rw [hZbO, updSlot_eq, hZbN, cZdbo]
        have hp3facts : ¬ p3 = p2 ∧ ¬ p3 = p1 ∧ s.dataBm p3 = false := by
          have h4 : (if p3 = p2 then true else if p3 = p1 then true
              else s.dataBm p3) = false := by
            have h3 := hbm3
            rw [hZbm] at h3
            exact h3
          by_cases hq2 : p3 = p2
          · rw [if_pos hq2] at h4
            cases h4
          · rw [if_neg hq2] at h4
            by_cases hq1 : p3 = p1
            · rw [if_pos hq1] at h4
              cases h4
            · rw [if_neg hq1] at h4
              exact ⟨hq2, hq1, h4⟩
        obtain ⟨hne32, hne31, hsp3⟩ := hp3facts
        have hlt3' : p3 < s.header.data_block_num_tot := by
          have h5 := hlt3
          rw [cZtot] at h5
          exact h5
        have hsbF : sameButFree s (commitBlock s4
            (p2 + s.header.data_block_offset)
            (updSlot zeroBlock 0 (p3 + s.header.data_block_offset)))
            (s.header.data_block_num_free - 1 - 1 - 1) := by
          refine sameButFree_commitBlock ?_ _ _
          have h0 := sameButFree_trans hsbZ ⟨f3h, f3in, f3ibm, f3imp, f3ck⟩
          rw [cZfree] at h0
          exact h0
        obtain ⟨hcoreF, cFfree, cFdbo, cFtot⟩ := sameButFree_core hsbF
        have hFbm : (commitBlock s4 (p2 + s.header.data_block_offset)
            (updSlot zeroBlock 0 (p3 + s.header.data_block_offset))).dataBm =
            (fun q => if q = p3 then true else if q = p2 then true
              else if q = p1 then true else s.dataBm q) := by
          funext q
          show s4.dataBm q = _
          rw [f3bm]
          show (if q = p3 then true else (commitBlock
            (commitBlock s2m (p2 + s.header.data_block_offset) zeroBlock)
            (p1 + s.header.data_block_offset)
            (updSlot zeroBlock 0 (p2 + s.header.data_block_offset))).dataBm q)
            = _
          rw [hZbm]
        have hbmMono : ∀ q, s.dataBm q = true → (commitBlock s4
            (p2 + s.header.data_block_offset)
            (updSlot zeroBlock 0 (p3 + s.header.data_block_offset))).dataBm q
            = true := by
          intro q hq
          rw [hFbm]
          show (if q = p3 then true else if q = p2 then true
            else if q = p1 then true else s.dataBm q) = true
          by_cases h3 : q = p3
          · rw [if_pos h3]
          · rw [if_neg h3]
            by_cases h2 : q = p2
            · rw [if_pos h2]
            · rw [if_neg h2]
              by_cases h1 : q = p1
              · rw [if_pos h1]
              · rw [if_neg h1]
                exact hq
        have hbmO : (commitBlock s4 (p2 + s.header.data_block_offset)
            (updSlot zeroBlock 0 (p3 + s.header.data_block_offset))).dataBm
            (p1 + s.header.data_block_offset - s.header.data_block_offset)
            = true := by
          rw [Nat.add_sub_cancel, hFbm]
          show (if p1 = p3 then true else if p1 = p2 then true
            else if p1 = p1 then true else s.dataBm p1) = true
          rw [if_neg (by omega), if_neg (by omega), if_pos rfl]
        have hbmN : (commitBlock s4 (p2 + s.header.data_block_offset)
            (updSlot zeroBlock 0 (p3 + s.header.data_block_offset))).dataBm
            (p2 + s.header.data_block_offset - s.header.data_block_offset)
            = true := by
          rw [Nat.add_sub_cancel, hFbm]
          show (if p2 = p3 then true else if p2 = p2 then true
            else if p2 = p1 then true else s.dataBm p2) = true
          rw [if_neg (by omega), if_pos rfl]
        have hbmD : (commitBlock s4 (p2 + s.header.data_block_offset)
            (updSlot zeroBlock 0 (p3 + s.header.data_block_offset))).dataBm
            (p3 + s.header.data_block_offset - s.header.data_block_offset)
            = true := by
          rw [Nat.add_sub_cancel, hFbm]
          show (if p3 = p3 then true else if p3 = p2 then true
            else if p3 = p1 then true else s.dataBm p3) = true
          rw [if_pos rfl]
        have hbl' : (commitBlock s4 (p2 + s.header.data_block_offset)
            (updSlot zeroBlock 0 (p3 + s.header.data_block_offset))).blocks =
            (fun b => if b = p2 + s.header.data_block_offset then
              updSlot zeroBlock 0 (p3 + s.header.data_block_offset)
            else if b = p1 + s.header.data_block_offset then
              updSlot zeroBlock 0 (p2 + s.header.data_block_offset)
            else s.blocks b) := by
          funext b
          show (if b = p2 + s.header.data_block_offset then
            updSlot zeroBlock 0 (p3 + s.header.data_block_offset)
            else s4.blocks b) = _
          by_cases hb2 : b = p2 + s.header.data_block_offset
          · rw [if_pos hb2, if_pos hb2]
          · rw [if_neg hb2, if_neg hb2, f3bl]
            by_cases hb1 : b = p1 + s.header.data_block_offset
            · rw [if_pos hb1, hb1, hZbO]
            · rw [if_neg hb1]
              exact hZbOther b hb1 hb2
        have hSOK := StructOK_grow2_start hS hdbo
          (fresh_not_owned hS hbm1) (fresh_not_owned hS hsp2)
          (fresh_not_owned hS hsp3)
          (by omega) (by omega) (by omega)
          ⟨by omega, by omega⟩ ⟨by omega, by omega⟩ ⟨by omega, by omega⟩
          hbmO hbmN hbmD hbmMono cFdbo cFtot hbl'
        refine Or.inl ⟨_, _, hg, ⟨AllocInv_commitBlock hA4, hSOK,
          by rw [cFtot]; exact hcap, by rw [cFdbo]; exact hdbo⟩,
          ?_, hcoreF, rfl, rfl, rfl, rfl, rfl⟩
        rw [cFfree, ownedCount_succ_t2a]
        omega

theorem sameCore_trans {s1 s2 s3 : FS} (h1 : sameCore s1 s2) (h2 : sameCore s2 s3) :
    sameCore s1 s3 := by
  obtain ⟨a1, a2, a3, a4, a5, a6, a7, a8, a9, a10, a11, a12⟩ := h2
  obtain ⟨b1, b2, b3, b4, b5, b6, b7, b8, b9, b10, b11, b12⟩ := h1
  exact ⟨a1.trans b1, a2.trans b2, a3.trans b3, a4.trans b4, a5.trans b5,
    a6.trans b6, a7.trans b7, a8.trans b8, a9.trans b9, a10.trans b10,
    a11.trans b11, a12.trans b12⟩

/-- One grow step, all tiers: either it succeeds and extends the
canonical structure by one block, or it fails with its own partial
allocations already undone. -/
theorem growStep_spec {s : FS} {ino : INode} {n : Nat} (h : StepInv s ino n) :
    (∃ s' ino', growStep s ino n = (s', ino', true) ∧ growOkPost s s' ino ino' n) ∨
    (∃ s', growStep s ino n = (s', ino, false) ∧ growFailPost s s' ino n) := by
  by_cases h0 : n = 0
  · subst h0
    exact growStep_spec0 h
  · by_cases h1 : n = 1
    · subst h1
      exact growStep_spec1_create h
    · by_cases h2 : n < 1 + POINTER_PER_BLOCK
      · exact growStep_spec1_plain h (by omega) h2
      · by_cases hio : (n - (1 + POINTER_PER_BLOCK)) % POINTER_PER_BLOCK = 0
        · by_cases hii : (n - (1 + POINTER_PER_BLOCK)) / POINTER_PER_BLOCK = 0
          · have hn0 : n = 1 + POINTER_PER_BLOCK := by
              simp only [POINTER_PER_BLOCK, BLOCK_SIZE] at hio hii h2 ⊢
              omega
            subst hn0
            exact growStep_spec2_start h
          · exact growStep_spec2_mid h (by omega) hio hii
        · exact growStep_spec2_tail h (by omega) hio

/-- The grow phase: starting from a consistent state it either adds
exactly `fuel` blocks, or stops at the first failing step with all its
partial work undone and the blocks added so far still accounted. -/
theorem growLoopAux_spec : ∀ fuel (s : FS) (ino : INode) (now : Nat),
    StepInv s ino now →
    (∃ s' ino', growLoopAux fuel s ino now = (s', ino', now + fuel, true) ∧
      StepInv s' ino' (now + fuel) ∧
      s'.header.data_block_num_free + ownedCount (now + fuel)
        = s.header.data_block_num_free + ownedCount now ∧
      sameCore s s' ∧ ino'.filesize = ino.filesize ∧ ino'.typ = ino.typ ∧
      ino'.atime = ino.atime ∧ ino'.mtime = ino.mtime ∧
      ino'.ctime = ino.ctime) ∨
    (∃ s' ino' m, growLoopAux fuel s ino now = (s', ino', m, false) ∧
      now ≤ m ∧ m < now + fuel ∧ StepInv s' ino' m ∧
      s'.header.data_block_num_free + ownedCount m
        = s.header.data_block_num_free + ownedCount now ∧
      sameCore s s' ∧ ino'.filesize = ino.filesize ∧ ino'.typ = ino.typ ∧
      ino'.atime = ino.atime ∧ ino'.mtime = ino.mtime ∧
      ino'.ctime = ino.ctime) := by
  intro fuel
  induction fuel with
  | zero =>
    intro s ino now h
    exact Or.inl ⟨s, ino, rfl, h, rfl, sameCore_refl s, rfl, rfl, rfl, rfl, rfl⟩
  | succ fuel ih =>
    intro s ino now h
    rcases growStep_spec h with ⟨s1, ino1, heq, hok⟩ | ⟨s1, heq, hfail⟩
    · obtain ⟨hinv1, hacc1, hcore1, hf1, ht1, ha1, hm1, hc1⟩ := hok
      have hred : growLoopAux (fuel + 1) s ino now =
          growLoopAux fuel s1 ino1 (now + 1) := by
        simp only [growLoopAux, heq]
      rcases ih s1 ino1 (now + 1) hinv1 with
        ⟨s', ino', heq2, hinv2, hacc2, hcore2, hf2, ht2, ha2, hm2, hc2⟩ |
        ⟨s', ino', m, heq2, hm1', hm2', hinv2, hacc2, hcore2, hf2, ht2, ha2,
          hm2, hc2⟩
      · refine Or.inl ⟨s', ino', ?_, ?_, ?_, sameCore_trans hcore1 hcore2,
          hf2.trans hf1, ht2.trans ht1, ha2.trans ha1, hm2.trans hm1,
          hc2.trans hc1⟩
        · rw [hred, heq2]
          have : now + 1 + fuel = now + (fuel + 1) := by omega
          rw [this]
        · have : now + 1 + fuel = now + (fuel + 1) := by omega
          rw [← this]
          exact hinv2
        · have h3 : now + 1 + fuel = now + (fuel + 1) := by omega
          rw [← h3]
          omega
      · refine Or.inr ⟨s', ino', m, by rw [hred, heq2], by omega, by omega,
          hinv2, by omega, sameCore_trans hcore1 hcore2,
          hf2.trans hf1, ht2.trans ht1, ha2.trans ha1, hm2.trans hm1,
          hc2.trans hc1⟩
    · obtain ⟨hinv1, hfree1, hbm1, hcore1⟩ := hfail
      have hred : growLoopAux (fuel + 1) s ino now = (s1, ino, now, false) := by
        simp only [growLoopAux, heq]
      exact Or.inr ⟨s1, ino, now, hred, le_refl _, by omega, hinv1,
        by rw [hfree1], hcore1, rfl, rfl, rfl, rfl, rfl⟩

/-- One shrink step from `block_now = n ≥ 1` always succeeds, removes
the last data block (and the pointer blocks that become empty), and
preserves the step invariant with exact free-count accounting. -/
theorem shrinkStep_spec {s : FS} {ino : INode} {n : Nat}
    (h : StepInv s ino n) (hn : 1 ≤ n) :
    ∃ s' ino', shrinkStep s ino n = (s', ino') ∧ shrinkPost s s' ino ino' n := by
  obtain ⟨hA, hS, hcap, hdbo⟩ := h
  by_cases hT1 : n = 1
  · -- tier 0: free the direct block
    have hg : shrinkStep s ino n =
        (free_data s ino.direct_pointer, { ino with direct_pointer := 0 }) := by
      simp only [shrinkStep]
      rw [if_pos (show n - 1 < 1 by omega)]
    have hDeq0 : l2p s ino 0 = ino.direct_pointer := by simp [l2p]
    have hD : isOwned s ino n ino.direct_pointer :=
      Or.inl ⟨0, by omega, hDeq0.symm⟩
    obtain ⟨d1, d2, d3⟩ := hS.hmarked _ hD
    have hsbf := sameButFree_free_data (sameButFree_refl s) ino.direct_pointer
    obtain ⟨hsc, hfree, hch1, hch2⟩ := sameButFree_core hsbf
    refine ⟨_, _, hg, ⟨allocInv_step hA (AllocStep.freeD _ _ d1 d3),
      ?_, ?_, ?_⟩, ?_, hsc, rfl, rfl, rfl, rfl, rfl, ?_, ?_, ?_, ?_⟩
    · -- StructOK at n - 1 = 0
      rw [hT1]
      refine ⟨Nat.zero_le _, fun _ => rfl, fun h1 => absurd h1 (by omega),
        fun _ => hS.hind0 (by omega), fun h1 => absurd h1 (by omega),
        fun h1 => absurd h1 (by omega), fun _ => hS.hiind0 (by omega),
        fun h1 => absurd h1 (by omega), fun h1 => absurd h1 (by omega),
        fun h1 => absurd h1 (by omega), ?_,
        fun k k' hk => absurd hk (by omega), fun k hk => absurd hk (by omega),
        fun h1 => absurd h1 (by omega), fun h1 => absurd h1 (by omega),
        fun h1 => absurd h1 (by omega)⟩
      rintro b (⟨k, hk, -⟩ | (⟨h1, -⟩ | ⟨h1, -⟩))
      · exact absurd hk (by omega)
      · exact absurd h1 (by omega)
      · exact absurd h1 (by omega)
    · rw [hch2]
      exact hcap
    · rw [hch1]
      exact hdbo
    · -- accounting
      rw [hfree, hT1, show (1 : Nat) - 1 = 0 from rfl, ownedCount_zero,
        ownedCount_one]
    · -- bitmap monotone
      intro q hq
      have hq' : (if q = ino.direct_pointer - s.header.data_block_offset
          then false else s.dataBm q) = true := hq
      by_cases hqe : q = ino.direct_pointer - s.header.data_block_offset
      · rw [if_pos hqe] at hq'
        exact absurd hq' (by decide)
      · rw [if_neg hqe] at hq'
        exact hq'
    · -- cleared bits were owned
      intro q hq1 hq2
      have hq2' : (if q = ino.direct_pointer - s.header.data_block_offset
          then false else s.dataBm q) = false := hq2
      by_cases hqe : q = ino.direct_pointer - s.header.data_block_offset
      · rw [hqe, show ino.direct_pointer - s.header.data_block_offset +
          s.header.data_block_offset = ino.direct_pointer from by omega]
        exact hD
      · rw [if_neg hqe, hq1] at hq2'
        exact absurd hq2' (by decide)
    · intro k hk
      exact absurd hk (by omega)
    · rintro b (⟨h1, -⟩ | ⟨h1, -⟩) <;> exact absurd h1 (by omega)
  · by_cases hT2 : n ≤ 1 + POINTER_PER_BLOCK
    · -- tier 1
      have hb1 : ¬ (n - 1 < 1) := by omega
      have hb2 : n - 1 < 1 + POINTER_PER_BLOCK := by omega
      have hIp : isPtrBlock s ino n ino.indirect_pointer :=
        Or.inl ⟨by omega, rfl⟩
      have hIOwn : isOwned s ino n ino.indirect_pointer := Or.inr hIp
      obtain ⟨i1, i2, i3⟩ := hS.hmarked _ hIOwn
      by_cases hN2 : n = 2
      · -- the last indirect step: also free the indirect block
        have hoff : n - 1 - 1 = 0 := by omega
        have hg : shrinkStep s ino n =
            (free_data (commitBlock
                (free_data s (s.blocks ino.indirect_pointer 0))
                ino.indirect_pointer
                (updSlot (s.blocks ino.indirect_pointer) 0 0))
              ino.indirect_pointer,
             { ino with indirect_pointer := 0 }) := by
          simp only [shrinkStep]
          rw [if_neg hb1, if_pos hb2, hoff, if_pos rfl]
        have hDeq : l2p s ino 1 = s.blocks ino.indirect_pointer 0 := by
          rw [l2p_tier1 s ino (by omega) (by decide)]
        have hDOwn : isOwned s ino n (s.blocks ino.indirect_pointer 0) :=
          Or.inl ⟨1, by omega, hDeq.symm⟩
        obtain ⟨d1, d2, d3⟩ := hS.hmarked _ hDOwn
        have hDneI : ¬ s.blocks ino.indirect_pointer 0 = ino.indirect_pointer :=
          fun he => hS.hdp 1 (by omega) (by rw [hDeq]; exact he.symm ▸ hIp)
        have hsbf := sameButFree_free_data (sameButFree_commitBlock
          (sameButFree_free_data (sameButFree_refl s)
            (s.blocks ino.indirect_pointer 0))
          ino.indirect_pointer (updSlot (s.blocks ino.indirect_pointer) 0 0))
          ino.indirect_pointer
        obtain ⟨hsc, hfree, hch1, hch2⟩ := sameButFree_core hsbf
        obtain ⟨hSO, hl2pP, hptrP⟩ :=
          StructOK_shrink1_drop (show StructOK s ino 2 by rw [← hN2]; exact hS)
            hdbo hch1 hch2 rfl rfl
        have hA' : AllocInv (free_data (commitBlock
            (free_data s (s.blocks ino.indirect_pointer 0))
            ino.indirect_pointer
            (updSlot (s.blocks ino.indirect_pointer) 0 0))
          ino.indirect_pointer) := by
          refine allocInv_step (AllocInv_commitBlock
            (allocInv_step hA (AllocStep.freeD _ _ d1 d3)))
            (AllocStep.freeD _ _ ?_ ?_)
          · exact i1
          · show (if ino.indirect_pointer - s.header.data_block_offset =
                s.blocks ino.indirect_pointer 0 - s.header.data_block_offset
              then false
              else s.dataBm (ino.indirect_pointer -
                s.header.data_block_offset)) = true
            rw [if_neg (by omega)]
            exact i3
        refine ⟨_, _, hg, ⟨hA', ?_, ?_, ?_⟩, ?_, hsc, rfl, rfl, rfl, rfl, rfl,
          ?_, ?_, ?_, ?_⟩
        · rw [hN2]
          exact hSO
        · rw [hch2]
          exact hcap
        · rw [hch1]
          exact hdbo
        · rw [hfree, hN2, show (2 : Nat) - 1 = 1 from rfl, ownedCount_one,
            ownedCount_two]
        · intro q hq
          have hq' : (if q = ino.indirect_pointer - s.header.data_block_offset
              then false
              else if q = s.blocks ino.indirect_pointer 0 -
                  s.header.data_block_offset
              then false else s.dataBm q) = true := hq
          by_cases h1' : q = ino.indirect_pointer - s.header.data_block_offset
          · rw [if_pos h1'] at hq'
            exact absurd hq' (by decide)
          · rw [if_neg h1'] at hq'
            by_cases h2' : q = s.blocks ino.indirect_pointer 0 -
                s.header.data_block_offset
            · rw [if_pos h2'] at hq'
              exact absurd hq' (by decide)
            · rw [if_neg h2'] at hq'
              exact hq'
        · intro q hq1 hq2
          have hq2' : (if q = ino.indirect_pointer - s.header.data_block_offset
              then false
              else if q = s.blocks ino.indirect_pointer 0 -
                  s.header.data_block_offset
              then false else s.dataBm q) = false := hq2
          by_cases h1' : q = ino.indirect_pointer - s.header.data_block_offset
          · rw [h1', show ino.indirect_pointer - s.header.data_block_offset +
              s.header.data_block_offset = ino.indirect_pointer from by omega]
            exact hIOwn
          · rw [if_neg h1'] at hq2'
            by_cases h2' : q = s.blocks ino.indirect_pointer 0 -
                s.header.data_block_offset
            · rw [h2', show s.blocks ino.indirect_pointer 0 -
                s.header.data_block_offset + s.header.data_block_offset =
                s.blocks ino.indirect_pointer 0 from by omega]
              exact hDOwn
            · rw [if_neg h2', hq1] at hq2'
              exact absurd hq2' (by decide)
        · intro k hk
          refine hl2pP k ?_
          omega
        · intro b hb
          rw [show n - 1 = 1 from by omega] at hb
          have := hptrP b hb
          rw [hN2]
          exact this
      · -- plain indirect step: zero one slot of the indirect block
        have hn3 : 3 ≤ n := by omega
        have hoffne : ¬ (n - 1 - 1 = 0) := by omega
        have hg : shrinkStep s ino n =
            (commitBlock
              (free_data s (s.blocks ino.indirect_pointer (n - 1 - 1)))
              ino.indirect_pointer
              (updSlot (s.blocks ino.indirect_pointer) (n - 1 - 1) 0),
             ino) := by
          simp only [shrinkStep]
          rw [if_neg hb1, if_pos hb2, if_neg hoffne]
        have hDeq : l2p s ino (n - 1) =
            s.blocks ino.indirect_pointer (n - 1 - 1) :=
          l2p_tier1 s ino (by omega) (by omega)
        have hDOwn : isOwned s ino n
            (s.blocks ino.indirect_pointer (n - 1 - 1)) :=
          Or.inl ⟨n - 1, by omega, hDeq.symm⟩
        obtain ⟨d1, d2, d3⟩ := hS.hmarked _ hDOwn
        have hsbf := sameButFree_commitBlock
          (sameButFree_free_data (sameButFree_refl s)
            (s.blocks ino.indirect_pointer (n - 1 - 1)))
          ino.indirect_pointer
          (updSlot (s.blocks ino.indirect_pointer) (n - 1 - 1) 0)
        obtain ⟨hsc, hfree, hch1, hch2⟩ := sameButFree_core hsbf
        obtain ⟨hSO, hl2pP, hptrP⟩ :=
          StructOK_shrink1_plain hS hn3 hT2 hdbo hch1 hch2 rfl rfl
        have hA' : AllocInv (commitBlock
            (free_data s (s.blocks ino.indirect_pointer (n - 1 - 1)))
            ino.indirect_pointer
            (updSlot (s.blocks ino.indirect_pointer) (n - 1 - 1) 0)) :=
          AllocInv_commitBlock
            (allocInv_step hA (AllocStep.freeD _ _ d1 d3))
        refine ⟨_, _, hg, ⟨hA', hSO, ?_, ?_⟩, ?_, hsc, rfl, rfl, rfl, rfl,
          rfl, ?_, ?_, hl2pP, hptrP⟩
        · rw [hch2]
          exact hcap
        · rw [hch1]
          exact hdbo
        · rw [hfree, ownedCount_succ_t1 hn3 hT2]
          omega
        · intro q hq
          have hq' : (if q = s.blocks ino.indirect_pointer (n - 1 - 1) -
              s.header.data_block_offset
              then false else s.dataBm q) = true := hq
          by_cases hqe : q = s.blocks ino.indirect_pointer (n - 1 - 1) -
              s.header.data_block_offset
          · rw [if_pos hqe] at hq'
            exact absurd hq' (by decide)
          · rw [if_neg hqe] at hq'
            exact hq'
        · intro q hq1 hq2
          have hq2' : (if q = s.blocks ino.indirect_pointer (n - 1 - 1) -
              s.header.data_block_offset
              then false else s.dataBm q) = false := hq2
          by_cases hqe : q = s.blocks ino.indirect_pointer (n - 1 - 1) -
              s.header.data_block_offset
          · rw [hqe, show s.blocks ino.indirect_pointer (n - 1 - 1) -
              s.header.data_block_offset + s.header.data_block_offset =
              s.blocks ino.indirect_pointer (n - 1 - 1) from by omega]
            exact hDOwn
          · rw [if_neg hqe, hq1] at hq2'
            exact absurd hq2' (by decide)
    · -- tier 2
      have hb1 : ¬ (n - 1 < 1) := by omega
      have hb2 : ¬ (n - 1 < 1 + POINTER_PER_BLOCK) := by omega
      have hnP : 1 + POINTER_PER_BLOCK < n := by omega
      have hDeq := l2p_tier2 s ino
        (show 1 + POINTER_PER_BLOCK ≤ n - 1 by omega)
      by_cases hio : (n - 1 - (1 + POINTER_PER_BLOCK)) % POINTER_PER_BLOCK = 0
      · by_cases hii :
            (n - 1 - (1 + POINTER_PER_BLOCK)) / POINTER_PER_BLOCK = 0
        · -- the last double-indirect step: free data, inner and outer blocks
          have hn2P : n = 1 + POINTER_PER_BLOCK + 1 := by
            simp only [POINTER_PER_BLOCK, BLOCK_SIZE] at hio hii hT2 ⊢
            omega
          have hg : shrinkStep s ino n =
              (free_data (commitBlock (free_data (commitBlock
                  (free_data s
                    (s.blocks (s.blocks ino.iindirect_pointer 0) 0))
                  (s.blocks ino.iindirect_pointer 0)
                  (updSlot (s.blocks (s.blocks ino.iindirect_pointer 0)) 0 0))
                  (s.blocks ino.iindirect_pointer 0))
                ino.iindirect_pointer
                (updSlot (s.blocks ino.iindirect_pointer) 0 0))
                ino.iindirect_pointer,
               { ino with iindirect_pointer := 0 }) := by
            simp only [shrinkStep]
            rw [if_neg hb1, if_neg hb2, hio, hii, if_pos rfl, if_pos rfl]
          rw [hio, hii] at hDeq
          have hceil : 0 < ceilP (n - 1 - POINTER_PER_BLOCK) := by
            simp only [ceilP, POINTER_PER_BLOCK, BLOCK_SIZE] at hT2 ⊢
            omega
          have hNT : isPtrBlock s ino n (s.blocks ino.iindirect_pointer 0) :=
            Or.inr ⟨hnP, Or.inr ⟨0, hceil, rfl⟩⟩
          have hII' : isPtrBlock s ino n ino.iindirect_pointer :=
            Or.inr ⟨hnP, Or.inl rfl⟩
          have hNTOwn : isOwned s ino n (s.blocks ino.iindirect_pointer 0) :=
            Or.inr hNT
          have hIIOwn : isOwned s ino n ino.iindirect_pointer := Or.inr hII'
          have hDOwn : isOwned s ino n
              (s.blocks (s.blocks ino.iindirect_pointer 0) 0) :=
            Or.inl ⟨n - 1, by omega, hDeq.symm⟩
          obtain ⟨d1, d2, d3⟩ := hS.hmarked _ hDOwn
          obtain ⟨t1, t2, t3⟩ := hS.hmarked _ hNTOwn
          obtain ⟨u1, u2, u3⟩ := hS.hmarked _ hIIOwn
          have hDneNT : ¬ s.blocks (s.blocks ino.iindirect_pointer 0) 0 =
              s.blocks ino.iindirect_pointer 0 :=
            fun he => hS.hdp (n - 1) (by omega)
              (by rw [hDeq]; exact he.symm ▸ hNT)
          have hDneII : ¬ s.blocks (s.blocks ino.iindirect_pointer 0) 0 =
              ino.iindirect_pointer :=
            fun he => hS.hdp (n - 1) (by omega)
              (by rw [hDeq]; exact he.symm ▸ hII')
          have hNTneII : s.blocks ino.iindirect_pointer 0 ≠
              ino.iindirect_pointer :=
            (hS.hinnerNe hnP 0 hceil).2
          have hsbf := sameButFree_free_data (sameButFree_commitBlock
            (sameButFree_free_data (sameButFree_commitBlock
              (sameButFree_free_data (sameButFree_refl s)
                (s.blocks (s.blocks ino.iindirect_pointer 0) 0))
              (s.blocks ino.iindirect_pointer 0)
              (updSlot (s.blocks (s.blocks ino.iindirect_pointer 0)) 0 0))
              (s.blocks ino.iindirect_pointer 0))
            ino.iindirect_pointer
            (updSlot (s.blocks ino.iindirect_pointer) 0 0))
            ino.iindirect_pointer
          obtain ⟨hsc, hfree, hch1, hch2⟩ := sameButFree_core hsbf
          obtain ⟨hSO, hl2pP, hptrP⟩ := StructOK_shrink2_start
            (show StructOK s ino (1 + POINTER_PER_BLOCK + 1) by
              rw [← hn2P]; exact hS)
            hdbo hch1 hch2 rfl rfl
          have hA' : AllocInv (free_data (commitBlock (free_data (commitBlock
              (free_data s (s.blocks (s.blocks ino.iindirect_pointer 0) 0))
              (s.blocks ino.iindirect_pointer 0)
              (updSlot (s.blocks (s.blocks ino.iindirect_pointer 0)) 0 0))
              (s.blocks ino.iindirect_pointer 0))
            ino.iindirect_pointer
            (updSlot (s.blocks ino.iindirect_pointer) 0 0))
            ino.iindirect_pointer) := by
            refine allocInv_step (AllocInv_commitBlock (allocInv_step
              (AllocInv_commitBlock
                (allocInv_step hA (AllocStep.freeD _ _ d1 d3)))
              (AllocStep.freeD _ _ ?_ ?_)))
              (AllocStep.freeD _ _ ?_ ?_)
            · exact t1
            · show (if s.blocks ino.iindirect_pointer 0 -
                  s.header.data_block_offset =
                  s.blocks (s.blocks ino.iindirect_pointer 0) 0 -
                  s.header.data_block_offset
                then false
                else s.dataBm (s.blocks ino.iindirect_pointer 0 -
                  s.header.data_block_offset)) = true
              rw [if_neg (by omega)]
              exact t3
            · exact u1
            · show (if ino.iindirect_pointer - s.header.data_block_offset =
                  s.blocks ino.iindirect_pointer 0 -
                  s.header.data_block_offset
                then false
                else if ino.iindirect_pointer - s.header.data_block_offset =
                  s.blocks (s.blocks ino.iindirect_pointer 0) 0 -
                  s.header.data_block_offset
                then false
                else s.dataBm (ino.iindirect_pointer -
                  s.header.data_block_offset)) = true
              rw [if_neg (by omega), if_neg (by omega)]
              exact u3
          refine ⟨_, _, hg, ⟨hA', ?_, ?_, ?_⟩, ?_, hsc, rfl, rfl, rfl, rfl,
            rfl, ?_, ?_, ?_, ?_⟩
          · rw [show n - 1 = 1 + POINTER_PER_BLOCK from by omega]
            exact hSO
          · rw [hch2]
            exact hcap
          · rw [hch1]
            exact hdbo
          · have hocc : ownedCount n = ownedCount (n - 1) + 3 := by
              rw [hn2P, show 1 + POINTER_PER_BLOCK + 1 - 1 =
                1 + POINTER_PER_BLOCK from by omega]
              exact ownedCount_succ_t2a
            rw [hfree, hocc]
            omega
          · intro q hq
            have hq' : (if q = ino.iindirect_pointer -
                s.header.data_block_offset
                then false
                else if q = s.blocks ino.iindirect_pointer 0 -
                  s.header.data_block_offset
                then false
                else if q = s.blocks (s.blocks ino.iindirect_pointer 0) 0 -
                  s.header.data_block_offset
                then false else s.dataBm q) = true := hq
            by_cases h1' : q = ino.iindirect_pointer -
                s.header.data_block_offset
            · rw [if_pos h1'] at hq'
              exact absurd hq' (by decide)
            · rw [if_neg h1'] at hq'
              by_cases h2' : q = s.blocks ino.iindirect_pointer 0 -
                  s.header.data_block_offset
              · rw [if_pos h2'] at hq'
                exact absurd hq' (by decide)
              · rw [if_neg h2'] at hq'
                by_cases h3' : q =
                    s.blocks (s.blocks ino.iindirect_pointer 0) 0 -
                    s.header.data_block_offset
                · rw [if_pos h3'] at hq'
                  exact absurd hq' (by decide)
                · rw [if_neg h3'] at hq'
                  exact hq'
          · intro q hq1 hq2
            have hq2' : (if q = ino.iindirect_pointer -
                s.header.data_block_offset
                then false
                else if q = s.blocks ino.iindirect_pointer 0 -
                  s.header.data_block_offset
                then false
                else if q = s.blocks (s.blocks ino.iindirect_pointer 0) 0 -
                  s.header.data_block_offset
                then false else s.dataBm q) = false := hq2
            by_cases h1' : q = ino.iindirect_pointer -
                s.header.data_block_offset
            · rw [h1', show ino.iindirect_pointer -
                s.header.data_block_offset + s.header.data_block_offset =
                ino.iindirect_pointer from by omega]
              exact hIIOwn
            · rw [if_neg h1'] at hq2'
              by_cases h2' : q = s.blocks ino.iindirect_pointer 0 -
                  s.header.data_block_offset
              · rw [h2', show s.blocks ino.iindirect_pointer 0 -
                  s.header.data_block_offset + s.header.data_block_offset =
                  s.blocks ino.iindirect_pointer 0 from by omega]
                exact hNTOwn
              · rw [if_neg h2'] at hq2'
                by_cases h3' : q =
                    s.blocks (s.blocks ino.iindirect_pointer 0) 0 -
                    s.header.data_block_offset
                · rw [h3', show
                    s.blocks (s.blocks ino.iindirect_pointer 0) 0 -
                    s.header.data_block_offset + s.header.data_block_offset =
                    s.blocks (s.blocks ino.iindirect_pointer 0) 0
                    from by omega]
                  exact hDOwn
                · rw [if_neg h3', hq1] at hq2'
                  exact absurd hq2' (by decide)
          · intro k hk
            refine hl2pP k ?_
            omega
          · intro b hb
            rw [show n - 1 = 1 + POINTER_PER_BLOCK from by omega] at hb
            have := hptrP b hb
            rw [hn2P]
            exact this
        · -- the inner block empties: free data and inner, zero an outer slot
          have hgt1 : 1 + POINTER_PER_BLOCK < n - 1 := by
            simp only [POINTER_PER_BLOCK, BLOCK_SIZE] at hii hT2 ⊢
            omega
          have hg : shrinkStep s ino n =
              (commitBlock (free_data (commitBlock
                  (free_data s (s.blocks (s.blocks ino.iindirect_pointer
                      ((n - 1 - (1 + POINTER_PER_BLOCK)) / POINTER_PER_BLOCK))
                    ((n - 1 - (1 + POINTER_PER_BLOCK)) % POINTER_PER_BLOCK)))
                  (s.blocks ino.iindirect_pointer
                    ((n - 1 - (1 + POINTER_PER_BLOCK)) / POINTER_PER_BLOCK))
                  (updSlot (s.blocks (s.blocks ino.iindirect_pointer
                      ((n - 1 - (1 + POINTER_PER_BLOCK)) / POINTER_PER_BLOCK)))
                    ((n - 1 - (1 + POINTER_PER_BLOCK)) % POINTER_PER_BLOCK) 0))
                  (s.blocks ino.iindirect_pointer
                    ((n - 1 - (1 + POINTER_PER_BLOCK)) / POINTER_PER_BLOCK)))
                ino.iindirect_pointer
                (updSlot (s.blocks ino.iindirect_pointer)
                  ((n - 1 - (1 + POINTER_PER_BLOCK)) / POINTER_PER_BLOCK) 0),
               ino) := by
            simp only [shrinkStep]
            rw [if_neg hb1, if_neg hb2, if_pos hio, if_neg hii]
          have hidx : (n - 1 - (1 + POINTER_PER_BLOCK)) / POINTER_PER_BLOCK <
              ceilP (n - 1 - POINTER_PER_BLOCK) :=
            div_lt_ceilP (by omega)
          have hNT : isPtrBlock s ino n (s.blocks ino.iindirect_pointer
              ((n - 1 - (1 + POINTER_PER_BLOCK)) / POINTER_PER_BLOCK)) :=
            Or.inr ⟨hnP, Or.inr ⟨_, hidx, rfl⟩⟩
          have hNTOwn : isOwned s ino n (s.blocks ino.iindirect_pointer
              ((n - 1 - (1 + POINTER_PER_BLOCK)) / POINTER_PER_BLOCK)) :=
            Or.inr hNT
          have hDOwn : isOwned s ino n
              (s.blocks (s.blocks ino.iindirect_pointer
                ((n - 1 - (1 + POINTER_PER_BLOCK)) / POINTER_PER_BLOCK))
               ((n - 1 - (1 + POINTER_PER_BLOCK)) % POINTER_PER_BLOCK)) :=
            Or.inl ⟨n - 1, by omega, hDeq.symm⟩
          obtain ⟨d1, d2, d3⟩ := hS.hmarked _ hDOwn
          obtain ⟨t1, t2, t3⟩ := hS.hmarked _ hNTOwn
          have hDneNT : ¬ s.blocks (s.blocks ino.iindirect_pointer
              ((n - 1 - (1 + POINTER_PER_BLOCK)) / POINTER_PER_BLOCK))
              ((n - 1 - (1 + POINTER_PER_BLOCK)) % POINTER_PER_BLOCK) =
              s.blocks ino.iindirect_pointer
              ((n - 1 - (1 + POINTER_PER_BLOCK)) / POINTER_PER_BLOCK) :=
            fun he => hS.hdp (n - 1) (by omega)
              (by rw [hDeq]; exact he.symm ▸ hNT)
          have hsbf := sameButFree_commitBlock (sameButFree_free_data
            (sameButFree_commitBlock (sameButFree_free_data
              (sameButFree_refl s)
              (s.blocks (s.blocks ino.iindirect_pointer
                  ((n - 1 - (1 + POINTER_PER_BLOCK)) / POINTER_PER_BLOCK))
                ((n - 1 - (1 + POINTER_PER_BLOCK)) % POINTER_PER_BLOCK)))
              (s.blocks ino.iindirect_pointer
                ((n - 1 - (1 + POINTER_PER_BLOCK)) / POINTER_PER_BLOCK))
              (updSlot (s.blocks (s.blocks ino.iindirect_pointer
                  ((n - 1 - (1 + POINTER_PER_BLOCK)) / POINTER_PER_BLOCK)))
                ((n - 1 - (1 + POINTER_PER_BLOCK)) % POINTER_PER_BLOCK) 0))
            (s.blocks ino.iindirect_pointer
              ((n - 1 - (1 + POINTER_PER_BLOCK)) / POINTER_PER_BLOCK)))
            ino.iindirect_pointer
            (updSlot (s.blocks ino.iindirect_pointer)
              ((n - 1 - (1 + POINTER_PER_BLOCK)) / POINTER_PER_BLOCK) 0)
          obtain ⟨hsc, hfree, hch1, hch2⟩ := sameButFree_core hsbf
          obtain ⟨hSO, hl2pP, hptrP⟩ :=
            StructOK_shrink2_mid hS hnP hio hii hdbo hch1 hch2 rfl rfl
          have hA' : AllocInv (commitBlock (free_data (commitBlock
              (free_data s (s.blocks (s.blocks ino.iindirect_pointer
                  ((n - 1 - (1 + POINTER_PER_BLOCK)) / POINTER_PER_BLOCK))
                ((n - 1 - (1 + POINTER_PER_BLOCK)) % POINTER_PER_BLOCK)))
              (s.blocks ino.iindirect_pointer
                ((n - 1 - (1 + POINTER_PER_BLOCK)) / POINTER_PER_BLOCK))
              (updSlot (s.blocks (s.blocks ino.iindirect_pointer
                  ((n - 1 - (1 + POINTER_PER_BLOCK)) / POINTER_PER_BLOCK)))
                ((n - 1 - (1 + POINTER_PER_BLOCK)) % POINTER_PER_BLOCK) 0))
              (s.blocks ino.iindirect_pointer
                ((n - 1 - (1 + POINTER_PER_BLOCK)) / POINTER_PER_BLOCK)))
            ino.iindirect_pointer
            (updSlot (s.blocks ino.iindirect_pointer)
              ((n - 1 - (1 + POINTER_PER_BLOCK)) / POINTER_PER_BLOCK) 0)) := by
            refine AllocInv_commitBlock (allocInv_step (AllocInv_commitBlock
              (allocInv_step hA (AllocStep.freeD _ _ d1 d3)))
              (AllocStep.freeD _ _ ?_ ?_))
            · exact t1
            · show (if s.blocks ino.iindirect_pointer
                  ((n - 1 - (1 + POINTER_PER_BLOCK)) / POINTER_PER_BLOCK) -
                  s.header.data_block_offset =
                  s.blocks (s.blocks ino.iindirect_pointer
                    ((n - 1 - (1 + POINTER_PER_BLOCK)) / POINTER_PER_BLOCK))
                  ((n - 1 - (1 + POINTER_PER_BLOCK)) % POINTER_PER_BLOCK) -
                  s.header.data_block_offset
                then false
                else s.dataBm (s.blocks ino.iindirect_pointer
                  ((n - 1 - (1 + POINTER_PER_BLOCK)) / POINTER_PER_BLOCK) -
                  s.header.data_block_offset)) = true
              rw [if_neg (by omega)]
              exact t3
          refine ⟨_, _, hg, ⟨hA', hSO, ?_, ?_⟩, ?_, hsc, rfl, rfl, rfl, rfl,
            rfl, ?_, ?_, hl2pP, hptrP⟩
          · rw [hch2]
            exact hcap
          · rw [hch1]
            exact hdbo
          · have hocc := ownedCount_succ_t2b (n := n - 1) hgt1 hio
            rw [show n - 1 + 1 = n from by omega] at hocc
            rw [hfree, hocc]
            omega
          · intro q hq
            have hq' : (if q = s.blocks ino.iindirect_pointer
                ((n - 1 - (1 + POINTER_PER_BLOCK)) / POINTER_PER_BLOCK) -
                s.header.data_block_offset
                then false
                else if q = s.blocks (s.blocks ino.iindirect_pointer
                    ((n - 1 - (1 + POINTER_PER_BLOCK)) / POINTER_PER_BLOCK))
                  ((n - 1 - (1 + POINTER_PER_BLOCK)) % POINTER_PER_BLOCK) -
                  s.header.data_block_offset
                then false else s.dataBm q) = true := hq
            by_cases h1' : q = s.blocks ino.iindirect_pointer
                ((n - 1 - (1 + POINTER_PER_BLOCK)) / POINTER_PER_BLOCK) -
                s.header.data_block_offset
            · rw [if_pos h1'] at hq'
              exact absurd hq' (by decide)
            · rw [if_neg h1'] at hq'
              by_cases h2' : q = s.blocks (s.blocks ino.iindirect_pointer
                  ((n - 1 - (1 + POINTER_PER_BLOCK)) / POINTER_PER_BLOCK))
                  ((n - 1 - (1 + POINTER_PER_BLOCK)) % POINTER_PER_BLOCK) -
                  s.header.data_block_offset
              · rw [if_pos h2'] at hq'
                exact absurd hq' (by decide)
              · rw [if_neg h2'] at hq'
                exact hq'
          · intro q hq1 hq2
            have hq2' : (if q = s.blocks ino.iindirect_pointer
                ((n - 1 - (1 + POINTER_PER_BLOCK)) / POINTER_PER_BLOCK) -
                s.header.data_block_offset
                then false
                else if q = s.blocks (s.blocks ino.iindirect_pointer
                    ((n - 1 - (1 + POINTER_PER_BLOCK)) / POINTER_PER_BLOCK))
                  ((n - 1 - (1 + POINTER_PER_BLOCK)) % POINTER_PER_BLOCK) -
                  s.header.data_block_offset
                then false else s.dataBm q) = false := hq2
            by_cases h1' : q = s.blocks ino.iindirect_pointer
                ((n - 1 - (1 + POINTER_PER_BLOCK)) / POINTER_PER_BLOCK) -
                s.header.data_block_offset
            · rw [h1', show s.blocks ino.iindirect_pointer
                ((n - 1 - (1 + POINTER_PER_BLOCK)) / POINTER_PER_BLOCK) -
                s.header.data_block_offset + s.header.data_block_offset =
                s.blocks ino.iindirect_pointer
                ((n - 1 - (1 + POINTER_PER_BLOCK)) / POINTER_PER_BLOCK)
                from by omega]
              exact hNTOwn
            · rw [if_neg h1'] at hq2'
              by_cases h2' : q = s.blocks (s.blocks ino.iindirect_pointer
                  ((n - 1 - (1 + POINTER_PER_BLOCK)) / POINTER_PER_BLOCK))
                  ((n - 1 - (1 + POINTER_PER_BLOCK)) % POINTER_PER_BLOCK) -
                  s.header.data_block_offset
              · rw [h2', show s.blocks (s.blocks ino.iindirect_pointer
                  ((n - 1 - (1 + POINTER_PER_BLOCK)) / POINTER_PER_BLOCK))
                  ((n - 1 - (1 + POINTER_PER_BLOCK)) % POINTER_PER_BLOCK) -
                  s.header.data_block_offset + s.header.data_block_offset =
                  s.blocks (s.blocks ino.iindirect_pointer
                    ((n - 1 - (1 + POINTER_PER_BLOCK)) / POINTER_PER_BLOCK))
                  ((n - 1 - (1 + POINTER_PER_BLOCK)) % POINTER_PER_BLOCK)
                  from by omega]
                exact hDOwn
              · rw [if_neg h2', hq1] at hq2'
                exact absurd hq2' (by decide)
      · -- plain double-indirect step: zero one slot of the inner block
        have hg : shrinkStep s ino n =
            (commitBlock
              (free_data s (s.blocks (s.blocks ino.iindirect_pointer
                  ((n - 1 - (1 + POINTER_PER_BLOCK)) / POINTER_PER_BLOCK))
                ((n - 1 - (1 + POINTER_PER_BLOCK)) % POINTER_PER_BLOCK)))
              (s.blocks ino.iindirect_pointer
                ((n - 1 - (1 + POINTER_PER_BLOCK)) / POINTER_PER_BLOCK))
              (updSlot (s.blocks (s.blocks ino.iindirect_pointer
                  ((n - 1 - (1 + POINTER_PER_BLOCK)) / POINTER_PER_BLOCK)))
                ((n - 1 - (1 + POINTER_PER_BLOCK)) % POINTER_PER_BLOCK) 0),
             ino) := by
          simp only [shrinkStep]
          rw [if_neg hb1, if_neg hb2, if_neg hio]
        have hDOwn : isOwned s ino n
            (s.blocks (s.blocks ino.iindirect_pointer
              ((n - 1 - (1 + POINTER_PER_BLOCK)) / POINTER_PER_BLOCK))
             ((n - 1 - (1 + POINTER_PER_BLOCK)) % POINTER_PER_BLOCK)) :=
          Or.inl ⟨n - 1, by omega, hDeq.symm⟩
        obtain ⟨d1, d2, d3⟩ := hS.hmarked _ hDOwn
        have hsbf := sameButFree_commitBlock (sameButFree_free_data
          (sameButFree_refl s)
          (s.blocks (s.blocks ino.iindirect_pointer
              ((n - 1 - (1 + POINTER_PER_BLOCK)) / POINTER_PER_BLOCK))
            ((n - 1 - (1 + POINTER_PER_BLOCK)) % POINTER_PER_BLOCK)))
          (s.blocks ino.iindirect_pointer
            ((n - 1 - (1 + POINTER_PER_BLOCK)) / POINTER_PER_BLOCK))
          (updSlot (s.blocks (s.blocks ino.iindirect_pointer
              ((n - 1 - (1 + POINTER_PER_BLOCK)) / POINTER_PER_BLOCK)))
            ((n - 1 - (1 + POINTER_PER_BLOCK)) % POINTER_PER_BLOCK) 0)
        obtain ⟨hsc, hfree, hch1, hch2⟩ := sameButFree_core hsbf
        obtain ⟨hSO, hl2pP, hptrP⟩ :=
          StructOK_shrink2_tail hS hnP hio hdbo hch1 hch2 rfl rfl
        have hA' : AllocInv (commitBlock
            (free_data s (s.blocks (s.blocks ino.iindirect_pointer
                ((n - 1 - (1 + POINTER_PER_BLOCK)) / POINTER_PER_BLOCK))
              ((n - 1 - (1 + POINTER_PER_BLOCK)) % POINTER_PER_BLOCK)))
            (s.blocks ino.iindirect_pointer
              ((n - 1 - (1 + POINTER_PER_BLOCK)) / POINTER_PER_BLOCK))
            (updSlot (s.blocks (s.blocks ino.iindirect_pointer
                ((n - 1 - (1 + POINTER_PER_BLOCK)) / POINTER_PER_BLOCK)))
              ((n - 1 - (1 + POINTER_PER_BLOCK)) % POINTER_PER_BLOCK) 0)) :=
          AllocInv_commitBlock
            (allocInv_step hA (AllocStep.freeD _ _ d1 d3))
        refine ⟨_, _, hg, ⟨hA', hSO, ?_, ?_⟩, ?_, hsc, rfl, rfl, rfl, rfl,
          rfl, ?_, ?_, hl2pP, hptrP⟩
        · rw [hch2]
          exact hcap
        · rw [hch1]
          exact hdbo
        · have hocc := ownedCount_succ_t2c (n := n - 1) (by omega) hio
          rw [show n - 1 + 1 = n from by omega] at hocc
          rw [hfree, hocc]
          omega
        · intro q hq
          have hq' : (if q = s.blocks (s.blocks ino.iindirect_pointer
              ((n - 1 - (1 + POINTER_PER_BLOCK)) / POINTER_PER_BLOCK))
              ((n - 1 - (1 + POINTER_PER_BLOCK)) % POINTER_PER_BLOCK) -
              s.header.data_block_offset
              then false else s.dataBm q) = true := hq
          by_cases hqe : q = s.blocks (s.blocks ino.iindirect_pointer
              ((n - 1 - (1 + POINTER_PER_BLOCK)) / POINTER_PER_BLOCK))
              ((n - 1 - (1 + POINTER_PER_BLOCK)) % POINTER_PER_BLOCK) -
              s.header.data_block_offset
          · rw [if_pos hqe] at hq'
            exact absurd hq' (by decide)
          · rw [if_neg hqe] at hq'
            exact hq'
        · intro q hq1 hq2
          have hq2' : (if q = s.blocks (s.blocks ino.iindirect_pointer
              ((n - 1 - (1 + POINTER_PER_BLOCK)) / POINTER_PER_BLOCK))
              ((n - 1 - (1 + POINTER_PER_BLOCK)) % POINTER_PER_BLOCK) -
              s.header.data_block_offset
              then false else s.dataBm q) = false := hq2
          by_cases hqe : q = s.blocks (s.blocks ino.iindirect_pointer
              ((n - 1 - (1 + POINTER_PER_BLOCK)) / POINTER_PER_BLOCK))
              ((n - 1 - (1 + POINTER_PER_BLOCK)) % POINTER_PER_BLOCK) -
              s.header.data_block_offset
          · rw [hqe, show s.blocks (s.blocks ino.iindirect_pointer
              ((n - 1 - (1 + POINTER_PER_BLOCK)) / POINTER_PER_BLOCK))
              ((n - 1 - (1 + POINTER_PER_BLOCK)) % POINTER_PER_BLOCK) -
              s.header.data_block_offset + s.header.data_block_offset =
              s.blocks (s.blocks ino.iindirect_pointer
                ((n - 1 - (1 + POINTER_PER_BLOCK)) / POINTER_PER_BLOCK))
              ((n - 1 - (1 + POINTER_PER_BLOCK)) % POINTER_PER_BLOCK)
              from by omega]
            exact hDOwn
          · rw [if_neg hqe, hq1] at hq2'
            exact absurd hq2' (by decide)

/-- The shrink phase: starting from a consistent state with at least
`fuel` blocks, it removes exactly `fuel` data blocks, freeing only
blocks the file owned and keeping the remaining logical prefix
mapped unchanged. -/
theorem shrinkLoopAux_spec : ∀ fuel (s : FS) (ino : INode) (now : Nat),
    StepInv s ino now → fuel ≤ now →
    ∃ s' ino', shrinkLoopAux fuel s ino now = (s', ino', now - fuel) ∧
      StepInv s' ino' (now - fuel) ∧
      s'.header.data_block_num_free + ownedCount (now - fuel)
        = s.header.data_block_num_free + ownedCount now ∧
      sameCore s s' ∧ ino'.filesize = ino.filesize ∧ ino'.typ = ino.typ ∧
      ino'.atime = ino.atime ∧ ino'.mtime = ino.mtime ∧
      ino'.ctime = ino.ctime ∧
      (∀ q, s'.dataBm q = true → s.dataBm q = true) ∧
      (∀ q, s.dataBm q = true → s'.dataBm q = false →
        isOwned s ino now (q + s.header.data_block_offset)) ∧
      (∀ k, k < now - fuel → l2p s' ino' k = l2p s ino k) ∧
      (∀ b, isPtrBlock s' ino' (now - fuel) b → isPtrBlock s ino now b) := by
  intro fuel
  induction fuel with
  | zero =>
    intro s ino now h _
    exact ⟨s, ino, rfl, h, rfl, sameCore_refl s, rfl, rfl, rfl, rfl, rfl,
      fun q hq => hq,
      fun q h1 h2 => absurd (h1.symm.trans h2) (by decide),
      fun k _ => rfl, fun b hb => hb⟩
  | succ fuel ih =>
    intro s ino now h hle
    obtain ⟨s1, ino1, heq1, hpost⟩ := shrinkStep_spec h (by omega)
    obtain ⟨hinv1, hacc1, hsc1, hf1, ht1, ha1, hm1, hc1, hmono1, hclr1,
      hl2p1, hptr1⟩ := hpost
    have hred : shrinkLoopAux (fuel + 1) s ino now =
        shrinkLoopAux fuel s1 ino1 (now - 1) := by
      simp only [shrinkLoopAux, heq1]
    obtain ⟨s', ino', heq2, hinv2, hacc2, hsc2, hf2, ht2, ha2, hm2, hc2,
      hmono2, hclr2, hl2p2, hptr2⟩ := ih s1 ino1 (now - 1) hinv1 (by omega)
    have hidx : now - 1 - fuel = now - (fuel + 1) := by omega
    have howned : ∀ b, isOwned s1 ino1 (now - 1) b → isOwned s ino now b := by
      rintro b (⟨k, hk, rfl⟩ | hptr)
      · rw [hl2p1 k hk]
        exact Or.inl ⟨k, by omega, rfl⟩
      · exact Or.inr (hptr1 b hptr)
    have hdbo1 : s1.header.data_block_offset = s.header.data_block_offset :=
      hsc1.2.2.2.1
    refine ⟨s', ino', ?_, ?_, ?_, sameCore_trans hsc1 hsc2, hf2.trans hf1,
      ht2.trans ht1, ha2.trans ha1, hm2.trans hm1, hc2.trans hc1,
      ?_, ?_, ?_, ?_⟩
    · rw [hred, heq2, hidx]
    · rw [← hidx]
      exact hinv2
    · rw [← hidx]
      omega
    · intro q hq
      exact hmono1 q (hmono2 q hq)
    · intro q h1 h2
      rcases Bool.eq_false_or_eq_true (s1.dataBm q) with hmid | hmid
      · have hcl := hclr2 q hmid h2
        rw [hdbo1] at hcl
        exact howned _ hcl
      · exact hclr1 q h1 hmid
    · intro k hk
      rw [← hidx] at hk
      rw [hl2p2 k hk, hl2p1 k (by omega)]
    · intro b hb
      rw [← hidx] at hb
      exact hptr1 b (hptr2 b hb)

/-- Without the `std::max<int>` wrap, `ceilBlocks` is the true ceiling
for every size a `uint32_t` file size can express. -/
theorem ceilBlocks_small {size : Nat} (hsz : size < 2 ^ 32) :
    ceilBlocks size = (size + BLOCK_SIZE - 1) / BLOCK_SIZE := by
  simp only [ceilBlocks, BLOCK_SIZE] at hsz ⊢
  rw [Nat.mod_eq_of_lt (by omega), if_pos (by omega)]

/-- The shrink branch of `resize` (`block_need ≤ block_now`) always
succeeds: it commits the inode with the requested (`uint32_t`-wrapped)
file size and the canonical structure for `ceilBlocks size` blocks,
freeing exactly the surplus blocks. -/
theorem resizeAux_shrink (fuel : Nat) {s : FS} {inodeno size n : Nat}
    (hA : AllocInv s) (hS : StructOK s (s.inodes inodeno) n)
    (hcap : s.header.data_block_num_tot ≤
      1 + POINTER_PER_BLOCK + POINTER_PER_BLOCK * (POINTER_PER_BLOCK - 1))
    (hdbo : 1 ≤ s.header.data_block_offset)
    (hge : ceilBlocks size ≤ n) :
    ∃ s', resizeAux (fuel + 1) s inodeno size = (s', 0) ∧
      AllocInv s' ∧ StructOK s' (s'.inodes inodeno) (ceilBlocks size) ∧
      (s'.inodes inodeno).filesize = size % 2 ^ 32 ∧
      s'.header.data_block_num_free + ownedCount (ceilBlocks size)
        = s.header.data_block_num_free + ownedCount n ∧
      s'.header.data_block_offset = s.header.data_block_offset ∧
      s'.header.data_block_num_tot = s.header.data_block_num_tot ∧
      s'.inodeBm = s.inodeBm ∧ s'.clock = s.clock ∧
      (∀ j, ¬ j = inodeno → s'.inodes j = s.inodes j) := by
  have hgbs : get_block_size s inodeno = n := get_block_size_eq hS
  have hnotlt : ¬ (get_block_size s inodeno < ceilBlocks size) := by
    rw [hgbs]
    omega
  have h0 : StepInv s { s.inodes inodeno with ctime := s.clock } n :=
    ⟨hA, StructOK_ctime _ hS, hcap, hdbo⟩
  obtain ⟨s1, ino1, heqL, hinv1, hacc1, hsc1, hf1, ht1, ha1, hm1, hc1,
    hmono1, hclr1, hl2p1, hptr1⟩ :=
    shrinkLoopAux_spec (n - ceilBlocks size) s
      { s.inodes inodeno with ctime := s.clock } n h0 (by omega)
  have hidx : n - (n - ceilBlocks size) = ceilBlocks size := by omega
  obtain ⟨hA1, hS1, hcap1, hdbo1⟩ := hinv1
  rw [hidx] at hS1 hacc1
  obtain ⟨c1, c2, c3, c4, c5, c6, c7, c8, c9, c10, c11, c12⟩ := hsc1
  have hg : resizeAux (fuel + 1) s inodeno size =
      (commitInode s1 inodeno { ino1 with filesize := size % 2 ^ 32 }, 0) := by
    simp only [resizeAux, shrinkLoop]
    rw [if_neg hnotlt, hgbs, heqL]
  have hino : (commitInode s1 inodeno
      { ino1 with filesize := size % 2 ^ 32 }).inodes inodeno =
      { ino1 with filesize := size % 2 ^ 32 } := by
    show (if inodeno = inodeno then { ino1 with filesize := size % 2 ^ 32 }
      else s1.inodes inodeno) = { ino1 with filesize := size % 2 ^ 32 }
    rw [if_pos rfl]
  refine ⟨_, hg, AllocInv_commitInode hA1, ?_, ?_, hacc1, c4, c5, c2, c12, ?_⟩
  · rw [hino]
    exact StructOK_commitInode (StructOK_filesize _ hS1)
  · rw [hino]
  · intro j hj
    show (if j = inodeno then { ino1 with filesize := size % 2 ^ 32 }
      else s1.inodes j) = s.inodes j
    rw [if_neg hj, c1]

/-- `DataProxy::resize` on a consistent state with a size below `2^32`:
it either succeeds, leaving the requested file size and the canonical
structure for `ceilBlocks size` blocks, or fails with `ENOSPC`, leaving
the file size, the block count and the free-block counter at their
pre-call values.  In both cases the inode bitmap and all other inodes
are untouched. -/
theorem resize_spec {s : FS} {inodeno size n : Nat}
    (hR : ResizeInv s inodeno n) (hsz : size < 2 ^ 32) :
    (∃ s', resize s inodeno size = (s', 0) ∧
      ResizeInv s' inodeno (ceilBlocks size) ∧
      (s'.inodes inodeno).filesize = size ∧
      get_block_size s' inodeno = ceilBlocks size ∧
      s'.header.data_block_num_free + ownedCount (ceilBlocks size)
        = s.header.data_block_num_free + ownedCount n ∧
      s'.inodeBm = s.inodeBm ∧
      (∀ j, ¬ j = inodeno → s'.inodes j = s.inodes j)) ∨
    (∃ s', resize s inodeno size = (s', ENOSPC) ∧
      ResizeInv s' inodeno n ∧
      (s'.inodes inodeno).filesize = (s.inodes inodeno).filesize ∧
      get_block_size s' inodeno = get_block_size s inodeno ∧
      s'.header.data_block_num_free = s.header.data_block_num_free ∧
      s'.inodeBm = s.inodeBm ∧
      (∀ j, ¬ j = inodeno → s'.inodes j = s.inodes j)) := by
  obtain ⟨hA, hS, hsize, hsize32, hcap, hdbo⟩ := hR
  have hgbs : get_block_size s inodeno = n := get_block_size_eq hS
  have hmodsz : size % 2 ^ 32 = size := Nat.mod_eq_of_lt hsz
  by_cases hlt : n < ceilBlocks size
  · -- grow branch
    have hltg : get_block_size s inodeno < ceilBlocks size := by
      rw [hgbs]
      omega
    have h0 : StepInv s { s.inodes inodeno with ctime := s.clock } n :=
      ⟨hA, StructOK_ctime _ hS, hcap, hdbo⟩
    rcases growLoopAux_spec (ceilBlocks size - n) s
        { s.inodes inodeno with ctime := s.clock } n h0 with
      ⟨s1, ino1, heqL, hinv1, hacc1, hsc1, hf1, ht1, ha1, hm1, hc1⟩ |
      ⟨s1, ino1, m, heqL, hm1', hm2', hinv1, hacc1, hsc1, hf1, ht1, ha1,
        hm1, hc1⟩
    · -- grow succeeded
      have hidx : n + (ceilBlocks size - n) = ceilBlocks size := by omega
      rw [hidx] at heqL hinv1 hacc1
      obtain ⟨hA1, hS1, hcap1, hdbo1⟩ := hinv1
      obtain ⟨c1, c2, c3, c4, c5, c6, c7, c8, c9, c10, c11, c12⟩ := hsc1
      have hg : resize s inodeno size =
          (commitInode s1 inodeno { ino1 with filesize := size % 2 ^ 32 },
           0) := by
        simp only [resize, resizeAux, growLoop]
        rw [if_pos hltg, hgbs, heqL]
      have hino : (commitInode s1 inodeno
          { ino1 with filesize := size % 2 ^ 32 }).inodes inodeno =
          { ino1 with filesize := size % 2 ^ 32 } := by
        show (if inodeno = inodeno then
          { ino1 with filesize := size % 2 ^ 32 }
          else s1.inodes inodeno) = { ino1 with filesize := size % 2 ^ 32 }
        rw [if_pos rfl]
      have hSF : StructOK (commitInode s1 inodeno
          { ino1 with filesize := size % 2 ^ 32 }) ((commitInode s1 inodeno
          { ino1 with filesize := size % 2 ^ 32 }).inodes inodeno)
          (ceilBlocks size) := by
        rw [hino]
        exact StructOK_commitInode (StructOK_filesize _ hS1)
      refine Or.inl ⟨_, hg, ⟨AllocInv_commitInode hA1, hSF, ?_, ?_, ?_, ?_⟩,
        ?_, get_block_size_eq hSF, hacc1, c2, ?_⟩
      · rw [hino]
        show ceilBlocks size = ceilBlocks (size % 2 ^ 32)
        rw [hmodsz]
      · rw [hino]
        show size % 2 ^ 32 < 2 ^ 32
        rw [hmodsz]
        exact hsz
      · show s1.header.data_block_num_tot ≤ _
        rw [c5]
        exact hcap
      · show 1 ≤ s1.header.data_block_offset
        rw [c4]
        exact hdbo
      · rw [hino]
        exact hmodsz
      · intro j hj
        show (if j = inodeno then { ino1 with filesize := size % 2 ^ 32 }
          else s1.inodes j) = s.inodes j
        rw [if_neg hj, c1]
    · -- grow failed: commit the partial inode, roll back by shrinking
      obtain ⟨hA1, hS1, hcap1, hdbo1⟩ := hinv1
      obtain ⟨c1, c2, c3, c4, c5, c6, c7, c8, c9, c10, c11, c12⟩ := hsc1
      have hino2 : (commitInode s1 inodeno ino1).inodes inodeno = ino1 := by
        show (if inodeno = inodeno then ino1 else s1.inodes inodeno) = ino1
        rw [if_pos rfl]
      have hS2 : StructOK (commitInode s1 inodeno ino1)
          ((commitInode s1 inodeno ino1).inodes inodeno) m := by
        rw [hino2]
        exact StructOK_commitInode hS1
      have hcn : ceilBlocks ((s.inodes inodeno).filesize) = n := hsize.symm
      obtain ⟨sF, heqR, hAF, hSF, hfsF, haccF, hoffF, htotF, hibmF, hckF,
        hothF⟩ :=
        resizeAux_shrink 0 (AllocInv_commitInode hA1) hS2
          (by show s1.header.data_block_num_tot ≤ _
              rw [c5]
              exact hcap)
          hdbo1 (by rw [hcn]; omega)
      have heqR' : resizeAux 1 (commitInode s1 inodeno ino1) inodeno
          ((s.inodes inodeno).filesize) = (sF, 0) := heqR
      have hg : resize s inodeno size = (sF, ENOSPC) := by
        simp only [resize, resizeAux, growLoop]
        rw [if_pos hltg, hgbs, heqL]
        show ((resizeAux 1 (commitInode s1 inodeno ino1) inodeno
          ((s.inodes inodeno).filesize)).1, ENOSPC) = (sF, ENOSPC)
        rw [heqR']
      rw [hcn] at hSF haccF
      have hfs' : (sF.inodes inodeno).filesize =
          (s.inodes inodeno).filesize := by
        rw [hfsF, Nat.mod_eq_of_lt hsize32]
      refine Or.inr ⟨sF, hg, ⟨hAF, hSF, ?_, ?_, ?_, ?_⟩, hfs',
        ?_, ?_, ?_, ?_⟩
      · rw [hfs', hsize]
      · rw [hfs']
        exact hsize32
      · rw [htotF]
        show s1.header.data_block_num_tot ≤ _
        rw [c5]
        exact hcap
      · rw [hoffF]
        exact hdbo1
      · rw [get_block_size_eq hSF, hgbs]
      · -- the free counter is restored
        have hfr2 : (commitInode s1 inodeno ino1).header.data_block_num_free
            = s1.header.data_block_num_free := rfl
        rw [hfr2] at haccF
        omega
      · rw [hibmF]
        exact c2
      · intro j hj
        rw [hothF j hj]
        show (if j = inodeno then ino1 else s1.inodes j) = s.inodes j
        rw [if_neg hj, c1]
  · -- shrink branch
    obtain ⟨sF, heqR, hAF, hSF, hfsF, haccF, hoffF, htotF, hibmF, hckF,
      hothF⟩ :=
      resizeAux_shrink 1 hA hS hcap hdbo (show ceilBlocks size ≤ n by omega)
    have hg : resize s inodeno size = (sF, 0) := heqR
    refine Or.inl ⟨sF, hg, ⟨hAF, hSF, ?_, ?_, ?_, ?_⟩, ?_,
      get_block_size_eq hSF, haccF, hibmF, hothF⟩
    · rw [hfsF, hmodsz]
    · rw [hfsF, hmodsz]
      exact hsz
    · rw [htotF]
      exact hcap
    · rw [hoffF]
      exact hdbo
    · rw [hfsF, hmodsz]

/-- A file holding no blocks with all pointer fields zero is canonical. -/
theorem StructOK_zero {s : FS} {ino : INode}
    (h1 : ino.direct_pointer = 0) (h2 : ino.indirect_pointer = 0)
    (h3 : ino.iindirect_pointer = 0) : StructOK s ino 0 := by
  refine ⟨Nat.zero_le _, fun _ => h1, fun h => absurd h (by omega),
    fun _ => h2, fun h => absurd h (by omega), fun h => absurd h (by omega),
    fun _ => h3, fun h => absurd h (by omega), fun h => absurd h (by omega),
    fun h => absurd h (by omega), ?_, fun k k' hk => absurd hk (by omega),
    fun k hk => absurd hk (by omega), fun h => absurd h (by omega),
    fun h => absurd h (by omega), fun h => absurd h (by omega)⟩
  rintro b (⟨k, hk, -⟩ | (⟨h4, -⟩ | ⟨h4, -⟩))
  · exact absurd hk (by omega)
  · exact absurd h4 (by omega)
  · exact absurd h4 (by omega)

/-- The roomy test device satisfies the resize invariant for its (empty)
inode 0. -/
theorem resizeInv_sW : ResizeInv sW 0 0 := by
  refine ⟨⟨?_, ?_, ?_, ?_, ?_, ?_, ?_, ?_⟩, StructOK_zero rfl rfl rfl,
    by decide, by decide, by decide, by decide⟩
  · decide
  · intro p hp
    have hp' : 1 ≤ p := hp
    show (if p = 0 then true else false) = false
    rw [if_neg (by omega)]
  · intro p hp
    exact absurd hp (Nat.not_lt_zero p)
  · decide
  · decide
  · intro p hp
    rfl
  · intro p hp
    exact absurd hp (Nat.not_lt_zero p)
  · decide

/-- The full test device satisfies the resize invariant for its (empty)
inode 0. -/
theorem resizeInv_sW0 : ResizeInv sW0 0 0 := by
  refine ⟨⟨?_, ?_, ?_, ?_, ?_, ?_, ?_, ?_⟩, StructOK_zero rfl rfl rfl,
    by decide, by decide, by decide, by decide⟩
  · decide
  · intro p hp
    have hp' : 1 ≤ p := hp
    show (if p = 0 then true else false) = false
    rw [if_neg (by omega)]
  · intro p hp
    exact absurd hp (Nat.not_lt_zero p)
  · decide
  · decide
  · intro p hp
    have hp' : 8 ≤ p := hp
    show (if p < 8 then true else false) = false
    rw [if_neg (by omega)]
  · intro p hp
    exact absurd hp (Nat.not_lt_zero p)
  · decide

/-! ## C3: ENOSPC rollback atomicity of resize -/

/-- C3: whenever `resize` on a consistent state (with a `uint32`-sized
request) does not return `0`, it returns `ENOSPC`, and at that moment
the inode's `filesize`, its block count (as computed by
`get_block_size`) and the superblock's `data_block_num_free` all equal
their pre-call values: the failed grow has been fully unwound. -/
theorem c3_enospc_rollback_atomic {s : FS} {inodeno size n : Nat}
    {s' : FS} {r : Nat}
    (hR : ResizeInv s inodeno n) (hsz : size < 2 ^ 32)
    (hres : resize s inodeno size = (s', r)) (hr : ¬ r = 0) :
    r = ENOSPC ∧
    (s'.inodes inodeno).filesize = (s.inodes inodeno).filesize ∧
    get_block_size s' inodeno = get_block_size s inodeno ∧
    s'.header.data_block_num_free = s.header.data_block_num_free := by
  rcases resize_spec hR hsz with ⟨sF, heq, -⟩ |
    ⟨sF, heq, -, hfs, hgbs2, hfree, -, -⟩
  · rw [hres] at heq
    injection heq with h1 h2
    exact absurd h2 hr
  · rw [hres] at heq
    injection heq with h1 h2
    subst h1
    exact ⟨h2, hfs, hgbs2, hfree⟩

/-- Witness: on the full device, `resize` of the empty inode 0 to one
block fails with `ENOSPC` and restores (keeps) file size, block count
and free counter. -/
theorem c3_enospc_rollback_atomic_witness :
    (4096 : Nat) < 2 ^ 32 ∧ ¬ (resize sW0 0 4096).2 = 0 ∧
    ((resize sW0 0 4096).2 = ENOSPC ∧
     (((resize sW0 0 4096).1).inodes 0).filesize =
       ((sW0.inodes 0)).filesize ∧
     get_block_size ((resize sW0 0 4096).1) 0 = get_block_size sW0 0 ∧
     ((resize sW0 0 4096).1).header.data_block_num_free =
       sW0.header.data_block_num_free) :=
  ⟨by decide, by decide,
   c3_enospc_rollback_atomic resizeInv_sW0 (show (4096 : Nat) < 2 ^ 32 by decide) rfl (by decide)⟩

/-! ## C4: the resize success postcondition, and the size-conversion wrap -/

/-- C4 counterexample: `resize` of the fresh root to `2 ^ 44` bytes
returns success, yet the file size afterwards is `0`, not `2 ^ 44`, and
the block count is `0`, not `⌈2 ^ 44 / 4096⌉`: `block_need` is computed
as `std::max<int>(0, (size + BLOCK_SIZE - 1) / BLOCK_SIZE)` and the
`size_t` quotient `2 ^ 32` wraps to `0` in the `int` conversion, while
the committed `uint32_t` file size `2 ^ 44 % 2 ^ 32 = 0`. -/
theorem c4_resize_large_size_counterexample :
    (resize (mkfs disk_init) 0 (2 ^ 44)).2 = 0 ∧
    (((resize (mkfs disk_init) 0 (2 ^ 44)).1).inodes 0).filesize = 0 ∧
    get_block_size ((resize (mkfs disk_init) 0 (2 ^ 44)).1) 0 = 0 ∧
    ¬ (2 ^ 44 : Nat) = 0 ∧
    ¬ ((2 ^ 44 + BLOCK_SIZE - 1) / BLOCK_SIZE : Nat) = 0 :=
  ⟨by rfl, by rfl, by rfl, by decide, by decide⟩

/-- C4 (amended to sizes below `2 ^ 32`, where the `int` conversion of
`block_need` and the `uint32_t` store of `filesize` cannot wrap): every
successful `resize(size)` from a consistent state leaves
`filesize = size` and a block count of exactly
`⌈size / BLOCK_SIZE⌉`, and re-establishes the invariant, so the
property holds along any sequence of successful calls. -/
theorem c4_resize_success_small_sizes {s : FS} {inodeno size n : Nat}
    {s' : FS}
    (hR : ResizeInv s inodeno n) (hsz : size < 2 ^ 32)
    (hres : resize s inodeno size = (s', 0)) :
    (s'.inodes inodeno).filesize = size ∧
    get_block_size s' inodeno = (size + BLOCK_SIZE - 1) / BLOCK_SIZE ∧
    ResizeInv s' inodeno ((size + BLOCK_SIZE - 1) / BLOCK_SIZE) := by
  rcases resize_spec hR hsz with ⟨sF, heq, hRI, hfs, hgbs2, -⟩ |
    ⟨sF, heq, -⟩
  · rw [hres] at heq
    injection heq with h1 hdrop
    subst h1
    rw [← ceilBlocks_small hsz]
    exact ⟨hfs, hgbs2, hRI⟩
  · rw [hres] at heq
    injection heq with hdrop h2
    exact absurd h2 (by decide)

/-- Witness: growing the empty inode 0 of the roomy device to one block
succeeds with `filesize = 4096` and block count `1`. -/
theorem c4_resize_success_small_sizes_witness :
    (4096 : Nat) < 2 ^ 32 ∧
    ((((resize sW 0 4096).1).inodes 0).filesize = 4096 ∧
     get_block_size ((resize sW 0 4096).1) 0 =
       (4096 + BLOCK_SIZE - 1) / BLOCK_SIZE ∧
     ResizeInv ((resize sW 0 4096).1) 0
       ((4096 + BLOCK_SIZE - 1) / BLOCK_SIZE)) :=
  ⟨by decide, c4_resize_success_small_sizes resizeInv_sW (show (4096 : Nat) < 2 ^ 32 by decide) rfl⟩

/-! ## C6: the order of issued writes in the shrink path -/

/-- C6 counterexample: grow the empty file of the roomy device to two
blocks (`direct = 4`, `indirect = 5`, `blocks 5 0 = 6`), then resize
back to one block.  The first write the shrinking resize issues is the
data-bitmap clear for block `6` (position `2`), and the pointer-block
write to block `5` — the commit that removes the on-disk reference to
block `6` — is only issued two writes later: the code clears the bitmap
bit *before* committing the pointer clear, the opposite of the order the
claim states, so after the bitmap write alone block `6` is marked free
while block `5` still references it on disk. -/
theorem c6_shrink_order_counterexample :
    ((resize sW 0 8192).1.inodes 0).indirect_pointer = 5 ∧
    (resize sW 0 8192).1.blocks 5 0 = 6 ∧
    (resize sW 0 8192).1.dataBm
      (6 - (resize sW 0 8192).1.header.data_block_offset) = true ∧
    (2 : Nat) = 6 - (resize sW 0 8192).1.header.data_block_offset ∧
    (∃ h f h2 v,
      (resize ((resize sW 0 8192).1) 0 4096).1.trace =
        (resize sW 0 8192).1.trace ++
        [Ev.wDataBmClear 2, Ev.wHeader h, Ev.wBlock 5 f,
         Ev.wDataBmClear 1, Ev.wHeader h2, Ev.wInode 0 v]) :=
  ⟨rfl, rfl, rfl, rfl, ⟨_, _, _, _, rfl⟩⟩

/-- A successful `Disk::alloc_data` issues exactly a data-bitmap set
followed by the superblock write. -/
theorem alloc_data_some_trace {s s1 : FS} {d : Nat}
    (ha : alloc_data s = (s1, some d)) :
    ∃ p h, s1.trace = s.trace ++ [Ev.wDataBmSet p, Ev.wHeader h] := by
  by_cases hf : s.header.data_block_num_free = 0
  · rw [alloc_data_eq_zero s hf] at ha
    injection ha with h1 h2
    exact Option.noConfusion h2
  · rcases hscan : bitmapFirstZero s.dataBm
        (s.header.inode_block_offset - s.header.data_block_bitmap_offset)
        s.data_bitmap_min_pos with - | ret
    · rw [alloc_data, if_neg hf, hscan] at ha
      injection ha with h1 h2
      exact Option.noConfusion h2
    · rw [alloc_data_eq s ret hf hscan] at ha
      injection ha with h1 h2
      refine ⟨ret, { s.header with
        data_block_num_free := s.header.data_block_num_free - 1 }, ?_⟩
      rw [← h1]
      show (s.trace ++ [Ev.wDataBmSet ret]) ++
        [Ev.wHeader { s.header with
          data_block_num_free := s.header.data_block_num_free - 1 }] = _
      simp only [List.append_assoc, List.singleton_append]

/-- Prepending an established two-event prefix to a longer trace. -/
theorem trace_extend {t1 t2 : List Ev} {e1 e2 : Ev} (l : List Ev)
    (h : t1 = t2 ++ [e1, e2]) : t1 ++ l = t2 ++ e1 :: e2 :: l := by
  rw [h]
  simp only [List.append_assoc, List.singleton_append, List.cons_append,
    List.nil_append]

/-- The tail of the double-indirect grow step, when it succeeds, issues
the allocation's bitmap set as its first write. -/
theorem growStepTier2Tail_trace {s : FS} {ino : INode} {i o : Nat}
    {e1 e2 : Bool} {s' : FS} {ino' : INode}
    (hp : growStepTier2Tail s ino i o e1 e2 = (s', ino', true)) :
    ∃ p h tl, s'.trace = s.trace ++ Ev.wDataBmSet p ::
      Ev.wHeader h :: tl := by
  rcases ha : alloc_data s with ⟨s1, r⟩
  rcases r with - | d
  · cases e1 <;> cases e2 <;>
      (simp only [growStepTier2Tail, ha] at hp;
       injection hp with hA hB;
       injection hB with hC hD;
       exact absurd hD (by decide))
  · simp only [growStepTier2Tail, ha] at hp
    injection hp with hA hB
    obtain ⟨p, h, htr⟩ := alloc_data_some_trace ha
    refine ⟨p, h, [Ev.wBlock (s.blocks ino.iindirect_pointer i)
      (updSlot (s.blocks (s.blocks ino.iindirect_pointer i)) o d)], ?_⟩
    rw [← hA]
    show s1.trace ++ [Ev.wBlock (s.blocks ino.iindirect_pointer i)
      (updSlot (s.blocks (s.blocks ino.iindirect_pointer i)) o d)] = _
    exact trace_extend _ htr

/-- The middle of the double-indirect grow step, when it succeeds,
issues the first allocation's bitmap set as its first write. -/
theorem growStepTier2Mid_trace {s : FS} {ino : INode} {i o : Nat}
    {e : Bool} {s' : FS} {ino' : INode}
    (hp : growStepTier2Mid s ino i o e = (s', ino', true)) :
    ∃ p h tl, s'.trace = s.trace ++ Ev.wDataBmSet p ::
      Ev.wHeader h :: tl := by
  rcases ha : alloc_data s with ⟨s1, r⟩
  rcases r with - | d
  · cases e <;>
      (simp only [growStepTier2Mid, ha] at hp;
       injection hp with hA hB;
       injection hB with hC hD;
       exact absurd hD (by decide))
  · simp only [growStepTier2Mid, ha] at hp
    obtain ⟨p2, h2, tl2, htr2⟩ := growStepTier2Tail_trace hp
    obtain ⟨p, h, htr⟩ := alloc_data_some_trace ha
    refine ⟨p, h, Ev.wBlock d zeroBlock ::
      Ev.wBlock ino.iindirect_pointer
        (updSlot (s.blocks ino.iindirect_pointer) i d) ::
      Ev.wDataBmSet p2 :: Ev.wHeader h2 :: tl2, ?_⟩
    rw [htr2]
    show ((s1.trace ++ [Ev.wBlock d zeroBlock]) ++
      [Ev.wBlock ino.iindirect_pointer
        (updSlot (s.blocks ino.iindirect_pointer) i d)]) ++
      (Ev.wDataBmSet p2 :: Ev.wHeader h2 :: tl2) = _
    rw [htr]
    simp only [List.append_assoc, List.singleton_append, List.cons_append,
      List.nil_append]

/-- Every successful grow step of `DataProxy::resize` issues a
data-bitmap set (its first allocation) as its very first write; in
particular no pointer-block commit of the step precedes it. -/
theorem growStep_trace (s : FS) (ino : INode) (n : Nat) (s' : FS)
    (ino' : INode) (hp : growStep s ino n = (s', ino', true)) :
    ∃ p h tl, s'.trace = s.trace ++ Ev.wDataBmSet p ::
      Ev.wHeader h :: tl := by
  rcases ha : alloc_data s with ⟨s1, r⟩
  by_cases h0 : n < 1
  · rcases r with - | d
    · simp only [growStep, ha] at hp
      rw [if_pos h0] at hp
      injection hp with hA hB
      injection hB with hC hD
      exact absurd hD (by decide)
    · simp only [growStep, ha] at hp
      rw [if_pos h0] at hp
      injection hp with hA hB
      obtain ⟨p, h, htr⟩ := alloc_data_some_trace ha
      refine ⟨p, h, [], ?_⟩
      rw [← hA, htr]
  · by_cases hT1 : n < 1 + POINTER_PER_BLOCK
    · by_cases hoff : n - 1 = 0
      · rcases r with - | d
        · simp only [growStep, ha] at hp
          rw [if_neg h0, if_pos hT1, if_pos hoff] at hp
          injection hp with hA hB
          injection hB with hC hD
          exact absurd hD (by decide)
        · rcases ha2 : alloc_data (commitBlock s1 d zeroBlock) with ⟨s3, r2⟩
          rcases r2 with - | d2
          · simp only [growStep, ha, ha2] at hp
            rw [if_neg h0, if_pos hT1, if_pos hoff] at hp
            injection hp with hA hB
            injection hB with hC hD
            exact absurd hD (by decide)
          · simp only [growStep, ha, ha2] at hp
            rw [if_neg h0, if_pos hT1, if_pos hoff] at hp
            injection hp with hA hB
            obtain ⟨p, h, htr⟩ := alloc_data_some_trace ha
            obtain ⟨p2, h2, htr2⟩ := alloc_data_some_trace ha2
            refine ⟨p, h, Ev.wBlock d zeroBlock :: Ev.wDataBmSet p2 ::
              Ev.wHeader h2 ::
              [Ev.wBlock d (updSlot (s3.blocks d) (n - 1) d2)], ?_⟩
            rw [← hA]
            show s3.trace ++
              [Ev.wBlock d (updSlot (s3.blocks d) (n - 1) d2)] = _
            rw [htr2]
            show ((s1.trace ++ [Ev.wBlock d zeroBlock]) ++
              [Ev.wDataBmSet p2, Ev.wHeader h2]) ++
              [Ev.wBlock d (updSlot (s3.blocks d) (n - 1) d2)] = _
            rw [htr]
            simp only [List.append_assoc, List.singleton_append,
              List.cons_append, List.nil_append]
      · rcases r with - | d
        · simp only [growStep, ha] at hp
          rw [if_neg h0, if_pos hT1, if_neg hoff] at hp
          injection hp with hA hB
          injection hB with hC hD
          exact absurd hD (by decide)
        · simp only [growStep, ha] at hp
          rw [if_neg h0, if_pos hT1, if_neg hoff] at hp
          injection hp with hA hB
          obtain ⟨p, h, htr⟩ := alloc_data_some_trace ha
          refine ⟨p, h, [Ev.wBlock ino.indirect_pointer
            (updSlot (s1.blocks ino.indirect_pointer) (n - 1) d)], ?_⟩
          rw [← hA]
          show s1.trace ++ [Ev.wBlock ino.indirect_pointer
            (updSlot (s1.blocks ino.indirect_pointer) (n - 1) d)] = _
          exact trace_extend _ htr
    · by_cases hio : (n - (1 + POINTER_PER_BLOCK)) % POINTER_PER_BLOCK = 0
      · by_cases hii : (n - (1 + POINTER_PER_BLOCK)) / POINTER_PER_BLOCK = 0
        · rcases r with - | d
          · simp only [growStep, ha] at hp
            rw [if_neg h0, if_neg hT1, if_pos hio, if_pos hii] at hp
            injection hp with hA hB
            injection hB with hC hD
            exact absurd hD (by decide)
          · simp only [growStep, ha] at hp
            rw [if_neg h0, if_neg hT1, if_pos hio, if_pos hii] at hp
            obtain ⟨p2, h2, tl2, htr2⟩ := growStepTier2Mid_trace hp
            obtain ⟨p, h, htr⟩ := alloc_data_some_trace ha
            refine ⟨p, h, Ev.wBlock d zeroBlock :: Ev.wDataBmSet p2 ::
              Ev.wHeader h2 :: tl2, ?_⟩
            rw [htr2]
            show (s1.trace ++ [Ev.wBlock d zeroBlock]) ++
              (Ev.wDataBmSet p2 :: Ev.wHeader h2 :: tl2) = _
            rw [htr]
            simp only [List.append_assoc, List.singleton_append,
              List.cons_append, List.nil_append]
        · simp only [growStep] at hp
          rw [if_neg h0, if_neg hT1, if_pos hio, if_neg hii] at hp
          exact growStepTier2Mid_trace hp
      · simp only [growStep] at hp
        rw [if_neg h0, if_neg hT1, if_neg hio] at hp
        exact growStepTier2Tail_trace hp

/-- Every direct-tier shrink step issues exactly the data-bitmap clear
of the freed data block followed by the superblock write. -/
theorem shrinkStep_trace_one (s : FS) (ino : INode) :
    ((shrinkStep s ino 1).1).trace =
      s.trace ++ [Ev.wDataBmClear (l2p s ino 0 -
          s.header.data_block_offset),
        Ev.wHeader { s.header with
          data_block_num_free := s.header.data_block_num_free + 1 }] := by
  have hd : l2p s ino 0 = ino.direct_pointer := rfl
  rw [hd]
  show (s.trace ++ [Ev.wDataBmClear (ino.direct_pointer -
      s.header.data_block_offset)]) ++
    [Ev.wHeader { s.header with
      data_block_num_free := s.header.data_block_num_free + 1 }] = _
  simp only [List.append_assoc, List.singleton_append]

/-- Every shrink step that empties a pointer slot (`2 ≤ block_now`, all
tiers) issues, in order: the data-bitmap clear of the freed block, the
superblock, and only then the commit of the pointer block that held the
reference. -/
theorem shrinkStep_trace_shape (s : FS) (ino : INode) (n : Nat)
    (h2 : 2 ≤ n) :
    ∃ f tl, ((shrinkStep s ino n).1).trace =
      s.trace ++ Ev.wDataBmClear (l2p s ino (n - 1) -
          s.header.data_block_offset) ::
        Ev.wHeader { s.header with
          data_block_num_free := s.header.data_block_num_free + 1 } ::
        Ev.wBlock (if n ≤ 1 + POINTER_PER_BLOCK then ino.indirect_pointer
          else s.blocks ino.iindirect_pointer
            ((n - 1 - (1 + POINTER_PER_BLOCK)) / POINTER_PER_BLOCK)) f ::
        tl := by
  have hb1 : ¬ (n - 1 < 1) := by omega
  by_cases hT2 : n ≤ 1 + POINTER_PER_BLOCK
  · have hb2 : n - 1 < 1 + POINTER_PER_BLOCK := by omega
    have hd : l2p s ino (n - 1) =
        s.blocks ino.indirect_pointer (n - 1 - 1) :=
      l2p_tier1 s ino (show 1 ≤ n - 1 by omega) hb2
    rw [hd, if_pos hT2]
    by_cases hoff : n - 1 - 1 = 0
    · have hg : shrinkStep s ino n =
          (free_data (commitBlock
              (free_data s (s.blocks ino.indirect_pointer (n - 1 - 1)))
              ino.indirect_pointer
              (updSlot (s.blocks ino.indirect_pointer) (n - 1 - 1) 0))
            ino.indirect_pointer,
           { ino with indirect_pointer := 0 }) := by
        simp only [shrinkStep]
        rw [if_neg hb1, if_pos hb2, if_pos hoff]
      rw [hg]
      refine ⟨updSlot (s.blocks ino.indirect_pointer) (n - 1 - 1) 0,
        [Ev.wDataBmClear (ino.indirect_pointer -
          s.header.data_block_offset),
         Ev.wHeader { s.header with
          data_block_num_free := s.header.data_block_num_free + 1 + 1 }], ?_⟩
      show ((((s.trace ++ [Ev.wDataBmClear
          (s.blocks ino.indirect_pointer (n - 1 - 1) -
            s.header.data_block_offset)]) ++
        [Ev.wHeader { s.header with
          data_block_num_free := s.header.data_block_num_free + 1 }]) ++
        [Ev.wBlock ino.indirect_pointer
          (updSlot (s.blocks ino.indirect_pointer) (n - 1 - 1) 0)]) ++
        [Ev.wDataBmClear (ino.indirect_pointer -
          s.header.data_block_offset)]) ++
        [Ev.wHeader { s.header with
          data_block_num_free := s.header.data_block_num_free + 1 + 1 }] = _
      simp only [List.append_assoc, List.singleton_append, List.cons_append,
        List.nil_append]
    · have hg : shrinkStep s ino n =
          (commitBlock
            (free_data s (s.blocks ino.indirect_pointer (n - 1 - 1)))
            ino.indirect_pointer
            (updSlot (s.blocks ino.indirect_pointer) (n - 1 - 1) 0),
           ino) := by
        simp only [shrinkStep]
        rw [if_neg hb1, if_pos hb2, if_neg hoff]
      rw [hg]
      refine ⟨updSlot (s.blocks ino.indirect_pointer) (n - 1 - 1) 0,
        [], ?_⟩
      show (((s.trace ++ [Ev.wDataBmClear
          (s.blocks ino.indirect_pointer (n - 1 - 1) -
            s.header.data_block_offset)]) ++
        [Ev.wHeader { s.header with
          data_block_num_free := s.header.data_block_num_free + 1 }]) ++
        [Ev.wBlock ino.indirect_pointer
          (updSlot (s.blocks ino.indirect_pointer) (n - 1 - 1) 0)]) = _
      simp only [List.append_assoc, List.singleton_append, List.cons_append,
        List.nil_append]
  · have hb2 : ¬ (n - 1 < 1 + POINTER_PER_BLOCK) := by omega
    have hd : l2p s ino (n - 1) =
        s.blocks (s.blocks ino.iindirect_pointer
          ((n - 1 - (1 + POINTER_PER_BLOCK)) / POINTER_PER_BLOCK))
          ((n - 1 - (1 + POINTER_PER_BLOCK)) % POINTER_PER_BLOCK) :=
      l2p_tier2 s ino (show 1 + POINTER_PER_BLOCK ≤ n - 1 by omega)
    rw [hd, if_neg hT2]
    by_cases hio : (n - 1 - (1 + POINTER_PER_BLOCK)) % POINTER_PER_BLOCK = 0
    · by_cases hii :
          (n - 1 - (1 + POINTER_PER_BLOCK)) / POINTER_PER_BLOCK = 0
      · have hg : shrinkStep s ino n =
            (free_data (commitBlock
                (free_data (commitBlock
                    (free_data s (s.blocks (s.blocks ino.iindirect_pointer
                        ((n - 1 - (1 + POINTER_PER_BLOCK)) /
                          POINTER_PER_BLOCK))
                      ((n - 1 - (1 + POINTER_PER_BLOCK)) %
                        POINTER_PER_BLOCK)))
                    (s.blocks ino.iindirect_pointer
                      ((n - 1 - (1 + POINTER_PER_BLOCK)) /
                        POINTER_PER_BLOCK))
                    (updSlot (s.blocks (s.blocks ino.iindirect_pointer
                        ((n - 1 - (1 + POINTER_PER_BLOCK)) /
                          POINTER_PER_BLOCK)))
                      ((n - 1 - (1 + POINTER_PER_BLOCK)) %
                        POINTER_PER_BLOCK) 0))
                  (s.blocks ino.iindirect_pointer
                    ((n - 1 - (1 + POINTER_PER_BLOCK)) /
                      POINTER_PER_BLOCK)))
                ino.iindirect_pointer
                (updSlot (s.blocks ino.iindirect_pointer)
                  ((n - 1 - (1 + POINTER_PER_BLOCK)) /
                    POINTER_PER_BLOCK) 0))
              ino.iindirect_pointer,
             { ino with iindirect_pointer := 0 }) := by
          simp only [shrinkStep]
          rw [if_neg hb1, if_neg hb2, if_pos hio, if_pos hii]
        rw [hg]
        refine ⟨updSlot (s.blocks (s.blocks ino.iindirect_pointer
            ((n - 1 - (1 + POINTER_PER_BLOCK)) / POINTER_PER_BLOCK)))
            ((n - 1 - (1 + POINTER_PER_BLOCK)) % POINTER_PER_BLOCK) 0,
          [Ev.wDataBmClear (s.blocks ino.iindirect_pointer
              ((n - 1 - (1 + POINTER_PER_BLOCK)) / POINTER_PER_BLOCK) -
            s.header.data_block_offset),
           Ev.wHeader { s.header with
            data_block_num_free := s.header.data_block_num_free + 1 + 1 },
           Ev.wBlock ino.iindirect_pointer
            (updSlot (s.blocks ino.iindirect_pointer)
              ((n - 1 - (1 + POINTER_PER_BLOCK)) / POINTER_PER_BLOCK) 0),
           Ev.wDataBmClear (ino.iindirect_pointer -
            s.header.data_block_offset),
           Ev.wHeader { s.header with
            data_block_num_free :=
              s.header.data_block_num_free + 1 + 1 + 1 }], ?_⟩
        show (((((((s.trace ++ [Ev.wDataBmClear
            (s.blocks (s.blocks ino.iindirect_pointer
                ((n - 1 - (1 + POINTER_PER_BLOCK)) / POINTER_PER_BLOCK))
              ((n - 1 - (1 + POINTER_PER_BLOCK)) % POINTER_PER_BLOCK) -
            s.header.data_block_offset)]) ++
          [Ev.wHeader { s.header with
            data_block_num_free := s.header.data_block_num_free + 1 }]) ++
          [Ev.wBlock (s.blocks ino.iindirect_pointer
              ((n - 1 - (1 + POINTER_PER_BLOCK)) / POINTER_PER_BLOCK))
            (updSlot (s.blocks (s.blocks ino.iindirect_pointer
                ((n - 1 - (1 + POINTER_PER_BLOCK)) / POINTER_PER_BLOCK)))
              ((n - 1 - (1 + POINTER_PER_BLOCK)) % POINTER_PER_BLOCK)
              0)]) ++
          [Ev.wDataBmClear (s.blocks ino.iindirect_pointer
              ((n - 1 - (1 + POINTER_PER_BLOCK)) / POINTER_PER_BLOCK) -
            s.header.data_block_offset)]) ++
          [Ev.wHeader { s.header with
            data_block_num_free :=
              s.header.data_block_num_free + 1 + 1 }]) ++
          [Ev.wBlock ino.iindirect_pointer
            (updSlot (s.blocks ino.iindirect_pointer)
              ((n - 1 - (1 + POINTER_PER_BLOCK)) / POINTER_PER_BLOCK)
              0)]) ++
          [Ev.wDataBmClear (ino.iindirect_pointer -
            s.header.data_block_offset)]) ++
          [Ev.wHeader { s.header with
            data_block_num_free :=
              s.header.data_block_num_free + 1 + 1 + 1 }] = _
        simp only [List.append_assoc, List.singleton_append,
          List.cons_append, List.nil_append]
      · have hg : shrinkStep s ino n =
            (commitBlock
              (free_data (commitBlock
                  (free_data s (s.blocks (s.blocks ino.iindirect_pointer
                      ((n - 1 - (1 + POINTER_PER_BLOCK)) /
                        POINTER_PER_BLOCK))
                    ((n - 1 - (1 + POINTER_PER_BLOCK)) %
                      POINTER_PER_BLOCK)))
                  (s.blocks ino.iindirect_pointer
                    ((n - 1 - (1 + POINTER_PER_BLOCK)) /
                      POINTER_PER_BLOCK))
                  (updSlot (s.blocks (s.blocks ino.iindirect_pointer
                      ((n - 1 - (1 + POINTER_PER_BLOCK)) /
                        POINTER_PER_BLOCK)))
                    ((n - 1 - (1 + POINTER_PER_BLOCK)) %
                      POINTER_PER_BLOCK) 0))
                (s.blocks ino.iindirect_pointer
                  ((n - 1 - (1 + POINTER_PER_BLOCK)) /
                    POINTER_PER_BLOCK)))
              ino.iindirect_pointer
              (updSlot (s.blocks ino.iindirect_pointer)
                ((n - 1 - (1 + POINTER_PER_BLOCK)) /
                  POINTER_PER_BLOCK) 0),
             ino) := by
          simp only [shrinkStep]
          rw [if_neg hb1, if_neg hb2, if_pos hio, if_neg hii]
        rw [hg]
        refine ⟨updSlot (s.blocks (s.blocks ino.iindirect_pointer
            ((n - 1 - (1 + POINTER_PER_BLOCK)) / POINTER_PER_BLOCK)))
            ((n - 1 - (1 + POINTER_PER_BLOCK)) % POINTER_PER_BLOCK) 0,
          [Ev.wDataBmClear (s.blocks ino.iindirect_pointer
              ((n - 1 - (1 + POINTER_PER_BLOCK)) / POINTER_PER_BLOCK) -
            s.header.data_block_offset),
           Ev.wHeader { s.header with
            data_block_num_free := s.header.data_block_num_free + 1 + 1 },
           Ev.wBlock ino.iindirect_pointer
            (updSlot (s.blocks ino.iindirect_pointer)
              ((n - 1 - (1 + POINTER_PER_BLOCK)) /
                POINTER_PER_BLOCK) 0)], ?_⟩
        show (((((s.trace ++ [Ev.wDataBmClear
            (s.blocks (s.blocks ino.iindirect_pointer
                ((n - 1 - (1 + POINTER_PER_BLOCK)) / POINTER_PER_BLOCK))
              ((n - 1 - (1 + POINTER_PER_BLOCK)) % POINTER_PER_BLOCK) -
            s.header.data_block_offset)]) ++
          [Ev.wHeader { s.header with
            data_block_num_free := s.header.data_block_num_free + 1 }]) ++
          [Ev.wBlock (s.blocks ino.iindirect_pointer
              ((n - 1 - (1 + POINTER_PER_BLOCK)) / POINTER_PER_BLOCK))
            (updSlot (s.blocks (s.blocks ino.iindirect_pointer
                ((n - 1 - (1 + POINTER_PER_BLOCK)) / POINTER_PER_BLOCK)))
              ((n - 1 - (1 + POINTER_PER_BLOCK)) % POINTER_PER_BLOCK)
              0)]) ++
          [Ev.wDataBmClear (s.blocks ino.iindirect_pointer
              ((n - 1 - (1 + POINTER_PER_BLOCK)) / POINTER_PER_BLOCK) -
            s.header.data_block_offset)]) ++
          [Ev.wHeader { s.header with
            data_block_num_free :=
              s.header.data_block_num_free + 1 + 1 }]) ++
          [Ev.wBlock ino.iindirect_pointer
            (updSlot (s.blocks ino.iindirect_pointer)
              ((n - 1 - (1 + POINTER_PER_BLOCK)) / POINTER_PER_BLOCK)
              0)] = _
        simp only [List.append_assoc, List.singleton_append,
          List.cons_append, List.nil_append]
    · have hg : shrinkStep s ino n =
          (commitBlock
            (free_data s (s.blocks (s.blocks ino.iindirect_pointer
                ((n - 1 - (1 + POINTER_PER_BLOCK)) / POINTER_PER_BLOCK))
              ((n - 1 - (1 + POINTER_PER_BLOCK)) % POINTER_PER_BLOCK)))
            (s.blocks ino.iindirect_pointer
              ((n - 1 - (1 + POINTER_PER_BLOCK)) / POINTER_PER_BLOCK))
            (updSlot (s.blocks (s.blocks ino.iindirect_pointer
                ((n - 1 - (1 + POINTER_PER_BLOCK)) / POINTER_PER_BLOCK)))
              ((n - 1 - (1 + POINTER_PER_BLOCK)) % POINTER_PER_BLOCK) 0),
           ino) := by
        simp only [shrinkStep]
        rw [if_neg hb1, if_neg hb2, if_neg hio]
      rw [hg]
      refine ⟨updSlot (s.blocks (s.blocks ino.iindirect_pointer
          ((n - 1 - (1 + POINTER_PER_BLOCK)) / POINTER_PER_BLOCK)))
          ((n - 1 - (1 + POINTER_PER_BLOCK)) % POINTER_PER_BLOCK) 0,
        [], ?_⟩
      show (((s.trace ++ [Ev.wDataBmClear
          (s.blocks (s.blocks ino.iindirect_pointer
              ((n - 1 - (1 + POINTER_PER_BLOCK)) / POINTER_PER_BLOCK))
            ((n - 1 - (1 + POINTER_PER_BLOCK)) % POINTER_PER_BLOCK) -
          s.header.data_block_offset)]) ++
        [Ev.wHeader { s.header with
          data_block_num_free := s.header.data_block_num_free + 1 }]) ++
        [Ev.wBlock (s.blocks ino.iindirect_pointer
            ((n - 1 - (1 + POINTER_PER_BLOCK)) / POINTER_PER_BLOCK))
          (updSlot (s.blocks (s.blocks ino.iindirect_pointer
              ((n - 1 - (1 + POINTER_PER_BLOCK)) / POINTER_PER_BLOCK)))
            ((n - 1 - (1 + POINTER_PER_BLOCK)) % POINTER_PER_BLOCK)
            0)]) = _
      simp only [List.append_assoc, List.singleton_append, List.cons_append,
        List.nil_append]

/-- C6 (amended): within `resize`, every *successful grow step* issues
the data-bitmap set of its allocation as its very first write — no
pointer-block commit of the step precedes it — while every *shrink
step* issues its writes in the reverse of the claimed order: the step's
first write is the data-bitmap clear of the freed data block, its
second the superblock, and the commit of the pointer block that held
the reference (present whenever `2 ≤ block_now`, in every tier) comes
only third. -/
theorem c6_resize_write_order :
    (∀ (s : FS) (ino : INode) (n : Nat) (s' : FS) (ino' : INode),
      growStep s ino n = (s', ino', true) →
      ∃ p h tl, s'.trace = s.trace ++ Ev.wDataBmSet p ::
        Ev.wHeader h :: tl) ∧
    (∀ (s : FS) (ino : INode) (n : Nat), 1 ≤ n →
      ∃ tl, ((shrinkStep s ino n).1).trace =
        s.trace ++ Ev.wDataBmClear (l2p s ino (n - 1) -
            s.header.data_block_offset) ::
          Ev.wHeader { s.header with
            data_block_num_free := s.header.data_block_num_free + 1 } ::
          tl) ∧
    (∀ (s : FS) (ino : INode) (n : Nat), 2 ≤ n →
      ∃ f tl, ((shrinkStep s ino n).1).trace =
        s.trace ++ Ev.wDataBmClear (l2p s ino (n - 1) -
            s.header.data_block_offset) ::
          Ev.wHeader { s.header with
            data_block_num_free := s.header.data_block_num_free + 1 } ::
          Ev.wBlock (if n ≤ 1 + POINTER_PER_BLOCK then
              ino.indirect_pointer
            else s.blocks ino.iindirect_pointer
              ((n - 1 - (1 + POINTER_PER_BLOCK)) / POINTER_PER_BLOCK)) f ::
          tl) := by
  refine ⟨growStep_trace, ?_, shrinkStep_trace_shape⟩
  intro s ino n h1
  by_cases hn2 : 2 ≤ n
  · obtain ⟨f, tl, htr⟩ := shrinkStep_trace_shape s ino n hn2
    exact ⟨_, htr⟩
  · have hn : n = 1 := by omega
    subst hn
    exact ⟨[], shrinkStep_trace_one s ino⟩

/-- Witness: on the roomy device the first grow step's first write is a
data-bitmap set, and the shrink step at `block_now = 2` issues the
freed block's bitmap clear, the superblock, and only then the pointer
commit. -/
theorem c6_resize_write_order_witness :
    (∃ p h tl, ((growStep sW (sW.inodes 0) 0).1).trace =
      sW.trace ++ Ev.wDataBmSet p :: Ev.wHeader h :: tl) ∧
    ((1 : Nat) ≤ 2 ∧
     (∃ tl, ((shrinkStep sW (sW.inodes 0) 2).1).trace =
      sW.trace ++ Ev.wDataBmClear (l2p sW (sW.inodes 0) (2 - 1) -
          sW.header.data_block_offset) ::
        Ev.wHeader { sW.header with
          data_block_num_free := sW.header.data_block_num_free + 1 } ::
        tl)) ∧
    ((2 : Nat) ≤ 2 ∧
     (∃ f tl, ((shrinkStep sW (sW.inodes 0) 2).1).trace =
      sW.trace ++ Ev.wDataBmClear (l2p sW (sW.inodes 0) (2 - 1) -
          sW.header.data_block_offset) ::
        Ev.wHeader { sW.header with
          data_block_num_free := sW.header.data_block_num_free + 1 } ::
        Ev.wBlock (if 2 ≤ 1 + POINTER_PER_BLOCK then
            (sW.inodes 0).indirect_pointer
          else sW.blocks (sW.inodes 0).iindirect_pointer
            ((2 - 1 - (1 + POINTER_PER_BLOCK)) / POINTER_PER_BLOCK)) f ::
        tl)) :=
  ⟨c6_resize_write_order.1 sW (sW.inodes 0) 0
      ((growStep sW (sW.inodes 0) 0).1)
      ((growStep sW (sW.inodes 0) 0).2.1) rfl,
   ⟨by decide, c6_resize_write_order.2.1 sW (sW.inodes 0) 2 (by decide)⟩,
   ⟨by decide, c6_resize_write_order.2.2 sW (sW.inodes 0) 2 (by decide)⟩⟩

/-! ## C9: a zero-length write beyond end of file grows the file -/

/-- C9: `fs_write` with length `0` at an offset strictly beyond the end
of the file does not leave the file unchanged: it resizes the file to
`offset` (here under the assumption that the resize finds space), so
`filesize` becomes `offset` with `⌈offset / BLOCK_SIZE⌉` blocks
allocated, and the write returns `0` bytes written. -/
theorem c9_zero_length_write_grows {s : FS} {fh offset n : Nat}
    {buf : Nat → Nat} {s1 : FS}
    (hR : ResizeInv s fh n) (hoff : (s.inodes fh).filesize < offset)
    (hsz : offset < 2 ^ 32)
    (hres : resize s fh offset = (s1, 0)) :
    ∃ s2, fs_write s fh offset 0 buf = (s2, 0) ∧
      (s2.inodes fh).filesize = offset ∧
      get_block_size s2 fh = (offset + BLOCK_SIZE - 1) / BLOCK_SIZE := by
  have hres' : resize s fh (0 + offset) = (s1, 0) := by
    rw [Nat.zero_add]
    exact hres
  rcases resize_spec hR (show 0 + offset < 2 ^ 32 by omega) with
    ⟨sF, heq, hRI, hfs, hgbs2, -⟩ | ⟨sF, heq, -⟩
  · rw [hres'] at heq
    injection heq with h1 hdrop
    subst h1
    rw [Nat.zero_add] at hfs hgbs2
    have hfsz : ((commitInode s1 fh
        { s1.inodes fh with mtime := s1.clock }).inodes fh).filesize
        = offset := by
      show ((if fh = fh then { s1.inodes fh with mtime := s1.clock }
        else s1.inodes fh)).filesize = offset
      rw [if_pos rfl]
      show (s1.inodes fh).filesize = offset
      rw [hfs]
    have hw : DataProxy.write s1 fh offset 0 buf =
        (commitInode s1 fh { s1.inodes fh with mtime := s1.clock }, 0) := by
      simp only [DataProxy.write]
      rw [if_neg (show ¬ ((commitInode s1 fh
        { s1.inodes fh with mtime := s1.clock }).inodes fh).filesize
        < offset + 0 by rw [hfsz]; omega)]
      rfl
    have hg1 : fs_write s fh offset 0 buf =
        ((DataProxy.write s1 fh offset 0 buf).1,
         (((DataProxy.write s1 fh offset 0 buf).2 : Nat) : Int)) := by
      simp only [fs_write]
      rw [if_pos (show (s.inodes fh).filesize < 0 + offset by
        rw [Nat.zero_add]; exact hoff), hres']
    have hg : fs_write s fh offset 0 buf =
        (commitInode s1 fh { s1.inodes fh with mtime := s1.clock },
         (0 : Int)) := by
      rw [hg1, hw]
      rfl
    have hino3 : (commitInode s1 fh
        { s1.inodes fh with mtime := s1.clock }).inodes fh =
        { s1.inodes fh with mtime := s1.clock } := by
      show (if fh = fh then { s1.inodes fh with mtime := s1.clock }
        else s1.inodes fh) = { s1.inodes fh with mtime := s1.clock }
      rw [if_pos rfl]
    have hS2 : StructOK (commitInode s1 fh
        { s1.inodes fh with mtime := s1.clock }) ((commitInode s1 fh
        { s1.inodes fh with mtime := s1.clock }).inodes fh)
        (ceilBlocks offset) := by
      rw [hino3]
      have hS1 := hRI.hS
      rw [Nat.zero_add] at hS1
      exact StructOK_commitInode (StructOK_mtime _ hS1)
    refine ⟨_, hg, hfsz, ?_⟩
    rw [get_block_size_eq hS2, ceilBlocks_small hsz]
  · rw [hres'] at heq
    injection heq with hdrop h2
    exact absurd h2 (by decide)

/-- Witness: on the roomy device, a zero-length write at offset `4096`
of the empty file grows it to one block and returns `0`. -/
theorem c9_zero_length_write_grows_witness :
    ((sW.inodes 0).filesize < 4096 ∧ (4096 : Nat) < 2 ^ 32) ∧
    (∃ s2, fs_write sW 0 4096 0 (fun _ => 0) = (s2, 0) ∧
      (s2.inodes 0).filesize = 4096 ∧
      get_block_size s2 0 = (4096 + BLOCK_SIZE - 1) / BLOCK_SIZE) :=
  ⟨⟨by decide, by decide⟩,
   c9_zero_length_write_grows resizeInv_sW (show (sW.inodes 0).filesize < 4096 by decide) (show (4096 : Nat) < 2 ^ 32 by decide) rfl⟩

/-! ## C10: what delete does to the inode bitmap -/

theorem alloc_data_inodeBm (s : FS) : (alloc_data s).1.inodeBm = s.inodeBm := by
  simp only [alloc_data]
  split
  · rfl
  · split <;> rfl

theorem growStepTier2Tail_inodeBm (s : FS) (ino : INode) (i o : Nat)
    (e1 e2 : Bool) :
    (growStepTier2Tail s ino i o e1 e2).1.inodeBm = s.inodeBm := by
  rcases hp : alloc_data s with ⟨s1, r⟩
  have h1 : s1.inodeBm = s.inodeBm := by
    rw [← alloc_data_inodeBm s, hp]
  rcases r with - | d
  · simp only [growStepTier2Tail, hp]
    split <;> split <;> exact h1
  · simp only [growStepTier2Tail, hp]
    exact h1

theorem growStepTier2Mid_inodeBm (s : FS) (ino : INode) (i o : Nat)
    (e : Bool) :
    (growStepTier2Mid s ino i o e).1.inodeBm = s.inodeBm := by
  rcases hp : alloc_data s with ⟨s1, r⟩
  have h1 : s1.inodeBm = s.inodeBm := by
    rw [← alloc_data_inodeBm s, hp]
  rcases r with - | d
  · simp only [growStepTier2Mid, hp]
    split <;> exact h1
  · simp only [growStepTier2Mid, hp]
    rw [growStepTier2Tail_inodeBm]
    exact h1

theorem growStep_inodeBm (s : FS) (ino : INode) (n : Nat) :
    (growStep s ino n).1.inodeBm = s.inodeBm := by
  rcases hp : alloc_data s with ⟨s1, r⟩
  have h1 : s1.inodeBm = s.inodeBm := by
    rw [← alloc_data_inodeBm s, hp]
  by_cases h0 : n < 1
  · simp only [growStep]
    rw [if_pos h0]
    rcases r with - | d <;> simp only [hp] <;> exact h1
  · by_cases hT1 : n < 1 + POINTER_PER_BLOCK
    · by_cases hoff : n - 1 = 0
      · rcases r with - | d
        · simp only [growStep]
          rw [if_neg h0, if_pos hT1, if_pos hoff]
          simp only [hp]
          exact h1
        · simp only [growStep]
          rw [if_neg h0, if_pos hT1, if_pos hoff]
          simp only [hp]
          rcases hp2 : alloc_data (commitBlock s1 d zeroBlock) with ⟨s3, r2⟩
          have h3 : s3.inodeBm = s.inodeBm := by
            rw [← h1]
            show s3.inodeBm = (commitBlock s1 d zeroBlock).inodeBm
            rw [← alloc_data_inodeBm (commitBlock s1 d zeroBlock), hp2]
          rcases r2 with - | d2 <;> simp only [hp2] <;> exact h3
      · simp only [growStep]
        rw [if_neg h0, if_pos hT1, if_neg hoff]
        rcases r with - | d <;> simp only [hp] <;> exact h1
    · by_cases hio : (n - (1 + POINTER_PER_BLOCK)) % POINTER_PER_BLOCK = 0
      · by_cases hii : (n - (1 + POINTER_PER_BLOCK)) / POINTER_PER_BLOCK = 0
        · rcases r with - | d
          · simp only [growStep]
            rw [if_neg h0, if_neg hT1, if_pos hio, if_pos hii]
            simp only [hp]
            exact h1
          · simp only [growStep]
            rw [if_neg h0, if_neg hT1, if_pos hio, if_pos hii]
            simp only [hp]
            rw [growStepTier2Mid_inodeBm]
            exact h1
        · simp only [growStep]
          rw [if_neg h0, if_neg hT1, if_pos hio, if_neg hii]
          rw [growStepTier2Mid_inodeBm]
      · simp only [growStep]
        rw [if_neg h0, if_neg hT1, if_neg hio]
        rw [growStepTier2Tail_inodeBm]

theorem shrinkStep_inodeBm (s : FS) (ino : INode) (n : Nat) :
    (shrinkStep s ino n).1.inodeBm = s.inodeBm := by
  simp only [shrinkStep]
  split
  · rfl
  split
  · split <;> rfl
  split
  · split <;> rfl
  · rfl

theorem growLoopAux_inodeBm : ∀ fuel (s : FS) (ino : INode) (now : Nat),
    (growLoopAux fuel s ino now).1.inodeBm = s.inodeBm := by
  intro fuel
  induction fuel with
  | zero => intro s ino now; rfl
  | succ fuel ih =>
    intro s ino now
    rcases hp : growStep s ino now with ⟨s1, ino1, ok⟩
    have h1 : s1.inodeBm = s.inodeBm := by
      rw [← growStep_inodeBm s ino now, hp]
    cases ok
    · simp only [growLoopAux, hp]
      exact h1
    · simp only [growLoopAux, hp]
      rw [ih]
      exact h1

theorem shrinkLoopAux_inodeBm : ∀ fuel (s : FS) (ino : INode) (now : Nat),
    (shrinkLoopAux fuel s ino now).1.inodeBm = s.inodeBm := by
  intro fuel
  induction fuel with
  | zero => intro s ino now; rfl
  | succ fuel ih =>
    intro s ino now
    rcases hp : shrinkStep s ino now with ⟨s1, ino1⟩
    have h1 : s1.inodeBm = s.inodeBm := by
      rw [← shrinkStep_inodeBm s ino now, hp]
    simp only [shrinkLoopAux, hp]
    rw [ih]
    exact h1

theorem resizeAux_inodeBm : ∀ fuel (s : FS) (no sz : Nat),
    (resizeAux fuel s no sz).1.inodeBm = s.inodeBm := by
  intro fuel
  induction fuel with
  | zero => intro s no sz; rfl
  | succ fuel ih =>
    intro s no sz
    simp only [resizeAux, growLoop, shrinkLoop]
    split
    · rcases hp : growLoopAux (ceilBlocks sz - get_block_size s no) s
          { s.inodes no with ctime := s.clock } (get_block_size s no) with
        ⟨s1, ino1, m, ok⟩
      have h1 : s1.inodeBm = s.inodeBm := by
        rw [← growLoopAux_inodeBm (ceilBlocks sz - get_block_size s no) s
          { s.inodes no with ctime := s.clock } (get_block_size s no), hp]
      cases ok
      · simp only [hp]
        rw [ih]
        exact h1
      · simp only [hp]
        exact h1
    · rcases hp : shrinkLoopAux (get_block_size s no - ceilBlocks sz) s
          { s.inodes no with ctime := s.clock } (get_block_size s no) with
        ⟨s1, ino1, m⟩
      have h1 : s1.inodeBm = s.inodeBm := by
        rw [← shrinkLoopAux_inodeBm (get_block_size s no - ceilBlocks sz) s
          { s.inodes no with ctime := s.clock } (get_block_size s no), hp]
      simp only [hp]
      exact h1

theorem resize_inodeBm (s : FS) (no sz : Nat) :
    (resize s no sz).1.inodeBm = s.inodeBm :=
  resizeAux_inodeBm 2 s no sz

theorem writeLoopAux_inodeBm (no : Nat) (t : Nat → Nat) :
    ∀ fuel (s : FS) (o z p : Nat),
    (writeLoopAux no t fuel s o z p).inodeBm = s.inodeBm := by
  intro fuel
  induction fuel with
  | zero => intro s o z p; rfl
  | succ fuel ih =>
    intro s o z p
    simp only [writeLoopAux]
    split
    · rfl
    · rw [ih]
      rfl

theorem dirGet_inodeBm (s : FS) (no i : Nat) :
    ((DirectoryProxy.get s no i).1).inodeBm = s.inodeBm := rfl

theorem dirSet_inodeBm (s : FS) (no i : Nat) (it : Item) :
    (DirectoryProxy.set s no i it).inodeBm = s.inodeBm := by
  simp only [DirectoryProxy.set, DataProxy.write, writeLoop]
  rw [writeLoopAux_inodeBm]
  rfl

theorem dirErase_inodeBm (s : FS) (no i : Nat) :
    (DirectoryProxy.erase s no i).inodeBm = s.inodeBm := by
  rcases hp : DirectoryProxy.get s no (DirectoryProxy.length s no - 1) with
    ⟨s1, last⟩
  have h1 : s1.inodeBm = s.inodeBm := by
    rw [← dirGet_inodeBm s no (DirectoryProxy.length s no - 1), hp]
  simp only [DirectoryProxy.erase, hp]
  rw [resize_inodeBm, dirSet_inodeBm]
  exact h1

theorem getFileLoopAux_inodeBm (no : Nat) (fn : List Nat) :
    ∀ fuel (s : FS) (i : Nat),
    ((getFileLoopAux no fn fuel s i).1).inodeBm = s.inodeBm := by
  intro fuel
  induction fuel with
  | zero => intro s i; rfl
  | succ fuel ih =>
    intro s i
    rcases hp : DirectoryProxy.get s no i with ⟨s1, file⟩
    have h1 : s1.inodeBm = s.inodeBm := by
      rw [← dirGet_inodeBm s no i, hp]
    simp only [getFileLoopAux, hp]
    split
    · exact h1
    · rw [ih]
      exact h1

theorem getFileInInode_inodeBm (s : FS) (no : Nat) (fn : List Nat) :
    ((get_file_in_inode s no fn).1).inodeBm = s.inodeBm :=
  getFileLoopAux_inodeBm no fn (DirectoryProxy.length s no) s 0

theorem walkPath_inodeBm : ∀ (l : List (List Nat)) (s : FS) (now : Nat),
    ((walkPath s now l).1).inodeBm = s.inodeBm := by
  intro l
  induction l with
  | nil => intro s now; rfl
  | cons f rest ih =>
    intro s now
    rcases hp : get_file_in_inode s now f with ⟨s1, r⟩
    have h1 : s1.inodeBm = s.inodeBm := by
      rw [← getFileInInode_inodeBm s now f, hp]
    rcases r with - | nxt
    · simp only [walkPath, hp]
      exact h1
    · simp only [walkPath, hp]
      rw [ih]
      exact h1

theorem getInodeFromPath_inodeBm (s : FS) (p : List Nat) :
    ((get_inode_from_path s p).1).inodeBm = s.inodeBm :=
  walkPath_inodeBm (split_path p) s 0

theorem deleteLoop_inodeBm (dn fn : Nat) (nm : List Nat) :
    ∀ fuel (s : FS) (i : Nat),
    ((deleteLoop dn fn nm fuel s i).1).inodeBm = s.inodeBm ∨
    ((deleteLoop dn fn nm fuel s i).1).inodeBm =
      fun j => if j = fn then false else s.inodeBm j := by
  intro fuel
  induction fuel with
  | zero => intro s i; exact Or.inl rfl
  | succ fuel ih =>
    intro s i
    rcases hp : DirectoryProxy.get s dn i with ⟨s1, file⟩
    have h1 : s1.inodeBm = s.inodeBm := by
      rw [← dirGet_inodeBm s dn i, hp]
    simp only [deleteLoop, hp]
    split
    · refine Or.inr ?_
      funext j
      show (if j = fn then false
        else (DirectoryProxy.erase s1 dn i).inodeBm j) = _
      rw [dirErase_inodeBm, h1]
    · rcases ih s1 (i + 1) with h | h
      · exact Or.inl (h.trans h1)
      · refine Or.inr ?_
        rw [h]
        funext j
        by_cases hj : j = fn
        · rw [if_pos hj, if_pos hj]
        · rw [if_neg hj, if_neg hj, h1]

/-- C10 (amended): `delete_node` (both `fs_unlink` and `fs_rmdir`)
changes the inode bitmap by at most clearing the single bit of the
resolved target: when the path resolves (directory `dirnode`, target
inode `filenode`), every inode-bitmap bit other than `filenode`'s — in
particular the bit of every inode named by a deleted directory's
entries — is unchanged, so child inodes are never freed and leak; the
target's own bit is at most cleared, and when resolution fails the
bitmap is untouched.  (The counterexample shows the data-bitmap half of
the original claim is wrong: the one-entry shrink of the parent can
also free parent-owned blocks.) -/
theorem c10_delete_clears_at_most_target (s : FS) (path : List Nat) :
    (∀ s1, get_inode_from_path s (splitDirFile path).1 = (s1, none) →
      ((delete_node s path).1).inodeBm = s.inodeBm) ∧
    (∀ s1 dirnode s2,
      get_inode_from_path s (splitDirFile path).1 = (s1, some dirnode) →
      get_file_in_inode s1 dirnode (splitDirFile path).2 = (s2, none) →
      ((delete_node s path).1).inodeBm = s.inodeBm) ∧
    (∀ s1 dirnode s2 filenode,
      get_inode_from_path s (splitDirFile path).1 = (s1, some dirnode) →
      get_file_in_inode s1 dirnode (splitDirFile path).2 =
        (s2, some filenode) →
      (∀ j, ¬ j = filenode →
        ((delete_node s path).1).inodeBm j = s.inodeBm j) ∧
      (((delete_node s path).1).inodeBm filenode = s.inodeBm filenode ∨
        ((delete_node s path).1).inodeBm filenode = false)) := by
  refine ⟨?_, ?_, ?_⟩
  · intro s1 hp
    have h1 : s1.inodeBm = s.inodeBm := by
      rw [← getInodeFromPath_inodeBm s (splitDirFile path).1, hp]
    simp only [delete_node, hp]
    exact h1
  · intro s1 dirnode s2 hp hp2
    have h1 : s1.inodeBm = s.inodeBm := by
      rw [← getInodeFromPath_inodeBm s (splitDirFile path).1, hp]
    have h2 : s2.inodeBm = s.inodeBm := by
      have h := getFileInInode_inodeBm s1 dirnode (splitDirFile path).2
      rw [hp2] at h
      exact h.trans h1
    simp only [delete_node, hp, hp2]
    exact h2
  · intro s1 dirnode s2 filenode hp hp2
    have h1 : s1.inodeBm = s.inodeBm := by
      rw [← getInodeFromPath_inodeBm s (splitDirFile path).1, hp]
    have h2 : s2.inodeBm = s.inodeBm := by
      have h := getFileInInode_inodeBm s1 dirnode (splitDirFile path).2
      rw [hp2] at h
      exact h.trans h1
    have h3 : ((resize s2 filenode 0).1).inodeBm = s.inodeBm := by
      rw [resize_inodeBm]
      exact h2
    have hbm : ((delete_node s path).1).inodeBm =
        ((deleteLoop dirnode filenode (splitDirFile path).2
          (DirectoryProxy.length ((resize s2 filenode 0).1) dirnode)
          ((resize s2 filenode 0).1) 0).1).inodeBm := by
      simp only [delete_node, hp, hp2]
    rcases deleteLoop_inodeBm dirnode filenode (splitDirFile path).2
        (DirectoryProxy.length ((resize s2 filenode 0).1) dirnode)
        ((resize s2 filenode 0).1) 0 with h | h
    · refine ⟨?_, Or.inl ?_⟩
      · intro j hj
        rw [hbm, h, h3]
      · rw [hbm, h, h3]
    · refine ⟨?_, Or.inr ?_⟩
      · intro j hj
        rw [hbm, h]
        show (if j = filenode then false
          else ((resize s2 filenode 0).1).inodeBm j) = s.inodeBm j
        rw [if_neg hj, h3]
      · rw [hbm, h]
        show (if filenode = filenode then false
          else ((resize s2 filenode 0).1).inodeBm filenode) = false
        rw [if_pos rfl]

/-- C10 counterexample: deleting `"/A"` on the 129-entry test directory
succeeds, and the target (inode 1) owns no data blocks at all — yet the
data-bitmap bits of blocks 5 and 6 (owned by the *parent* directory)
are cleared by the delete, because removing one entry shrinks the
directory from 4128 to 4096 bytes, across a block boundary.  The
cleared data bits are therefore not exactly the target-owned ones, and
the parent is not merely rewritten but loses blocks. -/
theorem c10_delete_frees_parent_blocks_counterexample :
    (delete_node sD [47, 65]).2 = 0 ∧
    (sD.inodes 1).filesize = 0 ∧
    (sD.inodes 1).direct_pointer = 0 ∧
    (sD.inodes 1).indirect_pointer = 0 ∧
    (sD.inodes 1).iindirect_pointer = 0 ∧
    (sD.inodes 0).indirect_pointer = 5 ∧
    sD.dataBm 1 = true ∧ sD.dataBm 2 = true ∧
    ((delete_node sD [47, 65]).1).dataBm 1 = false ∧
    ((delete_node sD [47, 65]).1).dataBm 2 = false ∧
    sD.inodeBm 1 = true ∧
    ((delete_node sD [47, 65]).1).inodeBm 1 = false ∧
    ((delete_node sD [47, 65]).1).inodeBm 0 = true :=
  ⟨by rfl, by rfl, by rfl, by rfl, by rfl, by rfl, by rfl, by rfl,
   by rfl, by rfl, by rfl, by rfl, by rfl⟩

/-- Witness: deleting `"/A"` on the 129-entry directory resolves to
directory inode `0` and target inode `1`; every other inode-bitmap bit
survives the delete, and bit `1` is at most cleared. -/
theorem c10_delete_clears_at_most_target_witness :
    (∀ j, ¬ j = 1 →
      ((delete_node sD [47, 65]).1).inodeBm j = sD.inodeBm j) ∧
    (((delete_node sD [47, 65]).1).inodeBm 1 = sD.inodeBm 1 ∨
      ((delete_node sD [47, 65]).1).inodeBm 1 = false) :=
  (c10_delete_clears_at_most_target sD [47, 65]).2.2
    ((get_inode_from_path sD (splitDirFile [47, 65]).1).1) 0
    ((get_file_in_inode
        ((get_inode_from_path sD (splitDirFile [47, 65]).1).1) 0
        (splitDirFile [47, 65]).2).1) 1 rfl rfl


end Fslab
